import Mathlib

/-!
# Material Vault: asset index, folder tree and metadata cache

A shallow embedding of `UMaterialVaultManager` (MaterialVaultManager.cpp) and of the
types of MaterialVaultTypes.h, followed by theorems about them.

Engine strings (`FString`) are lists of characters.  The engine's string operations are
embedded with the comparison mode the engine gives them when the call site names none:
`StartsWith`, `Contains`, `operator==`, `operator<` and the key comparison of
`TMap<FString, _>` ignore case (ASCII case folding); `Equals` is called by the source with
`ESearchCase::IgnoreCase` spelled out.

Shared pointers are indices into append-only arenas (`Items`, `Folders`) of the manager, so
that an item reachable both from the asset index and from a folder node is one object.
-/

namespace MaterialVault

/-! ## Engine strings -/

/-- An engine string. -/
abbrev FString := List Char

/-- The engine's `FChar::ToLower`: folds the letters A to Z, leaves every other character. -/
def ToLowerChar (c : Char) : Char :=
  if 65 ≤ c.toNat ∧ c.toNat ≤ 90 then Char.ofNat (c.toNat + 32) else c

/-- The engine's `FString::ToLower`. -/
def ToLower (s : FString) : FString := s.map ToLowerChar

/-- The engine's `FString::operator==` and `Equals(_, ESearchCase::IgnoreCase)`. -/
def EqualsIgnoreCase (a b : FString) : Bool := ToLower a == ToLower b

/-- The engine's `FString::StartsWith` with its default `ESearchCase::IgnoreCase`;
an empty pattern never matches. -/
def StartsWith (s pat : FString) : Bool :=
  !pat.isEmpty && (ToLower pat).isPrefixOf (ToLower s)

/-- Whether `pat` occurs in `s` at some position, both taken as they are. -/
def OccursIn (pat : FString) : FString → Bool
  | [] => pat.isPrefixOf []
  | c :: rest => pat.isPrefixOf (c :: rest) || OccursIn pat rest

/-- The engine's `FString::Contains` with its default `ESearchCase::IgnoreCase`;
an empty pattern is never found. -/
def Contains (s pat : FString) : Bool :=
  !pat.isEmpty && OccursIn (ToLower pat) (ToLower s)

/-- Worker of `ParseIntoArray`: `cur` holds the characters of the piece being read, newest first. -/
def ParseIntoArrayAux (delim : Char) : FString → FString → List FString
  | [], cur => if cur.isEmpty then [] else [cur.reverse]
  | c :: rest, cur =>
    if c = delim then
      (if cur.isEmpty then ParseIntoArrayAux delim rest []
       else cur.reverse :: ParseIntoArrayAux delim rest [])
    else ParseIntoArrayAux delim rest (c :: cur)

/-- The engine's `FString::ParseIntoArray(Out, Delim, true)` for a one-character delimiter:
the pieces between delimiters, empty pieces culled. -/
def ParseIntoArray (s : FString) (delim : Char) : List FString :=
  ParseIntoArrayAux delim s []

/-- Path separators of `FPaths`: slash and backslash. -/
def IsSlashOrBackslash (c : Char) : Bool := c == '/' || c == Char.ofNat 92

/-- Index of the last character of `s` that satisfies `p`, if any
(`FString::FindLastCharByPredicate`; `none` stands for `INDEX_NONE`). -/
def FindLastCharByPredicate (p : Char → Bool) : FString → Option Nat
  | [] => none
  | c :: rest =>
    match FindLastCharByPredicate p rest with
    | some i => some (i + 1)
    | none => if p c then some 0 else none

/-- The engine's `FPaths::GetPath`: everything before the last separator, or the empty
string when there is none. -/
def GetPath (InPath : FString) : FString :=
  match FindLastCharByPredicate IsSlashOrBackslash InPath with
  | some Pos => InPath.take Pos
  | none => []

/-- The engine's `FPaths::GetCleanFilename`: the text between the last separator and the
last non-separator character. -/
def GetCleanFilename (InPath : FString) : FString :=
  let EndPos := match FindLastCharByPredicate (fun c => !IsSlashOrBackslash c) InPath with
    | some i => i + 1
    | none => 0
  let StartPos := match FindLastCharByPredicate IsSlashOrBackslash InPath with
    | some i => i + 1
    | none => 0
  if StartPos ≤ EndPos then (InPath.drop StartPos).take (EndPos - StartPos) else []

/-! ## Folder classification -/

/-- The first components that `OrganizePackagePath` never takes for a plugin name. -/
def IsReservedComponent (FirstComponent : FString) : Bool :=
  EqualsIgnoreCase FirstComponent "Engine".toList ||
  EqualsIgnoreCase FirstComponent "Game".toList ||
  EqualsIgnoreCase FirstComponent "Script".toList ||
  EqualsIgnoreCase FirstComponent "Temp".toList ||
  EqualsIgnoreCase FirstComponent "Memory".toList

/-- The engine-pattern test of `OrganizePackagePath` (its last `if`). -/
def IsEnginePattern (PackagePath : FString) : Bool :=
  StartsWith PackagePath "/Script".toList ||
  StartsWith PackagePath "/Temp".toList ||
  StartsWith PackagePath "/Memory".toList ||
  Contains PackagePath "Engine".toList

/-- `UMaterialVaultManager::OrganizePackagePath`. -/
def OrganizePackagePath (PackagePath : FString) : FString :=
  if StartsWith PackagePath "/Game".toList then
    PackagePath
  else if StartsWith PackagePath "/Engine".toList then
    PackagePath
  else
    let PathComponents := ParseIntoArray PackagePath '/'
    let bLooksLikePlugin :=
      match PathComponents with
      | FirstComponent :: _ => !IsReservedComponent FirstComponent
      | [] => false
    if bLooksLikePlugin then
      "/Plugins".toList ++ PackagePath
    else if IsEnginePattern PackagePath then
      "/Engine".toList ++ PackagePath
    else
      "/Game".toList ++ PackagePath

/-! ## Engine containers and values -/

/-- The engine's `TMap<FString, V>`: pairs in iteration order.  Keys are matched with
`FString::operator==`, which ignores case.  The order in which the engine iterates after
removals is not modelled; no theorem below depends on it. -/
abbrev TMap (V : Type) := List (FString × V)

/-- `TMap::Find` / `FindRef` / `operator[]`: the value of the first pair whose key matches. -/
def TMap.Find {V : Type} : TMap V → FString → Option V
  | [], _ => none
  | (k, v) :: rest, Key => if EqualsIgnoreCase k Key then some v else TMap.Find rest Key

/-- `TMap::Contains`. -/
def TMap.Contains {V : Type} (m : TMap V) (Key : FString) : Bool := (TMap.Find m Key).isSome

/-- Overwrites, in place, the first pair whose key matches (key and value both). -/
def TMap.Replace {V : Type} : TMap V → FString → V → TMap V
  | [], _, _ => []
  | (k, v) :: rest, Key, Value =>
    if EqualsIgnoreCase k Key then (Key, Value) :: rest
    else (k, v) :: TMap.Replace rest Key Value

/-- `TMap::Add`: replaces the pair stored under a matching key, or adds a new pair. -/
def TMap.Add {V : Type} (m : TMap V) (Key : FString) (Value : V) : TMap V :=
  if TMap.Contains m Key then TMap.Replace m Key Value else m ++ [(Key, Value)]

/-- `TMap::Remove`: drops every pair whose key matches. -/
def TMap.Remove {V : Type} (m : TMap V) (Key : FString) : TMap V :=
  m.filter (fun kv => !EqualsIgnoreCase kv.1 Key)

/-- No two pairs of the map have matching keys (what the engine's map maintains). -/
def TMap.UniqueKeys {V : Type} (m : TMap V) : Prop :=
  m.Pairwise (fun a b => EqualsIgnoreCase a.1 b.1 = false)

/-- The engine's `FDateTime`: a count of 100-nanosecond ticks. -/
structure FDateTime where
  Ticks : Int
deriving DecidableEq, Repr

/-- `FDateTime::IsLeapYear`. -/
def FDateTime.IsLeapYear (Year : Nat) : Bool :=
  if Year % 4 == 0 then (Year % 100 != 0) || (Year % 400 == 0) else false

/-- `FDateTime::DaysInMonth`. -/
def FDateTime.DaysInMonth (Year Month : Nat) : Nat :=
  if Month == 2 && FDateTime.IsLeapYear Year then 29
  else [0, 31, 28, 31, 30, 31, 30, 31, 31, 30, 31, 30, 31].getD Month 0

/-- `FDateTime::Validate`. -/
def FDateTime.Validate (Year Month Day Hour Minute Second Millisecond : Nat) : Bool :=
  decide (1 ≤ Year ∧ Year ≤ 9999) && decide (1 ≤ Month ∧ Month ≤ 12) &&
  decide (1 ≤ Day ∧ Day ≤ FDateTime.DaysInMonth Year Month) &&
  decide (Hour ≤ 23) && decide (Minute ≤ 59) && decide (Second ≤ 59) &&
  decide (Millisecond ≤ 999)

/-- The constructor `FDateTime(Year, Month, Day, Hour, Minute, Second, Millisecond)`,
for arguments that pass `Validate`. -/
def FDateTime.FromParts (Year Month Day Hour Minute Second Millisecond : Nat) : FDateTime :=
  let Leap : Nat := if decide (2 < Month) && FDateTime.IsLeapYear Year then 1 else 0
  let Y := Year - 1
  let M := Month - 1
  let TotalDays : Nat := Leap + Y * 365 + Y / 4 - Y / 100 + Y / 400 +
    [0, 31, 59, 90, 120, 151, 181, 212, 243, 273, 304, 334, 365].getD M 0 + (Day - 1)
  { Ticks := (TotalDays : Int) * 864000000000 + (Hour : Int) * 36000000000 +
      (Minute : Int) * 600000000 + (Second : Int) * 10000000 + (Millisecond : Int) * 10000 }

/-- Value of a run of leading decimal digits, after `Acc`. -/
def AtoiDigits : FString → Nat → Nat
  | [], Acc => Acc
  | c :: rest, Acc =>
    if 48 ≤ c.toNat ∧ c.toNat ≤ 57 then AtoiDigits rest (Acc * 10 + (c.toNat - 48)) else Acc

/-- The engine's `FCString::Atoi` on a token without sign or leading blanks (the tokens
`FDateTime::Parse` hands it hold neither blanks nor a minus sign): the leading digits,
zero when there are none.  Overflow of the 32-bit result is not modelled. -/
def Atoi (s : FString) : Nat :=
  match s with
  | '+' :: rest => AtoiDigits rest 0
  | _ => AtoiDigits s 0

/-- `FDateTime::Parse`: dots, dashes and colons become blanks, the string is split on
blanks, and six or seven numeric tokens that pass `Validate` make a date. -/
def FDateTime.Parse (DateTimeString : FString) : Option FDateTime :=
  let FixedString := DateTimeString.map
    (fun c => if c == '.' || c == '-' || c == ':' then ' ' else c)
  let Tokens := ParseIntoArray FixedString ' '
  if Tokens.length < 6 ∨ 7 < Tokens.length then none
  else
    let Year := Atoi (Tokens.getD 0 [])
    let Month := Atoi (Tokens.getD 1 [])
    let Day := Atoi (Tokens.getD 2 [])
    let Hour := Atoi (Tokens.getD 3 [])
    let Minute := Atoi (Tokens.getD 4 [])
    let Second := Atoi (Tokens.getD 5 [])
    let Millisecond := if 6 < Tokens.length then Atoi (Tokens.getD 6 []) else 0
    if FDateTime.Validate Year Month Day Hour Minute Second Millisecond then
      some (FDateTime.FromParts Year Month Day Hour Minute Second Millisecond)
    else none

/-- A JSON value that is not a container, or a container met where a string is asked for. -/
inductive FJsonScalar where
  | Null
  | String (Value : FString)
  | Number (Rendered : FString)
  | Boolean (Value : Bool)
  | Container
deriving DecidableEq, Repr

/-- `FJsonValue::AsString`: strings as they are, numbers and booleans rendered, everything
else the empty string. -/
def FJsonScalar.AsString : FJsonScalar → FString
  | .String Value => Value
  | .Number Rendered => Rendered
  | .Boolean true => "true".toList
  | .Boolean false => "false".toList
  | _ => []

/-- A field value of a sidecar record: a scalar or an array. -/
inductive FJsonValue where
  | Scalar (Value : FJsonScalar)
  | Array (Values : List FJsonScalar)
deriving DecidableEq, Repr

/-- The engine's `FJsonObject`: its `Values` map. -/
abbrev FJsonObject := TMap FJsonValue

/-- `FJsonObject::GetStringField`: the field as a string, the empty string when the field is
missing or is no scalar. -/
def GetStringField (JsonObject : FJsonObject) (FieldName : FString) : FString :=
  match TMap.Find JsonObject FieldName with
  | some (.Scalar Value) => Value.AsString
  | _ => []

/-- `FJsonObject::TryGetArrayField`. -/
def TryGetArrayField (JsonObject : FJsonObject) (FieldName : FString) : Option (List FJsonScalar) :=
  match TMap.Find JsonObject FieldName with
  | some (.Array Values) => some Values
  | _ => none

/-- The files of the metadata directory: path and what the text of the file deserializes to
(`none` when `FJsonSerializer::Deserialize` fails on it or yields no object). -/
abbrev FFileSystem := List (FString × Option FJsonObject)

/-- `FFileHelper::LoadFileToString` followed by `FJsonSerializer::Deserialize`: the outer
`none` is a file that cannot be read. -/
def LoadFileToString (Files : FFileSystem) (Path : FString) : Option (Option FJsonObject) :=
  (Files.find? (fun f => f.1 == Path)).map (fun f => f.2)

/-- The engine's `FString::operator<`: `Stricmp` order, the case-folded strings compared
character code by character code. -/
def FStringLess : FString → FString → Bool
  | [], [] => false
  | [], _ :: _ => true
  | _ :: _, [] => false
  | a :: as, b :: bs =>
    if (ToLowerChar a).toNat < (ToLowerChar b).toNat then true
    else if (ToLowerChar b).toNat < (ToLowerChar a).toNat then false
    else FStringLess as bs

/-- The engine's `FString::RemoveFromStart` with its default `ESearchCase::IgnoreCase`. -/
def RemoveFromStart (s pat : FString) : FString :=
  if StartsWith s pat then s.drop pat.length else s

/-- The engine's path append (`FPaths::Combine` of two parts): a slash goes between the parts
unless the left one is empty or already ends in a separator. -/
def PathCombine (a b : FString) : FString :=
  match a.getLast? with
  | none => b
  | some c => if IsSlashOrBackslash c then a ++ b else a ++ '/' :: b

/-! ## Types of MaterialVaultTypes.h -/

/-- The engine's `FAssetData`, the fields the plugin reads. `PackagePath` holds the text of
the name, empty for the name `NAME_None`; the code reads it through `FNameToString`. -/
structure FAssetData where
  PackageName : FString
  PackagePath : FString
  AssetName : FString
  AssetClassPath : FString
deriving DecidableEq, Repr, Inhabited

/-- `FName::ToString`: the text of the name; the empty name `NAME_None` prints as "None",
so the result is never empty. -/
def FNameToString (Name : FString) : FString :=
  if Name.isEmpty then "None".toList else Name

/-- `FAssetData::GetObjectPathString`: package name, a dot, asset name. -/
def FAssetData.GetObjectPathString (AssetData : FAssetData) : FString :=
  AssetData.PackageName ++ '.' :: AssetData.AssetName

/-- `FAssetData::ToSoftObjectPath`, kept as the object path it wraps. -/
def FAssetData.ToSoftObjectPath (AssetData : FAssetData) : FString :=
  AssetData.GetObjectPathString

/-- Class path name of `UMaterial`. -/
def UMaterial_ClassPathName : FString := "/Script/Engine.Material".toList

/-- Class path name of `UMaterialInstance`. -/
def UMaterialInstance_ClassPathName : FString := "/Script/Engine.MaterialInstance".toList

/-- Class path name of `UMaterialInstanceConstant`. -/
def UMaterialInstanceConstant_ClassPathName : FString :=
  "/Script/Engine.MaterialInstanceConstant".toList

/-- `FMaterialVaultMetadata`. -/
structure FMaterialVaultMetadata where
  MaterialName : FString
  Location : FString
  Author : FString
  LastModified : FDateTime
  Notes : FString
  Tags : List FString
  Category : FString
deriving DecidableEq, Repr

/-- Default constructor of `FMaterialVaultMetadata`; `Now` is what `FDateTime::Now()` reads. -/
def FMaterialVaultMetadata.Default (Now : FDateTime) : FMaterialVaultMetadata :=
  { MaterialName := [], Location := [], Author := [], LastModified := Now, Notes := [],
    Tags := [], Category := [] }

instance : Inhabited FMaterialVaultMetadata := ⟨FMaterialVaultMetadata.Default ⟨0⟩⟩

/-- `FMaterialVaultMaterialItem`.  `MaterialPtr` is the soft object path, `ThumbnailBrush`
a brush handle when one is set. -/
structure FMaterialVaultMaterialItem where
  AssetData : FAssetData
  MaterialPtr : FString
  ThumbnailBrush : Option Nat
  Metadata : FMaterialVaultMetadata
  TextureDependencies : List FString
  DisplayName : FString
  bThumbnailLoaded : Bool
deriving DecidableEq, Repr, Inhabited

/-- Constructor `FMaterialVaultMaterialItem(const FAssetData&)`. -/
def FMaterialVaultMaterialItem.FromAssetData (InAssetData : FAssetData) (Now : FDateTime) :
    FMaterialVaultMaterialItem :=
  let DisplayName := InAssetData.AssetName
  { AssetData := InAssetData
    MaterialPtr := InAssetData.ToSoftObjectPath
    ThumbnailBrush := none
    Metadata := { FMaterialVaultMetadata.Default Now with
      MaterialName := DisplayName, Location := InAssetData.PackageName }
    TextureDependencies := []
    DisplayName := DisplayName
    bThumbnailLoaded := false }

/-- `FMaterialVaultFolderNode`.  `Parent`, `Children` and `Materials` hold arena indices. -/
structure FMaterialVaultFolderNode where
  FolderName : FString
  FolderPath : FString
  Parent : Option Nat
  Children : List Nat
  Materials : List Nat
  bIsExpanded : Bool
deriving DecidableEq, Repr, Inhabited

/-- Constructor `FMaterialVaultFolderNode(InFolderName, InFolderPath)`. -/
def FMaterialVaultFolderNode.Make (InFolderName InFolderPath : FString) : FMaterialVaultFolderNode :=
  { FolderName := InFolderName, FolderPath := InFolderPath, Parent := none, Children := [],
    Materials := [], bIsExpanded := false }

/-- `EMaterialVaultViewMode`. -/
inductive EMaterialVaultViewMode where
  | Grid
  | List
deriving DecidableEq, Repr

/-- `EMaterialVaultSortMode`. -/
inductive EMaterialVaultSortMode where
  | Name
  | DateModified
  | Size
  | Type
deriving DecidableEq, Repr

/-- `FMaterialVaultSettings`; the two float fields are kept as whole numbers. -/
structure FMaterialVaultSettings where
  ViewMode : EMaterialVaultViewMode
  SortMode : EMaterialVaultSortMode
  ThumbnailSize : Nat
  bShowMetadata : Bool
  bShowFolderTree : Bool
  RootFolder : FString
  bAutoRefresh : Bool
  RefreshInterval : Nat
deriving DecidableEq, Repr

/-- The member initialisers of `FMaterialVaultSettings`. -/
def FMaterialVaultSettings.Default : FMaterialVaultSettings :=
  { ViewMode := .Grid, SortMode := .Name, ThumbnailSize := 128, bShowMetadata := true,
    bShowFolderTree := true, RootFolder := "/Game".toList, bAutoRefresh := true,
    RefreshInterval := 5 }

/-! ## The manager -/

/-- `UMaterialVaultManager` together with what it reads from outside.

* `Items`, `Folders`: the arenas the shared pointers point into; an index below the length
  is a valid pointer, allocation appends.
* `AssetRegistryModule`: whether the pointer is set; `bDelegatesBound`: whether the four
  callbacks are registered; `ThumbnailManager`: whether the pointer is valid.
* `Registry`: the assets the asset registry enumerates; `Files`: the metadata directory;
  `ProjectDir`: `FPaths::ProjectDir()`. -/
structure UMaterialVaultManager where
  RootFolderNode : Option Nat
  FolderMap : TMap Nat
  MaterialMap : TMap Nat
  Settings : FMaterialVaultSettings
  AssetRegistryModule : Bool
  bDelegatesBound : Bool
  ThumbnailManager : Bool
  MetadataCache : TMap FMaterialVaultMetadata
  bIsInitialized : Bool
  Items : List FMaterialVaultMaterialItem
  Folders : List FMaterialVaultFolderNode
  Registry : List FAssetData
  Files : FFileSystem
  ProjectDir : FString
deriving DecidableEq, Repr

/-- Constructor `UMaterialVaultManager()`, in a world with the given registry and files. -/
def UMaterialVaultManager.Construct (Registry : List FAssetData) (Files : FFileSystem)
    (ProjectDir : FString) : UMaterialVaultManager :=
  { RootFolderNode := none, FolderMap := [], MaterialMap := [],
    Settings := FMaterialVaultSettings.Default, AssetRegistryModule := false,
    bDelegatesBound := false, ThumbnailManager := false, MetadataCache := [],
    bIsInitialized := false, Items := [], Folders := [], Registry := Registry, Files := Files,
    ProjectDir := ProjectDir }

/-- Applies `f` to the object at index `i` of an arena; does nothing when `i` is no valid
pointer. -/
def ModifyAt {α : Type} (Arena : List α) (i : Nat) (f : α → α) : List α :=
  match Arena[i]? with
  | some x => Arena.set i (f x)
  | none => Arena

/-- `UMaterialVaultManager::GetMetadataFilePath`. -/
def GetMetadataFilePath (s : UMaterialVaultManager) (AssetData : FAssetData) : FString :=
  let MetadataDir := PathCombine (PathCombine (PathCombine s.ProjectDir "Saved".toList)
    "MaterialVault".toList) "Metadata".toList
  let AssetPath := RemoveFromStart AssetData.PackageName "/Game/".toList
  let AssetPath := AssetPath.map (fun c => if c == '/' then '_' else c)
  let MetadataFileName := AssetPath ++ "_".toList ++ AssetData.AssetName ++ ".json".toList
  PathCombine MetadataDir MetadataFileName

/-- The fields `LoadMaterialMetadata` reads from a parsed sidecar record, on top of the
record the item holds. -/
def ReadMetadataFields (JsonObject : FJsonObject) (Metadata : FMaterialVaultMetadata) :
    FMaterialVaultMetadata :=
  let DateString := GetStringField JsonObject "LastModified".toList
  { MaterialName := GetStringField JsonObject "MaterialName".toList
    Location := GetStringField JsonObject "Location".toList
    Author := GetStringField JsonObject "Author".toList
    Notes := GetStringField JsonObject "Notes".toList
    Category := GetStringField JsonObject "Category".toList
    LastModified := match FDateTime.Parse DateString with
      | some Parsed => Parsed
      | none => Metadata.LastModified
    Tags := match TryGetArrayField JsonObject "Tags".toList with
      | some TagsArray => TagsArray.map FJsonScalar.AsString
      | none => Metadata.Tags }

/-- `UMaterialVaultManager::LoadMaterialMetadata`; `MaterialItem` is the item pointer. -/
def LoadMaterialMetadata (s : UMaterialVaultManager) (MaterialItem : Nat) :
    UMaterialVaultManager :=
  match s.Items[MaterialItem]? with
  | none => s
  | some Item =>
    let ObjectPath := Item.AssetData.GetObjectPathString
    match TMap.Find s.MetadataCache ObjectPath with
    | some Cached =>
      { s with Items := ModifyAt s.Items MaterialItem (fun it => { it with Metadata := Cached }) }
    | none =>
      let MetadataPath := GetMetadataFilePath s Item.AssetData
      match LoadFileToString s.Files MetadataPath with
      | some (some JsonObject) =>
        let Loaded := ReadMetadataFields JsonObject Item.Metadata
        { s with
          Items := ModifyAt s.Items MaterialItem (fun it => { it with Metadata := Loaded })
          MetadataCache := TMap.Add s.MetadataCache ObjectPath Loaded }
      | _ => s

/-- `UMaterialVaultManager::ProcessMaterialAsset`; `Now` is the clock reading used when a
new item is constructed. -/
def ProcessMaterialAsset (s : UMaterialVaultManager) (AssetData : FAssetData) (Now : FDateTime) :
    UMaterialVaultManager :=
  let ObjectPath := AssetData.GetObjectPathString
  match TMap.Find s.MaterialMap ObjectPath with
  | none =>
    let MaterialItem := s.Items.length
    let s1 := { s with
      Items := s.Items ++ [FMaterialVaultMaterialItem.FromAssetData AssetData Now]
      MaterialMap := TMap.Add s.MaterialMap ObjectPath MaterialItem }
    LoadMaterialMetadata s1 MaterialItem
  | some MaterialItem =>
    let s1 := { s with
      Items := ModifyAt s.Items MaterialItem (fun it => { it with
        AssetData := AssetData
        MaterialPtr := AssetData.ToSoftObjectPath
        DisplayName := AssetData.AssetName }) }
    LoadMaterialMetadata s1 MaterialItem

/-- `UMaterialVaultManager::RemoveMaterialAsset`. -/
def RemoveMaterialAsset (s : UMaterialVaultManager) (AssetData : FAssetData) :
    UMaterialVaultManager :=
  let ObjectPath := AssetData.GetObjectPathString
  { s with
    MaterialMap := TMap.Remove s.MaterialMap ObjectPath
    MetadataCache := TMap.Remove s.MetadataCache ObjectPath }

/-- `UMaterialVaultManager::GetMaterialByPath`: the item pointer, `none` for null. -/
def GetMaterialByPath (s : UMaterialVaultManager) (AssetPath : FString) : Option Nat :=
  TMap.Find s.MaterialMap AssetPath

/-- `UMaterialVaultManager::FindFolder`: the node pointer, `none` for null. -/
def FindFolder (s : UMaterialVaultManager) (FolderPath : FString) : Option Nat :=
  TMap.Find s.FolderMap FolderPath

/-- `UMaterialVaultManager::CreateFolderNode`: the node to allocate, `none` for null. -/
def CreateFolderNode (FolderPath : FString) : Option FMaterialVaultFolderNode :=
  if FolderPath.isEmpty then none
  else
    let FolderName := GetCleanFilename FolderPath
    let FolderName := if FolderName.isEmpty then "Root".toList else FolderName
    some (FMaterialVaultFolderNode.Make FolderName FolderPath)

/-- The two assignments `Child->Parent = Parent; Parent->Children.Add(Child)`. -/
def AttachChild (s : UMaterialVaultManager) (Child Parent : Nat) : UMaterialVaultManager :=
  let Folders := ModifyAt s.Folders Child (fun n => { n with Parent := some Parent })
  { s with Folders := ModifyAt Folders Parent (fun n => { n with Children := n.Children ++ [Child] }) }

/-- `UMaterialVaultManager::GetOrCreateFolderNode` with a bound on the depth of the
recursion; the result is the state and the node pointer (`none` for null, also when the
bound is used up). -/
def GetOrCreateFolderNodeFuel : Nat → UMaterialVaultManager → FString →
    UMaterialVaultManager × Option Nat
  | 0, s, _ => (s, none)
  | Fuel + 1, s, FolderPath =>
    match TMap.Find s.FolderMap FolderPath with
    | some Existing => (s, some Existing)
    | none =>
      match CreateFolderNode FolderPath with
      | none => (s, none)
      | some Node =>
        let NewFolder := s.Folders.length
        let s1 := { s with
          Folders := s.Folders ++ [Node]
          FolderMap := TMap.Add s.FolderMap FolderPath NewFolder }
        let ParentPath := GetPath FolderPath
        if !ParentPath.isEmpty && !EqualsIgnoreCase ParentPath FolderPath then
          match GetOrCreateFolderNodeFuel Fuel s1 ParentPath with
          | (s2, some ParentFolder) => (AttachChild s2 NewFolder ParentFolder, some NewFolder)
          | (s2, none) => (s2, some NewFolder)
        else
          match s1.RootFolderNode with
          | some Root => (AttachChild s1 NewFolder Root, some NewFolder)
          | none => (s1, some NewFolder)

/-- `UMaterialVaultManager::GetOrCreateFolderNode`: every recursive call is on a strictly
shorter path, so the length of the path bounds the depth. -/
def GetOrCreateFolderNode (s : UMaterialVaultManager) (FolderPath : FString) :
    UMaterialVaultManager × Option Nat :=
  GetOrCreateFolderNodeFuel (FolderPath.length + 1) s FolderPath

/-- One round of the loop of `BuildFolderStructure` over `MaterialMap`. -/
def AttachMaterial (s : UMaterialVaultManager) (MaterialItem : Nat) : UMaterialVaultManager :=
  match s.Items[MaterialItem]? with
  | none => s
  | some Item =>
    let PackagePath := FNameToString Item.AssetData.PackagePath
    let OrganizedPath := OrganizePackagePath PackagePath
    match GetOrCreateFolderNode s OrganizedPath with
    | (s1, some FolderNode) =>
      { s1 with
        Folders := ModifyAt s1.Folders FolderNode
          (fun n => { n with Materials := n.Materials ++ [MaterialItem] }) }
    | (s1, none) => s1

/-- Allocates one of the three branch nodes of `BuildFolderStructure`, named and parented. -/
def MakeBranchFolder (FolderPath FolderName : FString) (Root : Nat) : FMaterialVaultFolderNode :=
  { FMaterialVaultFolderNode.Make (GetCleanFilename FolderPath) FolderPath with
    FolderName := FolderName, Parent := some Root }

/-- The part of `BuildFolderStructure` before its loop: the root loses its children, the
folder map is emptied and gets the root back under `Settings.RootFolder`, and the three
branch nodes are allocated, hung under the root and mapped. -/
def ResetFolderTree (s : UMaterialVaultManager) (Root : Nat) : UMaterialVaultManager :=
  let Folders := ModifyAt s.Folders Root (fun n => { n with Children := [] })
  let FolderMap : TMap Nat := TMap.Add [] s.Settings.RootFolder Root
  let ContentFolder := Folders.length
  let EngineFolder := Folders.length + 1
  let PluginFolder := Folders.length + 2
  let Folders := Folders ++
    [MakeBranchFolder "/Game".toList "Content".toList Root,
     MakeBranchFolder "/Engine".toList "Engine".toList Root,
     MakeBranchFolder "/Plugins".toList "Plugins".toList Root]
  let Folders := ModifyAt Folders Root
    (fun n => { n with Children := n.Children ++ [ContentFolder, EngineFolder, PluginFolder] })
  let FolderMap := TMap.Add FolderMap "/Game".toList ContentFolder
  let FolderMap := TMap.Add FolderMap "/Engine".toList EngineFolder
  let FolderMap := TMap.Add FolderMap "/Plugins".toList PluginFolder
  { s with Folders := Folders, FolderMap := FolderMap }

/-- `UMaterialVaultManager::BuildFolderStructure`. -/
def BuildFolderStructure (s : UMaterialVaultManager) : UMaterialVaultManager :=
  match s.RootFolderNode with
  | none => s
  | some Root =>
    s.MaterialMap.foldl (fun acc MaterialPair => AttachMaterial acc MaterialPair.2)
      (ResetFolderTree s Root)

/-- The item an item pointer points to (the default item for a pointer that is not valid). -/
def ItemAt (s : UMaterialVaultManager) (MaterialItem : Nat) : FMaterialVaultMaterialItem :=
  s.Items.getD MaterialItem default

/-- The predicate `SortMaterials` hands to `TArray::Sort` in each mode (`none` where the
switch does not sort). -/
def SortPredicate (s : UMaterialVaultManager) : Option (Nat → Nat → Bool) :=
  match s.Settings.SortMode with
  | .Name => some (fun A B => FStringLess (ItemAt s A).DisplayName (ItemAt s B).DisplayName)
  | .DateModified => some (fun A B =>
      decide ((ItemAt s A).Metadata.LastModified.Ticks > (ItemAt s B).Metadata.LastModified.Ticks))
  | .Type => some (fun A B =>
      FStringLess (ItemAt s A).AssetData.AssetClassPath (ItemAt s B).AssetData.AssetClassPath)
  | .Size => none

/-- The engine's `TArray::Sort(Predicate)`, embedded as insertion sort: an element goes in front
of the first element that the predicate does not put before it.  The engine's sort is not
stable; the theorems use only that the result is a permutation ordered by the predicate. -/
def TArraySort (Predicate : Nat → Nat → Bool) (Materials : List Nat) : List Nat :=
  Materials.insertionSort (fun A B => Predicate B A = false)

/-- `UMaterialVaultManager::SortMaterials`. -/
def SortMaterials (s : UMaterialVaultManager) (Materials : List Nat) : List Nat :=
  match SortPredicate s with
  | some Predicate => TArraySort Predicate Materials
  | none => Materials

/-- The test in the loop of `SearchMaterials`. -/
def MatchesSearch (LowerSearchTerm : FString) (Item : FMaterialVaultMaterialItem) : Bool :=
  let MaterialName := ToLower Item.DisplayName
  let MaterialPath := ToLower (FNameToString Item.AssetData.PackagePath)
  Contains MaterialName LowerSearchTerm || Contains MaterialPath LowerSearchTerm

/-- `UMaterialVaultManager::SearchMaterials`. -/
def SearchMaterials (s : UMaterialVaultManager) (SearchTerm : FString) : List Nat :=
  if SearchTerm.isEmpty then []
  else
    let LowerSearchTerm := ToLower SearchTerm
    let Results := s.MaterialMap.filterMap (fun MaterialPair =>
      match s.Items[MaterialPair.2]? with
      | some Item => if MatchesSearch LowerSearchTerm Item then some MaterialPair.2 else none
      | none => none)
    SortMaterials s Results

/-- `IAssetRegistry::GetAssetsByClass`: appends to `OutAssetData` the assets whose class is
exactly the given one. -/
def GetAssetsByClass (Registry : List FAssetData) (ClassPathName : FString)
    (OutAssetData : List FAssetData) : List FAssetData :=
  OutAssetData ++ Registry.filter (fun a => EqualsIgnoreCase a.AssetClassPath ClassPathName)

/-- The class test of `OnAssetAdded` and `OnAssetUpdated`. -/
def IsTrackedClass (AssetData : FAssetData) : Bool :=
  EqualsIgnoreCase AssetData.AssetClassPath UMaterial_ClassPathName ||
  EqualsIgnoreCase AssetData.AssetClassPath UMaterialInstance_ClassPathName ||
  EqualsIgnoreCase AssetData.AssetClassPath UMaterialInstanceConstant_ClassPathName

/-- `UMaterialVaultManager::RefreshMaterialDatabase`. -/
def RefreshMaterialDatabase (s : UMaterialVaultManager) (Now : FDateTime) : UMaterialVaultManager :=
  if !s.bIsInitialized then s
  else
    let s1 := { s with MaterialMap := [] }
    let s2 := match s1.RootFolderNode with
      | some Root => { s1 with
          Folders := ModifyAt s1.Folders Root (fun n => { n with Materials := [], Children := [] }) }
      | none => s1
    let MaterialAssets : List FAssetData :=
      if s2.AssetRegistryModule then
        let MaterialAssets := GetAssetsByClass s2.Registry UMaterial_ClassPathName []
        let MaterialInstanceAssets := GetAssetsByClass s2.Registry UMaterialInstance_ClassPathName []
        let MaterialAssets := MaterialAssets ++ MaterialInstanceAssets
        let MaterialInstanceAssets :=
          GetAssetsByClass s2.Registry UMaterialInstanceConstant_ClassPathName MaterialInstanceAssets
        MaterialAssets ++ MaterialInstanceAssets
      else []
    let s3 := MaterialAssets.foldl (fun acc AssetData => ProcessMaterialAsset acc AssetData Now) s2
    BuildFolderStructure s3

/-- `UMaterialVaultManager::Initialize`. -/
def Initialize (s : UMaterialVaultManager) (Now : FDateTime) : UMaterialVaultManager :=
  let s1 := { s with AssetRegistryModule := true, bDelegatesBound := true }
  let s2 := { s1 with ThumbnailManager := true }
  let Root := s2.Folders.length
  let s3 := { s2 with
    Folders := s2.Folders ++ [FMaterialVaultFolderNode.Make "Root".toList s2.Settings.RootFolder]
    RootFolderNode := some Root
    FolderMap := TMap.Add s2.FolderMap s2.Settings.RootFolder Root }
  let s4 := RefreshMaterialDatabase s3 Now
  { s4 with bIsInitialized := true }

/-- `UMaterialVaultManager::Deinitialize`. -/
def Deinitialize (s : UMaterialVaultManager) : UMaterialVaultManager :=
  let s1 := if s.AssetRegistryModule then { s with bDelegatesBound := false } else s
  { s1 with
    ThumbnailManager := false
    FolderMap := []
    MaterialMap := []
    MetadataCache := []
    RootFolderNode := none
    bIsInitialized := false }

/-- `UMaterialVaultManager::OnAssetAdded`. -/
def OnAssetAdded (s : UMaterialVaultManager) (AssetData : FAssetData) (Now : FDateTime) :
    UMaterialVaultManager :=
  if IsTrackedClass AssetData then BuildFolderStructure (ProcessMaterialAsset s AssetData Now)
  else s

/-- `UMaterialVaultManager::OnAssetRemoved`. -/
def OnAssetRemoved (s : UMaterialVaultManager) (AssetData : FAssetData) : UMaterialVaultManager :=
  BuildFolderStructure (RemoveMaterialAsset s AssetData)

/-- `UMaterialVaultManager::OnAssetRenamed`; the body never reads `OldObjectPath`. -/
def OnAssetRenamed (s : UMaterialVaultManager) (AssetData : FAssetData) (_OldObjectPath : FString)
    (Now : FDateTime) : UMaterialVaultManager :=
  BuildFolderStructure (ProcessMaterialAsset (RemoveMaterialAsset s AssetData) AssetData Now)

/-- `UMaterialVaultManager::OnAssetUpdated`. -/
def OnAssetUpdated (s : UMaterialVaultManager) (AssetData : FAssetData) (Now : FDateTime) :
    UMaterialVaultManager :=
  if IsTrackedClass AssetData then ProcessMaterialAsset s AssetData Now else s

/-! ## Scenario of the specification -/

/-- A material asset `PackagePath/Name.Name`. -/
def MakeMaterialAsset (PackagePath Name : String) : FAssetData :=
  { PackageName := PackagePath.toList ++ '/' :: Name.toList
    PackagePath := PackagePath.toList
    AssetName := Name.toList
    AssetClassPath := UMaterial_ClassPathName }

/-- The asset `/Game/Mats/Rock.Rock`. -/
def RockAsset : FAssetData := MakeMaterialAsset "/Game/Mats" "Rock"

/-- The asset `/MyPlugin/Mats/Wood.Wood`. -/
def WoodAsset : FAssetData := MakeMaterialAsset "/MyPlugin/Mats" "Wood"

/-- The asset `/Script/Engine/Default.Default`. -/
def DefaultAsset : FAssetData := MakeMaterialAsset "/Script/Engine" "Default"

/-- A manager that was initialised in a world with the three assets of the scenario and no
sidecar files, and then refreshed at the same clock reading. -/
def ScenarioManager : UMaterialVaultManager :=
  RefreshMaterialDatabase
    (Initialize (UMaterialVaultManager.Construct [RockAsset, WoodAsset, DefaultAsset] []
      "/Project/".toList) ⟨0⟩) ⟨0⟩

/-- The property C5 asks of an organized path: it is one of the three branch paths, or one
of them followed by a slash and more (letter case ignored, as the folder map does). -/
def IsUnderBranch (OrganizedPath : FString) : Bool :=
  EqualsIgnoreCase OrganizedPath "/Game".toList ||
  EqualsIgnoreCase OrganizedPath "/Engine".toList ||
  EqualsIgnoreCase OrganizedPath "/Plugins".toList ||
  StartsWith OrganizedPath "/Game/".toList ||
  StartsWith OrganizedPath "/Engine/".toList ||
  StartsWith OrganizedPath "/Plugins/".toList

/-- An initialised and refreshed manager in a world whose only asset is the material
`/GameStuff/Mats/Rock.Rock`. -/
def StrayManager : UMaterialVaultManager :=
  RefreshMaterialDatabase
    (Initialize (UMaterialVaultManager.Construct [MakeMaterialAsset "/GameStuff/Mats" "Rock"] []
      "/Project/".toList) ⟨0⟩) ⟨0⟩

/-- A sidecar record for Rock that names an author and a tag. -/
def RockSidecar : FJsonObject :=
  [("MaterialName".toList, .Scalar (.String "Rock".toList)),
   ("Author".toList, .Scalar (.String "alice".toList)),
   ("Tags".toList, .Array [.String "stone".toList])]

/-- An initialised and refreshed manager in a world with the asset Rock and its sidecar
file: the item of Rock carries the metadata of the file, and so does the metadata cache. -/
def SidecarManager : UMaterialVaultManager :=
  RefreshMaterialDatabase
    (Initialize (UMaterialVaultManager.Construct [RockAsset]
      [(GetMetadataFilePath (UMaterialVaultManager.Construct [] [] "/Project/".toList) RockAsset,
        some RockSidecar)]
      "/Project/".toList) ⟨0⟩) ⟨0⟩

/-- `SMaterialVaultMetadataPanel::OnAuthorChanged` with its `MarkAsChanged`, on a panel that
shows the item and has no unsaved change yet: the author and the time stamp of the item
change in memory, nothing is saved. -/
def OnAuthorChanged (s : UMaterialVaultManager) (MaterialItem : Nat) (NewText : FString)
    (Now : FDateTime) : UMaterialVaultManager :=
  { s with
    Items := ModifyAt s.Items MaterialItem (fun it => { it with
      Metadata := { it.Metadata with Author := NewText, LastModified := Now } }) }

/-- The manager of `SidecarManager` after the user typed a new author for Rock and did not
save. -/
def EditedManager : UMaterialVaultManager :=
  OnAuthorChanged SidecarManager 0 "bob".toList ⟨5⟩

/-- What C10 means by a text that contains a term when compared ignoring case: the
case-folded term is a contiguous part of the case-folded text. -/
def ContainsIgnoringCase (Text Term : FString) : Bool :=
  decide (ToLower Term <:+: ToLower Text)

/-! ## Predicates and inputs of the theorems -/

/-- What the folder operations leave alone. -/
def SameIndex (s t : UMaterialVaultManager) : Prop :=
  t.MaterialMap = s.MaterialMap ∧ t.Items = s.Items ∧ t.MetadataCache = s.MetadataCache ∧
  t.RootFolderNode = s.RootFolderNode ∧ t.Settings = s.Settings ∧
  t.bIsInitialized = s.bIsInitialized ∧ t.Files = s.Files ∧ t.ProjectDir = s.ProjectDir ∧
  t.Registry = s.Registry

/-- Every pointer stored in the folder map is valid. -/
def FolderMapValid (s : UMaterialVaultManager) : Prop :=
  ∀ q n, TMap.Find s.FolderMap q = some n → n < s.Folders.length

/-- From `s` to `t` the folder map keeps its entries and every node keeps its materials. -/
def FolderGrows (s t : UMaterialVaultManager) : Prop :=
  (∀ q n, TMap.Find s.FolderMap q = some n → TMap.Find t.FolderMap q = some n) ∧
  (∀ (n : Nat) (node : FMaterialVaultFolderNode), s.Folders[n]? = some node →
    ∃ node2 : FMaterialVaultFolderNode,
      t.Folders[n]? = some node2 ∧ ∀ p ∈ node.Materials, p ∈ node2.Materials)

/-- The item pointer is in the material list of the node that the folder map holds for
the path. -/
def IsAttached (s : UMaterialVaultManager) (FolderPath : FString) (MaterialItem : Nat) : Prop :=
  ∃ (n : Nat) (node : FMaterialVaultFolderNode),
    FindFolder s FolderPath = some n ∧ s.Folders[n]? = some node ∧ MaterialItem ∈ node.Materials

/-- The state of `GetOrCreateFolderNode` once the new node is allocated and mapped. -/
def WithNewFolder (s : UMaterialVaultManager) (FolderPath : FString)
    (Node : FMaterialVaultFolderNode) : UMaterialVaultManager :=
  { s with
    Folders := s.Folders ++ [Node]
    FolderMap := TMap.Add s.FolderMap FolderPath s.Folders.length }

/-- Every pointer stored in the asset index is valid. -/
def MaterialMapValid (s : UMaterialVaultManager) : Prop :=
  ∀ MaterialPair ∈ s.MaterialMap, MaterialPair.2 < s.Items.length

/-- The asset index of the failing input of C1: the material `/Game/Mats/Rock.Rock`,
indexed in an initialised manager. -/
def RenameStart : UMaterialVaultManager :=
  RefreshMaterialDatabase
    (Initialize (UMaterialVaultManager.Construct [RockAsset] [] "/Project/".toList) ⟨0⟩) ⟨0⟩

/-- The asset record of the rename event: the rock material under its new name. -/
def StoneAsset : FAssetData := MakeMaterialAsset "/Game/Mats" "Stone"

/-! ## Number and date formatting -/

/-- Decimal digits of `n`, least significant first; `Fuel` bounds the number of digits. -/
def ToDigitsRev : Nat → Nat → FString
  | 0, _ => []
  | Fuel + 1, n =>
    Char.ofNat (48 + n % 10) :: (if n / 10 = 0 then [] else ToDigitsRev Fuel (n / 10))

/-- What `Printf` writes for `%d` / `%i` and a number that is not negative: its decimal
digits.  A number has fewer digits than its value plus one, so that is fuel enough. -/
def FormatNat (n : Nat) : FString := (ToDigitsRev (n + 1) n).reverse

/-- What `Printf` writes for `%d` and an `int32`. -/
def FormatInt (n : Int) : FString :=
  if n < 0 then '-' :: FormatNat n.natAbs else FormatNat n.toNat

/-- What `Printf` writes for `%04i`, `%02i` and a number that is not negative: the digits,
filled with zeros on the left up to the width. -/
def FormatPadded (Width n : Nat) : FString :=
  List.replicate (Width - (FormatNat n).length) '0' ++ FormatNat n

/-- `FDateTime::GetDate`: year, month and day of the time stamp (the algorithm of Fliegel and
van Flandern on the Julian day number), for ticks in the range the engine allows. -/
def FDateTime.GetDate (d : FDateTime) : Nat × Nat × Nat :=
  let Days := d.Ticks.toNat / 864000000000
  let l := Days + 1721426 + 68569
  let n := 4 * l / 146097
  let l := l - (146097 * n + 3) / 4
  let i := 4000 * (l + 1) / 1461001
  let l := l - 1461 * i / 4 + 31
  let j := 80 * l / 2447
  let k := l - 2447 * j / 80
  let l := j / 11
  let j := j + 2 - 12 * l
  let i := 100 * (n - 49) + i + l
  (i, j, k)

/-- `FDateTime::GetHour`. -/
def FDateTime.GetHour (d : FDateTime) : Nat := d.Ticks.toNat / 36000000000 % 24

/-- `FDateTime::GetMinute`. -/
def FDateTime.GetMinute (d : FDateTime) : Nat := d.Ticks.toNat / 600000000 % 60

/-- `FDateTime::GetSecond`. -/
def FDateTime.GetSecond (d : FDateTime) : Nat := d.Ticks.toNat / 10000000 % 60

/-- `FDateTime::ToString()`, that is `ToString(TEXT("%Y.%m.%d-%H.%M.%S"))`: the time stamp
down to the second. -/
def FDateTime.ToString (d : FDateTime) : FString :=
  FormatPadded 4 d.GetDate.1 ++ '.' :: FormatPadded 2 d.GetDate.2.1 ++
    '.' :: FormatPadded 2 d.GetDate.2.2 ++ '-' :: FormatPadded 2 d.GetHour ++
    '.' :: FormatPadded 2 d.GetMinute ++ '.' :: FormatPadded 2 d.GetSecond

/-! ## Metadata store: saving -/

/-- `FJsonObject::SetStringField`. -/
def SetStringField (JsonObject : FJsonObject) (FieldName Value : FString) : FJsonObject :=
  TMap.Add JsonObject FieldName (.Scalar (.String Value))

/-- `FJsonObject::SetArrayField` for an array of string values. -/
def SetArrayField (JsonObject : FJsonObject) (FieldName : FString) (Values : List FString) :
    FJsonObject :=
  TMap.Add JsonObject FieldName (.Array (Values.map FJsonScalar.String))

/-- The JSON object `SaveMaterialMetadata` fills from a metadata record. -/
def MetadataToJson (Metadata : FMaterialVaultMetadata) : FJsonObject :=
  let JsonObject : FJsonObject := []
  let JsonObject := SetStringField JsonObject "MaterialName".toList Metadata.MaterialName
  let JsonObject := SetStringField JsonObject "Location".toList Metadata.Location
  let JsonObject := SetStringField JsonObject "Author".toList Metadata.Author
  let JsonObject := SetStringField JsonObject "LastModified".toList Metadata.LastModified.ToString
  let JsonObject := SetStringField JsonObject "Notes".toList Metadata.Notes
  let JsonObject := SetStringField JsonObject "Category".toList Metadata.Category
  SetArrayField JsonObject "Tags".toList Metadata.Tags

/-- `FFileHelper::SaveStringToFile` that succeeds, for the serialized form of a JSON object:
the file at the path now deserializes to that object. -/
def SaveStringToFile (Files : FFileSystem) (Path : FString) (JsonObject : FJsonObject) :
    FFileSystem :=
  (Path, some JsonObject) :: Files.filter (fun f => !(f.1 == Path))

/-- `UMaterialVaultManager::SaveMaterialMetadata`; `bWriteSucceeds` tells whether
`SaveStringToFile` succeeds (its result is ignored by the source; a failed write is taken to
leave the files as they are). -/
def SaveMaterialMetadata (s : UMaterialVaultManager) (MaterialItem : Nat)
    (bWriteSucceeds : Bool) : UMaterialVaultManager :=
  match s.Items[MaterialItem]? with
  | none => s
  | some Item =>
    let MetadataCache :=
      TMap.Add s.MetadataCache Item.AssetData.GetObjectPathString Item.Metadata
    let MetadataPath := GetMetadataFilePath s Item.AssetData
    let JsonObject := MetadataToJson Item.Metadata
    { s with
      MetadataCache := MetadataCache
      Files := if bWriteSucceeds then SaveStringToFile s.Files MetadataPath JsonObject
        else s.Files }

/-- Empties the metadata cache (what `Deinitialize` does to it), everything else kept. -/
def ClearMetadataCache (s : UMaterialVaultManager) : UMaterialVaultManager :=
  { s with MetadataCache := [] }

/-! ## Tag editor -/

/-- The engine's `FChar::IsWhitespace`, for the whitespace characters of ASCII. -/
def IsWhitespace (c : Char) : Bool :=
  c == ' ' || (9 ≤ c.toNat && c.toNat ≤ 13)

/-- The engine's `FString::TrimStartAndEnd`. -/
def TrimStartAndEnd (s : FString) : FString :=
  ((s.dropWhile IsWhitespace).reverse.dropWhile IsWhitespace).reverse

/-- The engine's `TArray<FString>::Contains`: some element equals the string under
`FString::operator==`, which ignores case. -/
def TArrayContains (Array : List FString) (Item : FString) : Bool :=
  Array.any (fun Element => EqualsIgnoreCase Element Item)

/-- `SMaterialVaultTagEditor::OnAddTag` as a function of the tag list behind `TagsPtr` (a
pointer that is set) and of the text of the text box; the result is the tag list. -/
def OnAddTag (Tags : List FString) (Text : FString) : List FString :=
  let NewTag := TrimStartAndEnd Text
  if !NewTag.isEmpty && !TArrayContains Tags NewTag then Tags ++ [NewTag] else Tags

/-! ## Thumbnail manager (MaterialVaultThumbnailManager.cpp) -/

/-- The engine's `TArray::Sort(Predicate)` for any element type, embedded as insertion sort
like `TArraySort`. -/
def TArraySortBy {α : Type} (Predicate : α → α → Bool) (Array : List α) : List α :=
  Array.insertionSort (fun A B => Predicate B A = false)

/-- The brush `CreateBrushFromTexture` makes: the texture it shows and its edge length. -/
structure FSlateDynamicImageBrush where
  Texture : Nat
  Size : Int
deriving DecidableEq, Repr

/-- `FMaterialVaultThumbnailManager::FThumbnailCacheEntry`; a texture is a handle, `none`
the null pointer. -/
structure FThumbnailCacheEntry where
  Brush : Option FSlateDynamicImageBrush
  Texture : Option Nat
  ThumbnailSize : Int
  LastAccessTime : FDateTime
deriving DecidableEq, Repr

/-- The values captured by the task that `LoadThumbnailAsync` hands to a background thread. -/
structure FBackgroundTask where
  MaterialItem : Nat
  ThumbnailSize : Int
  MaterialPath : FString
deriving DecidableEq, Repr

/-- The values captured by the task that a background task hands to the game thread. -/
structure FGameThreadTask where
  MaterialPath : FString
  Thumbnail : Nat
  ThumbnailSize : Int
deriving DecidableEq, Repr

/-- `FMaterialVaultThumbnailManager`, with the tasks it has handed to `AsyncTask` and that
have not run yet (`BackgroundTasks`, `GameThreadTasks`).  `PendingThumbnails` holds item
pointers. -/
structure FMaterialVaultThumbnailManager where
  ThumbnailCache : TMap FThumbnailCacheEntry
  DefaultThumbnailSize : Int
  MaxCacheSize : Int
  PendingThumbnails : TMap Nat
  DefaultMaterialTexture : Option Nat
  ErrorTexture : Option Nat
  bIsInitialized : Bool
  BackgroundTasks : List FBackgroundTask
  GameThreadTasks : List FGameThreadTask
deriving DecidableEq, Repr

namespace FMaterialVaultThumbnailManager

/-- Constructor `FMaterialVaultThumbnailManager()`. -/
def Construct : FMaterialVaultThumbnailManager :=
  { ThumbnailCache := [], DefaultThumbnailSize := 128, MaxCacheSize := 1000,
    PendingThumbnails := [], DefaultMaterialTexture := none, ErrorTexture := none,
    bIsInitialized := false, BackgroundTasks := [], GameThreadTasks := [] }

/-- `FMaterialVaultThumbnailManager::Initialize`; the two arguments are what `LoadObject`
returns for the two default textures. -/
def Initialize (t : FMaterialVaultThumbnailManager) (DefaultMaterial DefaultDiffuse : Option Nat) :
    FMaterialVaultThumbnailManager :=
  if t.bIsInitialized then t
  else { t with
    DefaultMaterialTexture := DefaultMaterial
    ErrorTexture := DefaultDiffuse
    bIsInitialized := true }

/-- `FMaterialVaultThumbnailManager::ClearThumbnailCache`. -/
def ClearThumbnailCache (t : FMaterialVaultThumbnailManager) : FMaterialVaultThumbnailManager :=
  { t with ThumbnailCache := [] }

/-- `FMaterialVaultThumbnailManager::Shutdown`. -/
def Shutdown (t : FMaterialVaultThumbnailManager) : FMaterialVaultThumbnailManager :=
  if !t.bIsInitialized then t
  else
    let t1 := ClearThumbnailCache t
    { t1 with
      PendingThumbnails := []
      DefaultMaterialTexture := none
      ErrorTexture := none
      bIsInitialized := false }

/-- `FMaterialVaultThumbnailManager::GetCacheKey`: `Printf("%s_%d", MaterialPath, ThumbnailSize)`. -/
def GetCacheKey (MaterialPath : FString) (ThumbnailSize : Int) : FString :=
  MaterialPath ++ '_' :: FormatInt ThumbnailSize

/-- `FMaterialVaultThumbnailManager::CreateBrushFromTexture`. -/
def CreateBrushFromTexture (Texture : Option Nat) (ThumbnailSize : Int) :
    Option FSlateDynamicImageBrush :=
  match Texture with
  | none => none
  | some Handle => some { Texture := Handle, Size := ThumbnailSize }

/-- `FMaterialVaultThumbnailManager::GetDefaultMaterialThumbnail`. -/
def GetDefaultMaterialThumbnail (t : FMaterialVaultThumbnailManager) : Option Nat :=
  match t.DefaultMaterialTexture with
  | some Texture => some Texture
  | none => t.ErrorTexture

/-- `FMaterialVaultThumbnailManager::GenerateMaterialThumbnail`: the default thumbnail on
either path. -/
def GenerateMaterialThumbnail (t : FMaterialVaultThumbnailManager) (bMaterial : Bool) :
    Option Nat :=
  if !bMaterial || !t.bIsInitialized then GetDefaultMaterialThumbnail t
  else GetDefaultMaterialThumbnail t

/-- `FMaterialVaultThumbnailManager::LoadThumbnailAsync`: the task goes to the background
threads. -/
def LoadThumbnailAsync (t : FMaterialVaultThumbnailManager) (Items : List FMaterialVaultMaterialItem)
    (MaterialItem : Nat) (ThumbnailSize : Int) : FMaterialVaultThumbnailManager :=
  match Items[MaterialItem]? with
  | none => t
  | some Item =>
    let MaterialPath := Item.AssetData.GetObjectPathString
    { t with
      BackgroundTasks := t.BackgroundTasks ++
        [{ MaterialItem := MaterialItem, ThumbnailSize := ThumbnailSize,
           MaterialPath := MaterialPath }] }

/-- `FMaterialVaultThumbnailManager::RequestThumbnail`. -/
def RequestThumbnail (t : FMaterialVaultThumbnailManager) (Items : List FMaterialVaultMaterialItem)
    (MaterialItem : Nat) (ThumbnailSize : Int) : FMaterialVaultThumbnailManager :=
  match Items[MaterialItem]? with
  | none => t
  | some Item =>
    if !t.bIsInitialized then t
    else
      let MaterialPath := Item.AssetData.GetObjectPathString
      if TMap.Contains t.PendingThumbnails MaterialPath then t
      else
        let t1 := { t with
          PendingThumbnails := TMap.Add t.PendingThumbnails MaterialPath MaterialItem }
        LoadThumbnailAsync t1 Items MaterialItem ThumbnailSize

/-- `FMaterialVaultThumbnailManager::GetMaterialThumbnail`: the manager afterwards and the
brush returned; `Now` is the clock reading. -/
def GetMaterialThumbnail (t : FMaterialVaultThumbnailManager) (Items : List FMaterialVaultMaterialItem)
    (MaterialItem : Nat) (ThumbnailSize : Int) (Now : FDateTime) :
    FMaterialVaultThumbnailManager × Option FSlateDynamicImageBrush :=
  match Items[MaterialItem]? with
  | none => (t, none)
  | some Item =>
    if !t.bIsInitialized then (t, none)
    else
      let CacheKey := GetCacheKey Item.AssetData.GetObjectPathString ThumbnailSize
      match TMap.Find t.ThumbnailCache CacheKey with
      | some Entry =>
        ({ t with
            ThumbnailCache := t.ThumbnailCache.map (fun kv =>
              if EqualsIgnoreCase kv.1 CacheKey then (kv.1, { kv.2 with LastAccessTime := Now })
              else kv) },
          Entry.Brush)
      | none =>
        let t1 := RequestThumbnail t Items MaterialItem ThumbnailSize
        (t1, CreateBrushFromTexture t1.DefaultMaterialTexture ThumbnailSize)

/-- `FMaterialVaultThumbnailManager::ClearThumbnailForMaterial`: the entries whose key
contains the path (`FString::Contains`, case ignored) are removed. -/
def ClearThumbnailForMaterial (t : FMaterialVaultThumbnailManager) (MaterialPath : FString) :
    FMaterialVaultThumbnailManager :=
  { t with ThumbnailCache := t.ThumbnailCache.filter (fun kv => !Contains kv.1 MaterialPath) }

/-- `FMaterialVaultThumbnailManager::SetThumbnailSize`. -/
def SetThumbnailSize (t : FMaterialVaultThumbnailManager) (NewSize : Int) :
    FMaterialVaultThumbnailManager :=
  { t with DefaultThumbnailSize := if NewSize < 32 then 32 else if 512 < NewSize then 512 else NewSize }

/-- `FMaterialVaultThumbnailManager::SetMaxCacheSize`. -/
def SetMaxCacheSize (t : FMaterialVaultThumbnailManager) (MaxSize : Int) :
    FMaterialVaultThumbnailManager :=
  { t with MaxCacheSize := MaxSize }

/-- The keys `TrimCache` removes: the first `Num - MaxCacheSize` of the entries sorted by
last access time.  (With a negative `MaxCacheSize` the source would index past the array;
here the loop ends with the array.) -/
def KeysToTrim (t : FMaterialVaultThumbnailManager) : List (FString × FDateTime) :=
  let SortedEntries := TArraySortBy
    (fun (A B : FString × FDateTime) => decide (A.2.Ticks < B.2.Ticks))
    (t.ThumbnailCache.map (fun Entry => (Entry.1, Entry.2.LastAccessTime)))
  let EntriesToRemove := ((t.ThumbnailCache.length : Int) - t.MaxCacheSize).toNat
  SortedEntries.take EntriesToRemove

/-- `FMaterialVaultThumbnailManager::TrimCache`. -/
def TrimCache (t : FMaterialVaultThumbnailManager) : FMaterialVaultThumbnailManager :=
  if (t.ThumbnailCache.length : Int) ≤ t.MaxCacheSize then t
  else
    { t with
      ThumbnailCache := (KeysToTrim t).foldl (fun Cache Entry => TMap.Remove Cache Entry.1)
        t.ThumbnailCache }

/-- `FMaterialVaultThumbnailManager::OnThumbnailGenerated`; `Now` is the clock reading. -/
def OnThumbnailGenerated (t : FMaterialVaultThumbnailManager) (MaterialPath : FString)
    (Thumbnail : Option Nat) (ThumbnailSize : Int) (Now : FDateTime) :
    FMaterialVaultThumbnailManager :=
  match Thumbnail with
  | none => t
  | some Handle =>
    let CacheKey := GetCacheKey MaterialPath ThumbnailSize
    let Entry : FThumbnailCacheEntry :=
      { Texture := some Handle
        Brush := CreateBrushFromTexture (some Handle) ThumbnailSize
        ThumbnailSize := ThumbnailSize
        LastAccessTime := Now }
    TrimCache { t with ThumbnailCache := TMap.Add t.ThumbnailCache CacheKey Entry }

/-- The body of the background task of `LoadThumbnailAsync`, run for the first waiting task;
`bMaterialLoads` tells whether `LoadSynchronous` returns a material. -/
def RunBackgroundTask (t : FMaterialVaultThumbnailManager) (bMaterialLoads : Bool) :
    FMaterialVaultThumbnailManager :=
  match t.BackgroundTasks with
  | [] => t
  | Task :: Rest =>
    let t1 := { t with BackgroundTasks := Rest }
    let t2 :=
      if bMaterialLoads then
        match GenerateMaterialThumbnail t1 true with
        | some Thumbnail =>
          { t1 with
            GameThreadTasks := t1.GameThreadTasks ++
              [{ MaterialPath := Task.MaterialPath, Thumbnail := Thumbnail,
                 ThumbnailSize := Task.ThumbnailSize }] }
        | none => t1
      else t1
    { t2 with PendingThumbnails := TMap.Remove t2.PendingThumbnails Task.MaterialPath }

/-- The body of the game thread task, run for the first waiting task. -/
def RunGameThreadTask (t : FMaterialVaultThumbnailManager) (Now : FDateTime) :
    FMaterialVaultThumbnailManager :=
  match t.GameThreadTasks with
  | [] => t
  | Task :: Rest =>
    OnThumbnailGenerated { t with GameThreadTasks := Rest } Task.MaterialPath
      (some Task.Thumbnail) Task.ThumbnailSize Now

end FMaterialVaultThumbnailManager

/-- An initialised thumbnail manager with both default textures loaded and nothing cached,
pending or scheduled. -/
def ReadyThumbnails : FMaterialVaultThumbnailManager :=
  FMaterialVaultThumbnailManager.Initialize FMaterialVaultThumbnailManager.Construct
    (some 1) (some 2)

/-- The thumbnail manager of `ReadyThumbnails` after a thumbnail of Rock was cached and a
thumbnail of Wood was requested and is still pending. -/
def BusyThumbnails : FMaterialVaultThumbnailManager :=
  FMaterialVaultThumbnailManager.RequestThumbnail
    (FMaterialVaultThumbnailManager.OnThumbnailGenerated ReadyThumbnails
      RockAsset.GetObjectPathString (some 1) 128 ⟨10⟩)
    ScenarioManager.Items 1 128

/-- One delivery of a generated thumbnail to `OnThumbnailGenerated`: its arguments (with a
texture that is not null) and what the clock reads at the call. -/
structure FThumbnailArrival where
  MaterialPath : FString
  Thumbnail : Nat
  ThumbnailSize : Int
  Now : FDateTime
deriving DecidableEq, Repr

/-- The cache key `OnThumbnailGenerated` computes for a delivery. -/
def FThumbnailArrival.CacheKey (a : FThumbnailArrival) : FString :=
  FMaterialVaultThumbnailManager.GetCacheKey a.MaterialPath a.ThumbnailSize

/-- The pair of key and entry `OnThumbnailGenerated` hands to the cache for a delivery. -/
def FThumbnailArrival.CachePair (a : FThumbnailArrival) : FString × FThumbnailCacheEntry :=
  (a.CacheKey,
    { Brush := some { Texture := a.Thumbnail, Size := a.ThumbnailSize }
      Texture := some a.Thumbnail
      ThumbnailSize := a.ThumbnailSize
      LastAccessTime := a.Now })

/-- A run of calls of `OnThumbnailGenerated`, one for each delivery, in order. -/
def OnThumbnailsGenerated (t : FMaterialVaultThumbnailManager)
    (Arrivals : List FThumbnailArrival) : FMaterialVaultThumbnailManager :=
  Arrivals.foldl (fun Manager a => FMaterialVaultThumbnailManager.OnThumbnailGenerated Manager
    a.MaterialPath (some a.Thumbnail) a.ThumbnailSize a.Now) t

/-- Three deliveries for Rock, Wood and Default at 128 pixels, at the times 1, 2 and 3. -/
def ThreeArrivals : List FThumbnailArrival :=
  [{ MaterialPath := RockAsset.GetObjectPathString, Thumbnail := 1, ThumbnailSize := 128,
     Now := ⟨1⟩ },
   { MaterialPath := WoodAsset.GetObjectPathString, Thumbnail := 2, ThumbnailSize := 128,
     Now := ⟨2⟩ },
   { MaterialPath := DefaultAsset.GetObjectPathString, Thumbnail := 3, ThumbnailSize := 128,
     Now := ⟨3⟩ }]

/-- The manager of the scenario after the author of Rock was edited in the metadata panel
at 2024-02-29 13:05:09 and 250 milliseconds: the item holds that time as last-modified. -/
def StampedManager : UMaterialVaultManager :=
  OnAuthorChanged ScenarioManager 0 "bob".toList (FDateTime.FromParts 2024 2 29 13 5 9 250)

/-- The number that a list of decimal digit characters, least significant first, stands
for. -/
def DigitsValueRev : FString → Nat
  | [] => 0
  | c :: rest => (c.toNat - 48) + 10 * DigitsValueRev rest

/-! ## Inputs of the theorems on invalidation and sidecar files -/

/-- The asset `/MyPlugin/Game/Mats/Rock.Rock`: a material of a plugin whose object path ends
in the object path of Rock. -/
def PluginRockAsset : FAssetData := MakeMaterialAsset "/MyPlugin/Game/Mats" "Rock"

/-- The thumbnail manager of `ReadyThumbnails` after a thumbnail of the plugin's rock was
cached at 128 pixels. -/
def PluginThumbnails : FMaterialVaultThumbnailManager :=
  FMaterialVaultThumbnailManager.OnThumbnailGenerated ReadyThumbnails
    PluginRockAsset.GetObjectPathString (some 1) 128 ⟨10⟩

/-- The asset `/Game/A/B/C.C`: material `C` in the folder `A/B`. -/
def NestedAsset : FAssetData := MakeMaterialAsset "/Game/A/B" "C"

/-- The asset `/Game/A_B/C.C`: material `C` in the folder `A_B`. -/
def FlatAsset : FAssetData := MakeMaterialAsset "/Game/A_B" "C"

/-- An initialised and refreshed manager in a world with the two materials `/Game/A/B/C.C`
(item 0) and `/Game/A_B/C.C` (item 1) and no sidecar files. -/
def CollidingManager : UMaterialVaultManager :=
  RefreshMaterialDatabase
    (Initialize (UMaterialVaultManager.Construct [NestedAsset, FlatAsset] []
      "/Project/".toList) ⟨0⟩) ⟨0⟩

/-- `UMaterialVaultManager::GetMaterialsInFolder`: the sorted material list of the node found
under the path, empty when there is no such node. -/
def GetMaterialsInFolder (s : UMaterialVaultManager) (FolderPath : FString) : List Nat :=
  match FindFolder s FolderPath with
  | some FolderNode =>
    match s.Folders[FolderNode]? with
    | some Node => SortMaterials s Node.Materials
    | none => []
  | none => []

/-- A material whose asset record has an empty package path, the name `NAME_None`. -/
def OrphanAsset : FAssetData :=
  { PackageName := "Orphan".toList
    PackagePath := []
    AssetName := "Orphan".toList
    AssetClassPath := UMaterial_ClassPathName }

/-- An initialised and refreshed manager in a world whose only asset is `OrphanAsset`. -/
def OrphanManager : UMaterialVaultManager :=
  RefreshMaterialDatabase
    (Initialize (UMaterialVaultManager.Construct [OrphanAsset] [] "/Project/".toList) ⟨0⟩) ⟨0⟩

/-- `UMaterialVaultManager::SetSettings` (the broadcast has no listener in the model). -/
def SetSettings (s : UMaterialVaultManager) (NewSettings : FMaterialVaultSettings) :
    UMaterialVaultManager :=
  { s with Settings := NewSettings }

/-- The manager of the scenario after the root folder of the settings was set to
`/Game/Mats`, the folder of Rock. -/
def RootedManager : UMaterialVaultManager :=
  SetSettings ScenarioManager
    { FMaterialVaultSettings.Default with RootFolder := "/Game/Mats".toList }

/-! ## Path membership -/

/-- The items attached to folder nodes: the material lists of the nodes that the folder map
holds, and of the root node. -/
def AttachedItems (s : UMaterialVaultManager) : List Nat :=
  ((s.FolderMap.map (fun FolderPair => FolderPair.2) ++ s.RootFolderNode.toList).map
    (fun FolderNode =>
      match s.Folders[FolderNode]? with
      | some Node => Node.Materials
      | none => [])).flatten

/-- The object paths of the items attached to folder nodes. -/
def AttachedPaths (s : UMaterialVaultManager) : List FString :=
  (AttachedItems s).filterMap (fun MaterialItem =>
    (s.Items[MaterialItem]?).map (fun Item => Item.AssetData.GetObjectPathString))

/-- The paths of the asset index: the keys of `MaterialMap`. -/
def IndexedPaths (s : UMaterialVaultManager) : List FString :=
  s.MaterialMap.map (fun MaterialPair => MaterialPair.1)

/-- Path membership: the set of item paths attached to folder nodes equals the set of paths
in the asset index (paths compared as the engine compares strings, letter case ignored). -/
def PathMembership (s : UMaterialVaultManager) : Prop :=
  ∀ Path : FString,
    TArrayContains (AttachedPaths s) Path = TArrayContains (IndexedPaths s) Path

/-! ## Categories panel (SMaterialVaultCategoriesPanel.cpp) -/

/-- `FMaterialVaultCategoryItem`.  `Materials` holds item pointers, `Children` and `Parent`
hold indices into the arena of category items. -/
structure FMaterialVaultCategoryItem where
  CategoryName : FString
  Materials : List Nat
  Children : List Nat
  Parent : Option Nat
  bIsExpanded : Bool
deriving DecidableEq, Repr, Inhabited

/-- Constructor `FMaterialVaultCategoryItem(InCategoryName)`. -/
def FMaterialVaultCategoryItem.Make (InCategoryName : FString) : FMaterialVaultCategoryItem :=
  { CategoryName := InCategoryName, Materials := [], Children := [], Parent := none,
    bIsExpanded := false }

/-- `SMaterialVaultCategoriesPanel`: the data members that the category operations read and
write.  `CategoryItems` is the arena the category pointers point into;
`MaterialVaultManager` tells whether the manager pointer is set.  The widgets and the tag
lists are left out. -/
structure SMaterialVaultCategoriesPanel where
  CategoryItems : List FMaterialVaultCategoryItem
  RootCategories : List Nat
  FilteredCategories : List Nat
  SelectedCategory : Option Nat
  CurrentFilterText : FString
  MaterialVaultManager : Bool
deriving DecidableEq, Repr

namespace SMaterialVaultCategoriesPanel

/-- The name of the category a pointer points to (empty for a pointer that is not valid). -/
def NameOf (p : SMaterialVaultCategoriesPanel) (Category : Nat) : FString :=
  match p.CategoryItems[Category]? with
  | some Item => Item.CategoryName
  | none => []

/-- `SMaterialVaultCategoriesPanel::GetOrCreateCategory`: the first root category with the
name (`FString::operator==`, letter case ignored), or a new one at the end. -/
def GetOrCreateCategory (p : SMaterialVaultCategoriesPanel) (CategoryName : FString) :
    SMaterialVaultCategoriesPanel × Nat :=
  match p.RootCategories.find? (fun Category => EqualsIgnoreCase (NameOf p Category) CategoryName) with
  | some Category => (p, Category)
  | none =>
    let NewCategory := p.CategoryItems.length
    ({ p with
        CategoryItems := p.CategoryItems ++ [FMaterialVaultCategoryItem.Make CategoryName]
        RootCategories := p.RootCategories ++ [NewCategory] },
      NewCategory)

/-- `SMaterialVaultCategoriesPanel::AddMaterialToCategory`. -/
def AddMaterialToCategory (p : SMaterialVaultCategoriesPanel) (Material : Nat)
    (CategoryName : FString) : SMaterialVaultCategoriesPanel :=
  match GetOrCreateCategory p CategoryName with
  | (p1, Category) =>
    { p1 with
      CategoryItems := ModifyAt p1.CategoryItems Category
        (fun Item => { Item with Materials := Item.Materials ++ [Material] }) }

/-- The recursive lambda `CollectMaterials` of `BuildCategoryStructure`, with a bound on the
depth of the recursion: the valid items of the folder go into the map under their object
paths, then the child folders are visited. -/
def CollectMaterialsFuel : Nat → UMaterialVaultManager → Nat → TMap Nat → TMap Nat
  | 0, _, _, AllMaterials => AllMaterials
  | Fuel + 1, m, Folder, AllMaterials =>
    match m.Folders[Folder]? with
    | none => AllMaterials
    | some Node =>
      let AllMaterials := Node.Materials.foldl (fun Map Material =>
        match m.Items[Material]? with
        | some Item => TMap.Add Map Item.AssetData.GetObjectPathString Material
        | none => Map) AllMaterials
      Node.Children.foldl (fun Map Child => CollectMaterialsFuel Fuel m Child Map) AllMaterials

/-- The map `AllMaterials` of `BuildCategoryStructure`: what `CollectMaterials` gathers from
the root folder.  A path from the root of a tree has fewer nodes than the tree, so the
number of nodes bounds the depth. -/
def CollectMaterials (m : UMaterialVaultManager) : TMap Nat :=
  match m.RootFolderNode with
  | some RootFolder => CollectMaterialsFuel (m.Folders.length + 1) m RootFolder []
  | none => []

/-- The category name `BuildCategoryStructure` uses for an item: its metadata category,
"Uncategorized" when that is empty. -/
def CategoryNameFor (Item : FMaterialVaultMaterialItem) : FString :=
  if Item.Metadata.Category.isEmpty then "Uncategorized".toList else Item.Metadata.Category

/-- One round of the loop of `BuildCategoryStructure` over the pairs of `AllMaterials`: a
valid item goes into the category named by its metadata. -/
def CategoriseMaterial (m : UMaterialVaultManager) (Panel : SMaterialVaultCategoriesPanel)
    (MaterialPair : FString × Nat) : SMaterialVaultCategoriesPanel :=
  match m.Items[MaterialPair.2]? with
  | some Item => AddMaterialToCategory Panel MaterialPair.2 (CategoryNameFor Item)
  | none => Panel

/-- The predicate `BuildCategoryStructure` sorts the root categories with. -/
def SortsBefore (p : SMaterialVaultCategoriesPanel) (A B : Nat) : Bool :=
  if EqualsIgnoreCase (NameOf p A) "All Materials".toList then true
  else if EqualsIgnoreCase (NameOf p B) "All Materials".toList then false
  else FStringLess (NameOf p A) (NameOf p B)

/-- `SMaterialVaultCategoriesPanel::BuildCategoryStructure`; `m` is the manager the panel
points to. -/
def BuildCategoryStructure (p : SMaterialVaultCategoriesPanel) (m : UMaterialVaultManager) :
    SMaterialVaultCategoriesPanel :=
  if !p.MaterialVaultManager then p
  else
    let AllMaterialsCategory := p.CategoryItems.length
    let p1 := { p with
      CategoryItems := p.CategoryItems ++
        [FMaterialVaultCategoryItem.Make "All Materials".toList]
      RootCategories := p.RootCategories ++ [AllMaterialsCategory] }
    let AllMaterials := CollectMaterials m
    let p2 := { p1 with
      CategoryItems := ModifyAt p1.CategoryItems AllMaterialsCategory
        (fun Item => { Item with
          Materials := Item.Materials ++ AllMaterials.map (fun MaterialPair => MaterialPair.2) }) }
    let p3 := AllMaterials.foldl (CategoriseMaterial m) p2
    { p3 with RootCategories := TArraySortBy (SortsBefore p3) p3.RootCategories }

/-- `SMaterialVaultCategoriesPanel::DoesCategoryPassFilter`. -/
def DoesCategoryPassFilter (p : SMaterialVaultCategoriesPanel) (Category : Nat) : Bool :=
  match p.CategoryItems[Category]? with
  | none => true
  | some Item =>
    if p.CurrentFilterText.isEmpty then true
    else Contains (ToLower Item.CategoryName) (ToLower p.CurrentFilterText)

/-- `SMaterialVaultCategoriesPanel::HasFilteredChildren`, with a bound on the depth of the
recursion. -/
def HasFilteredChildrenFuel : Nat → SMaterialVaultCategoriesPanel → Nat → Bool
  | 0, _, _ => false
  | Fuel + 1, p, Category =>
    match p.CategoryItems[Category]? with
    | none => false
    | some Item => Item.Children.any (fun Child =>
        DoesCategoryPassFilter p Child || HasFilteredChildrenFuel Fuel p Child)

/-- `SMaterialVaultCategoriesPanel::ApplyFilter` (the refresh of the tree view left out). -/
def ApplyFilter (p : SMaterialVaultCategoriesPanel) : SMaterialVaultCategoriesPanel :=
  { p with
    FilteredCategories :=
      if p.CurrentFilterText.isEmpty then p.RootCategories
      else p.RootCategories.filter (fun Category =>
        DoesCategoryPassFilter p Category ||
          HasFilteredChildrenFuel (p.CategoryItems.length + 1) p Category) }

/-- The assignment `Material->Metadata.Category = TEXT("Uncategorized")`. -/
def Uncategorize (Item : FMaterialVaultMaterialItem) : FMaterialVaultMaterialItem :=
  { Item with Metadata := { Item.Metadata with Category := "Uncategorized".toList } }

/-- One round of the loop of `OnDeleteCategory`: the category of the item becomes
"Uncategorized" in memory, and the item goes into the uncategorized bucket unless it is
there. -/
def MoveToUncategorized (Uncategorized : Nat)
    (State : SMaterialVaultCategoriesPanel × UMaterialVaultManager) (Material : Nat) :
    SMaterialVaultCategoriesPanel × UMaterialVaultManager :=
  match State.2.Items[Material]? with
  | none => State
  | some _ =>
    let m := { State.2 with Items := ModifyAt State.2.Items Material Uncategorize }
    let p := State.1
    let Present := match p.CategoryItems[Uncategorized]? with
      | some Item => Item.Materials.contains Material
      | none => true
    if Present then (p, m)
    else
      ({ p with
          CategoryItems := ModifyAt p.CategoryItems Uncategorized
            (fun Item => { Item with Materials := Item.Materials ++ [Material] }) }, m)

/-- `SMaterialVaultCategoriesPanel::OnDeleteCategory`; the result is the panel and the
manager, whose items the panel writes to. -/
def OnDeleteCategory (p : SMaterialVaultCategoriesPanel) (m : UMaterialVaultManager)
    (CategoryToDelete : Option Nat) : SMaterialVaultCategoriesPanel × UMaterialVaultManager :=
  match CategoryToDelete with
  | none => (p, m)
  | some Deleted =>
    match p.CategoryItems[Deleted]? with
    | none => (p, m)
    | some DeletedItem =>
      match GetOrCreateCategory p "Uncategorized".toList with
      | (p1, UncategorizedCategory) =>
        match DeletedItem.Materials.foldl (MoveToUncategorized UncategorizedCategory) (p1, m) with
        | (p2, m2) =>
          let p3 := { p2 with
            RootCategories := p2.RootCategories.filter (fun Category => Category != Deleted) }
          let p4 := if p3.SelectedCategory = some Deleted then
            { p3 with SelectedCategory := none } else p3
          (ApplyFilter p4, m2)

/-- Constructor of the panel before `Construct` has filled it: no categories; the manager
pointer as given. -/
def Make (bManager : Bool) : SMaterialVaultCategoriesPanel :=
  { CategoryItems := [], RootCategories := [], FilteredCategories := [],
    SelectedCategory := none, CurrentFilterText := [], MaterialVaultManager := bManager }

end SMaterialVaultCategoriesPanel

/-- A sidecar record that names a category. -/
def CategorySidecar (Category : String) : FJsonObject :=
  [("Category".toList, .Scalar (.String Category.toList))]

/-- An initialised and refreshed manager in a world with the three assets of the scenario,
in which the sidecar files of Rock and of Wood name the category "Nature" and Default has
no sidecar file. -/
def CategorizedManager : UMaterialVaultManager :=
  RefreshMaterialDatabase
    (Initialize (UMaterialVaultManager.Construct [RockAsset, WoodAsset, DefaultAsset]
      [(GetMetadataFilePath (UMaterialVaultManager.Construct [] [] "/Project/".toList) RockAsset,
        some (CategorySidecar "Nature")),
       (GetMetadataFilePath (UMaterialVaultManager.Construct [] [] "/Project/".toList) WoodAsset,
        some (CategorySidecar "Nature"))]
      "/Project/".toList) ⟨0⟩) ⟨0⟩

/-- The panel after `BuildCategoryStructure` on an empty list of root categories, for the
manager `CategorizedManager`. -/
def CategorizedPanel : SMaterialVaultCategoriesPanel :=
  SMaterialVaultCategoriesPanel.BuildCategoryStructure
    (SMaterialVaultCategoriesPanel.Make true) CategorizedManager

namespace SMaterialVaultCategoriesPanel

/-- The items of the bucket a pointer points to (none for a pointer that is not valid). -/
def MaterialsOf (p : SMaterialVaultCategoriesPanel) (Category : Nat) : List Nat :=
  match p.CategoryItems[Category]? with
  | some Item => Item.Materials
  | none => []

/-- Whether a root category with the name (letter case ignored) holds the item. -/
def InBucket (p : SMaterialVaultCategoriesPanel) (CategoryName : FString) (Material : Nat) :
    Bool :=
  p.RootCategories.any (fun Category =>
    EqualsIgnoreCase (NameOf p Category) CategoryName && (MaterialsOf p Category).contains Material)

/-- Every root category pointer points into the arena. -/
def WellFormed (p : SMaterialVaultCategoriesPanel) : Prop :=
  ∀ Category ∈ p.RootCategories, Category < p.CategoryItems.length

/-- No two root categories have the same name, letter case ignored. -/
def DistinctNames (p : SMaterialVaultCategoriesPanel) : Prop :=
  p.RootCategories.Pairwise (fun A B => EqualsIgnoreCase (NameOf p A) (NameOf p B) = false)

/-- The panel `q` comes from the panel `p` by adding root categories and items: the root
categories of `p` are root categories of `q` with their names and at least their items,
and every other root category of `q` is new in the arena. -/
def Extends (p q : SMaterialVaultCategoriesPanel) : Prop :=
  p.CategoryItems.length ≤ q.CategoryItems.length ∧
  (∀ Category ∈ p.RootCategories, Category ∈ q.RootCategories) ∧
  (∀ Category ∈ q.RootCategories,
    Category ∈ p.RootCategories ∨ p.CategoryItems.length ≤ Category) ∧
  (∀ Category, Category < p.CategoryItems.length → NameOf q Category = NameOf p Category) ∧
  (∀ Category Material, Material ∈ MaterialsOf p Category → Material ∈ MaterialsOf q Category)

end SMaterialVaultCategoriesPanel

/-- The folder `Target` is reached from the folder `Folder` along child links. -/
inductive FolderReachableFrom (m : UMaterialVaultManager) : Nat → Nat → Prop
  | refl (Folder : Nat) : FolderReachableFrom m Folder Folder
  | step (Folder Child Target : Nat) (Node : FMaterialVaultFolderNode) :
      m.Folders[Folder]? = some Node → Child ∈ Node.Children →
      FolderReachableFrom m Child Target → FolderReachableFrom m Folder Target

/-- The item is in the list of materials of a folder reached from the root folder. -/
def ReachableItem (m : UMaterialVaultManager) (Material : Nat) : Prop :=
  ∃ Root Folder Node, m.RootFolderNode = some Root ∧ FolderReachableFrom m Root Folder ∧
    m.Folders[Folder]? = some Node ∧ Material ∈ Node.Materials

/-- The node reached from a node by following the parent link a number of times (`none`
when a link on the way is not set). -/
def ParentAt (s : UMaterialVaultManager) : Nat → Nat → Option Nat
  | 0, Folder => some Folder
  | Steps + 1, Folder =>
    match s.Folders[Folder]? with
    | some Node =>
      match Node.Parent with
      | some Parent => ParentAt s Steps Parent
      | none => none
    | none => none

/-- A node of the tree under construction: the root, or a node allocated since the tree
was reset (from the pointer `First` on) that is not waiting for its parent. -/
def IsPlaced (First Root : Nat) (Pending : List Nat) (s : UMaterialVaultManager)
    (Folder : Nat) : Prop :=
  Folder = Root ∨ (First ≤ Folder ∧ Folder < s.Folders.length ∧ Folder ∉ Pending)

/-- What holds of the folder tree while `BuildFolderStructure` runs.  `Pending` are the nodes
that `GetOrCreateFolderNode` has allocated and mapped and whose parent it is still looking
for.  Every other new node has its parent link set to a placed node that lists it as a
child, and that parent is the root or has a shorter path; the child list of a placed node
has no duplicates and holds new nodes whose parent link points back; a pending node has no
children; and the folder map holds the root or new nodes under keys as long as their
paths. -/
def FolderTreeInvariant (First Root : Nat) (Pending : List Nat) (s : UMaterialVaultManager) :
    Prop :=
  Root < First ∧ First ≤ s.Folders.length ∧ s.RootFolderNode = some Root ∧
  (∀ Folder, First ≤ Folder → Folder < s.Folders.length → Folder ∉ Pending →
    ∃ Node Parent ParentNode, s.Folders[Folder]? = some Node ∧ Node.Parent = some Parent ∧
      IsPlaced First Root Pending s Parent ∧ s.Folders[Parent]? = some ParentNode ∧
      Folder ∈ ParentNode.Children ∧
      (Parent = Root ∨ ParentNode.FolderPath.length < Node.FolderPath.length)) ∧
  (∀ Folder Node, IsPlaced First Root Pending s Folder → s.Folders[Folder]? = some Node →
    Node.Children.Nodup ∧
    ∀ Child ∈ Node.Children, First ≤ Child ∧ Child < s.Folders.length ∧ Child ∉ Pending ∧
      ∃ ChildNode, s.Folders[Child]? = some ChildNode ∧ ChildNode.Parent = some Folder) ∧
  (∀ Folder ∈ Pending, First ≤ Folder ∧
    ∃ Node, s.Folders[Folder]? = some Node ∧ Node.Children = []) ∧
  (∀ Pair ∈ s.FolderMap, Pair.2 = Root ∨
    (First ≤ Pair.2 ∧ ∃ Node, s.Folders[Pair.2]? = some Node ∧
      Node.FolderPath.length = Pair.1.length))

/-- What a call of `GetOrCreateFolderNode` on the path `FolderPath` guarantees, from the
state `s` to the state `t` with the pointer `Result`: the invariant of the tree holds again
with the same pending nodes, whose map entries and node records are untouched; a path that
is not empty yields a node; the node yielded is placed, and it is the root or has a path as
long as `FolderPath`; and every node keeps its path and the folder map its pairs. -/
def FolderCallSpec (First Root : Nat) (Pending : List Nat) (FolderPath : FString)
    (s t : UMaterialVaultManager) (Result : Option Nat) : Prop :=
  FolderTreeInvariant First Root Pending t ∧
  (∀ Pair ∈ t.FolderMap, Pair.2 ∈ Pending → Pair ∈ s.FolderMap) ∧
  (∀ Folder ∈ Pending, t.Folders[Folder]? = s.Folders[Folder]?) ∧
  (FolderPath ≠ [] → ∃ Folder, Result = some Folder) ∧
  (∀ Folder, Result = some Folder → IsPlaced First Root Pending t Folder ∧
    (Folder = Root ∨ ∃ Node, t.Folders[Folder]? = some Node ∧
      Node.FolderPath.length = FolderPath.length)) ∧
  (∀ (Folder : Nat) (Node : FMaterialVaultFolderNode), s.Folders[Folder]? = some Node →
    ∃ Node2 : FMaterialVaultFolderNode,
      t.Folders[Folder]? = some Node2 ∧ Node2.FolderPath = Node.FolderPath) ∧
  (∀ Pair ∈ s.FolderMap, Pair ∈ t.FolderMap)

/-- Every key of the asset index is the object path of the item it leads to, letter case
ignored (`ProcessMaterialAsset` stores an item under its own path). -/
def KeysMatchPaths (s : UMaterialVaultManager) : Prop :=
  ∀ MaterialPair ∈ s.MaterialMap, ∀ Item : FMaterialVaultMaterialItem,
    s.Items[MaterialPair.2]? = some Item →
    EqualsIgnoreCase MaterialPair.1 Item.AssetData.GetObjectPathString = true

namespace SMaterialVaultCategoriesPanel

/-- The root categories in order, each with its name and its items. -/
def Buckets (p : SMaterialVaultCategoriesPanel) : List (FString × List Nat) :=
  p.RootCategories.map (fun Category => (NameOf p Category, MaterialsOf p Category))

end SMaterialVaultCategoriesPanel

/-! ## Lemmas on strings and containers -/

theorem EqualsIgnoreCase_iff (a b : FString) :
    EqualsIgnoreCase a b = true ↔ ToLower a = ToLower b := by
  simp [EqualsIgnoreCase]

theorem EqualsIgnoreCase_refl (a : FString) : EqualsIgnoreCase a a = true := by
  simp [EqualsIgnoreCase]

theorem EqualsIgnoreCase_comm (a b : FString) :
    EqualsIgnoreCase a b = EqualsIgnoreCase b a := by
  rw [Bool.eq_iff_iff, EqualsIgnoreCase_iff, EqualsIgnoreCase_iff]
  exact eq_comm

theorem EqualsIgnoreCase_congr {a b : FString} (h : EqualsIgnoreCase a b = true) (c : FString) :
    EqualsIgnoreCase c a = EqualsIgnoreCase c b := by
  rw [EqualsIgnoreCase_iff] at h
  rw [Bool.eq_iff_iff, EqualsIgnoreCase_iff, EqualsIgnoreCase_iff, h]

namespace TMap

variable {V : Type}

theorem Find_congr {k q : FString} (h : EqualsIgnoreCase k q = true) (m : TMap V) :
    TMap.Find m k = TMap.Find m q := by
  induction m with
  | nil => rfl
  | cons kv rest ih =>
    obtain ⟨k0, v0⟩ := kv
    simp only [TMap.Find, EqualsIgnoreCase_congr h k0, ih]

theorem Find_Remove_self (m : TMap V) (k : FString) : TMap.Find (TMap.Remove m k) k = none := by
  induction m with
  | nil => rfl
  | cons kv rest ih =>
    obtain ⟨k0, v0⟩ := kv
    unfold TMap.Remove at ih ⊢
    by_cases h : EqualsIgnoreCase k0 k = true
    · simpa [List.filter, h] using ih
    · simp only [Bool.not_eq_true] at h
      simp [List.filter, h, TMap.Find, ih]

theorem Find_Remove_other (m : TMap V) {k q : FString} (h : EqualsIgnoreCase q k = false) :
    TMap.Find (TMap.Remove m k) q = TMap.Find m q := by
  induction m with
  | nil => rfl
  | cons kv rest ih =>
    obtain ⟨k0, v0⟩ := kv
    unfold TMap.Remove at ih ⊢
    by_cases h0 : EqualsIgnoreCase k0 k = true
    · have hq : EqualsIgnoreCase k0 q = false := by
        rw [← Bool.not_eq_true, EqualsIgnoreCase_iff] at h ⊢
        rw [EqualsIgnoreCase_iff] at h0
        intro hc
        exact h (hc.symm.trans h0)
      simp [List.filter, h0, TMap.Find, hq, ih]
    · simp only [Bool.not_eq_true] at h0
      simp [List.filter, h0, TMap.Find, ih]

theorem Find_append (m : TMap V) (k q : FString) (v : V) :
    TMap.Find (m ++ [(k, v)]) q =
      match TMap.Find m q with
      | some w => some w
      | none => if EqualsIgnoreCase k q then some v else none := by
  induction m with
  | nil => simp [TMap.Find]
  | cons kv rest ih =>
    obtain ⟨k0, v0⟩ := kv
    by_cases h : EqualsIgnoreCase k0 q = true
    · simp [TMap.Find, h]
    · simp only [Bool.not_eq_true] at h
      simpa [TMap.Find, h] using ih

theorem Find_Replace_self (m : TMap V) (k : FString) (v : V) (h : TMap.Contains m k = true) :
    TMap.Find (TMap.Replace m k v) k = some v := by
  induction m with
  | nil => simp [TMap.Contains, TMap.Find] at h
  | cons kv rest ih =>
    obtain ⟨k0, v0⟩ := kv
    by_cases h0 : EqualsIgnoreCase k0 k = true
    · simp [TMap.Replace, h0, TMap.Find, EqualsIgnoreCase_refl]
    · simp only [Bool.not_eq_true] at h0
      simp only [TMap.Contains, TMap.Find, h0, Bool.false_eq_true, if_false] at h
      simpa [TMap.Replace, h0, TMap.Find] using ih h

theorem Find_Replace_other (m : TMap V) {k q : FString} (v : V)
    (h : EqualsIgnoreCase k q = false) :
    TMap.Find (TMap.Replace m k v) q = TMap.Find m q := by
  induction m with
  | nil => rfl
  | cons kv rest ih =>
    obtain ⟨k0, v0⟩ := kv
    by_cases h0 : EqualsIgnoreCase k0 k = true
    · have hq : EqualsIgnoreCase k0 q = false := by
        rw [← Bool.not_eq_true, EqualsIgnoreCase_iff] at h ⊢
        rw [EqualsIgnoreCase_iff] at h0
        intro hc
        exact h (h0.symm.trans hc)
      simp [TMap.Replace, h0, TMap.Find, hq, h]
    · simp only [Bool.not_eq_true] at h0
      simp [TMap.Replace, h0, TMap.Find, ih]

theorem Find_Add_self (m : TMap V) (k : FString) (v : V) :
    TMap.Find (TMap.Add m k v) k = some v := by
  unfold TMap.Add
  split
  · next h => exact Find_Replace_self m k v h
  · next h =>
    have hn : TMap.Find m k = none := by
      simpa [TMap.Contains] using h
    rw [Find_append, hn]
    simp [EqualsIgnoreCase_refl]

theorem Find_Add_other (m : TMap V) {k q : FString} (v : V)
    (h : EqualsIgnoreCase k q = false) :
    TMap.Find (TMap.Add m k v) q = TMap.Find m q := by
  unfold TMap.Add
  split
  · exact Find_Replace_other m v h
  · rw [Find_append]
    cases TMap.Find m q <;> simp [h]

theorem Remove_Remove (m : TMap V) (k : FString) :
    TMap.Remove (TMap.Remove m k) k = TMap.Remove m k := by
  simp [TMap.Remove, List.filter_filter]

theorem Remove_of_Find_none (m : TMap V) (k : FString) (h : TMap.Find m k = none) :
    TMap.Remove m k = m := by
  induction m with
  | nil => rfl
  | cons kv rest ih =>
    obtain ⟨k0, v0⟩ := kv
    by_cases h0 : EqualsIgnoreCase k0 k = true
    · simp [TMap.Find, h0] at h
    · simp only [Bool.not_eq_true] at h0
      simp only [TMap.Find, h0, Bool.false_eq_true, if_false] at h
      have := ih h
      unfold TMap.Remove at this ⊢
      simp [List.filter, h0, this]

end TMap

/-! ## Lemmas on the asset index -/

theorem LoadMaterialMetadata_invalid (s : UMaterialVaultManager) (p : Nat)
    (h : s.Items[p]? = none) : LoadMaterialMetadata s p = s := by
  simp only [LoadMaterialMetadata, h]

theorem LoadMaterialMetadata_cached (s : UMaterialVaultManager) (p : Nat)
    (Item : FMaterialVaultMaterialItem) (Cached : FMaterialVaultMetadata)
    (h : s.Items[p]? = some Item)
    (hc : TMap.Find s.MetadataCache Item.AssetData.GetObjectPathString = some Cached) :
    LoadMaterialMetadata s p =
      { s with Items := s.Items.set p { Item with Metadata := Cached } } := by
  simp only [LoadMaterialMetadata, h, hc, ModifyAt]

theorem LoadMaterialMetadata_file (s : UMaterialVaultManager) (p : Nat)
    (Item : FMaterialVaultMaterialItem) (JsonObject : FJsonObject)
    (h : s.Items[p]? = some Item)
    (hc : TMap.Find s.MetadataCache Item.AssetData.GetObjectPathString = none)
    (hf : LoadFileToString s.Files (GetMetadataFilePath s Item.AssetData) = some (some JsonObject)) :
    LoadMaterialMetadata s p =
      { s with
        Items := s.Items.set p { Item with Metadata := ReadMetadataFields JsonObject Item.Metadata }
        MetadataCache := TMap.Add s.MetadataCache Item.AssetData.GetObjectPathString
          (ReadMetadataFields JsonObject Item.Metadata) } := by
  simp only [LoadMaterialMetadata, h, hc, hf, ModifyAt]

theorem LoadMaterialMetadata_nofile (s : UMaterialVaultManager) (p : Nat)
    (Item : FMaterialVaultMaterialItem)
    (h : s.Items[p]? = some Item)
    (hc : TMap.Find s.MetadataCache Item.AssetData.GetObjectPathString = none)
    (hf : ∀ JsonObject,
      LoadFileToString s.Files (GetMetadataFilePath s Item.AssetData) ≠ some (some JsonObject)) :
    LoadMaterialMetadata s p = s := by
  cases hl : LoadFileToString s.Files (GetMetadataFilePath s Item.AssetData) with
  | none => simp only [LoadMaterialMetadata, h, hc, hl]
  | some Parsed =>
    cases Parsed with
    | none => simp only [LoadMaterialMetadata, h, hc, hl]
    | some JsonObject => exact absurd hl (hf JsonObject)

/-- The four ways `LoadMaterialMetadata` can go. -/
theorem LoadMaterialMetadata_cases (s : UMaterialVaultManager) (p : Nat) :
    (s.Items[p]? = none ∧ LoadMaterialMetadata s p = s) ∨
    (∃ Item Cached, s.Items[p]? = some Item ∧
      TMap.Find s.MetadataCache Item.AssetData.GetObjectPathString = some Cached ∧
      LoadMaterialMetadata s p =
        { s with Items := s.Items.set p { Item with Metadata := Cached } }) ∨
    (∃ Item JsonObject, s.Items[p]? = some Item ∧
      TMap.Find s.MetadataCache Item.AssetData.GetObjectPathString = none ∧
      LoadFileToString s.Files (GetMetadataFilePath s Item.AssetData) = some (some JsonObject) ∧
      LoadMaterialMetadata s p =
        { s with
          Items := s.Items.set p
            { Item with Metadata := ReadMetadataFields JsonObject Item.Metadata }
          MetadataCache := TMap.Add s.MetadataCache Item.AssetData.GetObjectPathString
            (ReadMetadataFields JsonObject Item.Metadata) }) ∨
    (∃ Item, s.Items[p]? = some Item ∧
      TMap.Find s.MetadataCache Item.AssetData.GetObjectPathString = none ∧
      LoadMaterialMetadata s p = s) := by
  cases h : s.Items[p]? with
  | none => exact Or.inl ⟨rfl, LoadMaterialMetadata_invalid s p h⟩
  | some Item =>
    cases hc : TMap.Find s.MetadataCache Item.AssetData.GetObjectPathString with
    | some Cached =>
      exact Or.inr (Or.inl ⟨Item, Cached, rfl, hc, LoadMaterialMetadata_cached s p Item Cached h hc⟩)
    | none =>
      by_cases hf : ∃ JsonObject,
          LoadFileToString s.Files (GetMetadataFilePath s Item.AssetData) = some (some JsonObject)
      · obtain ⟨JsonObject, hf⟩ := hf
        exact Or.inr (Or.inr (Or.inl ⟨Item, JsonObject, rfl, hc, hf,
          LoadMaterialMetadata_file s p Item JsonObject h hc hf⟩))
      · refine Or.inr (Or.inr (Or.inr ⟨Item, rfl, hc, ?_⟩))
        exact LoadMaterialMetadata_nofile s p Item h hc (fun J hJ => hf ⟨J, hJ⟩)

theorem LoadMaterialMetadata_MaterialMap (s : UMaterialVaultManager) (p : Nat) :
    (LoadMaterialMetadata s p).MaterialMap = s.MaterialMap := by
  rcases LoadMaterialMetadata_cases s p with ⟨_, h⟩ | ⟨_, _, _, _, h⟩ | ⟨_, _, _, _, _, h⟩ |
    ⟨_, _, _, h⟩ <;> rw [h]

theorem LoadMaterialMetadata_frame (s : UMaterialVaultManager) (p : Nat) :
    (LoadMaterialMetadata s p).FolderMap = s.FolderMap ∧
    (LoadMaterialMetadata s p).Folders = s.Folders ∧
    (LoadMaterialMetadata s p).RootFolderNode = s.RootFolderNode ∧
    (LoadMaterialMetadata s p).Settings = s.Settings ∧
    (LoadMaterialMetadata s p).Items.length = s.Items.length := by
  rcases LoadMaterialMetadata_cases s p with ⟨_, h⟩ | ⟨_, _, _, _, h⟩ | ⟨_, _, _, _, _, h⟩ |
    ⟨_, _, _, h⟩ <;> rw [h] <;> simp

theorem ProcessMaterialAsset_new (s : UMaterialVaultManager) (AssetData : FAssetData)
    (Now : FDateTime) (h : TMap.Find s.MaterialMap AssetData.GetObjectPathString = none) :
    ProcessMaterialAsset s AssetData Now =
      LoadMaterialMetadata { s with
        Items := s.Items ++ [FMaterialVaultMaterialItem.FromAssetData AssetData Now]
        MaterialMap := TMap.Add s.MaterialMap AssetData.GetObjectPathString s.Items.length }
        s.Items.length := by
  simp only [ProcessMaterialAsset, h]

theorem ProcessMaterialAsset_existing (s : UMaterialVaultManager) (AssetData : FAssetData)
    (Now : FDateTime) (MaterialItem : Nat)
    (h : TMap.Find s.MaterialMap AssetData.GetObjectPathString = some MaterialItem) :
    ProcessMaterialAsset s AssetData Now =
      LoadMaterialMetadata { s with
        Items := ModifyAt s.Items MaterialItem (fun it => { it with
          AssetData := AssetData
          MaterialPtr := AssetData.ToSoftObjectPath
          DisplayName := AssetData.AssetName }) }
        MaterialItem := by
  simp only [ProcessMaterialAsset, h]

theorem ProcessMaterialAsset_Find_other (s : UMaterialVaultManager) (AssetData : FAssetData)
    (Now : FDateTime) {Other : FString}
    (h : EqualsIgnoreCase Other AssetData.GetObjectPathString = false) :
    GetMaterialByPath (ProcessMaterialAsset s AssetData Now) Other = GetMaterialByPath s Other := by
  rw [EqualsIgnoreCase_comm] at h
  unfold GetMaterialByPath
  cases hf : TMap.Find s.MaterialMap AssetData.GetObjectPathString with
  | none =>
    rw [ProcessMaterialAsset_new s AssetData Now hf, LoadMaterialMetadata_MaterialMap]
    exact TMap.Find_Add_other _ _ h
  | some MaterialItem =>
    rw [ProcessMaterialAsset_existing s AssetData Now MaterialItem hf,
      LoadMaterialMetadata_MaterialMap]

theorem ProcessMaterialAsset_Find_self (s : UMaterialVaultManager) (AssetData : FAssetData)
    (Now : FDateTime) :
    ∃ MaterialItem, GetMaterialByPath (ProcessMaterialAsset s AssetData Now)
      AssetData.GetObjectPathString = some MaterialItem := by
  unfold GetMaterialByPath
  cases hf : TMap.Find s.MaterialMap AssetData.GetObjectPathString with
  | none =>
    rw [ProcessMaterialAsset_new s AssetData Now hf, LoadMaterialMetadata_MaterialMap]
    exact ⟨_, TMap.Find_Add_self _ _ _⟩
  | some MaterialItem =>
    rw [ProcessMaterialAsset_existing s AssetData Now MaterialItem hf,
      LoadMaterialMetadata_MaterialMap]
    exact ⟨MaterialItem, hf⟩

/-! ## Lemmas on the folder tree -/

theorem ModifyAt_length {α : Type} (l : List α) (i : Nat) (f : α → α) :
    (ModifyAt l i f).length = l.length := by
  unfold ModifyAt
  split <;> simp

theorem ModifyAt_getElem? {α : Type} (l : List α) (i n : Nat) (f : α → α) :
    (ModifyAt l i f)[n]? = if i = n then (l[n]?).map f else l[n]? := by
  unfold ModifyAt
  cases h : l[i]? with
  | none =>
    by_cases hin : i = n
    · subst hin
      simp [h]
    · simp [hin]
  | some x =>
    by_cases hin : i = n
    · subst hin
      have hlt : i < l.length := by
        rcases Nat.lt_or_ge i l.length with hlt | hge
        · exact hlt
        · rw [List.getElem?_eq_none hge] at h
          cases h
      simp [h, List.getElem?_set, hlt]
    · simp [List.getElem?_set, hin]

theorem TMap.Find_Add_cases {V : Type} (m : TMap V) (k q : FString) (v n : V)
    (h : TMap.Find (TMap.Add m k v) q = some n) : n = v ∨ TMap.Find m q = some n := by
  by_cases hk : EqualsIgnoreCase k q = true
  · left
    rw [← TMap.Find_congr hk, TMap.Find_Add_self] at h
    exact (Option.some.inj h).symm
  · right
    simp only [Bool.not_eq_true] at hk
    rw [TMap.Find_Add_other m v hk] at h
    exact h

theorem SameIndex_refl (s : UMaterialVaultManager) : SameIndex s s := by
  simp [SameIndex]

theorem SameIndex_trans {s t u : UMaterialVaultManager} (h1 : SameIndex s t)
    (h2 : SameIndex t u) : SameIndex s u := by
  unfold SameIndex at *
  obtain ⟨a1, a2, a3, a4, a5, a6, a7, a8, a9⟩ := h1
  obtain ⟨b1, b2, b3, b4, b5, b6, b7, b8, b9⟩ := h2
  exact ⟨b1.trans a1, b2.trans a2, b3.trans a3, b4.trans a4, b5.trans a5, b6.trans a6,
    b7.trans a7, b8.trans a8, b9.trans a9⟩

theorem FolderGrows_refl (s : UMaterialVaultManager) : FolderGrows s s :=
  ⟨fun _ _ h => h, fun _ node h => ⟨node, h, fun _ hp => hp⟩⟩

theorem FolderGrows_trans {s t u : UMaterialVaultManager} (h1 : FolderGrows s t)
    (h2 : FolderGrows t u) : FolderGrows s u := by
  refine ⟨fun q n h => h2.1 q n (h1.1 q n h), fun n node h => ?_⟩
  obtain ⟨node2, hn2, hsub2⟩ := h1.2 n node h
  obtain ⟨node3, hn3, hsub3⟩ := h2.2 n node2 hn2
  exact ⟨node3, hn3, fun p hp => hsub3 p (hsub2 p hp)⟩

theorem IsAttached_mono {s t : UMaterialVaultManager} (h : FolderGrows s t) {q : FString}
    {p : Nat} (ha : IsAttached s q p) : IsAttached t q p := by
  obtain ⟨n, node, hf, hn, hp⟩ := ha
  obtain ⟨node2, hn2, hsub⟩ := h.2 n node hn
  exact ⟨n, node2, h.1 q n hf, hn2, hsub p hp⟩

theorem AttachChild_spec (s : UMaterialVaultManager) (Child Parent : Nat) :
    SameIndex s (AttachChild s Child Parent) ∧ FolderGrows s (AttachChild s Child Parent) ∧
    (AttachChild s Child Parent).FolderMap = s.FolderMap ∧
    (AttachChild s Child Parent).Folders.length = s.Folders.length := by
  refine ⟨by simp [SameIndex, AttachChild], ⟨fun _ _ h => h, ?_⟩, rfl, ?_⟩
  · intro n node hn
    simp only [AttachChild, ModifyAt_getElem?, hn]
    by_cases h1 : Parent = n <;> by_cases h2 : Child = n <;> simp [h1, h2]
  · simp [AttachChild, ModifyAt_length]

theorem FindLastCharByPredicate_lt (p : Char → Bool) (s : FString) (i : Nat)
    (h : FindLastCharByPredicate p s = some i) : i < s.length := by
  induction s generalizing i with
  | nil => simp [FindLastCharByPredicate] at h
  | cons c rest ih =>
    unfold FindLastCharByPredicate at h
    cases hr : FindLastCharByPredicate p rest with
    | some j =>
      rw [hr] at h
      simp only [Option.some.injEq] at h
      have := ih j hr
      simp only [List.length_cons]
      omega
    | none =>
      rw [hr] at h
      simp only at h
      split at h
      · simp only [Option.some.injEq] at h
        simp only [List.length_cons]
        omega
      · cases h

theorem GetPath_length_lt (FolderPath : FString) (h : GetPath FolderPath ≠ []) :
    (GetPath FolderPath).length < FolderPath.length := by
  unfold GetPath at h ⊢
  cases hp : FindLastCharByPredicate IsSlashOrBackslash FolderPath with
  | none => simp [hp] at h
  | some Pos =>
    have := FindLastCharByPredicate_lt _ _ _ hp
    simp only [List.length_take]
    omega

theorem CreateFolderNode_isSome (FolderPath : FString) (h : FolderPath ≠ []) :
    ∃ Node, CreateFolderNode FolderPath = some Node := by
  unfold CreateFolderNode
  cases FolderPath with
  | nil => exact absurd rfl h
  | cons c rest => exact ⟨_, rfl⟩

theorem FolderMapValid_Add (s : UMaterialVaultManager) (Node : FMaterialVaultFolderNode)
    (FolderPath : FString) (h : FolderMapValid s) :
    FolderMapValid { s with
      Folders := s.Folders ++ [Node]
      FolderMap := TMap.Add s.FolderMap FolderPath s.Folders.length } := by
  intro q n hq
  simp only [List.length_append, List.length_singleton]
  rcases TMap.Find_Add_cases _ _ _ _ _ hq with hn | hn
  · omega
  · have := h q n hn
    omega

theorem FolderGrows_Add (s : UMaterialVaultManager) (Node : FMaterialVaultFolderNode)
    (FolderPath : FString) (h : TMap.Find s.FolderMap FolderPath = none) :
    FolderGrows s { s with
      Folders := s.Folders ++ [Node]
      FolderMap := TMap.Add s.FolderMap FolderPath s.Folders.length } := by
  refine ⟨fun q n hq => ?_, fun n node hn => ⟨node, ?_, fun _ hp => hp⟩⟩
  · by_cases hk : EqualsIgnoreCase FolderPath q = true
    · rw [← TMap.Find_congr hk, h] at hq
      cases hq
    · simp only [Bool.not_eq_true] at hk
      simp only [TMap.Find_Add_other _ _ hk, hq]
  · have hlt : n < s.Folders.length := by
      rcases Nat.lt_or_ge n s.Folders.length with hlt | hge
      · exact hlt
      · rw [List.getElem?_eq_none hge] at hn
        cases hn
    simp only [List.getElem?_append_left hlt, hn]

theorem GetOrCreateFolderNodeFuel_existing (Fuel : Nat) (s : UMaterialVaultManager)
    (FolderPath : FString) (Existing : Nat)
    (h : TMap.Find s.FolderMap FolderPath = some Existing) :
    GetOrCreateFolderNodeFuel (Fuel + 1) s FolderPath = (s, some Existing) := by
  simp only [GetOrCreateFolderNodeFuel, h]

theorem GetOrCreateFolderNodeFuel_parent (Fuel : Nat) (s s2 : UMaterialVaultManager)
    (FolderPath : FString) (Node : FMaterialVaultFolderNode) (ParentFolder : Nat)
    (h : TMap.Find s.FolderMap FolderPath = none)
    (hNode : CreateFolderNode FolderPath = some Node)
    (hcond : (!(GetPath FolderPath).isEmpty &&
      !EqualsIgnoreCase (GetPath FolderPath) FolderPath) = true)
    (hrec : GetOrCreateFolderNodeFuel Fuel (WithNewFolder s FolderPath Node) (GetPath FolderPath) =
      (s2, some ParentFolder)) :
    GetOrCreateFolderNodeFuel (Fuel + 1) s FolderPath =
      (AttachChild s2 s.Folders.length ParentFolder, some s.Folders.length) := by
  unfold WithNewFolder at hrec
  simp only [GetOrCreateFolderNodeFuel, h, hNode, hcond, if_true, hrec]

theorem GetOrCreateFolderNodeFuel_root (Fuel : Nat) (s : UMaterialVaultManager)
    (FolderPath : FString) (Node : FMaterialVaultFolderNode) (Root : Nat)
    (h : TMap.Find s.FolderMap FolderPath = none)
    (hNode : CreateFolderNode FolderPath = some Node)
    (hcond : (!(GetPath FolderPath).isEmpty &&
      !EqualsIgnoreCase (GetPath FolderPath) FolderPath) = false)
    (hroot : s.RootFolderNode = some Root) :
    GetOrCreateFolderNodeFuel (Fuel + 1) s FolderPath =
      (AttachChild (WithNewFolder s FolderPath Node) s.Folders.length Root,
        some s.Folders.length) := by
  unfold WithNewFolder
  simp only [GetOrCreateFolderNodeFuel, h, hNode, hcond, Bool.false_eq_true, if_false, hroot]

theorem GetOrCreateFolderNodeFuel_noroot (Fuel : Nat) (s : UMaterialVaultManager)
    (FolderPath : FString) (Node : FMaterialVaultFolderNode)
    (h : TMap.Find s.FolderMap FolderPath = none)
    (hNode : CreateFolderNode FolderPath = some Node)
    (hcond : (!(GetPath FolderPath).isEmpty &&
      !EqualsIgnoreCase (GetPath FolderPath) FolderPath) = false)
    (hroot : s.RootFolderNode = none) :
    GetOrCreateFolderNodeFuel (Fuel + 1) s FolderPath =
      (WithNewFolder s FolderPath Node, some s.Folders.length) := by
  unfold WithNewFolder
  simp only [GetOrCreateFolderNodeFuel, h, hNode, hcond, Bool.false_eq_true, if_false, hroot]

theorem GetOrCreateFolderNodeFuel_spec (Fuel : Nat) :
    ∀ (s : UMaterialVaultManager) (FolderPath : FString),
      FolderPath ≠ [] → FolderPath.length < Fuel → FolderMapValid s →
      ∃ n, (GetOrCreateFolderNodeFuel Fuel s FolderPath).2 = some n ∧
        TMap.Find (GetOrCreateFolderNodeFuel Fuel s FolderPath).1.FolderMap FolderPath = some n ∧
        SameIndex s (GetOrCreateFolderNodeFuel Fuel s FolderPath).1 ∧
        FolderGrows s (GetOrCreateFolderNodeFuel Fuel s FolderPath).1 ∧
        FolderMapValid (GetOrCreateFolderNodeFuel Fuel s FolderPath).1 := by
  induction Fuel with
  | zero => intro s FolderPath _ hlen; exact absurd hlen (Nat.not_lt_zero _)
  | succ Fuel ih =>
    intro s FolderPath hne hlen hvalid
    cases hfind : TMap.Find s.FolderMap FolderPath with
    | some Existing =>
      rw [GetOrCreateFolderNodeFuel_existing Fuel s FolderPath Existing hfind]
      exact ⟨Existing, rfl, hfind, SameIndex_refl s, FolderGrows_refl s, hvalid⟩
    | none =>
      obtain ⟨Node, hNode⟩ := CreateFolderNode_isSome FolderPath hne
      have hv1 : FolderMapValid (WithNewFolder s FolderPath Node) :=
        FolderMapValid_Add s Node FolderPath hvalid
      have hg1 : FolderGrows s (WithNewFolder s FolderPath Node) :=
        FolderGrows_Add s Node FolderPath hfind
      have hs1 : SameIndex s (WithNewFolder s FolderPath Node) := by
        simp [SameIndex, WithNewFolder]
      have hf1 : TMap.Find (WithNewFolder s FolderPath Node).FolderMap FolderPath =
          some s.Folders.length := TMap.Find_Add_self _ _ _
      have hl1 : (WithNewFolder s FolderPath Node).Folders.length = s.Folders.length + 1 := by
        simp [WithNewFolder]
      cases hcond : (!(GetPath FolderPath).isEmpty &&
          !EqualsIgnoreCase (GetPath FolderPath) FolderPath) with
      | true =>
        have hpne : GetPath FolderPath ≠ [] := by
          intro hnil
          rw [hnil] at hcond
          simp at hcond
        have hplen := GetPath_length_lt FolderPath hpne
        obtain ⟨n2, hr, hf2, hs2, hg2, hv2⟩ := ih (WithNewFolder s FolderPath Node)
          (GetPath FolderPath) hpne (by omega) hv1
        rcases hres : GetOrCreateFolderNodeFuel Fuel (WithNewFolder s FolderPath Node)
          (GetPath FolderPath) with ⟨s2, r⟩
        rw [hres] at hr hf2 hs2 hg2 hv2
        simp only at hr hf2 hs2 hg2 hv2
        subst hr
        rw [GetOrCreateFolderNodeFuel_parent Fuel s s2 FolderPath Node n2 hfind hNode hcond hres]
        have ha := AttachChild_spec s2 s.Folders.length n2
        refine ⟨s.Folders.length, rfl, ?_, ?_, ?_, ?_⟩
        · show TMap.Find (AttachChild s2 s.Folders.length n2).FolderMap FolderPath = _
          rw [ha.2.2.1]
          exact hg2.1 _ _ hf1
        · exact SameIndex_trans (SameIndex_trans hs1 hs2) ha.1
        · exact FolderGrows_trans (FolderGrows_trans hg1 hg2) ha.2.1
        · intro q n hq
          have hq2 : TMap.Find s2.FolderMap q = some n := by
            rw [← ha.2.2.1]
            exact hq
          have := hv2 q n hq2
          show n < (AttachChild s2 s.Folders.length n2).Folders.length
          rw [ha.2.2.2]
          exact this
      | false =>
        cases hroot : s.RootFolderNode with
        | none =>
          rw [GetOrCreateFolderNodeFuel_noroot Fuel s FolderPath Node hfind hNode hcond hroot]
          exact ⟨s.Folders.length, rfl, hf1, hs1, hg1, hv1⟩
        | some Root =>
          rw [GetOrCreateFolderNodeFuel_root Fuel s FolderPath Node Root hfind hNode hcond hroot]
          have ha := AttachChild_spec (WithNewFolder s FolderPath Node) s.Folders.length Root
          refine ⟨s.Folders.length, rfl, ?_, ?_, ?_, ?_⟩
          · show TMap.Find (AttachChild _ s.Folders.length Root).FolderMap FolderPath = _
            rw [ha.2.2.1]
            exact hf1
          · exact SameIndex_trans hs1 ha.1
          · exact FolderGrows_trans hg1 ha.2.1
          · intro q n hq
            have hq2 : TMap.Find (WithNewFolder s FolderPath Node).FolderMap q = some n := by
              rw [← ha.2.2.1]
              exact hq
            have := hv1 q n hq2
            show n < (AttachChild _ s.Folders.length Root).Folders.length
            rw [ha.2.2.2]
            exact this

theorem StartsWith_nil (pat : FString) : StartsWith [] pat = false := by
  cases pat <;> simp [StartsWith, ToLower, List.isPrefixOf]

theorem OrganizePackagePath_ne_nil (PackagePath : FString) :
    OrganizePackagePath PackagePath ≠ [] := by
  cases PackagePath with
  | nil => decide
  | cons c rest =>
    unfold OrganizePackagePath
    split
    · exact List.cons_ne_nil _ _
    · split
      · exact List.cons_ne_nil _ _
      · simp only
        split
        · exact List.cons_ne_nil _ _
        · split <;> exact List.cons_ne_nil _ _

theorem AttachMaterial_invalid (s : UMaterialVaultManager) (MaterialItem : Nat)
    (h : s.Items[MaterialItem]? = none) : AttachMaterial s MaterialItem = s := by
  simp only [AttachMaterial, h]

theorem AttachMaterial_spec (s : UMaterialVaultManager) (MaterialItem : Nat)
    (hvalid : FolderMapValid s) :
    SameIndex s (AttachMaterial s MaterialItem) ∧ FolderGrows s (AttachMaterial s MaterialItem) ∧
    FolderMapValid (AttachMaterial s MaterialItem) ∧
    ∀ Item, s.Items[MaterialItem]? = some Item →
      IsAttached (AttachMaterial s MaterialItem)
        (OrganizePackagePath (FNameToString Item.AssetData.PackagePath)) MaterialItem := by
  cases hItem : s.Items[MaterialItem]? with
  | none =>
    rw [AttachMaterial_invalid s MaterialItem hItem]
    exact ⟨SameIndex_refl s, FolderGrows_refl s, hvalid, fun _ h => by cases h⟩
  | some Item =>
    obtain ⟨n, hr, hf, hs, hg, hv⟩ := GetOrCreateFolderNodeFuel_spec
      ((OrganizePackagePath (FNameToString Item.AssetData.PackagePath)).length + 1) s
      (OrganizePackagePath (FNameToString Item.AssetData.PackagePath))
      (OrganizePackagePath_ne_nil _) (Nat.lt_succ_self _) hvalid
    rcases hres : GetOrCreateFolderNodeFuel
      ((OrganizePackagePath (FNameToString Item.AssetData.PackagePath)).length + 1) s
      (OrganizePackagePath (FNameToString Item.AssetData.PackagePath)) with ⟨s1, r⟩
    rw [hres] at hr hf hs hg hv
    simp only at hr hf hs hg hv
    subst hr
    have heq : AttachMaterial s MaterialItem = { s1 with
        Folders := ModifyAt s1.Folders n
          (fun node => { node with Materials := node.Materials ++ [MaterialItem] }) } := by
      simp only [AttachMaterial, hItem, GetOrCreateFolderNode, hres]
    rw [heq]
    have hnlt : n < s1.Folders.length := hv _ n hf
    refine ⟨?_, ?_, ?_, ?_⟩
    · exact SameIndex_trans hs (by simp [SameIndex])
    · refine FolderGrows_trans hg ⟨fun _ _ h => h, fun m node hm => ?_⟩
      simp only [ModifyAt_getElem?, hm]
      by_cases hnm : n = m
      · refine ⟨{ node with Materials := node.Materials ++ [MaterialItem] }, by simp [hnm], ?_⟩
        intro p hp
        exact List.mem_append_left _ hp
      · exact ⟨node, by simp [hnm], fun _ hp => hp⟩
    · intro q m hq
      simp only [ModifyAt_length]
      exact hv q m hq
    · intro Item2 h2
      obtain rfl := Option.some.inj h2
      obtain ⟨node, hnode⟩ : ∃ node, s1.Folders[n]? = some node :=
        ⟨s1.Folders[n], List.getElem?_eq_getElem hnlt⟩
      refine ⟨n, { node with Materials := node.Materials ++ [MaterialItem] }, ?_, ?_, ?_⟩
      · unfold FindFolder
        exact hf
      · simp only [ModifyAt_getElem?, hnode, if_true, Option.map_some']
      · simp

theorem AttachAll_spec (Pairs : TMap Nat) :
    ∀ s : UMaterialVaultManager, FolderMapValid s →
      SameIndex s (Pairs.foldl (fun acc MaterialPair => AttachMaterial acc MaterialPair.2) s) ∧
      FolderGrows s (Pairs.foldl (fun acc MaterialPair => AttachMaterial acc MaterialPair.2) s) ∧
      ∀ Key MaterialItem Item, (Key, MaterialItem) ∈ Pairs →
        s.Items[MaterialItem]? = some Item →
        IsAttached (Pairs.foldl (fun acc MaterialPair => AttachMaterial acc MaterialPair.2) s)
          (OrganizePackagePath (FNameToString Item.AssetData.PackagePath)) MaterialItem := by
  induction Pairs with
  | nil =>
    intro s _
    exact ⟨SameIndex_refl s, FolderGrows_refl s, fun _ _ _ h => by cases h⟩
  | cons Pair rest ih =>
    intro s hvalid
    obtain ⟨hs1, hg1, hv1, ha1⟩ := AttachMaterial_spec s Pair.2 hvalid
    obtain ⟨hs2, hg2, ha2⟩ := ih (AttachMaterial s Pair.2) hv1
    simp only [List.foldl_cons]
    refine ⟨SameIndex_trans hs1 hs2, FolderGrows_trans hg1 hg2, ?_⟩
    intro Key MaterialItem Item hmem hItem
    rcases List.mem_cons.mp hmem with hhead | htail
    · have : Pair.2 = MaterialItem := by rw [← hhead]
      subst this
      exact IsAttached_mono hg2 (ha1 Item hItem)
    · refine ha2 Key MaterialItem Item htail ?_
      rw [hs1.2.1]
      exact hItem

theorem BuildFolderStructure_null (s : UMaterialVaultManager) (h : s.RootFolderNode = none) :
    BuildFolderStructure s = s := by
  simp only [BuildFolderStructure, h]

theorem ResetFolderTree_spec (s : UMaterialVaultManager) (Root : Nat)
    (hValid : Root < s.Folders.length) :
    SameIndex s (ResetFolderTree s Root) ∧ FolderMapValid (ResetFolderTree s Root) := by
  refine ⟨by simp [SameIndex, ResetFolderTree], ?_⟩
  intro q n hq
  simp only [ResetFolderTree, ModifyAt_length, List.length_append, List.length_cons,
    List.length_nil] at hq ⊢
  rcases TMap.Find_Add_cases _ _ _ _ _ hq with h | hq
  · omega
  rcases TMap.Find_Add_cases _ _ _ _ _ hq with h | hq
  · omega
  rcases TMap.Find_Add_cases _ _ _ _ _ hq with h | hq
  · omega
  rcases TMap.Find_Add_cases _ _ _ _ _ hq with h | hq
  · omega
  · simp [TMap.Find] at hq

theorem BuildFolderStructure_root (s : UMaterialVaultManager) (Root : Nat)
    (hRoot : s.RootFolderNode = some Root) :
    BuildFolderStructure s =
      s.MaterialMap.foldl (fun acc MaterialPair => AttachMaterial acc MaterialPair.2)
        (ResetFolderTree s Root) := by
  simp only [BuildFolderStructure, hRoot]

theorem GetOrCreateFolderNodeFuel_SameIndex (Fuel : Nat) :
    ∀ (s : UMaterialVaultManager) (FolderPath : FString),
      SameIndex s (GetOrCreateFolderNodeFuel Fuel s FolderPath).1 := by
  induction Fuel with
  | zero => intro s _; exact SameIndex_refl s
  | succ Fuel ih =>
    intro s FolderPath
    cases hfind : TMap.Find s.FolderMap FolderPath with
    | some Existing =>
      rw [GetOrCreateFolderNodeFuel_existing Fuel s FolderPath Existing hfind]
      exact SameIndex_refl s
    | none =>
      cases hNode : CreateFolderNode FolderPath with
      | none =>
        have : GetOrCreateFolderNodeFuel (Fuel + 1) s FolderPath = (s, none) := by
          simp only [GetOrCreateFolderNodeFuel, hfind, hNode]
        rw [this]
        exact SameIndex_refl s
      | some Node =>
        have hs1 : SameIndex s (WithNewFolder s FolderPath Node) := by
          simp [SameIndex, WithNewFolder]
        cases hcond : (!(GetPath FolderPath).isEmpty &&
            !EqualsIgnoreCase (GetPath FolderPath) FolderPath) with
        | true =>
          have hs2 := ih (WithNewFolder s FolderPath Node) (GetPath FolderPath)
          rcases hres : GetOrCreateFolderNodeFuel Fuel (WithNewFolder s FolderPath Node)
            (GetPath FolderPath) with ⟨s2, r⟩
          rw [hres] at hs2
          cases r with
          | some ParentFolder =>
            rw [GetOrCreateFolderNodeFuel_parent Fuel s s2 FolderPath Node ParentFolder hfind
              hNode hcond hres]
            exact SameIndex_trans (SameIndex_trans hs1 hs2) (AttachChild_spec _ _ _).1
          | none =>
            have : GetOrCreateFolderNodeFuel (Fuel + 1) s FolderPath =
                (s2, some s.Folders.length) := by
              unfold WithNewFolder at hres
              simp only [GetOrCreateFolderNodeFuel, hfind, hNode, hcond, if_true, hres]
            rw [this]
            exact SameIndex_trans hs1 hs2
        | false =>
          cases hroot : s.RootFolderNode with
          | none =>
            rw [GetOrCreateFolderNodeFuel_noroot Fuel s FolderPath Node hfind hNode hcond hroot]
            exact hs1
          | some Root =>
            rw [GetOrCreateFolderNodeFuel_root Fuel s FolderPath Node Root hfind hNode hcond
              hroot]
            exact SameIndex_trans hs1 (AttachChild_spec _ _ _).1

theorem AttachMaterial_SameIndex (s : UMaterialVaultManager) (MaterialItem : Nat) :
    SameIndex s (AttachMaterial s MaterialItem) := by
  cases hItem : s.Items[MaterialItem]? with
  | none =>
    rw [AttachMaterial_invalid s MaterialItem hItem]
    exact SameIndex_refl s
  | some Item =>
    have hs := GetOrCreateFolderNodeFuel_SameIndex
      ((OrganizePackagePath (FNameToString Item.AssetData.PackagePath)).length + 1) s
      (OrganizePackagePath (FNameToString Item.AssetData.PackagePath))
    rcases hres : GetOrCreateFolderNodeFuel
      ((OrganizePackagePath (FNameToString Item.AssetData.PackagePath)).length + 1) s
      (OrganizePackagePath (FNameToString Item.AssetData.PackagePath)) with ⟨s1, r⟩
    rw [hres] at hs
    cases r with
    | none =>
      have : AttachMaterial s MaterialItem = s1 := by
        simp only [AttachMaterial, hItem, GetOrCreateFolderNode, hres]
      rw [this]
      exact hs
    | some n =>
      have : AttachMaterial s MaterialItem = { s1 with
          Folders := ModifyAt s1.Folders n
            (fun node => { node with Materials := node.Materials ++ [MaterialItem] }) } := by
        simp only [AttachMaterial, hItem, GetOrCreateFolderNode, hres]
      rw [this]
      exact SameIndex_trans hs (by simp [SameIndex])

theorem AttachAll_SameIndex (Pairs : TMap Nat) :
    ∀ s : UMaterialVaultManager,
      SameIndex s (Pairs.foldl (fun acc MaterialPair => AttachMaterial acc MaterialPair.2) s) := by
  induction Pairs with
  | nil => intro s; exact SameIndex_refl s
  | cons Pair rest ih =>
    intro s
    simp only [List.foldl_cons]
    exact SameIndex_trans (AttachMaterial_SameIndex s Pair.2) (ih _)

theorem BuildFolderStructure_SameIndex (s : UMaterialVaultManager) :
    SameIndex s (BuildFolderStructure s) := by
  cases hRoot : s.RootFolderNode with
  | none =>
    rw [BuildFolderStructure_null s hRoot]
    exact SameIndex_refl s
  | some Root =>
    rw [BuildFolderStructure_root s Root hRoot]
    refine SameIndex_trans ?_ (AttachAll_SameIndex _ _)
    simp [SameIndex, ResetFolderTree]

/-! ## Lemmas on upsert -/

theorem LoadMaterialMetadata_idem (s : UMaterialVaultManager) (p : Nat) :
    LoadMaterialMetadata (LoadMaterialMetadata s p) p = LoadMaterialMetadata s p := by
  rcases LoadMaterialMetadata_cases s p with ⟨_, h⟩ | ⟨Item, Cached, hI, hc, h⟩ |
    ⟨Item, JsonObject, hI, hc, _, h⟩ | ⟨_, _, _, h⟩
  · rw [h, h]
  · rw [h]
    have hlt : p < s.Items.length := (List.getElem?_eq_some.mp hI).1
    rw [LoadMaterialMetadata_cached
      { s with Items := s.Items.set p { Item with Metadata := Cached } } p
      { Item with Metadata := Cached } Cached
      (by simp [List.getElem?_set_self hlt]) hc]
    simp [List.set_set]
  · rw [h]
    have hlt : p < s.Items.length := (List.getElem?_eq_some.mp hI).1
    rw [LoadMaterialMetadata_cached
      { s with
        Items := s.Items.set p
          { Item with Metadata := ReadMetadataFields JsonObject Item.Metadata }
        MetadataCache := TMap.Add s.MetadataCache Item.AssetData.GetObjectPathString
          (ReadMetadataFields JsonObject Item.Metadata) } p
      { Item with Metadata := ReadMetadataFields JsonObject Item.Metadata }
      (ReadMetadataFields JsonObject Item.Metadata)
      (by simp [List.getElem?_set_self hlt]) (TMap.Find_Add_self _ _ _)]
    simp [List.set_set]
  · rw [h, h]

theorem LoadMaterialMetadata_item (s : UMaterialVaultManager) (p : Nat)
    (X : FMaterialVaultMaterialItem) (hX : s.Items[p]? = some X) :
    ∃ Y : FMaterialVaultMaterialItem, (LoadMaterialMetadata s p).Items[p]? = some Y ∧
      Y.AssetData = X.AssetData ∧ Y.MaterialPtr = X.MaterialPtr ∧
      Y.DisplayName = X.DisplayName := by
  have hlt : p < s.Items.length := (List.getElem?_eq_some.mp hX).1
  rcases LoadMaterialMetadata_cases s p with ⟨_, h⟩ | ⟨Item, Cached, hI, _, h⟩ |
    ⟨Item, JsonObject, hI, _, _, h⟩ | ⟨_, _, _, h⟩
  · rw [h]
    exact ⟨X, hX, rfl, rfl, rfl⟩
  · rw [h]
    obtain rfl : Item = X := Option.some.inj (hI.symm.trans hX)
    exact ⟨{ Item with Metadata := Cached }, by simp [List.getElem?_set_self hlt],
      rfl, rfl, rfl⟩
  · rw [h]
    obtain rfl : Item = X := Option.some.inj (hI.symm.trans hX)
    exact ⟨{ Item with Metadata := ReadMetadataFields JsonObject Item.Metadata },
      by simp [List.getElem?_set_self hlt], rfl, rfl, rfl⟩
  · rw [h]
    exact ⟨X, hX, rfl, rfl, rfl⟩

theorem TMap.Find_mem {V : Type} (m : TMap V) (k : FString) (v : V)
    (h : TMap.Find m k = some v) : ∃ k0, (k0, v) ∈ m ∧ EqualsIgnoreCase k0 k = true := by
  induction m with
  | nil => simp [TMap.Find] at h
  | cons kv rest ih =>
    obtain ⟨k0, v0⟩ := kv
    by_cases h0 : EqualsIgnoreCase k0 k = true
    · simp only [TMap.Find, h0, if_true, Option.some.injEq] at h
      subst h
      exact ⟨k0, List.mem_cons_self _ _, h0⟩
    · simp only [Bool.not_eq_true] at h0
      simp only [TMap.Find, h0, Bool.false_eq_true, if_false] at h
      obtain ⟨k1, hmem, hk1⟩ := ih h
      exact ⟨k1, List.mem_cons_of_mem _ hmem, hk1⟩

theorem TMap.Find_none_iff {V : Type} (m : TMap V) (k : FString) :
    TMap.Find m k = none ↔ ∀ kv ∈ m, EqualsIgnoreCase kv.1 k = false := by
  induction m with
  | nil => simp [TMap.Find]
  | cons kv rest ih =>
    obtain ⟨k0, v0⟩ := kv
    rw [List.forall_mem_cons]
    by_cases h0 : EqualsIgnoreCase k0 k = true
    · simp only [TMap.Find, h0, if_true]
      constructor
      · intro h
        cases h
      · intro h
        cases h.1
    · simp only [Bool.not_eq_true] at h0
      simp only [TMap.Find, h0, Bool.false_eq_true, if_false, ih, true_and]

theorem TMap.UniqueKeys_Replace {V : Type} (m : TMap V) (k : FString) (v : V)
    (h : TMap.UniqueKeys m) : TMap.UniqueKeys (TMap.Replace m k v) := by
  induction m with
  | nil => exact h
  | cons kv rest ih =>
    obtain ⟨k0, v0⟩ := kv
    unfold TMap.UniqueKeys at h ih ⊢
    rw [List.pairwise_cons] at h
    by_cases h0 : EqualsIgnoreCase k0 k = true
    · simp only [TMap.Replace, h0, if_true]
      rw [List.pairwise_cons]
      refine ⟨fun b hb => ?_, h.2⟩
      have := h.1 b hb
      rw [EqualsIgnoreCase_comm] at this ⊢
      rw [← EqualsIgnoreCase_congr h0]
      exact this
    · simp only [Bool.not_eq_true] at h0
      simp only [TMap.Replace, h0, Bool.false_eq_true, if_false]
      rw [List.pairwise_cons]
      refine ⟨?_, ih h.2⟩
      intro b hb
      have key : ∀ (r : TMap V) (b : FString × V), b ∈ TMap.Replace r k v →
          b ∈ r ∨ b.1 = k := by
        intro r
        induction r with
        | nil => intro b hb; simp [TMap.Replace] at hb
        | cons kv2 rest2 ih2 =>
          obtain ⟨k2, v2⟩ := kv2
          intro b hb
          by_cases h2 : EqualsIgnoreCase k2 k = true
          · simp only [TMap.Replace, h2, if_true, List.mem_cons] at hb
            rcases hb with hb | hb
            · right
              rw [hb]
            · left
              exact List.mem_cons_of_mem _ hb
          · simp only [Bool.not_eq_true] at h2
            simp only [TMap.Replace, h2, Bool.false_eq_true, if_false, List.mem_cons] at hb
            rcases hb with hb | hb
            · left
              rw [hb]
              exact List.mem_cons_self _ _
            · rcases ih2 b hb with h3 | h3
              · left
                exact List.mem_cons_of_mem _ h3
              · right
                exact h3
      rcases key rest b hb with hmem | hk
      · exact h.1 b hmem
      · rw [hk]
        exact h0

theorem TMap.UniqueKeys_Add {V : Type} (m : TMap V) (k : FString) (v : V)
    (h : TMap.UniqueKeys m) : TMap.UniqueKeys (TMap.Add m k v) := by
  unfold TMap.Add
  split
  · exact TMap.UniqueKeys_Replace m k v h
  · next hc =>
    have hn : TMap.Find m k = none := by
      simpa [TMap.Contains] using hc
    unfold TMap.UniqueKeys at h ⊢
    rw [List.pairwise_append]
    refine ⟨h, List.pairwise_singleton _ _, ?_⟩
    intro a ha b hb
    rw [List.mem_singleton] at hb
    rw [hb]
    exact (TMap.Find_none_iff m k).mp hn a ha

theorem TMap.count_of_UniqueKeys {V : Type} (m : TMap V) (k : FString) (v : V)
    (h : TMap.UniqueKeys m) (hf : TMap.Find m k = some v) :
    (m.filter (fun kv => EqualsIgnoreCase kv.1 k)).length = 1 := by
  induction m with
  | nil => simp [TMap.Find] at hf
  | cons kv rest ih =>
    obtain ⟨k0, v0⟩ := kv
    unfold TMap.UniqueKeys at h ih
    rw [List.pairwise_cons] at h
    by_cases h0 : EqualsIgnoreCase k0 k = true
    · have hrest : rest.filter (fun kv => EqualsIgnoreCase kv.1 k) = [] := by
        rw [List.filter_eq_nil_iff]
        intro b hb
        have hkb : EqualsIgnoreCase k0 b.1 = false := h.1 b hb
        rw [EqualsIgnoreCase_comm, EqualsIgnoreCase_congr h0] at hkb
        rw [hkb]
        exact Bool.false_ne_true
      simp [List.filter, h0, hrest]
    · simp only [Bool.not_eq_true] at h0
      simp only [TMap.Find, h0, Bool.false_eq_true, if_false] at hf
      simp only [List.filter, h0]
      exact ih h.2 hf

theorem ModifyAt_self {α : Type} (l : List α) (i : Nat) (f : α → α)
    (h : ∀ x, l[i]? = some x → f x = x) : ModifyAt l i f = l := by
  unfold ModifyAt
  cases hx : l[i]? with
  | none => rfl
  | some x =>
    simp only
    rw [h x hx]
    apply List.ext_getElem?
    intro n
    rw [List.getElem?_set]
    by_cases hin : i = n
    · subst hin
      simp [hx, (List.getElem?_eq_some.mp hx).1]
    · simp [hin]

/-- The state in which `ProcessMaterialAsset` calls `LoadMaterialMetadata`: the index maps the
path to a pointer, and the item there carries the asset record. -/
theorem ProcessMaterialAsset_shape (s : UMaterialVaultManager) (AssetData : FAssetData)
    (Now : FDateTime) (hPtr : MaterialMapValid s) :
    ∃ (s0 : UMaterialVaultManager) (p : Nat) (X : FMaterialVaultMaterialItem),
      ProcessMaterialAsset s AssetData Now = LoadMaterialMetadata s0 p ∧
      TMap.Find s0.MaterialMap AssetData.GetObjectPathString = some p ∧
      s0.Items[p]? = some X ∧ X.AssetData = AssetData ∧
      X.MaterialPtr = AssetData.ToSoftObjectPath ∧ X.DisplayName = AssetData.AssetName ∧
      (TMap.UniqueKeys s.MaterialMap → TMap.UniqueKeys s0.MaterialMap) := by
  cases hf : TMap.Find s.MaterialMap AssetData.GetObjectPathString with
  | none =>
    refine ⟨_, _, FMaterialVaultMaterialItem.FromAssetData AssetData Now,
      ProcessMaterialAsset_new s AssetData Now hf, TMap.Find_Add_self _ _ _, ?_, rfl, rfl, rfl,
      fun h => TMap.UniqueKeys_Add _ _ _ h⟩
    simp
  | some p =>
    obtain ⟨k0, hmem, _⟩ := TMap.Find_mem _ _ _ hf
    have hlt : p < s.Items.length := hPtr (k0, p) hmem
    refine ⟨_, p, { s.Items[p] with
        AssetData := AssetData
        MaterialPtr := AssetData.ToSoftObjectPath
        DisplayName := AssetData.AssetName },
      ProcessMaterialAsset_existing s AssetData Now p hf, hf, ?_, rfl, rfl, rfl, fun h => h⟩
    simp only [ModifyAt_getElem?, if_true, List.getElem?_eq_getElem hlt, Option.map_some']

/-! ## The asset index stays well formed -/

theorem TMap.mem_Replace {V : Type} (m : TMap V) (k : FString) (v : V) :
    ∀ b ∈ TMap.Replace m k v, b ∈ m ∨ b = (k, v) := by
  induction m with
  | nil => intro b hb; simp [TMap.Replace] at hb
  | cons kv rest ih =>
    obtain ⟨k0, v0⟩ := kv
    intro b hb
    by_cases h0 : EqualsIgnoreCase k0 k = true
    · simp only [TMap.Replace, h0, if_true, List.mem_cons] at hb
      rcases hb with hb | hb
      · exact Or.inr hb
      · exact Or.inl (List.mem_cons_of_mem _ hb)
    · simp only [Bool.not_eq_true] at h0
      simp only [TMap.Replace, h0, Bool.false_eq_true, if_false, List.mem_cons] at hb
      rcases hb with hb | hb
      · left
        rw [hb]
        exact List.mem_cons_self _ _
      · rcases ih b hb with h1 | h1
        · exact Or.inl (List.mem_cons_of_mem _ h1)
        · exact Or.inr h1

theorem TMap.mem_Add {V : Type} (m : TMap V) (k : FString) (v : V) :
    ∀ b ∈ TMap.Add m k v, b ∈ m ∨ b = (k, v) := by
  intro b hb
  unfold TMap.Add at hb
  split at hb
  · exact TMap.mem_Replace m k v b hb
  · rcases List.mem_append.mp hb with h1 | h1
    · exact Or.inl h1
    · exact Or.inr (List.mem_singleton.mp h1)

theorem UniqueKeys_Construct (Registry : List FAssetData) (Files : FFileSystem)
    (ProjectDir : FString) :
    TMap.UniqueKeys (UMaterialVaultManager.Construct Registry Files ProjectDir).MaterialMap ∧
    MaterialMapValid (UMaterialVaultManager.Construct Registry Files ProjectDir) := by
  refine ⟨List.Pairwise.nil, ?_⟩
  intro b hb
  cases hb

theorem ProcessMaterialAsset_wellFormed (s : UMaterialVaultManager) (AssetData : FAssetData)
    (Now : FDateTime) (hKeys : TMap.UniqueKeys s.MaterialMap) (hPtr : MaterialMapValid s) :
    TMap.UniqueKeys (ProcessMaterialAsset s AssetData Now).MaterialMap ∧
    MaterialMapValid (ProcessMaterialAsset s AssetData Now) := by
  cases hf : TMap.Find s.MaterialMap AssetData.GetObjectPathString with
  | none =>
    rw [ProcessMaterialAsset_new s AssetData Now hf]
    unfold MaterialMapValid
    rw [LoadMaterialMetadata_MaterialMap, (LoadMaterialMetadata_frame _ _).2.2.2.2]
    refine ⟨TMap.UniqueKeys_Add _ _ _ hKeys, ?_⟩
    intro b hb
    simp only [List.length_append, List.length_singleton]
    rcases TMap.mem_Add _ _ _ b hb with h1 | h1
    · have := hPtr b h1
      omega
    · rw [h1]
      exact Nat.lt_succ_self _
  | some p =>
    rw [ProcessMaterialAsset_existing s AssetData Now p hf]
    unfold MaterialMapValid
    rw [LoadMaterialMetadata_MaterialMap, (LoadMaterialMetadata_frame _ _).2.2.2.2]
    refine ⟨hKeys, ?_⟩
    intro b hb
    simp only [ModifyAt_length]
    exact hPtr b hb

theorem RemoveMaterialAsset_wellFormed (s : UMaterialVaultManager) (AssetData : FAssetData)
    (hKeys : TMap.UniqueKeys s.MaterialMap) (hPtr : MaterialMapValid s) :
    TMap.UniqueKeys (RemoveMaterialAsset s AssetData).MaterialMap ∧
    MaterialMapValid (RemoveMaterialAsset s AssetData) := by
  refine ⟨List.Pairwise.filter _ hKeys, ?_⟩
  intro b hb
  exact hPtr b (List.mem_filter.mp hb).1

theorem BuildFolderStructure_wellFormed (s : UMaterialVaultManager)
    (hKeys : TMap.UniqueKeys s.MaterialMap) (hPtr : MaterialMapValid s) :
    TMap.UniqueKeys (BuildFolderStructure s).MaterialMap ∧
    MaterialMapValid (BuildFolderStructure s) := by
  obtain ⟨h1, h2, _⟩ := BuildFolderStructure_SameIndex s
  unfold MaterialMapValid
  rw [h1, h2]
  exact ⟨hKeys, hPtr⟩

theorem Initialize_root_valid (s : UMaterialVaultManager) (Now : FDateTime)
    (h : s.bIsInitialized = false) :
    (Initialize s Now).RootFolderNode = some s.Folders.length ∧
    s.Folders.length < (Initialize s Now).Folders.length := by
  simp [Initialize, RefreshMaterialDatabase, h]

/-! ## Lemmas on search -/

theorem ToLowerChar_idem (c : Char) : ToLowerChar (ToLowerChar c) = ToLowerChar c := by
  unfold ToLowerChar
  by_cases h : 65 ≤ c.toNat ∧ c.toNat ≤ 90
  · simp only [h, and_self, if_true]
    obtain ⟨h1, h2⟩ := h
    generalize c.toNat = n at h1 h2
    interval_cases n <;> decide
  · simp only [h, if_false]

theorem ToLower_idem (s : FString) : ToLower (ToLower s) = ToLower s := by
  unfold ToLower
  rw [List.map_map]
  apply List.map_congr_left
  intro c _
  exact ToLowerChar_idem c

theorem OccursIn_iff (pat s : FString) : OccursIn pat s = true ↔ pat <:+: s := by
  induction s with
  | nil =>
    cases pat <;> simp [OccursIn, List.isPrefixOf]
  | cons c rest ih =>
    rw [OccursIn, Bool.or_eq_true, ih, List.isPrefixOf_iff_prefix, List.infix_cons_iff]

theorem Contains_ToLower (Text Term : FString) (h : Term ≠ []) :
    Contains (ToLower Text) (ToLower Term) = ContainsIgnoringCase Text Term := by
  have hne : (ToLower Term).isEmpty = false := by
    cases Term with
    | nil => exact absurd rfl h
    | cons c rest => rfl
  unfold Contains ContainsIgnoringCase
  rw [hne, ToLower_idem, ToLower_idem, Bool.eq_iff_iff]
  simp only [Bool.not_false, Bool.true_and, OccursIn_iff, decide_eq_true_eq]

theorem SortMaterials_perm (s : UMaterialVaultManager) (Materials : List Nat) :
    (SortMaterials s Materials).Perm Materials := by
  unfold SortMaterials
  cases SortPredicate s with
  | none => exact List.Perm.refl _
  | some Predicate => exact List.perm_insertionSort _ _

theorem ItemAt_of_valid (s : UMaterialVaultManager) (p : Nat) (h : p < s.Items.length) :
    s.Items[p]? = some (ItemAt s p) := by
  unfold ItemAt
  rw [List.getElem?_eq_getElem h, List.getD_eq_getElem _ _ h]

theorem SearchResults_eq_filter (s : UMaterialVaultManager) (Test : FMaterialVaultMaterialItem → Bool)
    (Pairs : TMap Nat) (h : ∀ MaterialPair ∈ Pairs, MaterialPair.2 < s.Items.length) :
    Pairs.filterMap (fun MaterialPair =>
      match s.Items[MaterialPair.2]? with
      | some Item => if Test Item then some MaterialPair.2 else none
      | none => none) =
    (Pairs.map (fun MaterialPair => MaterialPair.2)).filter (fun p => Test (ItemAt s p)) := by
  induction Pairs with
  | nil => rfl
  | cons Pair rest ih =>
    have hlt := h Pair (List.mem_cons_self _ _)
    have ih2 := ih (fun q hq => h q (List.mem_cons_of_mem _ hq))
    rw [List.filterMap_cons, ItemAt_of_valid s Pair.2 hlt, List.map_cons, List.filter_cons]
    simp only
    by_cases ht : Test (ItemAt s Pair.2) = true
    · simp only [ht, if_true, ih2]
    · simp only [ht, Bool.false_eq_true, if_false, ih2]

theorem ToLower_append (a b : FString) : ToLower (a ++ b) = ToLower a ++ ToLower b := by
  simp [ToLower]

theorem StartsWith_append (pat s : FString) (h : pat ≠ []) :
    StartsWith (pat ++ s) pat = true := by
  have hne : pat.isEmpty = false := by
    cases pat with
    | nil => exact absurd rfl h
    | cons c rest => rfl
  unfold StartsWith
  rw [hne, ToLower_append, Bool.not_false, Bool.true_and, List.isPrefixOf_iff_prefix]
  exact List.prefix_append _ _

/-! ## Theorems -/

/-- C1 (what the code does instead): `OnAssetRenamed` removes and re-adds the entry of the
new asset record and never looks at the old object path, so whatever the asset index held
under an old path that differs from the path of the new record is still there afterwards. -/
theorem OnAssetRenamed_keeps_old_path (s : UMaterialVaultManager) (AssetData : FAssetData)
    (OldObjectPath : FString) (Now : FDateTime)
    (hDiff : EqualsIgnoreCase OldObjectPath AssetData.GetObjectPathString = false) :
    GetMaterialByPath (OnAssetRenamed s AssetData OldObjectPath Now) OldObjectPath =
      GetMaterialByPath s OldObjectPath := by
  unfold OnAssetRenamed
  have hB := (BuildFolderStructure_SameIndex
    (ProcessMaterialAsset (RemoveMaterialAsset s AssetData) AssetData Now)).1
  unfold GetMaterialByPath at *
  rw [hB]
  have hP := ProcessMaterialAsset_Find_other (RemoveMaterialAsset s AssetData) AssetData Now hDiff
  unfold GetMaterialByPath at hP
  rw [hP]
  exact TMap.Find_Remove_other _ hDiff

/-- At the failing input of C1 the old path is in the index before the rename and still
there after it, next to the new path. -/
theorem OnAssetRenamed_keeps_old_path_witness :
    EqualsIgnoreCase RockAsset.GetObjectPathString StoneAsset.GetObjectPathString = false ∧
    GetMaterialByPath RenameStart RockAsset.GetObjectPathString = some 0 ∧
    GetMaterialByPath (OnAssetRenamed RenameStart StoneAsset RockAsset.GetObjectPathString ⟨0⟩)
      RockAsset.GetObjectPathString = GetMaterialByPath RenameStart RockAsset.GetObjectPathString ∧
    GetMaterialByPath (OnAssetRenamed RenameStart StoneAsset RockAsset.GetObjectPathString ⟨0⟩)
      StoneAsset.GetObjectPathString = some 1 :=
  ⟨by decide, by decide,
    OnAssetRenamed_keeps_old_path RenameStart StoneAsset RockAsset.GetObjectPathString ⟨0⟩
      (by decide),
    by decide⟩

/-- C2 (what the code does instead): `Initialize` calls `RefreshMaterialDatabase` before it
sets `bIsInitialized`, and the refresh returns at once while the flag is unset.  So on a
freshly constructed manager, whatever the asset registry enumerates, the asset index is
empty when `Initialize` returns and the folder map holds the root alone; the same refresh
called once more does index the assets. -/
theorem Initialize_skips_refresh (Registry : List FAssetData) (Files : FFileSystem)
    (ProjectDir : FString) (Now : FDateTime) :
    (Initialize (UMaterialVaultManager.Construct Registry Files ProjectDir) Now).MaterialMap = [] ∧
    (Initialize (UMaterialVaultManager.Construct Registry Files ProjectDir) Now).FolderMap =
      [("/Game".toList, 0)] ∧
    (∀ AssetPath,
      GetMaterialByPath (Initialize (UMaterialVaultManager.Construct Registry Files ProjectDir) Now)
        AssetPath = none) ∧
    GetMaterialByPath (Initialize (UMaterialVaultManager.Construct [RockAsset] [] []) ⟨0⟩)
      RockAsset.GetObjectPathString = none ∧
    GetMaterialByPath (RefreshMaterialDatabase
      (Initialize (UMaterialVaultManager.Construct [RockAsset] [] []) ⟨0⟩) ⟨0⟩)
      RockAsset.GetObjectPathString = some 0 :=
  ⟨rfl, rfl, fun _ => rfl, by decide, by decide⟩

/-- C3: a package path that does not start with "/Game" or "/Engine" (the test is the
case-ignoring `FString::StartsWith` of the code) and whose first non-empty component between
slashes is none of Engine, Game, Script, Temp, Memory (compared ignoring case) is organized
to "/Plugins" followed by the path. -/
theorem OrganizePackagePath_plugin (P FirstComponent : FString) (Rest : List FString)
    (hGame : StartsWith P "/Game".toList = false)
    (hEngine : StartsWith P "/Engine".toList = false)
    (hFirst : ParseIntoArray P '/' = FirstComponent :: Rest)
    (h1 : EqualsIgnoreCase FirstComponent "Engine".toList = false)
    (h2 : EqualsIgnoreCase FirstComponent "Game".toList = false)
    (h3 : EqualsIgnoreCase FirstComponent "Script".toList = false)
    (h4 : EqualsIgnoreCase FirstComponent "Temp".toList = false)
    (h5 : EqualsIgnoreCase FirstComponent "Memory".toList = false) :
    OrganizePackagePath P = "/Plugins".toList ++ P := by
  have hR : IsReservedComponent FirstComponent = false := by
    simp only [IsReservedComponent, h1, h2, h3, h4, h5, Bool.or_self]
  simp only [OrganizePackagePath, hGame, hEngine, hFirst, hR, Bool.not_false, if_true,
    Bool.false_eq_true, if_false]

/-- The example of C3: "/MyPlugin/Stuff" is rewritten to "/Plugins/MyPlugin/Stuff". -/
theorem OrganizePackagePath_plugin_witness :
    OrganizePackagePath "/MyPlugin/Stuff".toList = "/Plugins/MyPlugin/Stuff".toList :=
  OrganizePackagePath_plugin "/MyPlugin/Stuff".toList "MyPlugin".toList ["Stuff".toList]
    (by decide) (by decide) (by decide) (by decide) (by decide) (by decide) (by decide) (by decide)

/-- C4: a package path that does not start with "/Game" or "/Engine", whose first component
is one of Engine, Game, Script, Temp, Memory, and that starts with "/Script", "/Temp" or
"/Memory" or contains "Engine" (all tests are those of the code, which ignore case) is
organized to "/Engine" followed by the path; and a path that starts with "/Game" or
"/Engine" is returned unchanged. -/
theorem OrganizePackagePath_engine :
    (∀ (P FirstComponent : FString) (Rest : List FString),
      StartsWith P "/Game".toList = false →
      StartsWith P "/Engine".toList = false →
      ParseIntoArray P '/' = FirstComponent :: Rest →
      (EqualsIgnoreCase FirstComponent "Engine".toList = true ∨
       EqualsIgnoreCase FirstComponent "Game".toList = true ∨
       EqualsIgnoreCase FirstComponent "Script".toList = true ∨
       EqualsIgnoreCase FirstComponent "Temp".toList = true ∨
       EqualsIgnoreCase FirstComponent "Memory".toList = true) →
      (StartsWith P "/Script".toList = true ∨ StartsWith P "/Temp".toList = true ∨
       StartsWith P "/Memory".toList = true ∨ Contains P "Engine".toList = true) →
      OrganizePackagePath P = "/Engine".toList ++ P) ∧
    (∀ P : FString,
      StartsWith P "/Game".toList = true ∨ StartsWith P "/Engine".toList = true →
      OrganizePackagePath P = P) := by
  refine ⟨?_, ?_⟩
  · intro P c Rest hGame hEngine hFirst hRes hPat
    have hR : IsReservedComponent c = true := by
      simp only [IsReservedComponent, Bool.or_eq_true]
      tauto
    have hE : IsEnginePattern P = true := by
      simp only [IsEnginePattern, Bool.or_eq_true]
      tauto
    simp only [OrganizePackagePath, hGame, hEngine, hFirst, hR, hE, Bool.not_true, if_true,
      Bool.false_eq_true, if_false]
  · intro P h
    unfold OrganizePackagePath
    rcases h with h | h
    · rw [if_pos h]
    · rw [if_pos h]
      split <;> rfl

/-- The examples of C4: "/Script/Core" is rewritten to "/Engine/Script/Core" and
"/Game/Foo/Bar" is returned unchanged. -/
theorem OrganizePackagePath_engine_witness :
    OrganizePackagePath "/Script/Core".toList = "/Engine/Script/Core".toList ∧
    OrganizePackagePath "/Game/Foo/Bar".toList = "/Game/Foo/Bar".toList :=
  ⟨OrganizePackagePath_engine.1 "/Script/Core".toList "Script".toList ["Core".toList]
      (by decide) (by decide) (by decide) (Or.inr (Or.inr (Or.inl (by decide))))
      (Or.inl (by decide)),
    OrganizePackagePath_engine.2 "/Game/Foo/Bar".toList (Or.inl (by decide))⟩

/-- C5 (failing input): the package path "/GameStuff/Mats" starts with "/Game", so
`OrganizePackagePath` returns it unchanged, and it is neither one of the three branch paths
nor under one of them.  In the tree built for an asset of that package path the folder
"/GameStuff/Mats" hangs under a folder "/GameStuff", which is a fourth child of the root,
beside the three branch nodes.  What does hold for every package path is that the organized
path starts with "/Game", "/Engine" or "/Plugins", with or without a separator after it. -/
theorem OrganizePackagePath_outside_branches :
    OrganizePackagePath "/GameStuff/Mats".toList = "/GameStuff/Mats".toList ∧
    IsUnderBranch (OrganizePackagePath "/GameStuff/Mats".toList) = false ∧
    StrayManager.RootFolderNode = some 0 ∧
    FindFolder StrayManager "/Game".toList = some 1 ∧
    FindFolder StrayManager "/Engine".toList = some 2 ∧
    FindFolder StrayManager "/Plugins".toList = some 3 ∧
    FindFolder StrayManager "/GameStuff/Mats".toList = some 4 ∧
    (StrayManager.Folders.getD 4 default).Materials = [0] ∧
    (StrayManager.Folders.getD 4 default).Parent = some 5 ∧
    (StrayManager.Folders.getD 5 default).FolderPath = "/GameStuff".toList ∧
    (StrayManager.Folders.getD 5 default).Parent = some 0 ∧
    (StrayManager.Folders.getD 0 default).Children = [1, 2, 3, 5] ∧
    ∀ P : FString,
      StartsWith (OrganizePackagePath P) "/Game".toList = true ∨
      StartsWith (OrganizePackagePath P) "/Engine".toList = true ∨
      StartsWith (OrganizePackagePath P) "/Plugins".toList = true := by
  refine ⟨by decide, by decide, by decide, by decide, by decide, by decide, by decide,
    by decide, by decide, by decide, by decide, by decide, ?_⟩
  intro P
  unfold OrganizePackagePath
  by_cases hG : StartsWith P "/Game".toList = true
  · rw [if_pos hG]
    exact Or.inl hG
  · rw [if_neg hG]
    by_cases hE : StartsWith P "/Engine".toList = true
    · rw [if_pos hE]
      exact Or.inr (Or.inl hE)
    · rw [if_neg hE]
      simp only
      split
      · exact Or.inr (Or.inr (StartsWith_append _ _ (by decide)))
      · split
        · exact Or.inr (Or.inl (StartsWith_append _ _ (by decide)))
        · exact Or.inl (StartsWith_append _ _ (by decide))

/-- C6: in a manager that holds its root node, for every entry of the asset index whose
item has package path P (the text the build reads, `PackagePath.ToString()`), after
`BuildFolderStructure` the folder found under `OrganizePackagePath P` is a valid node, its
material list contains that item, and the item is the one the index held before. -/
theorem BuildFolderStructure_attaches (s : UMaterialVaultManager) (Root : Nat)
    (hRoot : s.RootFolderNode = some Root) (hValid : Root < s.Folders.length)
    (Key : FString) (MaterialItem : Nat) (Item : FMaterialVaultMaterialItem)
    (hMem : (Key, MaterialItem) ∈ s.MaterialMap)
    (hItem : s.Items[MaterialItem]? = some Item) :
    ∃ (n : Nat) (node : FMaterialVaultFolderNode),
      FindFolder (BuildFolderStructure s)
        (OrganizePackagePath (FNameToString Item.AssetData.PackagePath)) = some n ∧
      (BuildFolderStructure s).Folders[n]? = some node ∧
      MaterialItem ∈ node.Materials ∧
      (BuildFolderStructure s).Items[MaterialItem]? = some Item := by
  obtain ⟨hs1, hv1⟩ := ResetFolderTree_spec s Root hValid
  obtain ⟨hs2, _, hatt⟩ := AttachAll_spec s.MaterialMap (ResetFolderTree s Root) hv1
  have hItem1 : (ResetFolderTree s Root).Items[MaterialItem]? = some Item := by
    rw [hs1.2.1]
    exact hItem
  obtain ⟨n, node, h1, h2, h3⟩ := hatt Key MaterialItem Item hMem hItem1
  rw [BuildFolderStructure_root s Root hRoot]
  refine ⟨n, node, h1, h2, h3, ?_⟩
  rw [hs2.2.1]
  exact hItem1

/-- The scenario of C6: with Rock, Wood and Default indexed, after `BuildFolderStructure`
the folder "/Game/Mats" contains Rock, "/Plugins/MyPlugin/Mats" contains Wood and
"/Engine/Script/Engine" contains Default. -/
theorem BuildFolderStructure_attaches_witness :
    (GetMaterialByPath ScenarioManager RockAsset.GetObjectPathString = some 0 ∧
     GetMaterialByPath ScenarioManager WoodAsset.GetObjectPathString = some 1 ∧
     GetMaterialByPath ScenarioManager DefaultAsset.GetObjectPathString = some 2) ∧
    (∃ (n : Nat) (node : FMaterialVaultFolderNode),
      FindFolder (BuildFolderStructure ScenarioManager) "/Game/Mats".toList = some n ∧
      (BuildFolderStructure ScenarioManager).Folders[n]? = some node ∧ 0 ∈ node.Materials ∧
      (BuildFolderStructure ScenarioManager).Items[0]? =
        some (FMaterialVaultMaterialItem.FromAssetData RockAsset ⟨0⟩)) ∧
    (∃ (n : Nat) (node : FMaterialVaultFolderNode),
      FindFolder (BuildFolderStructure ScenarioManager) "/Plugins/MyPlugin/Mats".toList = some n ∧
      (BuildFolderStructure ScenarioManager).Folders[n]? = some node ∧ 1 ∈ node.Materials ∧
      (BuildFolderStructure ScenarioManager).Items[1]? =
        some (FMaterialVaultMaterialItem.FromAssetData WoodAsset ⟨0⟩)) ∧
    (∃ (n : Nat) (node : FMaterialVaultFolderNode),
      FindFolder (BuildFolderStructure ScenarioManager) "/Engine/Script/Engine".toList = some n ∧
      (BuildFolderStructure ScenarioManager).Folders[n]? = some node ∧ 2 ∈ node.Materials ∧
      (BuildFolderStructure ScenarioManager).Items[2]? =
        some (FMaterialVaultMaterialItem.FromAssetData DefaultAsset ⟨0⟩)) :=
  ⟨by decide,
    BuildFolderStructure_attaches ScenarioManager 0 (by decide) (by decide)
      RockAsset.GetObjectPathString 0 (FMaterialVaultMaterialItem.FromAssetData RockAsset ⟨0⟩)
      (by decide) (by decide),
    BuildFolderStructure_attaches ScenarioManager 0 (by decide) (by decide)
      WoodAsset.GetObjectPathString 1 (FMaterialVaultMaterialItem.FromAssetData WoodAsset ⟨0⟩)
      (by decide) (by decide),
    BuildFolderStructure_attaches ScenarioManager 0 (by decide) (by decide)
      DefaultAsset.GetObjectPathString 2 (FMaterialVaultMaterialItem.FromAssetData DefaultAsset ⟨0⟩)
      (by decide) (by decide)⟩

/-- C9: `RemoveMaterialAsset` leaves neither an item nor cached metadata under the path of
the asset; what is stored under every other path (one that `FString` comparison tells apart
from it) is as before, and so is every item object; removing a second time changes nothing;
and removing a path under which nothing is stored changes nothing. -/
theorem RemoveMaterialAsset_spec (s : UMaterialVaultManager) (AssetData : FAssetData) :
    GetMaterialByPath (RemoveMaterialAsset s AssetData) AssetData.GetObjectPathString = none ∧
    TMap.Find (RemoveMaterialAsset s AssetData).MetadataCache AssetData.GetObjectPathString =
      none ∧
    (∀ Other : FString, EqualsIgnoreCase Other AssetData.GetObjectPathString = false →
      GetMaterialByPath (RemoveMaterialAsset s AssetData) Other = GetMaterialByPath s Other ∧
      TMap.Find (RemoveMaterialAsset s AssetData).MetadataCache Other =
        TMap.Find s.MetadataCache Other) ∧
    (RemoveMaterialAsset s AssetData).Items = s.Items ∧
    RemoveMaterialAsset (RemoveMaterialAsset s AssetData) AssetData =
      RemoveMaterialAsset s AssetData ∧
    (GetMaterialByPath s AssetData.GetObjectPathString = none →
      TMap.Find s.MetadataCache AssetData.GetObjectPathString = none →
      RemoveMaterialAsset s AssetData = s) := by
  refine ⟨TMap.Find_Remove_self _ _, TMap.Find_Remove_self _ _, ?_, rfl, ?_, ?_⟩
  · intro Other hOther
    exact ⟨TMap.Find_Remove_other _ hOther, TMap.Find_Remove_other _ hOther⟩
  · simp only [RemoveMaterialAsset, TMap.Remove_Remove]
  · intro h1 h2
    unfold GetMaterialByPath at h1
    simp only [RemoveMaterialAsset, TMap.Remove_of_Find_none _ _ h1,
      TMap.Remove_of_Find_none _ _ h2]

/-- C9 at the scenario: removing Rock leaves Wood where it was, and removing the asset
Stone, which is not indexed, changes nothing. -/
theorem RemoveMaterialAsset_spec_witness :
    EqualsIgnoreCase WoodAsset.GetObjectPathString RockAsset.GetObjectPathString = false ∧
    GetMaterialByPath ScenarioManager RockAsset.GetObjectPathString = some 0 ∧
    GetMaterialByPath (RemoveMaterialAsset ScenarioManager RockAsset)
      RockAsset.GetObjectPathString = none ∧
    (GetMaterialByPath (RemoveMaterialAsset ScenarioManager RockAsset)
        WoodAsset.GetObjectPathString =
      GetMaterialByPath ScenarioManager WoodAsset.GetObjectPathString ∧
     TMap.Find (RemoveMaterialAsset ScenarioManager RockAsset).MetadataCache
        WoodAsset.GetObjectPathString =
      TMap.Find ScenarioManager.MetadataCache WoodAsset.GetObjectPathString) ∧
    RemoveMaterialAsset ScenarioManager StoneAsset = ScenarioManager :=
  ⟨by decide, by decide,
    (RemoveMaterialAsset_spec ScenarioManager RockAsset).1,
    (RemoveMaterialAsset_spec ScenarioManager RockAsset).2.2.1 WoodAsset.GetObjectPathString
      (by decide),
    (RemoveMaterialAsset_spec ScenarioManager StoneAsset).2.2.2.2.2 (by decide) (by decide)⟩

/-- C7: for every asset record and every asset index (a map without duplicate keys whose
pointers are valid), upserting the record twice gives the same manager as upserting it
once; the index then has exactly one entry under the path of the record, and the item of
that entry has the asset data, the soft reference and the display name of the record. -/
theorem ProcessMaterialAsset_idempotent (s : UMaterialVaultManager) (AssetData : FAssetData)
    (Now Later : FDateTime) (hKeys : TMap.UniqueKeys s.MaterialMap)
    (hPtr : MaterialMapValid s) :
    ProcessMaterialAsset (ProcessMaterialAsset s AssetData Now) AssetData Later =
      ProcessMaterialAsset s AssetData Now ∧
    ((ProcessMaterialAsset (ProcessMaterialAsset s AssetData Now) AssetData Later).MaterialMap.filter
      (fun kv => EqualsIgnoreCase kv.1 AssetData.GetObjectPathString)).length = 1 ∧
    ∃ (p : Nat) (Item : FMaterialVaultMaterialItem),
      GetMaterialByPath (ProcessMaterialAsset (ProcessMaterialAsset s AssetData Now) AssetData Later)
        AssetData.GetObjectPathString = some p ∧
      (ProcessMaterialAsset (ProcessMaterialAsset s AssetData Now) AssetData Later).Items[p]? =
        some Item ∧
      Item.AssetData = AssetData ∧ Item.MaterialPtr = AssetData.ToSoftObjectPath ∧
      Item.DisplayName = AssetData.AssetName := by
  obtain ⟨s0, p, X, hEq, hFind, hX, hA, hM, hD, hU⟩ :=
    ProcessMaterialAsset_shape s AssetData Now hPtr
  obtain ⟨Y, hY, hYA, hYM, hYD⟩ := LoadMaterialMetadata_item s0 p X hX
  have hFind1 : TMap.Find (LoadMaterialMetadata s0 p).MaterialMap
      AssetData.GetObjectPathString = some p := by
    rw [LoadMaterialMetadata_MaterialMap]
    exact hFind
  have hTwice : ProcessMaterialAsset (ProcessMaterialAsset s AssetData Now) AssetData Later =
      ProcessMaterialAsset s AssetData Now := by
    rw [hEq, ProcessMaterialAsset_existing _ AssetData Later p hFind1]
    have hId : ModifyAt (LoadMaterialMetadata s0 p).Items p (fun it => { it with
        AssetData := AssetData
        MaterialPtr := AssetData.ToSoftObjectPath
        DisplayName := AssetData.AssetName }) = (LoadMaterialMetadata s0 p).Items := by
      apply ModifyAt_self
      intro x hx
      obtain rfl : Y = x := Option.some.inj (hY.symm.trans hx)
      obtain ⟨a, m, t, md, td, d, b⟩ := Y
      simp only at hYA hYM hYD ⊢
      rw [hYA, hA, hYM, hM, hYD, hD]
    rw [hId]
    exact LoadMaterialMetadata_idem s0 p
  rw [hTwice, hEq]
  refine ⟨rfl, ?_, p, Y, hFind1, hY, hYA.trans hA, hYM.trans hM, hYD.trans hD⟩
  apply TMap.count_of_UniqueKeys _ _ p _ hFind1
  rw [LoadMaterialMetadata_MaterialMap]
  exact hU hKeys

/-- C7 at a concrete input: upserting the new asset Stone into the scenario twice. -/
theorem ProcessMaterialAsset_idempotent_witness :
    TMap.UniqueKeys ScenarioManager.MaterialMap ∧ MaterialMapValid ScenarioManager ∧
    ProcessMaterialAsset (ProcessMaterialAsset ScenarioManager StoneAsset ⟨1⟩) StoneAsset ⟨2⟩ =
      ProcessMaterialAsset ScenarioManager StoneAsset ⟨1⟩ ∧
    ((ProcessMaterialAsset (ProcessMaterialAsset ScenarioManager StoneAsset ⟨1⟩)
      StoneAsset ⟨2⟩).MaterialMap.filter
      (fun kv => EqualsIgnoreCase kv.1 StoneAsset.GetObjectPathString)).length = 1 :=
  ⟨by unfold TMap.UniqueKeys; decide, by unfold MaterialMapValid; decide,
    (ProcessMaterialAsset_idempotent ScenarioManager StoneAsset ⟨1⟩ ⟨2⟩
      (by unfold TMap.UniqueKeys; decide) (by unfold MaterialMapValid; decide)).1,
    (ProcessMaterialAsset_idempotent ScenarioManager StoneAsset ⟨1⟩ ⟨2⟩
      (by unfold TMap.UniqueKeys; decide) (by unfold MaterialMapValid; decide)).2.1⟩

/-- C8 fails as stated: Rock is indexed and its metadata is cached (author "alice"); the
author was changed in memory to "bob" and not saved; the upsert of Rock puts the cached
record back, so the metadata record of the item does not stay as it was. -/
theorem ProcessMaterialAsset_reverts_unsaved_edit :
    GetMaterialByPath EditedManager RockAsset.GetObjectPathString = some 0 ∧
    (TMap.Find EditedManager.MetadataCache RockAsset.GetObjectPathString).isSome = true ∧
    (ItemAt EditedManager 0).Metadata.Author = "bob".toList ∧
    (ItemAt (ProcessMaterialAsset EditedManager RockAsset ⟨9⟩) 0).Metadata.Author =
      "alice".toList ∧
    (ItemAt (ProcessMaterialAsset EditedManager RockAsset ⟨9⟩) 0).Metadata ≠
      (ItemAt EditedManager 0).Metadata := by
  decide

/-- C8 as amended: the upsert of an asset whose path is in the index and has an entry in
the metadata cache sets the metadata record of the item to the cached entry and leaves the
cache as it was; the record is therefore unchanged when it was equal to the cached entry. -/
theorem ProcessMaterialAsset_sets_cached_metadata (s : UMaterialVaultManager)
    (AssetData : FAssetData) (Now : FDateTime) (p : Nat) (X : FMaterialVaultMaterialItem)
    (Cached : FMaterialVaultMetadata)
    (hIndex : GetMaterialByPath s AssetData.GetObjectPathString = some p)
    (hItem : s.Items[p]? = some X)
    (hCache : TMap.Find s.MetadataCache AssetData.GetObjectPathString = some Cached) :
    ∃ Y : FMaterialVaultMaterialItem,
      (ProcessMaterialAsset s AssetData Now).Items[p]? = some Y ∧
      Y.Metadata = Cached ∧
      (ProcessMaterialAsset s AssetData Now).MetadataCache = s.MetadataCache ∧
      (X.Metadata = Cached → Y.Metadata = X.Metadata) := by
  have hlt : p < s.Items.length := (List.getElem?_eq_some.mp hItem).1
  rw [ProcessMaterialAsset_existing s AssetData Now p hIndex]
  rw [LoadMaterialMetadata_cached
    { s with
      Items := ModifyAt s.Items p (fun it => { it with
        AssetData := AssetData
        MaterialPtr := AssetData.ToSoftObjectPath
        DisplayName := AssetData.AssetName }) } p
    { X with
      AssetData := AssetData
      MaterialPtr := AssetData.ToSoftObjectPath
      DisplayName := AssetData.AssetName } Cached
    (by simp only [ModifyAt_getElem?, if_true, hItem, Option.map_some']) hCache]
  refine ⟨{ X with
      AssetData := AssetData
      MaterialPtr := AssetData.ToSoftObjectPath
      DisplayName := AssetData.AssetName
      Metadata := Cached }, ?_, rfl, rfl, fun h => h.symm⟩
  have hlen : p < (ModifyAt s.Items p (fun it => { it with
      AssetData := AssetData
      MaterialPtr := AssetData.ToSoftObjectPath
      DisplayName := AssetData.AssetName })).length := by
    rw [ModifyAt_length]
    exact hlt
  simp only [List.getElem?_set_self hlen]

/-- C8 as amended, at the input of the counterexample: the upsert of Rock leaves the item
with the cached record. -/
theorem ProcessMaterialAsset_sets_cached_metadata_witness :
    GetMaterialByPath EditedManager RockAsset.GetObjectPathString = some 0 ∧
    EditedManager.Items[0]? = some (ItemAt EditedManager 0) ∧
    TMap.Find EditedManager.MetadataCache RockAsset.GetObjectPathString =
      some (ItemAt SidecarManager 0).Metadata ∧
    ∃ Y : FMaterialVaultMaterialItem,
      (ProcessMaterialAsset EditedManager RockAsset ⟨9⟩).Items[0]? = some Y ∧
      Y.Metadata = (ItemAt SidecarManager 0).Metadata ∧
      (ProcessMaterialAsset EditedManager RockAsset ⟨9⟩).MetadataCache =
        EditedManager.MetadataCache ∧
      ((ItemAt EditedManager 0).Metadata = (ItemAt SidecarManager 0).Metadata →
        Y.Metadata = (ItemAt EditedManager 0).Metadata) :=
  ⟨by decide, by decide, by decide,
    ProcessMaterialAsset_sets_cached_metadata EditedManager RockAsset ⟨9⟩ 0
      (ItemAt EditedManager 0) (ItemAt SidecarManager 0).Metadata
      (by decide) (by decide) (by decide)⟩

/-- C10: for a non-empty search term, `SearchMaterials` returns a permutation of the list
of the indexed items (one occurrence per index entry) whose display name or package path
(the text the search reads, `PackagePath.ToString()`) contains the term when both are
compared ignoring case: each such item once and no other. -/
theorem SearchMaterials_spec (s : UMaterialVaultManager) (SearchTerm : FString)
    (hTerm : SearchTerm ≠ []) (hPtr : MaterialMapValid s) :
    (SearchMaterials s SearchTerm).Perm
      ((s.MaterialMap.map (fun MaterialPair => MaterialPair.2)).filter (fun p =>
        ContainsIgnoringCase (ItemAt s p).DisplayName SearchTerm ||
        ContainsIgnoringCase (FNameToString (ItemAt s p).AssetData.PackagePath) SearchTerm)) := by
  have hne : SearchTerm.isEmpty = false := by
    cases SearchTerm with
    | nil => exact absurd rfl hTerm
    | cons c rest => rfl
  have hTest : (fun p => MatchesSearch (ToLower SearchTerm) (ItemAt s p)) =
      (fun p => ContainsIgnoringCase (ItemAt s p).DisplayName SearchTerm ||
        ContainsIgnoringCase (FNameToString (ItemAt s p).AssetData.PackagePath) SearchTerm) := by
    funext p
    simp only [MatchesSearch, Contains_ToLower _ _ hTerm]
  simp only [SearchMaterials, hne, Bool.false_eq_true, if_false]
  refine (SortMaterials_perm s _).trans ?_
  rw [SearchResults_eq_filter s (MatchesSearch (ToLower SearchTerm)) s.MaterialMap hPtr, hTest]

/-- The scenario of C10: with Rock, Wood and Default indexed (items 0, 1, 2), the search
for "rock" returns the Rock item only. -/
theorem SearchMaterials_spec_witness :
    MaterialMapValid ScenarioManager ∧
    (SearchMaterials ScenarioManager "rock".toList).Perm
      ((ScenarioManager.MaterialMap.map (fun MaterialPair => MaterialPair.2)).filter (fun p =>
        ContainsIgnoringCase (ItemAt ScenarioManager p).DisplayName "rock".toList ||
        ContainsIgnoringCase (FNameToString (ItemAt ScenarioManager p).AssetData.PackagePath)
          "rock".toList)) ∧
    GetMaterialByPath ScenarioManager RockAsset.GetObjectPathString = some 0 ∧
    SearchMaterials ScenarioManager "rock".toList = [0] :=
  ⟨by unfold MaterialMapValid; decide,
    SearchMaterials_spec ScenarioManager "rock".toList (by decide)
      (by unfold MaterialMapValid; decide),
    by decide, by decide⟩

/-! ## Theorems on the thumbnail manager -/

namespace FMaterialVaultThumbnailManager

theorem RequestThumbnail_fresh (t : FMaterialVaultThumbnailManager)
    (Items : List FMaterialVaultMaterialItem) (MaterialItem : Nat)
    (Item : FMaterialVaultMaterialItem) (ThumbnailSize : Int)
    (hInit : t.bIsInitialized = true) (hItem : Items[MaterialItem]? = some Item)
    (hFree : TMap.Contains t.PendingThumbnails Item.AssetData.GetObjectPathString = false) :
    RequestThumbnail t Items MaterialItem ThumbnailSize =
      { t with
        PendingThumbnails :=
          TMap.Add t.PendingThumbnails Item.AssetData.GetObjectPathString MaterialItem
        BackgroundTasks := t.BackgroundTasks ++
          [{ MaterialItem := MaterialItem, ThumbnailSize := ThumbnailSize,
             MaterialPath := Item.AssetData.GetObjectPathString }] } := by
  simp only [RequestThumbnail, LoadThumbnailAsync, hItem, hInit, hFree, Bool.not_true,
    Bool.false_eq_true, if_false]

theorem RequestThumbnail_pending (t : FMaterialVaultThumbnailManager)
    (Items : List FMaterialVaultMaterialItem) (MaterialItem : Nat)
    (Item : FMaterialVaultMaterialItem) (ThumbnailSize : Int)
    (hItem : Items[MaterialItem]? = some Item)
    (hPending : TMap.Contains t.PendingThumbnails Item.AssetData.GetObjectPathString = true) :
    RequestThumbnail t Items MaterialItem ThumbnailSize = t := by
  simp only [RequestThumbnail, hItem, hPending, if_true]
  split <;> rfl

end FMaterialVaultThumbnailManager

namespace FMaterialVaultThumbnailManager

/-- The background task of `LoadThumbnailAsync`, run to its end: the task is no longer
waiting, the cache and the flag are as before, and the pending marker of the path of the
task is removed. -/
theorem RunBackgroundTask_ends (t : FMaterialVaultThumbnailManager) (bMaterialLoads : Bool)
    (Task : FBackgroundTask) (Rest : List FBackgroundTask)
    (h : t.BackgroundTasks = Task :: Rest) :
    (RunBackgroundTask t bMaterialLoads).BackgroundTasks = Rest ∧
    (RunBackgroundTask t bMaterialLoads).ThumbnailCache = t.ThumbnailCache ∧
    (RunBackgroundTask t bMaterialLoads).bIsInitialized = t.bIsInitialized ∧
    (RunBackgroundTask t bMaterialLoads).PendingThumbnails =
      TMap.Remove t.PendingThumbnails Task.MaterialPath := by
  unfold RunBackgroundTask
  rw [h]
  simp only
  cases bMaterialLoads with
  | false => exact ⟨rfl, rfl, rfl, rfl⟩
  | true =>
    simp only [if_true]
    split <;> exact ⟨rfl, rfl, rfl, rfl⟩

/-- The game thread task touches the cache only: the pending markers stay. -/
theorem RunGameThreadTask_pending (t : FMaterialVaultThumbnailManager) (Now : FDateTime) :
    (RunGameThreadTask t Now).PendingThumbnails = t.PendingThumbnails := by
  unfold RunGameThreadTask
  split
  · rfl
  · unfold OnThumbnailGenerated TrimCache
    simp only
    split <;> rfl

/-- Queueing a task leaves the pending markers as they are. -/
theorem LoadThumbnailAsync_pending (t : FMaterialVaultThumbnailManager)
    (Items : List FMaterialVaultMaterialItem) (MaterialItem : Nat) (ThumbnailSize : Int) :
    (LoadThumbnailAsync t Items MaterialItem ThumbnailSize).PendingThumbnails =
      t.PendingThumbnails := by
  unfold LoadThumbnailAsync
  split <;> rfl

end FMaterialVaultThumbnailManager

/-- C16, the claim as it stands fails.  Rock is requested in a manager with nothing pending
and the background task of the request runs to its end: the thumbnail is on its way to the
game thread and not yet in the cache, and the pending marker is gone, so a second request
for Rock schedules a second background task and changes the pending set.  And with a
population of Rock started through `LoadThumbnailAsync` before the first request, the end of
that task removes the marker while the task of the first request still waits, and the second
request schedules another one next to it. -/
theorem RequestThumbnail_twice_schedules_twice :
    (FMaterialVaultThumbnailManager.RequestThumbnail ReadyThumbnails ScenarioManager.Items 0
      128).BackgroundTasks =
      [{ MaterialItem := 0, ThumbnailSize := 128,
         MaterialPath := RockAsset.GetObjectPathString }] ∧
    (FMaterialVaultThumbnailManager.RunBackgroundTask
      (FMaterialVaultThumbnailManager.RequestThumbnail ReadyThumbnails ScenarioManager.Items 0
        128) true).ThumbnailCache = [] ∧
    (FMaterialVaultThumbnailManager.RunBackgroundTask
      (FMaterialVaultThumbnailManager.RequestThumbnail ReadyThumbnails ScenarioManager.Items 0
        128) true).GameThreadTasks =
      [{ MaterialPath := RockAsset.GetObjectPathString, Thumbnail := 1,
         ThumbnailSize := 128 }] ∧
    (FMaterialVaultThumbnailManager.RunBackgroundTask
      (FMaterialVaultThumbnailManager.RequestThumbnail ReadyThumbnails ScenarioManager.Items 0
        128) true).BackgroundTasks = [] ∧
    (FMaterialVaultThumbnailManager.RunBackgroundTask
      (FMaterialVaultThumbnailManager.RequestThumbnail ReadyThumbnails ScenarioManager.Items 0
        128) true).PendingThumbnails = [] ∧
    (FMaterialVaultThumbnailManager.RequestThumbnail
      (FMaterialVaultThumbnailManager.RunBackgroundTask
        (FMaterialVaultThumbnailManager.RequestThumbnail ReadyThumbnails ScenarioManager.Items
          0 128) true)
      ScenarioManager.Items 0 256).BackgroundTasks =
      [{ MaterialItem := 0, ThumbnailSize := 256,
         MaterialPath := RockAsset.GetObjectPathString }] ∧
    (FMaterialVaultThumbnailManager.RequestThumbnail
      (FMaterialVaultThumbnailManager.RunBackgroundTask
        (FMaterialVaultThumbnailManager.RequestThumbnail ReadyThumbnails ScenarioManager.Items
          0 128) true)
      ScenarioManager.Items 0 256).PendingThumbnails =
      [(RockAsset.GetObjectPathString, 0)] ∧
    (FMaterialVaultThumbnailManager.RunBackgroundTask
      (FMaterialVaultThumbnailManager.RequestThumbnail
        (FMaterialVaultThumbnailManager.LoadThumbnailAsync ReadyThumbnails
          ScenarioManager.Items 0 64)
        ScenarioManager.Items 0 128) true).BackgroundTasks =
      [{ MaterialItem := 0, ThumbnailSize := 128,
         MaterialPath := RockAsset.GetObjectPathString }] ∧
    (FMaterialVaultThumbnailManager.RunBackgroundTask
      (FMaterialVaultThumbnailManager.RequestThumbnail
        (FMaterialVaultThumbnailManager.LoadThumbnailAsync ReadyThumbnails
          ScenarioManager.Items 0 64)
        ScenarioManager.Items 0 128) true).PendingThumbnails = [] ∧
    (FMaterialVaultThumbnailManager.RequestThumbnail
      (FMaterialVaultThumbnailManager.RunBackgroundTask
        (FMaterialVaultThumbnailManager.RequestThumbnail
          (FMaterialVaultThumbnailManager.LoadThumbnailAsync ReadyThumbnails
            ScenarioManager.Items 0 64)
          ScenarioManager.Items 0 128) true)
      ScenarioManager.Items 0 256).BackgroundTasks =
      [{ MaterialItem := 0, ThumbnailSize := 128,
         MaterialPath := RockAsset.GetObjectPathString },
       { MaterialItem := 0, ThumbnailSize := 256,
         MaterialPath := RockAsset.GetObjectPathString }] := by
  decide

/-- C16, amended: in an initialised thumbnail manager, a `RequestThumbnail` for an item whose
path is not pending marks the path pending and schedules one background task, and a
`RequestThumbnail` for an item of the same path, of whatever size, made while the path is
marked pending (right after the first call, or in any later state of the manager that still
holds the marker) leaves the manager as it is: the pending set and the scheduled tasks do
not change.  The marker stays while game thread tasks run, tasks are queued and background
tasks of other paths end.  It does not last until the population completes: the background
task of a population of that path removes it at its end, with the cache as it was, and in
the state it leaves the request schedules another background task. -/
theorem RequestThumbnail_at_most_one (t : FMaterialVaultThumbnailManager)
    (Items : List FMaterialVaultMaterialItem) (First Second : Nat)
    (FirstItem SecondItem : FMaterialVaultMaterialItem) (FirstSize SecondSize : Int)
    (hInit : t.bIsInitialized = true)
    (hFirst : Items[First]? = some FirstItem) (hSecond : Items[Second]? = some SecondItem)
    (hSame : EqualsIgnoreCase FirstItem.AssetData.GetObjectPathString
      SecondItem.AssetData.GetObjectPathString = true)
    (hFree : TMap.Contains t.PendingThumbnails FirstItem.AssetData.GetObjectPathString = false) :
    (FMaterialVaultThumbnailManager.RequestThumbnail t Items First FirstSize).BackgroundTasks =
      t.BackgroundTasks ++
        [{ MaterialItem := First, ThumbnailSize := FirstSize,
           MaterialPath := FirstItem.AssetData.GetObjectPathString }] ∧
    TMap.Contains (FMaterialVaultThumbnailManager.RequestThumbnail t Items First
      FirstSize).PendingThumbnails FirstItem.AssetData.GetObjectPathString = true ∧
    FMaterialVaultThumbnailManager.RequestThumbnail
      (FMaterialVaultThumbnailManager.RequestThumbnail t Items First FirstSize)
      Items Second SecondSize =
      FMaterialVaultThumbnailManager.RequestThumbnail t Items First FirstSize ∧
    (∀ Later : FMaterialVaultThumbnailManager,
      TMap.Contains Later.PendingThumbnails FirstItem.AssetData.GetObjectPathString = true →
      FMaterialVaultThumbnailManager.RequestThumbnail Later Items Second SecondSize = Later) ∧
    (∀ Later : FMaterialVaultThumbnailManager,
      TMap.Contains Later.PendingThumbnails FirstItem.AssetData.GetObjectPathString = true →
      (∀ (Now : FDateTime), TMap.Contains (FMaterialVaultThumbnailManager.RunGameThreadTask
        Later Now).PendingThumbnails FirstItem.AssetData.GetObjectPathString = true) ∧
      (∀ (Other : Nat) (OtherSize : Int),
        TMap.Contains (FMaterialVaultThumbnailManager.LoadThumbnailAsync Later Items Other
          OtherSize).PendingThumbnails FirstItem.AssetData.GetObjectPathString = true) ∧
      (∀ (bMaterialLoads : Bool) (Task : FBackgroundTask) (Rest : List FBackgroundTask),
        Later.BackgroundTasks = Task :: Rest →
        EqualsIgnoreCase FirstItem.AssetData.GetObjectPathString Task.MaterialPath = false →
        TMap.Contains (FMaterialVaultThumbnailManager.RunBackgroundTask Later
          bMaterialLoads).PendingThumbnails FirstItem.AssetData.GetObjectPathString = true)) ∧
    (∀ (Later : FMaterialVaultThumbnailManager) (bMaterialLoads : Bool)
        (Task : FBackgroundTask) (Rest : List FBackgroundTask),
      Later.bIsInitialized = true → Later.BackgroundTasks = Task :: Rest →
      EqualsIgnoreCase Task.MaterialPath FirstItem.AssetData.GetObjectPathString = true →
      (FMaterialVaultThumbnailManager.RunBackgroundTask Later bMaterialLoads).ThumbnailCache =
        Later.ThumbnailCache ∧
      TMap.Contains (FMaterialVaultThumbnailManager.RunBackgroundTask Later
        bMaterialLoads).PendingThumbnails FirstItem.AssetData.GetObjectPathString = false ∧
      (FMaterialVaultThumbnailManager.RequestThumbnail
        (FMaterialVaultThumbnailManager.RunBackgroundTask Later bMaterialLoads)
        Items Second SecondSize).BackgroundTasks =
        Rest ++ [{ MaterialItem := Second, ThumbnailSize := SecondSize,
                   MaterialPath := SecondItem.AssetData.GetObjectPathString }]) := by
  have hNoOp : ∀ Later : FMaterialVaultThumbnailManager,
      TMap.Contains Later.PendingThumbnails FirstItem.AssetData.GetObjectPathString = true →
      FMaterialVaultThumbnailManager.RequestThumbnail Later Items Second SecondSize =
        Later := by
    intro Later hPending
    apply FMaterialVaultThumbnailManager.RequestThumbnail_pending _ Items Second SecondItem
      SecondSize hSecond
    simp only [TMap.Contains] at hPending ⊢
    rw [← TMap.Find_congr hSame]
    exact hPending
  have hPending : TMap.Contains (FMaterialVaultThumbnailManager.RequestThumbnail t Items First
      FirstSize).PendingThumbnails FirstItem.AssetData.GetObjectPathString = true := by
    rw [FMaterialVaultThumbnailManager.RequestThumbnail_fresh t Items First FirstItem FirstSize
      hInit hFirst hFree]
    simp only [TMap.Contains, TMap.Find_Add_self, Option.isSome_some]
  refine ⟨?_, hPending, hNoOp _ hPending, hNoOp, ?_, ?_⟩
  · rw [FMaterialVaultThumbnailManager.RequestThumbnail_fresh t Items First FirstItem FirstSize
      hInit hFirst hFree]
  · intro Later hLater
    refine ⟨?_, ?_, ?_⟩
    · intro Now
      rw [FMaterialVaultThumbnailManager.RunGameThreadTask_pending]
      exact hLater
    · intro Other OtherSize
      rw [FMaterialVaultThumbnailManager.LoadThumbnailAsync_pending]
      exact hLater
    · intro bMaterialLoads Task Rest hTasks hOther
      rw [(FMaterialVaultThumbnailManager.RunBackgroundTask_ends Later bMaterialLoads Task Rest
        hTasks).2.2.2]
      simp only [TMap.Contains] at hLater ⊢
      rw [TMap.Find_Remove_other _ hOther]
      exact hLater
  · intro Later bMaterialLoads Task Rest hInitL hTasks hPath
    obtain ⟨hRest, hCache, hInitR, hPend⟩ :=
      FMaterialVaultThumbnailManager.RunBackgroundTask_ends Later bMaterialLoads Task Rest
        hTasks
    have hGone : TMap.Find (FMaterialVaultThumbnailManager.RunBackgroundTask Later
        bMaterialLoads).PendingThumbnails FirstItem.AssetData.GetObjectPathString = none := by
      rw [hPend, ← TMap.Find_congr hPath]
      exact TMap.Find_Remove_self _ _
    have hGone2 : TMap.Contains (FMaterialVaultThumbnailManager.RunBackgroundTask Later
        bMaterialLoads).PendingThumbnails SecondItem.AssetData.GetObjectPathString = false := by
      simp only [TMap.Contains]
      rw [← TMap.Find_congr hSame, hGone]
      rfl
    refine ⟨hCache, ?_, ?_⟩
    · simp only [TMap.Contains]
      rw [hGone]
      rfl
    · rw [FMaterialVaultThumbnailManager.RequestThumbnail_fresh _ Items Second SecondItem
        SecondSize (hInitR.trans hInitL) hSecond hGone2]
      show _ ++ _ = _
      rw [hRest]

/-- C16 as amended, at a concrete input: Rock is requested twice, at 128 and at 256, in a
manager with nothing pending; one task is scheduled by the two calls, and once that task has
run to its end the request at 256 schedules a task again. -/
theorem RequestThumbnail_at_most_one_witness :
    ReadyThumbnails.bIsInitialized = true ∧
    TMap.Contains ReadyThumbnails.PendingThumbnails RockAsset.GetObjectPathString = false ∧
    (FMaterialVaultThumbnailManager.RequestThumbnail ReadyThumbnails ScenarioManager.Items 0
      128).BackgroundTasks =
      [{ MaterialItem := 0, ThumbnailSize := 128,
         MaterialPath := RockAsset.GetObjectPathString }] ∧
    FMaterialVaultThumbnailManager.RequestThumbnail
      (FMaterialVaultThumbnailManager.RequestThumbnail ReadyThumbnails ScenarioManager.Items 0 128)
      ScenarioManager.Items 0 256 =
      FMaterialVaultThumbnailManager.RequestThumbnail ReadyThumbnails ScenarioManager.Items 0 128 ∧
    (FMaterialVaultThumbnailManager.RequestThumbnail
      (FMaterialVaultThumbnailManager.RunBackgroundTask
        (FMaterialVaultThumbnailManager.RequestThumbnail ReadyThumbnails ScenarioManager.Items
          0 128) true)
      ScenarioManager.Items 0 256).BackgroundTasks =
      [] ++ [{ MaterialItem := 0, ThumbnailSize := 256,
               MaterialPath := (ItemAt ScenarioManager 0).AssetData.GetObjectPathString }] :=
  ⟨by decide, by decide,
    (RequestThumbnail_at_most_one ReadyThumbnails ScenarioManager.Items 0 0
      (ItemAt ScenarioManager 0) (ItemAt ScenarioManager 0) 128 256
      (by decide) (by decide) (by decide) (by decide) (by decide)).1,
    (RequestThumbnail_at_most_one ReadyThumbnails ScenarioManager.Items 0 0
      (ItemAt ScenarioManager 0) (ItemAt ScenarioManager 0) 128 256
      (by decide) (by decide) (by decide) (by decide) (by decide)).2.2.1,
    ((RequestThumbnail_at_most_one ReadyThumbnails ScenarioManager.Items 0 0
      (ItemAt ScenarioManager 0) (ItemAt ScenarioManager 0) 128 256
      (by decide) (by decide) (by decide) (by decide) (by decide)).2.2.2.2.2
      (FMaterialVaultThumbnailManager.RequestThumbnail ReadyThumbnails ScenarioManager.Items
        0 128) true
      { MaterialItem := 0, ThumbnailSize := 128,
        MaterialPath := RockAsset.GetObjectPathString } []
      (by decide) (by decide) (by decide)).2.2⟩

/-- C17 fails as stated: in a manager that holds a cached thumbnail of Rock and a pending
marker for Wood, `ClearThumbnailCache` empties the cache but Wood is still marked pending,
and a later `RequestThumbnail` for Wood schedules nothing. -/
theorem ClearThumbnailCache_keeps_pending :
    BusyThumbnails.bIsInitialized = true ∧
    BusyThumbnails.ThumbnailCache.length = 1 ∧
    TMap.Contains BusyThumbnails.PendingThumbnails WoodAsset.GetObjectPathString = true ∧
    (FMaterialVaultThumbnailManager.ClearThumbnailCache BusyThumbnails).ThumbnailCache = [] ∧
    TMap.Contains (FMaterialVaultThumbnailManager.ClearThumbnailCache
      BusyThumbnails).PendingThumbnails WoodAsset.GetObjectPathString = true ∧
    (FMaterialVaultThumbnailManager.RequestThumbnail
      (FMaterialVaultThumbnailManager.ClearThumbnailCache BusyThumbnails)
      ScenarioManager.Items 1 128).BackgroundTasks =
      (FMaterialVaultThumbnailManager.ClearThumbnailCache BusyThumbnails).BackgroundTasks := by
  decide

/-- C17 as amended: `ClearThumbnailCache` drops all cache entries and leaves the pending
markers and the scheduled tasks as they are, so in an initialised manager a later
`RequestThumbnail` schedules a population for a path that is not marked pending and none for
a path that is; `Shutdown` of an initialised manager drops the cache entries and the pending
markers. -/
theorem ClearThumbnailCache_spec (t : FMaterialVaultThumbnailManager) :
    (FMaterialVaultThumbnailManager.ClearThumbnailCache t).ThumbnailCache = [] ∧
    (FMaterialVaultThumbnailManager.ClearThumbnailCache t).PendingThumbnails =
      t.PendingThumbnails ∧
    (FMaterialVaultThumbnailManager.ClearThumbnailCache t).BackgroundTasks = t.BackgroundTasks ∧
    (∀ (Items : List FMaterialVaultMaterialItem) (MaterialItem : Nat)
        (Item : FMaterialVaultMaterialItem) (ThumbnailSize : Int),
      t.bIsInitialized = true → Items[MaterialItem]? = some Item →
      ((TMap.Contains t.PendingThumbnails Item.AssetData.GetObjectPathString = false →
        (FMaterialVaultThumbnailManager.RequestThumbnail
          (FMaterialVaultThumbnailManager.ClearThumbnailCache t) Items MaterialItem
          ThumbnailSize).BackgroundTasks =
          t.BackgroundTasks ++
            [{ MaterialItem := MaterialItem, ThumbnailSize := ThumbnailSize,
               MaterialPath := Item.AssetData.GetObjectPathString }]) ∧
       (TMap.Contains t.PendingThumbnails Item.AssetData.GetObjectPathString = true →
        FMaterialVaultThumbnailManager.RequestThumbnail
          (FMaterialVaultThumbnailManager.ClearThumbnailCache t) Items MaterialItem
          ThumbnailSize = FMaterialVaultThumbnailManager.ClearThumbnailCache t))) ∧
    (t.bIsInitialized = true →
      (FMaterialVaultThumbnailManager.Shutdown t).ThumbnailCache = [] ∧
      (FMaterialVaultThumbnailManager.Shutdown t).PendingThumbnails = []) := by
  refine ⟨rfl, rfl, rfl, ?_, ?_⟩
  · intro Items MaterialItem Item ThumbnailSize hInit hItem
    refine ⟨fun hFree => ?_, fun hPending => ?_⟩
    · rw [FMaterialVaultThumbnailManager.RequestThumbnail_fresh
        (FMaterialVaultThumbnailManager.ClearThumbnailCache t) Items MaterialItem Item
        ThumbnailSize hInit hItem hFree]
      rfl
    · exact FMaterialVaultThumbnailManager.RequestThumbnail_pending _ Items MaterialItem Item
        ThumbnailSize hItem hPending
  · intro hInit
    simp [FMaterialVaultThumbnailManager.Shutdown, hInit,
      FMaterialVaultThumbnailManager.ClearThumbnailCache]

/-- C17 as amended, at the input of the counterexample: after `ClearThumbnailCache` a
request for Rock (not pending) schedules a task, a request for Wood (pending) changes
nothing, and `Shutdown` leaves no pending marker. -/
theorem ClearThumbnailCache_spec_witness :
    BusyThumbnails.bIsInitialized = true ∧
    TMap.Contains BusyThumbnails.PendingThumbnails RockAsset.GetObjectPathString = false ∧
    TMap.Contains BusyThumbnails.PendingThumbnails WoodAsset.GetObjectPathString = true ∧
    (FMaterialVaultThumbnailManager.RequestThumbnail
      (FMaterialVaultThumbnailManager.ClearThumbnailCache BusyThumbnails) ScenarioManager.Items 0
      64).BackgroundTasks =
      BusyThumbnails.BackgroundTasks ++
        [{ MaterialItem := 0, ThumbnailSize := 64,
           MaterialPath := (ItemAt ScenarioManager 0).AssetData.GetObjectPathString }] ∧
    FMaterialVaultThumbnailManager.RequestThumbnail
      (FMaterialVaultThumbnailManager.ClearThumbnailCache BusyThumbnails) ScenarioManager.Items 1
      64 = FMaterialVaultThumbnailManager.ClearThumbnailCache BusyThumbnails ∧
    (FMaterialVaultThumbnailManager.Shutdown BusyThumbnails).PendingThumbnails = [] :=
  ⟨by decide, by decide, by decide,
    ((ClearThumbnailCache_spec BusyThumbnails).2.2.2.1 ScenarioManager.Items 0
      (ItemAt ScenarioManager 0) 64 (by decide) (by decide)).1 (by decide),
    ((ClearThumbnailCache_spec BusyThumbnails).2.2.2.1 ScenarioManager.Items 1
      (ItemAt ScenarioManager 1) 64 (by decide) (by decide)).2 (by decide),
    ((ClearThumbnailCache_spec BusyThumbnails).2.2.2.2 (by decide)).2⟩

theorem Contains_congr {a b : FString} (h : EqualsIgnoreCase a b = true) (pat : FString) :
    Contains a pat = Contains b pat := by
  rw [EqualsIgnoreCase_iff] at h
  unfold Contains
  rw [h]

theorem Contains_append_self (pat rest : FString) (h : pat ≠ []) :
    Contains (pat ++ rest) pat = true := by
  have hne : pat.isEmpty = false := by
    cases pat with
    | nil => exact absurd rfl h
    | cons c tail => rfl
  unfold Contains
  rw [hne, Bool.not_false, Bool.true_and, OccursIn_iff, ToLower_append]
  exact (List.prefix_append _ _).isInfix

theorem TMap.Find_filter_none {V : Type} (m : TMap V) (Keep : FString × V → Bool)
    (Key : FString)
    (h : ∀ kv ∈ m, EqualsIgnoreCase kv.1 Key = true → Keep kv = false) :
    TMap.Find (m.filter Keep) Key = none := by
  rw [TMap.Find_none_iff]
  intro kv hkv
  obtain ⟨hmem, hkeep⟩ := List.mem_filter.mp hkv
  cases hk : EqualsIgnoreCase kv.1 Key with
  | false => rfl
  | true =>
    rw [h kv hmem hk] at hkeep
    cases hkeep

/-- C18: for every asset path (a string that is not empty) and every state of the thumbnail
cache, after `ClearThumbnailForMaterial` the cache holds no entry under the cache key of
that path and any size. -/
theorem ClearThumbnailForMaterial_removes (t : FMaterialVaultThumbnailManager)
    (MaterialPath : FString) (ThumbnailSize : Int) (hPath : MaterialPath ≠ []) :
    TMap.Find (FMaterialVaultThumbnailManager.ClearThumbnailForMaterial t
      MaterialPath).ThumbnailCache
      (FMaterialVaultThumbnailManager.GetCacheKey MaterialPath ThumbnailSize) = none := by
  unfold FMaterialVaultThumbnailManager.ClearThumbnailForMaterial
  apply TMap.Find_filter_none
  intro kv _ hk
  rw [Contains_congr hk, FMaterialVaultThumbnailManager.GetCacheKey,
    Contains_append_self _ _ hPath]
  rfl

/-- C18 at a concrete input: the cached thumbnail of Rock is found under its key before
`ClearThumbnailForMaterial` and not after it. -/
theorem ClearThumbnailForMaterial_removes_witness :
    RockAsset.GetObjectPathString ≠ [] ∧
    (TMap.Find BusyThumbnails.ThumbnailCache
      (FMaterialVaultThumbnailManager.GetCacheKey RockAsset.GetObjectPathString 128)).isSome =
      true ∧
    TMap.Find (FMaterialVaultThumbnailManager.ClearThumbnailForMaterial BusyThumbnails
      RockAsset.GetObjectPathString).ThumbnailCache
      (FMaterialVaultThumbnailManager.GetCacheKey RockAsset.GetObjectPathString 128) = none :=
  ⟨by decide, by decide,
    ClearThumbnailForMaterial_removes BusyThumbnails RockAsset.GetObjectPathString 128
      (by decide)⟩

/-! ## Lemmas on number formatting and cache keys -/

theorem digitChar_toNat (d : Nat) (h : d < 10) : (Char.ofNat (48 + d)).toNat = 48 + d := by
  interval_cases d <;> decide

theorem ToDigitsRev_value (Fuel : Nat) :
    ∀ n : Nat, n < Fuel → DigitsValueRev (ToDigitsRev Fuel n) = n := by
  induction Fuel with
  | zero => intro n h; exact absurd h (Nat.not_lt_zero _)
  | succ Fuel ih =>
    intro n h
    have hd := digitChar_toNat (n % 10) (Nat.mod_lt _ (by decide))
    by_cases h0 : n / 10 = 0
    · simp only [ToDigitsRev, h0, if_true, DigitsValueRev, hd]
      omega
    · have hlt : n / 10 < Fuel := by omega
      simp only [ToDigitsRev, h0, if_false, DigitsValueRev, hd, ih (n / 10) hlt]
      omega

theorem ToDigitsRev_digits (Fuel : Nat) :
    ∀ n : Nat, ∀ c ∈ ToDigitsRev Fuel n, 48 ≤ c.toNat ∧ c.toNat ≤ 57 := by
  induction Fuel with
  | zero => intro n c hc; cases hc
  | succ Fuel ih =>
    intro n c hc
    have hd := digitChar_toNat (n % 10) (Nat.mod_lt _ (by decide))
    have hm : n % 10 < 10 := Nat.mod_lt _ (by decide)
    simp only [ToDigitsRev, List.mem_cons] at hc
    rcases hc with hc | hc
    · rw [hc, hd]
      omega
    · split at hc
      · cases hc
      · exact ih _ c hc

theorem FormatNat_injective {a b : Nat} (h : FormatNat a = FormatNat b) : a = b := by
  unfold FormatNat at h
  have h2 := List.reverse_injective h
  have ha := ToDigitsRev_value (a + 1) a (Nat.lt_succ_self a)
  have hb := ToDigitsRev_value (b + 1) b (Nat.lt_succ_self b)
  rw [h2] at ha
  exact ha.symm.trans hb

theorem FormatNat_digits (n : Nat) : ∀ c ∈ FormatNat n, 48 ≤ c.toNat ∧ c.toNat ≤ 57 := by
  intro c hc
  unfold FormatNat at hc
  exact ToDigitsRev_digits _ _ c (List.mem_reverse.mp hc)

theorem FormatInt_chars (n : Int) :
    ∀ c ∈ FormatInt n, c = '-' ∨ (48 ≤ c.toNat ∧ c.toNat ≤ 57) := by
  intro c hc
  unfold FormatInt at hc
  split at hc
  · rcases List.mem_cons.mp hc with h | h
    · exact Or.inl h
    · exact Or.inr (FormatNat_digits _ c h)
  · exact Or.inr (FormatNat_digits _ c hc)

theorem FormatInt_injective {a b : Int} (h : FormatInt a = FormatInt b) : a = b := by
  unfold FormatInt at h
  have hminus : ∀ n : Nat, ('-' : Char) ∉ FormatNat n := by
    intro n hmem
    have := FormatNat_digits n '-' hmem
    revert this
    decide
  by_cases ha : a < 0 <;> by_cases hb : b < 0
  · simp only [ha, hb, if_true, List.cons.injEq, true_and] at h
    have := FormatNat_injective h
    omega
  · simp only [ha, hb, if_true, if_false] at h
    exact absurd (h ▸ List.mem_cons_self _ _) (hminus _)
  · simp only [ha, hb, if_true, if_false] at h
    exact absurd (h ▸ List.mem_cons_self _ _) (hminus _)
  · simp only [ha, hb, if_false] at h
    have := FormatNat_injective h
    omega

theorem FormatInt_no_underscore (n : Int) : ('_' : Char) ∉ FormatInt n := by
  intro hmem
  rcases FormatInt_chars n '_' hmem with h | h
  · revert h
    decide
  · revert h
    decide

theorem ToLower_FormatInt (n : Int) : ToLower (FormatInt n) = FormatInt n := by
  unfold ToLower
  conv_rhs => rw [← List.map_id (FormatInt n)]
  apply List.map_congr_left
  intro c hc
  unfold ToLowerChar
  rcases FormatInt_chars n c hc with h | h
  · rw [h]
    rfl
  · rw [if_neg (by omega)]
    rfl

theorem append_cons_split {α : Type} (x : α) :
    ∀ (a c b d : List α), a ++ x :: b = c ++ x :: d → x ∉ b → x ∉ d → a = c ∧ b = d := by
  intro a
  induction a with
  | nil =>
    intro c b d h hb _
    cases c with
    | nil =>
      simp only [List.nil_append, List.cons.injEq, true_and] at h
      exact ⟨rfl, h⟩
    | cons y c2 =>
      simp only [List.nil_append, List.cons_append, List.cons.injEq] at h
      exact absurd (h.2 ▸ List.mem_append_right _ (List.mem_cons_self _ _)) hb
  | cons y a2 ih =>
    intro c b d h hb hd
    cases c with
    | nil =>
      simp only [List.nil_append, List.cons_append, List.cons.injEq] at h
      exact absurd (h.2 ▸ List.mem_append_right _ (List.mem_cons_self _ _)) hd
    | cons z c2 =>
      simp only [List.cons_append, List.cons.injEq] at h
      obtain ⟨h1, h2⟩ := ih c2 b d h.2 hb hd
      exact ⟨by rw [h.1, h1], h2⟩

theorem TMap.length_Replace {V : Type} (m : TMap V) (k : FString) (v : V) :
    (TMap.Replace m k v).length = m.length := by
  induction m with
  | nil => rfl
  | cons kv rest ih =>
    obtain ⟨k0, v0⟩ := kv
    by_cases h0 : EqualsIgnoreCase k0 k = true
    · simp [TMap.Replace, h0]
    · simp only [Bool.not_eq_true] at h0
      simp [TMap.Replace, h0, ih]

theorem TMap.UniqueKeys_foldl_Remove {V : Type} {α : Type} (Key : α → FString) (Keys : List α) :
    ∀ m : TMap V, TMap.UniqueKeys m →
      TMap.UniqueKeys (Keys.foldl (fun Cache Entry => TMap.Remove Cache (Key Entry)) m) := by
  induction Keys with
  | nil => intro m h; exact h
  | cons a rest ih =>
    intro m h
    simp only [List.foldl_cons]
    exact ih _ (List.Pairwise.filter _ h)

theorem TrimCache_UniqueKeys (t : FMaterialVaultThumbnailManager)
    (h : TMap.UniqueKeys t.ThumbnailCache) :
    TMap.UniqueKeys (FMaterialVaultThumbnailManager.TrimCache t).ThumbnailCache := by
  unfold FMaterialVaultThumbnailManager.TrimCache
  split
  · exact h
  · exact TMap.UniqueKeys_foldl_Remove _ _ _ h

/-- C19: `GetCacheKey` is injective: equal keys come from equal paths and equal sizes, and
keys that the cache takes for the same (equal up to letter case) come from paths equal up
to letter case and from equal sizes.  A cache without two entries under one key stays so
under `OnThumbnailGenerated`; and when the key is already in a cache that is not over its
bound, the insertion leaves the number of entries as it was, with the new entry the only one
under the key. -/
theorem GetCacheKey_injective :
    (∀ (p1 p2 : FString) (s1 s2 : Int),
      FMaterialVaultThumbnailManager.GetCacheKey p1 s1 =
        FMaterialVaultThumbnailManager.GetCacheKey p2 s2 → p1 = p2 ∧ s1 = s2) ∧
    (∀ (p1 p2 : FString) (s1 s2 : Int),
      EqualsIgnoreCase (FMaterialVaultThumbnailManager.GetCacheKey p1 s1)
        (FMaterialVaultThumbnailManager.GetCacheKey p2 s2) = true →
      EqualsIgnoreCase p1 p2 = true ∧ s1 = s2) ∧
    (∀ (t : FMaterialVaultThumbnailManager) (MaterialPath : FString) (Thumbnail : Option Nat)
        (ThumbnailSize : Int) (Now : FDateTime),
      TMap.UniqueKeys t.ThumbnailCache →
      TMap.UniqueKeys (FMaterialVaultThumbnailManager.OnThumbnailGenerated t MaterialPath
        Thumbnail ThumbnailSize Now).ThumbnailCache) ∧
    (∀ (t : FMaterialVaultThumbnailManager) (MaterialPath : FString) (Thumbnail : Nat)
        (ThumbnailSize : Int) (Now : FDateTime),
      TMap.UniqueKeys t.ThumbnailCache →
      TMap.Contains t.ThumbnailCache
        (FMaterialVaultThumbnailManager.GetCacheKey MaterialPath ThumbnailSize) = true →
      (t.ThumbnailCache.length : Int) ≤ t.MaxCacheSize →
      (FMaterialVaultThumbnailManager.OnThumbnailGenerated t MaterialPath (some Thumbnail)
        ThumbnailSize Now).ThumbnailCache.length = t.ThumbnailCache.length ∧
      TMap.Find (FMaterialVaultThumbnailManager.OnThumbnailGenerated t MaterialPath
        (some Thumbnail) ThumbnailSize Now).ThumbnailCache
        (FMaterialVaultThumbnailManager.GetCacheKey MaterialPath ThumbnailSize) =
        some { Brush := some { Texture := Thumbnail, Size := ThumbnailSize }
               Texture := some Thumbnail
               ThumbnailSize := ThumbnailSize
               LastAccessTime := Now } ∧
      ((FMaterialVaultThumbnailManager.OnThumbnailGenerated t MaterialPath (some Thumbnail)
        ThumbnailSize Now).ThumbnailCache.filter (fun kv => EqualsIgnoreCase kv.1
          (FMaterialVaultThumbnailManager.GetCacheKey MaterialPath ThumbnailSize))).length =
        1) := by
  refine ⟨?_, ?_, ?_, ?_⟩
  · intro p1 p2 s1 s2 h
    unfold FMaterialVaultThumbnailManager.GetCacheKey at h
    obtain ⟨h1, h2⟩ := append_cons_split '_' p1 p2 _ _ h (FormatInt_no_underscore s1)
      (FormatInt_no_underscore s2)
    exact ⟨h1, FormatInt_injective h2⟩
  · intro p1 p2 s1 s2 h
    rw [EqualsIgnoreCase_iff] at h
    unfold FMaterialVaultThumbnailManager.GetCacheKey at h
    rw [ToLower_append, ToLower_append] at h
    have hc : ∀ n : Int, ToLower ('_' :: FormatInt n) = '_' :: FormatInt n := by
      intro n
      have := ToLower_FormatInt n
      unfold ToLower at this ⊢
      rw [List.map_cons, this]
      rfl
    rw [hc, hc] at h
    obtain ⟨h1, h2⟩ := append_cons_split '_' _ _ _ _ h (FormatInt_no_underscore s1)
      (FormatInt_no_underscore s2)
    exact ⟨(EqualsIgnoreCase_iff _ _).mpr h1, FormatInt_injective h2⟩
  · intro t MaterialPath Thumbnail ThumbnailSize Now hU
    cases Thumbnail with
    | none => exact hU
    | some Handle =>
      simp only [FMaterialVaultThumbnailManager.OnThumbnailGenerated]
      exact TrimCache_UniqueKeys _ (TMap.UniqueKeys_Add _ _ _ hU)
  · intro t MaterialPath Thumbnail ThumbnailSize Now hU hC hMax
    have hlen : (TMap.Add t.ThumbnailCache
        (FMaterialVaultThumbnailManager.GetCacheKey MaterialPath ThumbnailSize)
        ({ Brush := some { Texture := Thumbnail, Size := ThumbnailSize }
           Texture := some Thumbnail
           ThumbnailSize := ThumbnailSize
           LastAccessTime := Now } : FThumbnailCacheEntry)).length = t.ThumbnailCache.length := by
      simp only [TMap.Add, hC, if_true, TMap.length_Replace]
    have hno : (FMaterialVaultThumbnailManager.OnThumbnailGenerated t MaterialPath
        (some Thumbnail) ThumbnailSize Now).ThumbnailCache =
        TMap.Add t.ThumbnailCache
          (FMaterialVaultThumbnailManager.GetCacheKey MaterialPath ThumbnailSize)
          { Brush := some { Texture := Thumbnail, Size := ThumbnailSize }
            Texture := some Thumbnail
            ThumbnailSize := ThumbnailSize
            LastAccessTime := Now } := by
      simp only [FMaterialVaultThumbnailManager.OnThumbnailGenerated,
        FMaterialVaultThumbnailManager.CreateBrushFromTexture,
        FMaterialVaultThumbnailManager.TrimCache, hlen, hMax, if_true]
    rw [hno]
    exact ⟨hlen, TMap.Find_Add_self _ _ _,
      TMap.count_of_UniqueKeys _ _ _ (TMap.UniqueKeys_Add _ _ _ hU) (TMap.Find_Add_self _ _ _)⟩

theorem GetCacheKey_injective_witness :
    EqualsIgnoreCase
      (FMaterialVaultThumbnailManager.GetCacheKey "/Game/Mats/Rock.Rock".toList 128)
      (FMaterialVaultThumbnailManager.GetCacheKey "/game/mats/rock.rock".toList 128) = true ∧
    EqualsIgnoreCase "/Game/Mats/Rock.Rock".toList "/game/mats/rock.rock".toList = true ∧
    (128 : Int) = 128 ∧
    TMap.Contains BusyThumbnails.ThumbnailCache
      (FMaterialVaultThumbnailManager.GetCacheKey RockAsset.GetObjectPathString 128) = true ∧
    (FMaterialVaultThumbnailManager.OnThumbnailGenerated BusyThumbnails
      RockAsset.GetObjectPathString (some 7) 128 ⟨20⟩).ThumbnailCache.length =
      BusyThumbnails.ThumbnailCache.length :=
  ⟨by decide,
   (GetCacheKey_injective.2.1 "/Game/Mats/Rock.Rock".toList "/game/mats/rock.rock".toList
      128 128 (by decide)).1,
   (GetCacheKey_injective.2.1 "/Game/Mats/Rock.Rock".toList "/game/mats/rock.rock".toList
      128 128 (by decide)).2,
   by decide,
   (GetCacheKey_injective.2.2.2 BusyThumbnails RockAsset.GetObjectPathString 7 128 ⟨20⟩
      (by unfold TMap.UniqueKeys; decide) (by decide) (by decide)).1⟩

/-! ## Theorems on the tag editor -/

theorem TArrayContains_of_mem (Tags : List FString) (t : FString) (h : t ∈ Tags) :
    TArrayContains Tags t = true := by
  unfold TArrayContains
  exact List.any_eq_true.mpr ⟨t, h, EqualsIgnoreCase_refl t⟩

theorem TrimStartAndEnd_ne_leading (s : FString) :
    (TrimStartAndEnd s).dropWhile IsWhitespace = TrimStartAndEnd s := by
  unfold TrimStartAndEnd
  have hpre : ((s.dropWhile IsWhitespace).reverse.dropWhile IsWhitespace).reverse <+:
      s.dropWhile IsWhitespace := List.rdropWhile_prefix IsWhitespace _
  rw [List.dropWhile_eq_self_iff]
  intro hl
  obtain ⟨rest, hrest⟩ := hpre
  generalize hT : ((s.dropWhile IsWhitespace).reverse.dropWhile IsWhitespace).reverse = T
    at hl hrest ⊢
  cases T with
  | nil => exact absurd hl (Nat.lt_irrefl _)
  | cons c T2 =>
    have hself : (s.dropWhile IsWhitespace).dropWhile IsWhitespace =
        s.dropWhile IsWhitespace := List.dropWhile_idempotent _ _
    rw [← hrest, List.cons_append, List.dropWhile_cons] at hself
    intro hc
    change IsWhitespace c = true at hc
    rw [if_pos hc] at hself
    have hlen := congrArg List.length hself
    have hsuf := List.IsSuffix.length_le (List.dropWhile_suffix IsWhitespace : 
      (T2 ++ rest).dropWhile IsWhitespace <:+ T2 ++ rest)
    rw [hlen] at hsuf
    simp only [List.length_cons] at hsuf
    omega

theorem TrimStartAndEnd_idempotent (s : FString) :
    TrimStartAndEnd (TrimStartAndEnd s) = TrimStartAndEnd s := by
  have h1 : TrimStartAndEnd (TrimStartAndEnd s) =
      (((TrimStartAndEnd s).dropWhile IsWhitespace).reverse.dropWhile IsWhitespace).reverse :=
    rfl
  rw [h1, TrimStartAndEnd_ne_leading]
  unfold TrimStartAndEnd
  exact List.rdropWhile_idempotent IsWhitespace _

theorem OnAddTag_of_contained (Tags : List FString) (Text : FString)
    (h : TArrayContains Tags (TrimStartAndEnd Text) = true) : OnAddTag Tags Text = Tags := by
  simp only [OnAddTag, h, Bool.not_true, Bool.and_false, Bool.false_eq_true, if_false]

theorem OnAddTag_cases (Tags : List FString) (Text : FString) :
    OnAddTag Tags Text = Tags ∨
    (OnAddTag Tags Text = Tags ++ [TrimStartAndEnd Text] ∧
      TArrayContains Tags (TrimStartAndEnd Text) = false) := by
  cases hC : TArrayContains Tags (TrimStartAndEnd Text) with
  | true => exact Or.inl (OnAddTag_of_contained Tags Text hC)
  | false =>
    cases hE : (TrimStartAndEnd Text).isEmpty with
    | true =>
      left
      simp only [OnAddTag, hE, Bool.not_true, Bool.false_and, Bool.false_eq_true, if_false]
    | false =>
      right
      simp only [OnAddTag, hE, hC, Bool.not_false, Bool.and_self, if_true, and_self]

/-- C20, the claim as it stands fails: the list that holds the one tag " foo " (read from a
sidecar file, which is not trimmed) does not stay as it is when " foo " is added; the trimmed
text "foo" is appended. -/
theorem OnAddTag_untrimmed_tag_appends :
    " foo ".toList ∈ [" foo ".toList] ∧
    OnAddTag [" foo ".toList] " foo ".toList = [" foo ".toList, "foo".toList] ∧
    OnAddTag [" foo ".toList] " foo ".toList ≠ [" foo ".toList] := by
  decide

/-- C20, amended: for every tag list L and every tag t present in L that has no white space
at its start or end, `OnAddTag` with input t leaves L unchanged, and so does every input
whose trimmed text is empty or equals an entry of L up to letter case; a tag list without
duplicates stays without duplicates after any add; and a list of trimmed tags stays a list
of trimmed tags, so that lists built by `OnAddTag` alone hold only such tags. -/
theorem OnAddTag_spec (Tags : List FString) (Text : FString) :
    (Text ∈ Tags → TrimStartAndEnd Text = Text → OnAddTag Tags Text = Tags) ∧
    (TArrayContains Tags (TrimStartAndEnd Text) = true ∨ TrimStartAndEnd Text = [] →
      OnAddTag Tags Text = Tags) ∧
    (Tags.Nodup → (OnAddTag Tags Text).Nodup) ∧
    ((∀ t ∈ Tags, TrimStartAndEnd t = t) → ∀ t ∈ OnAddTag Tags Text, TrimStartAndEnd t = t) := by
  refine ⟨?_, ?_, ?_, ?_⟩
  · intro hmem htrim
    apply OnAddTag_of_contained
    rw [htrim]
    exact TArrayContains_of_mem Tags Text hmem
  · intro h
    rcases h with h | h
    · exact OnAddTag_of_contained Tags Text h
    · simp only [OnAddTag, h, List.isEmpty_nil, Bool.not_true, Bool.false_and,
        Bool.false_eq_true, if_false]
  · intro hN
    rcases OnAddTag_cases Tags Text with h | ⟨h, hC⟩
    · rw [h]
      exact hN
    · rw [h]
      have hnot : TrimStartAndEnd Text ∉ Tags := by
        intro hmem
        rw [TArrayContains_of_mem Tags _ hmem] at hC
        exact Bool.noConfusion hC
      rw [List.nodup_append]
      refine ⟨hN, List.nodup_singleton _, ?_⟩
      intro x hx hx2
      rw [List.mem_singleton] at hx2
      exact hnot (hx2 ▸ hx)
  · intro hT t ht
    rcases OnAddTag_cases Tags Text with h | ⟨h, _⟩
    · rw [h] at ht
      exact hT t ht
    · rw [h, List.mem_append, List.mem_singleton] at ht
      rcases ht with ht | ht
      · exact hT t ht
      · rw [ht]
        exact TrimStartAndEnd_idempotent Text

theorem OnAddTag_spec_witness :
    "foo".toList ∈ ["bar".toList, "foo".toList] ∧
    TrimStartAndEnd "foo".toList = "foo".toList ∧
    OnAddTag ["bar".toList, "foo".toList] "foo".toList = ["bar".toList, "foo".toList] :=
  ⟨by decide, by decide,
    (OnAddTag_spec ["bar".toList, "foo".toList] "foo".toList).1 (by decide) (by decide)⟩

/-! ## Theorems on the metadata store -/

/-- C13: save is write-through.  For every item with metadata M, after
`SaveMaterialMetadata` the metadata cache maps the path of the item to M whether or not the
file write succeeded, and the items are as before; so a following `LoadMaterialMetadata` of
an item with that path sets its metadata to M whatever the files hold and whatever record
the item held in between, and changes neither the files nor the cache. -/
theorem SaveMaterialMetadata_write_through (s : UMaterialVaultManager) (p : Nat)
    (Item : FMaterialVaultMaterialItem) (bWriteSucceeds : Bool)
    (hItem : s.Items[p]? = some Item) :
    TMap.Find (SaveMaterialMetadata s p bWriteSucceeds).MetadataCache
      Item.AssetData.GetObjectPathString = some Item.Metadata ∧
    (SaveMaterialMetadata s p bWriteSucceeds).Items = s.Items ∧
    (bWriteSucceeds = false → (SaveMaterialMetadata s p bWriteSucceeds).Files = s.Files) ∧
    ∀ (Files : FFileSystem) (Edited : FMaterialVaultMetadata),
      LoadMaterialMetadata
        { SaveMaterialMetadata s p bWriteSucceeds with
          Files := Files
          Items := s.Items.set p { Item with Metadata := Edited } } p =
        { SaveMaterialMetadata s p bWriteSucceeds with Files := Files } := by
  have hSave : SaveMaterialMetadata s p bWriteSucceeds =
      { s with
        MetadataCache := TMap.Add s.MetadataCache Item.AssetData.GetObjectPathString
          Item.Metadata
        Files := if bWriteSucceeds then SaveStringToFile s.Files
          (GetMetadataFilePath s Item.AssetData) (MetadataToJson Item.Metadata) else s.Files } := by
    simp only [SaveMaterialMetadata, hItem]
  have hlt : p < s.Items.length := (List.getElem?_eq_some.mp hItem).1
  refine ⟨?_, ?_, ?_, ?_⟩
  · rw [hSave]
    exact TMap.Find_Add_self _ _ _
  · rw [hSave]
  · intro hb
    rw [hSave, hb]
    rfl
  · intro Files Edited
    rw [hSave]
    rw [LoadMaterialMetadata_cached _ p { Item with Metadata := Edited } Item.Metadata
      (by simp only [List.getElem?_set_self hlt]) (TMap.Find_Add_self _ _ _)]
    simp only [List.set_set]
    have hset : s.Items.set p Item = s.Items := by
      apply List.ext_getElem?
      intro i
      by_cases hi : i = p
      · rw [hi, List.getElem?_set_self hlt, hItem]
      · rw [List.getElem?_set_ne (Ne.symm hi)]
    rw [hset]

theorem SaveMaterialMetadata_write_through_witness :
    ScenarioManager.Items[0]? = some (ItemAt ScenarioManager 0) ∧
    TMap.Find (SaveMaterialMetadata ScenarioManager 0 false).MetadataCache
      (ItemAt ScenarioManager 0).AssetData.GetObjectPathString =
      some (ItemAt ScenarioManager 0).Metadata :=
  ⟨by decide,
   (SaveMaterialMetadata_write_through ScenarioManager 0 (ItemAt ScenarioManager 0) false
      (by decide)).1⟩

/-- C14, the claim as it stands fails: in the refreshed manager of the scenario the cache
has no entry for Rock and there is no sidecar file, and `LoadMaterialMetadata` leaves the
item of Rock with the material name "Rock" and the location "/Game/Mats/Rock", the record
its constructor made, not with empty ones. -/
theorem LoadMaterialMetadata_keeps_constructed_name :
    (ScenarioManager.Items[0]?).map (fun Item => Item.AssetData) = some RockAsset ∧
    TMap.Find ScenarioManager.MetadataCache RockAsset.GetObjectPathString = none ∧
    LoadFileToString ScenarioManager.Files (GetMetadataFilePath ScenarioManager RockAsset) =
      none ∧
    (ItemAt (LoadMaterialMetadata ScenarioManager 0) 0).Metadata.MaterialName =
      "Rock".toList ∧
    (ItemAt (LoadMaterialMetadata ScenarioManager 0) 0).Metadata.Location =
      "/Game/Mats/Rock".toList := by
  decide

/-- C14, amended: when the metadata cache has no entry for the path of the item and the
sidecar file is missing or cannot be parsed, `LoadMaterialMetadata` returns with nothing
changed, so the item keeps the record it held.  For an item newly made from its asset data
by `ProcessMaterialAsset` that record has the asset name as material name, the package name
as location, and author, notes and category empty and the tag list empty. -/
theorem LoadMaterialMetadata_without_source (s : UMaterialVaultManager) (p : Nat)
    (Item : FMaterialVaultMaterialItem)
    (hItem : s.Items[p]? = some Item)
    (hCache : TMap.Find s.MetadataCache Item.AssetData.GetObjectPathString = none)
    (hFile : LoadFileToString s.Files (GetMetadataFilePath s Item.AssetData) = none ∨
      LoadFileToString s.Files (GetMetadataFilePath s Item.AssetData) = some none) :
    LoadMaterialMetadata s p = s ∧
    (LoadMaterialMetadata s p).Items[p]? = some Item ∧
    ∀ (AssetData : FAssetData) (Now : FDateTime),
      Item = FMaterialVaultMaterialItem.FromAssetData AssetData Now →
      Item.Metadata =
        { MaterialName := AssetData.AssetName, Location := AssetData.PackageName,
          Author := [], LastModified := Now, Notes := [], Tags := [], Category := [] } := by
  have hEq : LoadMaterialMetadata s p = s := by
    rcases hFile with h | h
    · simp only [LoadMaterialMetadata, hItem, hCache, h]
    · simp only [LoadMaterialMetadata, hItem, hCache, h]
  refine ⟨hEq, ?_, ?_⟩
  · rw [hEq]
    exact hItem
  · intro AssetData Now hNew
    rw [hNew]
    rfl

theorem LoadMaterialMetadata_without_source_witness :
    ScenarioManager.Items[0]? = some (ItemAt ScenarioManager 0) ∧
    LoadMaterialMetadata ScenarioManager 0 = ScenarioManager :=
  ⟨by decide,
   (LoadMaterialMetadata_without_source ScenarioManager 0 (ItemAt ScenarioManager 0)
      (by decide) (by decide) (Or.inl (by decide))).1⟩

/-! ## Theorems on sorting -/

theorem FStringLess_asymm : ∀ a b : FString, FStringLess a b = true → FStringLess b a = false := by
  intro a
  induction a with
  | nil =>
    intro b _
    cases b <;> rfl
  | cons x as ih =>
    intro b h
    cases b with
    | nil => simp only [FStringLess] at h; exact Bool.noConfusion h
    | cons y bs =>
      simp only [FStringLess] at h ⊢
      by_cases h1 : (ToLowerChar x).toNat < (ToLowerChar y).toNat
      · rw [if_neg (by omega), if_pos h1]
      · rw [if_neg h1] at h
        by_cases h2 : (ToLowerChar y).toNat < (ToLowerChar x).toNat
        · rw [if_pos h2] at h
          exact Bool.noConfusion h
        · rw [if_neg h2] at h
          rw [if_neg h2, if_neg h1]
          exact ih bs h

theorem FStringLess_negtrans : ∀ a b c : FString, FStringLess a c = true →
    FStringLess a b = true ∨ FStringLess b c = true := by
  intro a
  induction a with
  | nil =>
    intro b c h
    cases c with
    | nil => simp only [FStringLess] at h; exact Bool.noConfusion h
    | cons z cs =>
      cases b with
      | nil => exact Or.inr rfl
      | cons y bs => exact Or.inl rfl
  | cons x as ih =>
    intro b c h
    cases c with
    | nil => simp only [FStringLess] at h; exact Bool.noConfusion h
    | cons z cs =>
      cases b with
      | nil => exact Or.inr rfl
      | cons y bs =>
        simp only [FStringLess] at h ⊢
        by_cases hxy : (ToLowerChar x).toNat < (ToLowerChar y).toNat
        · left
          rw [if_pos hxy]
        · by_cases hyz : (ToLowerChar y).toNat < (ToLowerChar z).toNat
          · right
            rw [if_pos hyz]
          · by_cases hxz : (ToLowerChar x).toNat < (ToLowerChar z).toNat
            · omega
            · rw [if_neg hxz] at h
              by_cases hzx : (ToLowerChar z).toNat < (ToLowerChar x).toNat
              · rw [if_pos hzx] at h
                exact Bool.noConfusion h
              · rw [if_neg hzx] at h
                rw [if_neg hxy, if_neg hyz, if_neg (by omega), if_neg (by omega)]
                exact ih bs cs h

/-- The engine's sort orders by its predicate when the predicate is a strict weak order:
no element of the result is put by the predicate before an element in front of it. -/
theorem TArraySortBy_sorted {α : Type} (Predicate : α → α → Bool)
    (hAsymm : ∀ a b, Predicate a b = true → Predicate b a = false)
    (hNeg : ∀ a b c, Predicate a c = true → Predicate a b = true ∨ Predicate b c = true)
    (Array : List α) :
    (TArraySortBy Predicate Array).Pairwise (fun A B => Predicate B A = false) := by
  haveI hTotal : IsTotal α (fun A B => Predicate B A = false) := ⟨by
    intro a b
    cases hab : Predicate a b with
    | false => exact Or.inr rfl
    | true => exact Or.inl (hAsymm a b hab)⟩
  haveI hTrans : IsTrans α (fun A B => Predicate B A = false) := ⟨by
    intro a b c hba hcb
    cases hca : Predicate c a with
    | false => rfl
    | true =>
      rcases hNeg c b a hca with h | h
      · rw [h] at hcb
        exact Bool.noConfusion hcb
      · rw [h] at hba
        exact Bool.noConfusion hba⟩
  exact List.sorted_insertionSort (fun A B => Predicate B A = false) Array

theorem TArraySortBy_perm {α : Type} (Predicate : α → α → Bool) (Array : List α) :
    (TArraySortBy Predicate Array).Perm Array :=
  List.perm_insertionSort _ _

/-- C11: for every list of items `SortMaterials` yields a permutation of the input.  In mode
Name no item of the result has a display name below (`FString::operator<`) that of an item
in front of it; in mode DateModified no item has a later last-modified time than an item in
front of it (newest first); in mode Type no item has an asset class path name below that of
an item in front of it; in mode Size the list is returned as it was. -/
theorem SortMaterials_spec (s : UMaterialVaultManager) (Materials : List Nat) :
    (SortMaterials s Materials).Perm Materials ∧
    (s.Settings.SortMode = EMaterialVaultSortMode.Name →
      (SortMaterials s Materials).Pairwise (fun A B =>
        FStringLess (ItemAt s B).DisplayName (ItemAt s A).DisplayName = false)) ∧
    (s.Settings.SortMode = EMaterialVaultSortMode.DateModified →
      (SortMaterials s Materials).Pairwise (fun A B =>
        (ItemAt s B).Metadata.LastModified.Ticks ≤ (ItemAt s A).Metadata.LastModified.Ticks)) ∧
    (s.Settings.SortMode = EMaterialVaultSortMode.Type →
      (SortMaterials s Materials).Pairwise (fun A B =>
        FStringLess (ItemAt s B).AssetData.AssetClassPath
          (ItemAt s A).AssetData.AssetClassPath = false)) ∧
    (s.Settings.SortMode = EMaterialVaultSortMode.Size →
      SortMaterials s Materials = Materials) := by
  refine ⟨SortMaterials_perm s Materials, ?_, ?_, ?_, ?_⟩
  · intro hMode
    simp only [SortMaterials, SortPredicate, hMode]
    exact TArraySortBy_sorted
      (fun A B => FStringLess (ItemAt s A).DisplayName (ItemAt s B).DisplayName)
      (fun a b => FStringLess_asymm _ _) (fun a b c => FStringLess_negtrans _ _ _) Materials
  · intro hMode
    simp only [SortMaterials, SortPredicate, hMode]
    have h := TArraySortBy_sorted
      (fun A B => decide ((ItemAt s A).Metadata.LastModified.Ticks >
        (ItemAt s B).Metadata.LastModified.Ticks))
      (fun a b hab => by
        simp only [gt_iff_lt, decide_eq_true_eq, decide_eq_false_iff_not] at hab ⊢
        omega)
      (fun a b c hac => by
        simp only [gt_iff_lt, decide_eq_true_eq] at hac ⊢
        omega) Materials
    refine List.Pairwise.imp ?_ h
    intro a b hab
    simp only [gt_iff_lt, decide_eq_false_iff_not] at hab
    omega
  · intro hMode
    simp only [SortMaterials, SortPredicate, hMode]
    exact TArraySortBy_sorted
      (fun A B => FStringLess (ItemAt s A).AssetData.AssetClassPath
        (ItemAt s B).AssetData.AssetClassPath)
      (fun a b => FStringLess_asymm _ _) (fun a b c => FStringLess_negtrans _ _ _) Materials
  · intro hMode
    simp only [SortMaterials, SortPredicate, hMode]

theorem SortMaterials_spec_witness :
    ScenarioManager.Settings.SortMode = EMaterialVaultSortMode.Name ∧
    SortMaterials ScenarioManager [0, 1, 2] = [2, 0, 1] ∧
    (SortMaterials ScenarioManager [0, 1, 2]).Pairwise (fun A B =>
      FStringLess (ItemAt ScenarioManager B).DisplayName
        (ItemAt ScenarioManager A).DisplayName = false) :=
  ⟨by decide, by decide, (SortMaterials_spec ScenarioManager [0, 1, 2]).2.1 (by decide)⟩

/-! ## Theorems on the bound of the thumbnail cache -/

theorem TMap.foldl_Remove_eq_filter {V : Type} (Keys : List (FString × FDateTime)) :
    ∀ m : TMap V, Keys.foldl (fun Cache Entry => TMap.Remove Cache Entry.1) m =
      m.filter (fun kv => Keys.all (fun Entry => !EqualsIgnoreCase kv.1 Entry.1)) := by
  induction Keys with
  | nil =>
    intro m
    simp only [List.foldl_nil, List.all_nil, List.filter_true]
  | cons a rest ih =>
    intro m
    rw [List.foldl_cons, ih, TMap.Remove, List.filter_filter]
    apply List.filter_congr
    intro kv _
    simp only [List.all_cons]
    rw [Bool.and_comm]

theorem TMap.eq_of_UniqueKeys {V : Type} (m : TMap V) (h : TMap.UniqueKeys m) :
    ∀ a ∈ m, ∀ b ∈ m, EqualsIgnoreCase a.1 b.1 = true → a = b := by
  induction m with
  | nil => intro a ha; cases ha
  | cons x rest ih =>
    unfold TMap.UniqueKeys at h ih
    rw [List.pairwise_cons] at h
    intro a ha b hb hab
    rcases List.mem_cons.mp ha with ha | ha <;> rcases List.mem_cons.mp hb with hb | hb
    · rw [ha, hb]
    · rw [ha, h.1 b hb] at hab
      exact Bool.noConfusion hab
    · rw [hb, EqualsIgnoreCase_comm, h.1 a ha] at hab
      exact Bool.noConfusion hab
    · exact ih h.2 a ha b hb hab

theorem AccessTime_sorted (Entries : List (FString × FDateTime)) :
    (TArraySortBy (fun (A B : FString × FDateTime) => decide (A.2.Ticks < B.2.Ticks))
      Entries).Pairwise (fun A B => A.2.Ticks ≤ B.2.Ticks) := by
  have h := TArraySortBy_sorted
    (fun (A B : FString × FDateTime) => decide (A.2.Ticks < B.2.Ticks))
    (fun a b hab => by
      simp only [decide_eq_true_eq, decide_eq_false_iff_not] at hab ⊢
      omega)
    (fun a b c hac => by
      simp only [decide_eq_true_eq] at hac ⊢
      omega) Entries
  refine List.Pairwise.imp ?_ h
  intro a b hab
  simp only [decide_eq_false_iff_not] at hab
  omega

/-- What `TrimCache` does to a cache that is over a bound that is not negative: the entries
whose key and time are not among the first `Num - MaxCacheSize` of the sorted array stay, in
their order; as many as the bound stay; and no entry that goes was accessed later than an
entry that stays. -/
theorem TrimCache_removes_oldest (t : FMaterialVaultThumbnailManager)
    (hU : TMap.UniqueKeys t.ThumbnailCache) (hMax : 0 ≤ t.MaxCacheSize)
    (hOver : t.MaxCacheSize < (t.ThumbnailCache.length : Int)) :
    (FMaterialVaultThumbnailManager.TrimCache t).ThumbnailCache.length =
      t.MaxCacheSize.toNat ∧
    (FMaterialVaultThumbnailManager.TrimCache t).ThumbnailCache.Sublist t.ThumbnailCache ∧
    (∀ Kept ∈ (FMaterialVaultThumbnailManager.TrimCache t).ThumbnailCache,
      ∀ Removed ∈ t.ThumbnailCache,
        Removed ∉ (FMaterialVaultThumbnailManager.TrimCache t).ThumbnailCache →
        Removed.2.LastAccessTime.Ticks ≤ Kept.2.LastAccessTime.Ticks) := by
  obtain ⟨S, hS⟩ : ∃ S, S = TArraySortBy
      (fun (A B : FString × FDateTime) => decide (A.2.Ticks < B.2.Ticks))
      (t.ThumbnailCache.map (fun Entry => (Entry.1, Entry.2.LastAccessTime))) := ⟨_, rfl⟩
  obtain ⟨k, hk⟩ : ∃ k, k = ((t.ThumbnailCache.length : Int) - t.MaxCacheSize).toNat :=
    ⟨_, rfl⟩
  have hPerm : S.Perm (t.ThumbnailCache.map (fun Entry => (Entry.1, Entry.2.LastAccessTime))) := by
    rw [hS]
    exact TArraySortBy_perm _ _
  have hSorted : S.Pairwise (fun A B => A.2.Ticks ≤ B.2.Ticks) := by
    rw [hS]
    exact AccessTime_sorted _
  have hNodupMap : (t.ThumbnailCache.map
      (fun Entry => (Entry.1, Entry.2.LastAccessTime))).Nodup := by
    unfold List.Nodup
    rw [List.pairwise_map]
    refine List.Pairwise.imp ?_ hU
    intro a b hab hEq
    have h1 : a.1 = b.1 := (Prod.mk.inj hEq).1
    rw [h1, EqualsIgnoreCase_refl] at hab
    exact Bool.noConfusion hab
  have hNodup : S.Nodup := (List.Perm.nodup_iff hPerm).mpr hNodupMap
  have hTrim : (FMaterialVaultThumbnailManager.TrimCache t).ThumbnailCache =
      t.ThumbnailCache.filter (fun kv =>
        decide ((kv.1, kv.2.LastAccessTime) ∉ S.take k)) := by
    have hnot : ¬ ((t.ThumbnailCache.length : Int) ≤ t.MaxCacheSize) := by omega
    simp only [FMaterialVaultThumbnailManager.TrimCache, hnot, if_false,
      FMaterialVaultThumbnailManager.KeysToTrim, ← hS, ← hk]
    rw [TMap.foldl_Remove_eq_filter]
    apply List.filter_congr
    intro kv hkv
    rw [Bool.eq_iff_iff, List.all_eq_true, decide_eq_true_eq]
    constructor
    · intro hall hmem
      have := hall _ hmem
      rw [EqualsIgnoreCase_refl] at this
      exact Bool.noConfusion this
    · intro hnotmem e he
      cases hE : EqualsIgnoreCase kv.1 e.1 with
      | false => rfl
      | true =>
        exfalso
        have heS : e ∈ t.ThumbnailCache.map (fun Entry => (Entry.1, Entry.2.LastAccessTime)) :=
          hPerm.subset (List.mem_of_mem_take he)
        obtain ⟨kv2, hkv2, hf⟩ := List.mem_map.mp heS
        have hEq : kv = kv2 := TMap.eq_of_UniqueKeys _ hU kv hkv kv2 hkv2 (by rw [← hf] at hE; exact hE)
        apply hnotmem
        rw [hEq, hf]
        exact he
  have hkle : k ≤ S.length := by
    rw [hPerm.length_eq, List.length_map]
    omega
  have hSplit : S.take k ++ S.drop k = S := List.take_append_drop k S
  have hDisj : List.Disjoint (S.take k) (S.drop k) :=
    List.disjoint_take_drop hNodup (Nat.le_refl k)
  refine ⟨?_, ?_, ?_⟩
  · rw [hTrim]
    have h1 : (t.ThumbnailCache.filter (fun kv =>
        decide ((kv.1, kv.2.LastAccessTime) ∉ S.take k))).length =
        ((t.ThumbnailCache.map (fun Entry => (Entry.1, Entry.2.LastAccessTime))).filter
          (fun e => decide (e ∉ S.take k))).length := by
      rw [List.filter_map, List.length_map]
      rfl
    have h2 : ((t.ThumbnailCache.map (fun Entry => (Entry.1, Entry.2.LastAccessTime))).filter
          (fun e => decide (e ∉ S.take k))).length =
        (S.filter (fun e => decide (e ∉ S.take k))).length :=
      (List.Perm.filter _ hPerm).length_eq.symm
    have h3 : S.filter (fun e => decide (e ∉ S.take k)) = S.drop k := by
      have hc : S.filter (fun e => decide (e ∉ S.take k)) =
          (S.take k ++ S.drop k).filter (fun e => decide (e ∉ S.take k)) := by
        rw [hSplit]
      rw [hc, List.filter_append]
      have ha : (S.take k).filter (fun e => decide (e ∉ S.take k)) = [] := by
        rw [List.filter_eq_nil_iff]
        intro e he
        simp only [decide_eq_true_eq, not_not]
        exact he
      have hb : (S.drop k).filter (fun e => decide (e ∉ S.take k)) = S.drop k := by
        rw [List.filter_eq_self]
        intro e he
        simp only [decide_eq_true_eq]
        intro he2
        exact hDisj he2 he
      rw [ha, hb, List.nil_append]
    rw [h1, h2, h3, List.length_drop, hPerm.length_eq, List.length_map]
    omega
  · rw [hTrim]
    exact List.filter_sublist _
  · intro Kept hKept Removed hRemoved hGone
    rw [hTrim] at hKept hGone
    obtain ⟨hKm, hKn⟩ := List.mem_filter.mp hKept
    simp only [decide_eq_true_eq] at hKn
    have hRin : (Removed.1, Removed.2.LastAccessTime) ∈ S.take k := by
      by_contra hc
      exact hGone (List.mem_filter.mpr ⟨hRemoved, by simp only [decide_eq_true_eq]; exact hc⟩)
    have hKS : (Kept.1, Kept.2.LastAccessTime) ∈ S :=
      hPerm.symm.subset (List.mem_map.mpr ⟨Kept, hKm, rfl⟩)
    rw [← hSplit, List.mem_append] at hKS
    have hKd : (Kept.1, Kept.2.LastAccessTime) ∈ S.drop k := by
      rcases hKS with h | h
      · exact absurd h hKn
      · exact h
    rw [← hSplit, List.pairwise_append] at hSorted
    exact hSorted.2.2 _ hRin _ hKd

theorem OnThumbnailsGenerated_append (t : FMaterialVaultThumbnailManager)
    (l : List FThumbnailArrival) (a : FThumbnailArrival) :
    OnThumbnailsGenerated t (l ++ [a]) =
      FMaterialVaultThumbnailManager.OnThumbnailGenerated (OnThumbnailsGenerated t l)
        a.MaterialPath (some a.Thumbnail) a.ThumbnailSize a.Now := by
  simp only [OnThumbnailsGenerated, List.foldl_append, List.foldl_cons, List.foldl_nil]

theorem OnThumbnailGenerated_MaxCacheSize (t : FMaterialVaultThumbnailManager)
    (MaterialPath : FString) (Thumbnail : Option Nat) (ThumbnailSize : Int) (Now : FDateTime) :
    (FMaterialVaultThumbnailManager.OnThumbnailGenerated t MaterialPath Thumbnail ThumbnailSize
      Now).MaxCacheSize = t.MaxCacheSize := by
  cases Thumbnail with
  | none => rfl
  | some Handle =>
    simp only [FMaterialVaultThumbnailManager.OnThumbnailGenerated,
      FMaterialVaultThumbnailManager.TrimCache]
    split <;> rfl

/-- One delivery under a new key, later than the deliveries the cache holds, into a cache
that holds its deliveries in the order of their times and is not over its bound: the
delivery goes to the end, and the first entry goes when the bound is passed. -/
theorem OnThumbnailGenerated_fresh (t : FMaterialVaultThumbnailManager)
    (W : List FThumbnailArrival) (a : FThumbnailArrival)
    (hCache : t.ThumbnailCache = W.map FThumbnailArrival.CachePair)
    (hLen : (W.length : Int) ≤ t.MaxCacheSize)
    (hKeys : (W ++ [a]).Pairwise (fun x y => EqualsIgnoreCase x.CacheKey y.CacheKey = false))
    (hTimes : (W ++ [a]).Pairwise (fun x y => x.Now.Ticks < y.Now.Ticks)) :
    (FMaterialVaultThumbnailManager.OnThumbnailGenerated t a.MaterialPath (some a.Thumbnail)
      a.ThumbnailSize a.Now).ThumbnailCache =
      ((W ++ [a]).drop (W.length + 1 - t.MaxCacheSize.toNat)).map
        FThumbnailArrival.CachePair := by
  have hFind : TMap.Find t.ThumbnailCache a.CacheKey = none := by
    rw [TMap.Find_none_iff, hCache]
    intro kv hkv
    obtain ⟨x, hx, hxe⟩ := List.mem_map.mp hkv
    rw [← hxe]
    exact (List.pairwise_append.mp hKeys).2.2 x hx a (List.mem_singleton_self a)
  have hAdd : TMap.Add t.ThumbnailCache a.CacheKey a.CachePair.2 =
      (W ++ [a]).map FThumbnailArrival.CachePair := by
    rw [hCache] at hFind ⊢
    simp only [TMap.Add, TMap.Contains, hFind, Option.isSome_none, Bool.false_eq_true, if_false,
      List.map_append, List.map_cons, List.map_nil]
    rfl
  have hStep : FMaterialVaultThumbnailManager.OnThumbnailGenerated t a.MaterialPath
      (some a.Thumbnail) a.ThumbnailSize a.Now =
      FMaterialVaultThumbnailManager.TrimCache
        { t with ThumbnailCache := (W ++ [a]).map FThumbnailArrival.CachePair } := by
    rw [← hAdd]
    rfl
  rw [hStep]
  by_cases hFit : ((W.length : Int) + 1 ≤ t.MaxCacheSize)
  · have h0 : W.length + 1 - t.MaxCacheSize.toNat = 0 := by omega
    rw [h0, List.drop_zero]
    simp only [FMaterialVaultThumbnailManager.TrimCache, List.length_map, List.length_append,
      List.length_cons, List.length_nil, Nat.cast_add, Nat.cast_one, Nat.cast_zero, zero_add,
      hFit, if_true]
  · have h1 : W.length + 1 - t.MaxCacheSize.toNat = 1 := by omega
    rw [h1]
    have hnot : ¬ ((((W ++ [a]).map FThumbnailArrival.CachePair).length : Int) ≤
        t.MaxCacheSize) := by
      rw [List.length_map, List.length_append, List.length_singleton]
      push_cast
      exact hFit
    have hk : (((((W ++ [a]).map FThumbnailArrival.CachePair).length : Nat) : Int) -
        t.MaxCacheSize).toNat = 1 := by
      rw [List.length_map, List.length_append, List.length_singleton]
      push_cast
      omega
    have hSortedIn : (((W ++ [a]).map FThumbnailArrival.CachePair).map
        (fun Entry => (Entry.1, Entry.2.LastAccessTime))).Pairwise
        (fun A B => decide (B.2.Ticks < A.2.Ticks) = false) := by
      rw [List.pairwise_map, List.pairwise_map]
      refine List.Pairwise.imp ?_ hTimes
      intro x y hxy
      simp only [FThumbnailArrival.CachePair, decide_eq_false_iff_not]
      omega
    simp only [FMaterialVaultThumbnailManager.TrimCache, hnot, if_false,
      FMaterialVaultThumbnailManager.KeysToTrim, hk, TArraySortBy,
      List.Sorted.insertionSort_eq hSortedIn]
    cases hW : W ++ [a] with
    | nil => exact absurd hW (by simp)
    | cons x xs =>
      rw [hW] at hKeys
      rw [List.pairwise_cons] at hKeys
      simp only [List.map_cons, List.take_succ_cons, List.take_zero, List.foldl_cons,
        List.foldl_nil, List.drop_succ_cons, List.drop_zero, TMap.Remove]
      have hx : (!EqualsIgnoreCase x.CachePair.1 x.CachePair.1) = false := by
        rw [EqualsIgnoreCase_refl]
        rfl
      rw [List.filter_cons_of_neg (by rw [hx]; exact Bool.false_ne_true), List.filter_eq_self]
      intro kv hkv
      obtain ⟨y, hy, hye⟩ := List.mem_map.mp hkv
      rw [← hye]
      have := hKeys.1 y hy
      rw [EqualsIgnoreCase_comm] at this
      simp only [FThumbnailArrival.CachePair, this, Bool.not_false]

/-- The cache after a run of deliveries under keys that differ and at times that grow, into
an empty cache with a bound that is not negative: the last deliveries, as many as the bound
allows, in their order. -/
theorem OnThumbnailsGenerated_cache (t : FMaterialVaultThumbnailManager)
    (hEmpty : t.ThumbnailCache = []) (hMax : 0 ≤ t.MaxCacheSize) :
    ∀ Arrivals : List FThumbnailArrival,
      Arrivals.Pairwise (fun x y => EqualsIgnoreCase x.CacheKey y.CacheKey = false) →
      Arrivals.Pairwise (fun x y => x.Now.Ticks < y.Now.Ticks) →
      (OnThumbnailsGenerated t Arrivals).ThumbnailCache =
        (Arrivals.drop (Arrivals.length - t.MaxCacheSize.toNat)).map
          FThumbnailArrival.CachePair ∧
      (OnThumbnailsGenerated t Arrivals).MaxCacheSize = t.MaxCacheSize := by
  intro Arrivals
  induction Arrivals using List.reverseRecOn with
  | nil =>
    intro _ _
    refine ⟨?_, rfl⟩
    rw [List.drop_nil, List.map_nil]
    exact hEmpty
  | append_singleton l a ih =>
    intro hKeys hTimes
    have hSub : (l.drop (l.length - t.MaxCacheSize.toNat) ++ [a]).Sublist (l ++ [a]) :=
      List.Sublist.append (List.drop_sublist _ _) (List.Sublist.refl _)
    obtain ⟨ihC, ihM⟩ := ih (List.Pairwise.sublist (List.sublist_append_left l [a]) hKeys)
      (List.Pairwise.sublist (List.sublist_append_left l [a]) hTimes)
    rw [OnThumbnailsGenerated_append]
    refine ⟨?_, ?_⟩
    · rw [OnThumbnailGenerated_fresh (OnThumbnailsGenerated t l)
        (l.drop (l.length - t.MaxCacheSize.toNat)) a ihC
        (by rw [ihM, List.length_drop]; omega)
        (List.Pairwise.sublist hSub hKeys) (List.Pairwise.sublist hSub hTimes)]
      rw [ihM]
      congr 1
      have hd : l.drop (l.length - t.MaxCacheSize.toNat) ++ [a] =
          (l ++ [a]).drop (l.length - t.MaxCacheSize.toNat) := by
        rw [List.drop_append_of_le_length (Nat.sub_le _ _)]
      rw [hd, List.drop_drop, List.length_drop, List.length_append, List.length_singleton]
      congr 1
      omega
    · rw [OnThumbnailGenerated_MaxCacheSize]
      exact ihM

/-- C15: thumbnail cache bound.  A manager with an empty cache and a maximum that is not
negative receives N deliveries through `OnThumbnailGenerated` (each ends in `TrimCache`),
under keys that differ (as the cache compares keys, letter case ignored) and at strictly
increasing times, with N above the maximum.  Then the cache holds exactly as many entries
as the maximum, and they are the entries of the last deliveries, each of them later than
every delivery that is gone.  And `TrimCache`, on any cache over its bound, keeps exactly as
many entries as the maximum, keeps them in place, and removes no entry that was accessed
later than one it keeps: the oldest count - max entries go and no other. -/
theorem TrimCache_bound (t : FMaterialVaultThumbnailManager)
    (Arrivals : List FThumbnailArrival)
    (hEmpty : t.ThumbnailCache = []) (hMax : 0 ≤ t.MaxCacheSize)
    (hKeys : Arrivals.Pairwise (fun x y => EqualsIgnoreCase x.CacheKey y.CacheKey = false))
    (hTimes : Arrivals.Pairwise (fun x y => x.Now.Ticks < y.Now.Ticks))
    (hMany : t.MaxCacheSize < (Arrivals.length : Int)) :
    (OnThumbnailsGenerated t Arrivals).ThumbnailCache.length = t.MaxCacheSize.toNat ∧
    (OnThumbnailsGenerated t Arrivals).ThumbnailCache =
      (Arrivals.drop (Arrivals.length - t.MaxCacheSize.toNat)).map
        FThumbnailArrival.CachePair ∧
    (∀ Kept ∈ Arrivals.drop (Arrivals.length - t.MaxCacheSize.toNat),
      ∀ Gone ∈ Arrivals.take (Arrivals.length - t.MaxCacheSize.toNat),
        Gone.Now.Ticks < Kept.Now.Ticks) ∧
    (∀ t2 : FMaterialVaultThumbnailManager,
      TMap.UniqueKeys t2.ThumbnailCache → 0 ≤ t2.MaxCacheSize →
      t2.MaxCacheSize < (t2.ThumbnailCache.length : Int) →
      (FMaterialVaultThumbnailManager.TrimCache t2).ThumbnailCache.length =
        t2.MaxCacheSize.toNat ∧
      (FMaterialVaultThumbnailManager.TrimCache t2).ThumbnailCache.Sublist t2.ThumbnailCache ∧
      (∀ Kept ∈ (FMaterialVaultThumbnailManager.TrimCache t2).ThumbnailCache,
        ∀ Removed ∈ t2.ThumbnailCache,
          Removed ∉ (FMaterialVaultThumbnailManager.TrimCache t2).ThumbnailCache →
          Removed.2.LastAccessTime.Ticks ≤ Kept.2.LastAccessTime.Ticks)) := by
  have hC := (OnThumbnailsGenerated_cache t hEmpty hMax Arrivals hKeys hTimes).1
  refine ⟨?_, hC, ?_, ?_⟩
  · rw [hC, List.length_map, List.length_drop]
    omega
  · intro Kept hKept Gone hGone
    have hSplit := List.take_append_drop (Arrivals.length - t.MaxCacheSize.toNat) Arrivals
    rw [← hSplit, List.pairwise_append] at hTimes
    exact hTimes.2.2 Gone hGone Kept hKept
  · intro t2 hU h0 hOver
    exact TrimCache_removes_oldest t2 hU h0 hOver

theorem TrimCache_bound_witness :
    (FMaterialVaultThumbnailManager.SetMaxCacheSize ReadyThumbnails 2).ThumbnailCache = [] ∧
    (2 : Int) < (ThreeArrivals.length : Int) ∧
    (OnThumbnailsGenerated (FMaterialVaultThumbnailManager.SetMaxCacheSize ReadyThumbnails 2)
      ThreeArrivals).ThumbnailCache.length = 2 ∧
    (OnThumbnailsGenerated (FMaterialVaultThumbnailManager.SetMaxCacheSize ReadyThumbnails 2)
      ThreeArrivals).ThumbnailCache = (ThreeArrivals.drop 1).map FThumbnailArrival.CachePair :=
  ⟨by decide, by decide,
   (TrimCache_bound (FMaterialVaultThumbnailManager.SetMaxCacheSize ReadyThumbnails 2)
      ThreeArrivals (by decide) (by decide) (by decide) (by decide) (by decide)).1,
   by decide⟩

/-! ## Lemmas on date formatting and the calendar -/

theorem FormatNat_ne_nil (n : Nat) : FormatNat n ≠ [] := by
  unfold FormatNat
  intro h
  have h2 := List.reverse_eq_nil_iff.mp h
  simp only [ToDigitsRev] at h2
  exact List.cons_ne_nil _ _ h2

theorem FormatPadded_digits (Width n : Nat) :
    ∀ c ∈ FormatPadded Width n, 48 ≤ c.toNat ∧ c.toNat ≤ 57 := by
  intro c hc
  unfold FormatPadded at hc
  rcases List.mem_append.mp hc with h | h
  · rw [List.eq_of_mem_replicate h]
    decide
  · exact FormatNat_digits n c h

theorem FormatPadded_ne_nil (Width n : Nat) : FormatPadded Width n ≠ [] := by
  unfold FormatPadded
  intro h
  exact FormatNat_ne_nil n (List.append_eq_nil.mp h).2

theorem AtoiDigits_append_digit (c : Char) (hc : 48 ≤ c.toNat ∧ c.toNat ≤ 57) :
    ∀ (a : FString) (Acc : Nat), (∀ x ∈ a, 48 ≤ x.toNat ∧ x.toNat ≤ 57) →
      AtoiDigits (a ++ [c]) Acc = AtoiDigits a Acc * 10 + (c.toNat - 48) := by
  intro a
  induction a with
  | nil =>
    intro Acc _
    simp only [List.nil_append, AtoiDigits, hc, and_self, if_true]
  | cons x rest ih =>
    intro Acc h
    have hx := h x (List.mem_cons_self _ _)
    simp only [List.cons_append, AtoiDigits, hx, and_self, if_true]
    exact ih _ (fun y hy => h y (List.mem_cons_of_mem _ hy))

theorem AtoiDigits_reverse :
    ∀ l : FString, (∀ x ∈ l, 48 ≤ x.toNat ∧ x.toNat ≤ 57) →
      AtoiDigits l.reverse 0 = DigitsValueRev l := by
  intro l
  induction l with
  | nil => intro _; rfl
  | cons c rest ih =>
    intro h
    rw [List.reverse_cons, AtoiDigits_append_digit c (h c (List.mem_cons_self _ _)) _ 0
      (fun x hx => h x (List.mem_cons_of_mem _ (List.mem_reverse.mp hx))),
      ih (fun x hx => h x (List.mem_cons_of_mem _ hx))]
    simp only [DigitsValueRev]
    omega

theorem AtoiDigits_FormatNat (n : Nat) : AtoiDigits (FormatNat n) 0 = n := by
  unfold FormatNat
  rw [AtoiDigits_reverse _ (ToDigitsRev_digits _ _), ToDigitsRev_value _ _ (Nat.lt_succ_self n)]

theorem AtoiDigits_zeros (z : Nat) (l : FString) :
    AtoiDigits (List.replicate z '0' ++ l) 0 = AtoiDigits l 0 := by
  induction z with
  | zero => rfl
  | succ z ih =>
    rw [List.replicate_succ, List.cons_append]
    simp only [AtoiDigits]
    rw [if_pos (by decide)]
    exact ih

theorem Atoi_of_digits (s : FString) (h : ∀ x ∈ s, 48 ≤ x.toNat ∧ x.toNat ≤ 57) :
    Atoi s = AtoiDigits s 0 := by
  unfold Atoi
  split
  · rename_i rest
    have hplus : ¬ (48 ≤ '+'.toNat ∧ '+'.toNat ≤ 57) := by decide
    exact absurd (h '+' (List.mem_cons_self _ _)) hplus
  · rfl

theorem Atoi_FormatPadded (Width n : Nat) : Atoi (FormatPadded Width n) = n := by
  rw [Atoi_of_digits _ (FormatPadded_digits Width n)]
  unfold FormatPadded
  rw [AtoiDigits_zeros, AtoiDigits_FormatNat]

theorem ParseIntoArrayAux_token (delim : Char) (rest : FString) :
    ∀ (tok cur : FString), delim ∉ tok → cur.reverse ++ tok ≠ [] →
      ParseIntoArrayAux delim (tok ++ delim :: rest) cur =
        (cur.reverse ++ tok) :: ParseIntoArrayAux delim rest [] := by
  intro tok
  induction tok with
  | nil =>
    intro cur _ hne
    rw [List.append_nil] at hne ⊢
    have hcur : cur.isEmpty = false := by
      cases cur with
      | nil => exact absurd rfl hne
      | cons _ _ => rfl
    simp only [List.nil_append, ParseIntoArrayAux, if_true, hcur, Bool.false_eq_true, if_false]
  | cons c t ih =>
    intro cur hd _
    have hc : c ≠ delim := fun h => hd (h ▸ List.mem_cons_self _ _)
    simp only [List.cons_append, ParseIntoArrayAux, hc, if_false]
    change ParseIntoArrayAux delim (t ++ delim :: rest) (c :: cur) = _
    rw [ih (c :: cur) (fun h => hd (List.mem_cons_of_mem _ h)) (by simp)]
    simp

theorem ParseIntoArrayAux_last (delim : Char) :
    ∀ (tok cur : FString), delim ∉ tok → cur.reverse ++ tok ≠ [] →
      ParseIntoArrayAux delim tok cur = [cur.reverse ++ tok] := by
  intro tok
  induction tok with
  | nil =>
    intro cur _ hne
    rw [List.append_nil] at hne ⊢
    have hcur : cur.isEmpty = false := by
      cases cur with
      | nil => exact absurd rfl hne
      | cons _ _ => rfl
    simp only [ParseIntoArrayAux, hcur, Bool.false_eq_true, if_false]
  | cons c t ih =>
    intro cur hd _
    have hc : c ≠ delim := fun h => hd (h ▸ List.mem_cons_self _ _)
    simp only [ParseIntoArrayAux, hc, if_false]
    rw [ih (c :: cur) (fun h => hd (List.mem_cons_of_mem _ h)) (by simp)]
    simp

theorem FixedString_digits (s : FString) (h : ∀ x ∈ s, 48 ≤ x.toNat ∧ x.toNat ≤ 57) :
    s.map (fun c => if c == '.' || c == '-' || c == ':' then ' ' else c) = s := by
  conv_rhs => rw [← List.map_id s]
  apply List.map_congr_left
  intro c hc
  have hd := h c hc
  have h1 : c ≠ '.' := fun he => by rw [he] at hd; revert hd; decide
  have h2 : c ≠ '-' := fun he => by rw [he] at hd; revert hd; decide
  have h3 : c ≠ ':' := fun he => by rw [he] at hd; revert hd; decide
  simp [h1, h2, h3]

theorem FormatPadded_no_blank (Width n : Nat) : ' ' ∉ FormatPadded Width n := by
  intro h
  have hd := FormatPadded_digits Width n ' ' h
  revert hd
  decide

/-- What `FDateTime::Parse` makes of a string in the format of `FDateTime::ToString()`. -/
theorem Parse_formatted (Y M D H Mi S : Nat) :
    FDateTime.Parse (FormatPadded 4 Y ++ '.' :: FormatPadded 2 M ++
      '.' :: FormatPadded 2 D ++ '-' :: FormatPadded 2 H ++
      '.' :: FormatPadded 2 Mi ++ '.' :: FormatPadded 2 S) =
      if FDateTime.Validate Y M D H Mi S 0 then some (FDateTime.FromParts Y M D H Mi S 0)
      else none := by
  have hTokens : ParseIntoArray ((FormatPadded 4 Y ++ '.' :: FormatPadded 2 M ++
      '.' :: FormatPadded 2 D ++ '-' :: FormatPadded 2 H ++
      '.' :: FormatPadded 2 Mi ++ '.' :: FormatPadded 2 S).map
        (fun c => if c == '.' || c == '-' || c == ':' then ' ' else c)) ' ' =
      [FormatPadded 4 Y, FormatPadded 2 M, FormatPadded 2 D, FormatPadded 2 H,
        FormatPadded 2 Mi, FormatPadded 2 S] := by
    simp only [List.map_append, List.map_cons, List.append_assoc, List.cons_append,
      FixedString_digits _ (FormatPadded_digits _ _)]
    have hdot : (if ('.' == '.' || '.' == '-' || '.' == ':') = true then ' ' else '.') = ' ' := by
      decide
    have hdash : (if ('-' == '.' || '-' == '-' || '-' == ':') = true then ' ' else '-') = ' ' := by
      decide
    rw [hdot, hdash]
    unfold ParseIntoArray
    have hne : ∀ Width n, ([] : FString).reverse ++ FormatPadded Width n ≠ [] := by
      intro Width n
      rw [List.reverse_nil, List.nil_append]
      exact FormatPadded_ne_nil Width n
    rw [ParseIntoArrayAux_token ' ' _ _ [] (FormatPadded_no_blank _ _) (hne _ _),
      ParseIntoArrayAux_token ' ' _ _ [] (FormatPadded_no_blank _ _) (hne _ _),
      ParseIntoArrayAux_token ' ' _ _ [] (FormatPadded_no_blank _ _) (hne _ _),
      ParseIntoArrayAux_token ' ' _ _ [] (FormatPadded_no_blank _ _) (hne _ _),
      ParseIntoArrayAux_token ' ' _ _ [] (FormatPadded_no_blank _ _) (hne _ _),
      ParseIntoArrayAux_last ' ' _ [] (FormatPadded_no_blank _ _) (hne _ _)]
    simp only [List.reverse_nil, List.nil_append]
  unfold FDateTime.Parse
  simp only [hTokens]
  simp only [List.length_cons, List.length_nil, List.getD_cons_zero, List.getD_cons_succ,
    Atoi_FormatPadded]
  rw [if_neg (by decide)]
  simp only [Nat.lt_irrefl, if_false]

theorem calA (D n l1 : Nat) (hD : D ≤ 3652058)
    (hn : n = 4 * (D + 1721426 + 68569) / 146097)
    (hl1 : l1 = D + 1721426 + 68569 - (146097 * n + 3) / 4) :
    49 ≤ n ∧ n ≤ 148 ∧ l1 ≤ 36524 ∧ l1 + (146097 * n + 3) / 4 = D + 1721426 + 68569 ∧
    (l1 = 36524 → n % 4 = 0) := by
  omega

theorem calB (l1 i0 l2 : Nat) (h : l1 ≤ 36524)
    (hi : i0 = 4000 * (l1 + 1) / 1461001)
    (hl2 : l2 = l1 - 1461 * i0 / 4 + 31) :
    i0 ≤ 99 ∧ 31 ≤ l2 ∧ l2 ≤ 396 ∧ l2 + 1461 * i0 / 4 = l1 + 31 ∧
    (l2 = 396 → i0 % 4 = 3) := by
  have h4 : 1461 * i0 / 4 = 365 * i0 + i0 / 4 := by omega
  have h5 : i0 ≤ 99 := by omega
  omega

theorem calC (l2 j0 k : Nat) (h1 : 31 ≤ l2) (h2 : l2 ≤ 396)
    (hj : j0 = 80 * l2 / 2447)
    (hk : k = l2 - 2447 * j0 / 80) :
    1 ≤ j0 ∧ j0 ≤ 12 ∧ 1 ≤ k ∧ k ≤ 31 ∧ k + 2447 * j0 / 80 = l2 := by
  omega

theorem calY (n i0 y : Nat) (hn1 : 49 ≤ n) (hn2 : n ≤ 148) (hi : i0 ≤ 99)
    (hy : y = 100 * (n - 49) + i0) :
    y * 365 + y / 4 - y / 100 + y / 400 + 1789995 =
      1461 * i0 / 4 + (146097 * n + 3) / 4 + 306 ∧ y / 100 ≤ y / 4 := by
  obtain ⟨m, hm⟩ : ∃ m, n = m + 49 := ⟨n - 49, by omega⟩
  subst hm
  rw [Nat.add_sub_cancel] at hy
  subst hy
  have h1 : (100 * m + i0) / 100 = m := by omega
  have h2 : (100 * m + i0) / 4 = 25 * m + i0 / 4 := by omega
  have h3 : (100 * m + i0) / 400 = m / 4 := by omega
  have h4 : 1461 * i0 / 4 = 365 * i0 + i0 / 4 := by omega
  have h5 : (146097 * (m + 49) + 3) / 4 = 36524 * m + 1789689 + m / 4 := by omega
  rw [h1, h2, h3, h4, h5]
  omega

set_option maxHeartbeats 1000000 in
theorem calLeap (y : Nat) (hy : 1 ≤ y) :
    (if y % 4 = 0 ∧ (y % 100 ≠ 0 ∨ y % 400 = 0) then 1 else 0) +
      (y - 1) / 4 - (y - 1) / 100 + (y - 1) / 400 = y / 4 - y / 100 + y / 400 ∧
    (y - 1) / 100 ≤ (y - 1) / 4 := by
  split_ifs <;> omega

theorem IsLeapYear_iff (Y : Nat) :
    FDateTime.IsLeapYear Y = true ↔ (Y % 4 = 0 ∧ (Y % 100 ≠ 0 ∨ Y % 400 = 0)) := by
  unfold FDateTime.IsLeapYear
  by_cases h4 : Y % 4 = 0
  · simp [h4]
  · simp [h4]

theorem LeapCount (Y : Nat) (hY : 1 ≤ Y) :
    (if FDateTime.IsLeapYear Y = true then 1 else 0) +
      (Y - 1) / 4 - (Y - 1) / 100 + (Y - 1) / 400 = Y / 4 - Y / 100 + Y / 400 ∧
    (Y - 1) / 100 ≤ (Y - 1) / 4 := by
  have h := calLeap Y hY
  by_cases hL : FDateTime.IsLeapYear Y = true
  · rw [if_pos hL]
    rw [if_pos ((IsLeapYear_iff Y).mp hL)] at h
    exact h
  · rw [if_neg hL]
    rw [if_neg (fun hc => hL ((IsLeapYear_iff Y).mpr hc))] at h
    exact h

theorem MonthFromMarch (j0 : Nat) (h1 : 1 ≤ j0) (h2 : j0 ≤ 10) :
    j0 / 11 = 0 ∧
    [0, 31, 59, 90, 120, 151, 181, 212, 243, 273, 304, 334, 365].getD (j0 + 2 - 1) 0 =
      2447 * j0 / 80 + 29 ∧
    ∀ (Y k : Nat), 80 * (k + 2447 * j0 / 80) < 2447 * (j0 + 1) →
      k ≤ FDateTime.DaysInMonth Y (j0 + 2) := by
  interval_cases j0 <;> refine ⟨rfl, rfl, ?_⟩ <;> intro Y k hk <;>
    simp [FDateTime.DaysInMonth] <;> omega

theorem MonthJanFeb (j0 : Nat) (h1 : 11 ≤ j0) (h2 : j0 ≤ 12) :
    j0 / 11 = 1 ∧ j0 + 2 - 12 * 1 ≤ 2 ∧ 1 ≤ j0 + 2 - 12 * 1 ∧
    [0, 31, 59, 90, 120, 151, 181, 212, 243, 273, 304, 334, 365].getD
      (j0 + 2 - 12 * 1 - 1) 0 + 336 = 2447 * j0 / 80 ∧
    ∀ (Y k : Nat), 80 * (k + 2447 * j0 / 80) < 2447 * (j0 + 1) →
      (j0 = 12 → k ≤ 29) → (j0 = 12 → k = 29 → FDateTime.IsLeapYear Y = true) →
      k ≤ FDateTime.DaysInMonth Y (j0 + 2 - 12 * 1) := by
  interval_cases j0
  · refine ⟨rfl, by decide, by decide, rfl, ?_⟩
    intro Y k hk _ _
    simp [FDateTime.DaysInMonth]
    omega
  · refine ⟨rfl, by decide, by decide, rfl, ?_⟩
    intro Y k hk h29 hLeap
    have h29b := h29 rfl
    by_cases hL : FDateTime.IsLeapYear Y = true
    · simp [FDateTime.DaysInMonth, hL]
      exact h29b
    · have hne : k ≠ 29 := fun hc => hL (hLeap rfl hc)
      simp [FDateTime.DaysInMonth, hL]
      omega

theorem cal_main (D n l1 i0 l2 j0 k : Nat) (hD : D ≤ 3652058)
    (hn : n = 4 * (D + 1721426 + 68569) / 146097)
    (hl1 : l1 = D + 1721426 + 68569 - (146097 * n + 3) / 4)
    (hi0 : i0 = 4000 * (l1 + 1) / 1461001)
    (hl2 : l2 = l1 - 1461 * i0 / 4 + 31)
    (hj0 : j0 = 80 * l2 / 2447)
    (hk : k = l2 - 2447 * j0 / 80) :
    1 ≤ 100 * (n - 49) + i0 + j0 / 11 ∧ 100 * (n - 49) + i0 + j0 / 11 ≤ 9999 ∧
    1 ≤ j0 + 2 - 12 * (j0 / 11) ∧ j0 + 2 - 12 * (j0 / 11) ≤ 12 ∧
    1 ≤ k ∧
    k ≤ FDateTime.DaysInMonth (100 * (n - 49) + i0 + j0 / 11) (j0 + 2 - 12 * (j0 / 11)) ∧
    (if decide (2 < j0 + 2 - 12 * (j0 / 11)) &&
        FDateTime.IsLeapYear (100 * (n - 49) + i0 + j0 / 11) then 1 else 0) +
      (100 * (n - 49) + i0 + j0 / 11 - 1) * 365 + (100 * (n - 49) + i0 + j0 / 11 - 1) / 4 -
      (100 * (n - 49) + i0 + j0 / 11 - 1) / 100 + (100 * (n - 49) + i0 + j0 / 11 - 1) / 400 +
      [0, 31, 59, 90, 120, 151, 181, 212, 243, 273, 304, 334, 365].getD
        (j0 + 2 - 12 * (j0 / 11) - 1) 0 + (k - 1) = D := by
  obtain ⟨hn1, hn2, hl1b, hl1e, hl1m⟩ := calA D n l1 hD hn hl1
  obtain ⟨hi0b, hl2a, hl2b, hl2e, hl2m⟩ := calB l1 i0 l2 hl1b hi0 hl2
  obtain ⟨hj1, hj2, hk1, hk2, hke⟩ := calC l2 j0 k hl2a hl2b hj0 hk
  obtain ⟨hY, hY2⟩ := calY n i0 (100 * (n - 49) + i0) hn1 hn2 hi0b rfl
  have hy0 : 100 * (n - 49) + i0 = 0 → 11 ≤ j0 := by
    intro h0
    have hn49 : n = 49 := by omega
    have hi00 : i0 = 0 := by omega
    subst hn49 hi00
    omega
  have hFeb : j0 = 12 → k = 29 →
      FDateTime.IsLeapYear (100 * (n - 49) + i0 + 1) = true := by
    intro hj12 hk29
    rw [IsLeapYear_iff]
    have h396 : l2 = 396 := by subst hj12; omega
    have hi3 := hl2m h396
    by_cases h99 : i0 = 99
    · have h36524 : l1 = 36524 := by subst h99; omega
      have hn4 := hl1m h36524
      omega
    · omega
  have hTop : 100 * (n - 49) + i0 = 9999 → j0 ≤ 10 := by
    intro h0
    have hn148 : n = 148 := by omega
    have hi099 : i0 = 99 := by omega
    subst hn148 hi099
    omega
  have hDeq : D + 1789995 + 31 = k + 2447 * j0 / 80 + 1461 * i0 / 4 + (146097 * n + 3) / 4 := by
    omega
  have hkm : 80 * (k + 2447 * j0 / 80) < 2447 * (j0 + 1) := by omega
  have hkFeb : j0 = 12 → k ≤ 29 := by
    intro h12
    subst h12
    omega
  clear hn hl1 hi0 hl2 hj0 hk hl1m hl2m hl1e hl2e hke hl1b hl2a hl2b
  obtain ⟨y, hy⟩ : ∃ y, y = 100 * (n - 49) + i0 := ⟨_, rfl⟩
  rw [← hy] at hY hY2 hy0 hFeb hTop ⊢
  have hyle : y ≤ 9999 := by omega
  generalize 1461 * i0 / 4 = B at hY hDeq
  generalize (146097 * n + 3) / 4 = A at hY hDeq
  clear hy hn1 hn2 hi0b hD
  by_cases hj : j0 ≤ 10
  · have hy1 : 1 ≤ y := by omega
    obtain ⟨hLC, hLC2⟩ := LeapCount y hy1
    obtain ⟨hdiv, hcum, hdim⟩ := MonthFromMarch j0 hj1 hj
    have hdec : decide (2 < j0 + 2) = true := decide_eq_true (by omega)
    rw [hdiv]
    simp only [Nat.add_zero, Nat.mul_zero, Nat.sub_zero, hdec, Bool.true_and, hcum]
    refine ⟨hy1, hyle, by omega, by omega, hk1, hdim y k hkm, ?_⟩
    clear hdim hcum hFeb hTop hy0 hkFeb hkm hdec
    generalize 2447 * j0 / 80 = C at hDeq ⊢
    generalize (if FDateTime.IsLeapYear y = true then 1 else 0) = L at hLC ⊢
    generalize (y - 1) / 4 = p1 at hLC hLC2 ⊢
    generalize (y - 1) / 100 = p2 at hLC hLC2 ⊢
    generalize (y - 1) / 400 = p3 at hLC ⊢
    generalize y / 4 = q1 at hLC hY hY2
    generalize y / 100 = q2 at hLC hY hY2
    generalize y / 400 = q3 at hLC hY
    omega
  · have hj11 : 11 ≤ j0 := by omega
    have hy1 : y ≤ 9998 := by
      by_contra hc
      have := hTop (by omega)
      omega
    obtain ⟨hdiv, hM2, hM1, hcum, hdim⟩ := MonthJanFeb j0 hj11 hj2
    have hdec : decide (2 < j0 + 2 - 12 * 1) = false := decide_eq_false (by omega)
    rw [hdiv]
    simp only [Nat.add_sub_cancel, hdec, Bool.false_and, Bool.false_eq_true, if_false]
    refine ⟨by omega, by omega, hM1, by omega, hk1, hdim (y + 1) k hkm hkFeb hFeb, ?_⟩
    clear hdim hFeb hTop hy0 hkFeb hkm hdec
    generalize [0, 31, 59, 90, 120, 151, 181, 212, 243, 273, 304, 334, 365].getD
      (j0 + 2 - 12 * 1 - 1) 0 = Cum at hcum ⊢
    generalize 2447 * j0 / 80 = C at hDeq hcum
    generalize y / 4 = q1 at hY hY2 ⊢
    generalize y / 100 = q2 at hY hY2 ⊢
    generalize y / 400 = q3 at hY ⊢
    omega

theorem GetDate_valid (d : FDateTime) (hD : d.Ticks.toNat / 864000000000 ≤ 3652058) :
    1 ≤ d.GetDate.1 ∧ d.GetDate.1 ≤ 9999 ∧ 1 ≤ d.GetDate.2.1 ∧ d.GetDate.2.1 ≤ 12 ∧
    1 ≤ d.GetDate.2.2 ∧ d.GetDate.2.2 ≤ FDateTime.DaysInMonth d.GetDate.1 d.GetDate.2.1 ∧
    (if decide (2 < d.GetDate.2.1) && FDateTime.IsLeapYear d.GetDate.1 then 1 else 0) +
      (d.GetDate.1 - 1) * 365 + (d.GetDate.1 - 1) / 4 - (d.GetDate.1 - 1) / 100 +
      (d.GetDate.1 - 1) / 400 +
      [0, 31, 59, 90, 120, 151, 181, 212, 243, 273, 304, 334, 365].getD
        (d.GetDate.2.1 - 1) 0 + (d.GetDate.2.2 - 1) = d.Ticks.toNat / 864000000000 :=
  cal_main (d.Ticks.toNat / 864000000000) _ _ _ _ _ _ hD rfl rfl rfl rfl rfl rfl

/-- `FDateTime::Parse` reads back what `FDateTime::ToString()` wrote for a time stamp in the
range of the engine (from 0001-01-01 to the end of 9999-12-31): the time stamp cut to whole
seconds. -/
theorem Parse_ToString (d : FDateTime) (h0 : 0 ≤ d.Ticks)
    (h1 : d.Ticks ≤ 3155378975999999999) :
    FDateTime.Parse d.ToString = some ⟨d.Ticks / 10000000 * 10000000⟩ := by
  have hD : d.Ticks.toNat / 864000000000 ≤ 3652058 := by omega
  obtain ⟨hY1, hY2, hM1, hM2, hK1, hK2, hTotal⟩ := GetDate_valid d hD
  have hValid : FDateTime.Validate d.GetDate.1 d.GetDate.2.1 d.GetDate.2.2 d.GetHour
      d.GetMinute d.GetSecond 0 = true := by
    have hH : d.GetHour ≤ 23 := by unfold FDateTime.GetHour; omega
    have hMi : d.GetMinute ≤ 59 := by unfold FDateTime.GetMinute; omega
    have hS : d.GetSecond ≤ 59 := by unfold FDateTime.GetSecond; omega
    simp only [FDateTime.Validate, Bool.and_eq_true, decide_eq_true_eq]
    exact ⟨⟨⟨⟨⟨⟨⟨hY1, hY2⟩, hM1, hM2⟩, hK1, hK2⟩, hH⟩, hMi⟩, hS⟩, by omega⟩
  unfold FDateTime.ToString
  rw [Parse_formatted, hValid, if_pos rfl]
  congr 1
  unfold FDateTime.FromParts
  simp only [hTotal]
  congr 1
  unfold FDateTime.GetHour FDateTime.GetMinute FDateTime.GetSecond
  omega

theorem JsonObject_MaterialName (Name Location Author Date Notes Category : FString)
    (Tags : List FString) :
    GetStringField (SetArrayField (SetStringField (SetStringField (SetStringField (SetStringField
      (SetStringField (SetStringField [] "MaterialName".toList Name) "Location".toList Location)
      "Author".toList Author) "LastModified".toList Date) "Notes".toList Notes)
      "Category".toList Category) "Tags".toList Tags)
      "MaterialName".toList = Name := rfl

theorem MetadataToJson_MaterialName (M : FMaterialVaultMetadata) :
    GetStringField (MetadataToJson M) "MaterialName".toList = M.MaterialName :=
  JsonObject_MaterialName _ _ _ _ _ _ _

theorem JsonObject_Location (Name Location Author Date Notes Category : FString)
    (Tags : List FString) :
    GetStringField (SetArrayField (SetStringField (SetStringField (SetStringField (SetStringField
      (SetStringField (SetStringField [] "MaterialName".toList Name) "Location".toList Location)
      "Author".toList Author) "LastModified".toList Date) "Notes".toList Notes)
      "Category".toList Category) "Tags".toList Tags)
      "Location".toList = Location := rfl

theorem MetadataToJson_Location (M : FMaterialVaultMetadata) :
    GetStringField (MetadataToJson M) "Location".toList = M.Location :=
  JsonObject_Location _ _ _ _ _ _ _

theorem JsonObject_Author (Name Location Author Date Notes Category : FString)
    (Tags : List FString) :
    GetStringField (SetArrayField (SetStringField (SetStringField (SetStringField (SetStringField
      (SetStringField (SetStringField [] "MaterialName".toList Name) "Location".toList Location)
      "Author".toList Author) "LastModified".toList Date) "Notes".toList Notes)
      "Category".toList Category) "Tags".toList Tags)
      "Author".toList = Author := rfl

theorem MetadataToJson_Author (M : FMaterialVaultMetadata) :
    GetStringField (MetadataToJson M) "Author".toList = M.Author :=
  JsonObject_Author _ _ _ _ _ _ _

theorem JsonObject_LastModified (Name Location Author Date Notes Category : FString)
    (Tags : List FString) :
    GetStringField (SetArrayField (SetStringField (SetStringField (SetStringField (SetStringField
      (SetStringField (SetStringField [] "MaterialName".toList Name) "Location".toList Location)
      "Author".toList Author) "LastModified".toList Date) "Notes".toList Notes)
      "Category".toList Category) "Tags".toList Tags)
      "LastModified".toList = Date := rfl

theorem MetadataToJson_LastModified (M : FMaterialVaultMetadata) :
    GetStringField (MetadataToJson M) "LastModified".toList = M.LastModified.ToString :=
  JsonObject_LastModified _ _ _ _ _ _ _

theorem JsonObject_Notes (Name Location Author Date Notes Category : FString)
    (Tags : List FString) :
    GetStringField (SetArrayField (SetStringField (SetStringField (SetStringField (SetStringField
      (SetStringField (SetStringField [] "MaterialName".toList Name) "Location".toList Location)
      "Author".toList Author) "LastModified".toList Date) "Notes".toList Notes)
      "Category".toList Category) "Tags".toList Tags)
      "Notes".toList = Notes := rfl

theorem MetadataToJson_Notes (M : FMaterialVaultMetadata) :
    GetStringField (MetadataToJson M) "Notes".toList = M.Notes :=
  JsonObject_Notes _ _ _ _ _ _ _

theorem JsonObject_Category (Name Location Author Date Notes Category : FString)
    (Tags : List FString) :
    GetStringField (SetArrayField (SetStringField (SetStringField (SetStringField (SetStringField
      (SetStringField (SetStringField [] "MaterialName".toList Name) "Location".toList Location)
      "Author".toList Author) "LastModified".toList Date) "Notes".toList Notes)
      "Category".toList Category) "Tags".toList Tags)
      "Category".toList = Category := rfl

theorem MetadataToJson_Category (M : FMaterialVaultMetadata) :
    GetStringField (MetadataToJson M) "Category".toList = M.Category :=
  JsonObject_Category _ _ _ _ _ _ _

theorem JsonObject_Tags (Name Location Author Date Notes Category : FString)
    (Tags : List FString) :
    TryGetArrayField (SetArrayField (SetStringField (SetStringField (SetStringField (SetStringField
      (SetStringField (SetStringField [] "MaterialName".toList Name) "Location".toList Location)
      "Author".toList Author) "LastModified".toList Date) "Notes".toList Notes)
      "Category".toList Category) "Tags".toList Tags)
      "Tags".toList = some (Tags.map FJsonScalar.String) := rfl

theorem MetadataToJson_Tags (M : FMaterialVaultMetadata) :
    TryGetArrayField (MetadataToJson M) "Tags".toList =
      some (M.Tags.map FJsonScalar.String) :=
  JsonObject_Tags _ _ _ _ _ _ _

/-- Reading back the JSON object that `SaveMaterialMetadata` fills: every field as it was
written, the time stamp as `FDateTime::Parse` reads its text. -/
theorem ReadMetadataFields_MetadataToJson (M Held : FMaterialVaultMetadata)
    (Parsed : FDateTime) (hParse : FDateTime.Parse M.LastModified.ToString = some Parsed) :
    ReadMetadataFields (MetadataToJson M) Held = { M with LastModified := Parsed } := by
  have hMap : (M.Tags.map FJsonScalar.String).map FJsonScalar.AsString = M.Tags := by
    rw [List.map_map]
    exact List.map_id _
  have h : ReadMetadataFields (MetadataToJson M) Held =
      { MaterialName := GetStringField (MetadataToJson M) "MaterialName".toList
        Location := GetStringField (MetadataToJson M) "Location".toList
        Author := GetStringField (MetadataToJson M) "Author".toList
        Notes := GetStringField (MetadataToJson M) "Notes".toList
        Category := GetStringField (MetadataToJson M) "Category".toList
        LastModified :=
          match FDateTime.Parse (GetStringField (MetadataToJson M) "LastModified".toList) with
          | some Parsed => Parsed
          | none => Held.LastModified
        Tags := match TryGetArrayField (MetadataToJson M) "Tags".toList with
          | some TagsArray => TagsArray.map FJsonScalar.AsString
          | none => Held.Tags } := rfl
  rw [h, MetadataToJson_MaterialName, MetadataToJson_Location, MetadataToJson_Author,
    MetadataToJson_Notes, MetadataToJson_Category, MetadataToJson_LastModified,
    MetadataToJson_Tags, hParse]
  simp only [hMap]

/-! ## Theorems on the metadata round trip -/

theorem LoadFileToString_SaveStringToFile (Files : FFileSystem) (Path : FString)
    (JsonObject : FJsonObject) :
    LoadFileToString (SaveStringToFile Files Path JsonObject) Path = some (some JsonObject) := by
  simp [LoadFileToString, SaveStringToFile]

/-- C12, the claim as it stands fails: the item of Rock holds a last-modified time of
2024-02-29 13:05:09.250; after save, clearing of the cache and load it holds
2024-02-29 13:05:09.000, because `FDateTime::ToString()` writes the time down to the second
only. -/
theorem SaveMaterialMetadata_drops_milliseconds :
    (ItemAt StampedManager 0).Metadata.LastModified =
      FDateTime.FromParts 2024 2 29 13 5 9 250 ∧
    (ItemAt (LoadMaterialMetadata
      (ClearMetadataCache (SaveMaterialMetadata StampedManager 0 true)) 0) 0).Metadata.LastModified =
      FDateTime.FromParts 2024 2 29 13 5 9 0 ∧
    (ItemAt (LoadMaterialMetadata
      (ClearMetadataCache (SaveMaterialMetadata StampedManager 0 true)) 0) 0).Metadata ≠
      (ItemAt StampedManager 0).Metadata := by
  decide

/-- C12, amended: metadata round trip.  For every item that holds a record M whose
last-modified time is in the range of the engine (0001-01-01 to the end of 9999-12-31),
`SaveMaterialMetadata` with a write that succeeds, followed by clearing the metadata cache
and `LoadMaterialMetadata` of the same item, leaves the item with a record equal to M in
name, location, author, notes, category and the ordered tag list (empty or not), and with
the last-modified time of M cut to whole seconds; so the record equals M in every field
when the last-modified time of M is a whole number of seconds. -/
theorem SaveMaterialMetadata_round_trip (s : UMaterialVaultManager) (p : Nat)
    (Item : FMaterialVaultMaterialItem) (hItem : s.Items[p]? = some Item)
    (h0 : 0 ≤ Item.Metadata.LastModified.Ticks)
    (h1 : Item.Metadata.LastModified.Ticks ≤ 3155378975999999999) :
    (LoadMaterialMetadata (ClearMetadataCache (SaveMaterialMetadata s p true)) p).Items[p]? =
      some { Item with Metadata := { Item.Metadata with
        LastModified := ⟨Item.Metadata.LastModified.Ticks / 10000000 * 10000000⟩ } } ∧
    (Item.Metadata.LastModified.Ticks % 10000000 = 0 →
      (LoadMaterialMetadata (ClearMetadataCache (SaveMaterialMetadata s p true)) p).Items[p]? =
        some Item) := by
  have hlt : p < s.Items.length := (List.getElem?_eq_some.mp hItem).1
  have hSave : ClearMetadataCache (SaveMaterialMetadata s p true) =
      { s with
        MetadataCache := []
        Files := SaveStringToFile s.Files (GetMetadataFilePath s Item.AssetData)
          (MetadataToJson Item.Metadata) } := by
    simp only [ClearMetadataCache, SaveMaterialMetadata, hItem, if_true]
  have hLoad := LoadMaterialMetadata_file
    { s with
      MetadataCache := []
      Files := SaveStringToFile s.Files (GetMetadataFilePath s Item.AssetData)
        (MetadataToJson Item.Metadata) } p Item (MetadataToJson Item.Metadata) hItem rfl
    (LoadFileToString_SaveStringToFile _ _ _)
  have hRead := ReadMetadataFields_MetadataToJson Item.Metadata Item.Metadata _
    (Parse_ToString Item.Metadata.LastModified h0 h1)
  have hFirst : (LoadMaterialMetadata (ClearMetadataCache (SaveMaterialMetadata s p true))
      p).Items[p]? =
      some { Item with Metadata := { Item.Metadata with
        LastModified := ⟨Item.Metadata.LastModified.Ticks / 10000000 * 10000000⟩ } } := by
    rw [hSave, hLoad, hRead]
    exact List.getElem?_set_self hlt
  refine ⟨hFirst, ?_⟩
  intro hWhole
  rw [hFirst]
  have hT : Item.Metadata.LastModified.Ticks / 10000000 * 10000000 =
      Item.Metadata.LastModified.Ticks := by omega
  rw [hT]

theorem SaveMaterialMetadata_round_trip_witness :
    SidecarManager.Items[0]? = some (ItemAt SidecarManager 0) ∧
    (LoadMaterialMetadata (ClearMetadataCache (SaveMaterialMetadata SidecarManager 0 true))
      0).Items[0]? = some (ItemAt SidecarManager 0) :=
  ⟨by decide,
   (SaveMaterialMetadata_round_trip SidecarManager 0 (ItemAt SidecarManager 0) (by decide)
      (by decide) (by decide)).2 (by decide)⟩

/-! ## Theorems on the reach of an invalidation -/

theorem TMap.Find_filter_kept {V : Type} (m : TMap V) (Keep : FString × V → Bool)
    (Key : FString)
    (h : ∀ kv ∈ m, EqualsIgnoreCase kv.1 Key = true → Keep kv = true) :
    TMap.Find (m.filter Keep) Key = TMap.Find m Key := by
  induction m with
  | nil => rfl
  | cons kv rest ih =>
    have ihr := ih (fun kv2 hkv2 => h kv2 (List.mem_cons_of_mem _ hkv2))
    obtain ⟨k0, v0⟩ := kv
    by_cases hk : EqualsIgnoreCase k0 Key = true
    · have hkeep := h (k0, v0) (List.mem_cons_self _ _) hk
      rw [List.filter_cons_of_pos hkeep]
      simp only [TMap.Find, hk, if_true]
    · by_cases hkeep : Keep (k0, v0) = true
      · rw [List.filter_cons_of_pos hkeep]
        simp only [TMap.Find, hk, if_false]
        exact ihr
      · rw [List.filter_cons_of_neg hkeep]
        simp only [TMap.Find, hk, if_false]
        exact ihr

/-- C29, the claim as it stands fails: the object path of Rock, `/Game/Mats/Rock.Rock`, and
the object path `/MyPlugin/Game/Mats/Rock.Rock` are distinct (also when letter case is
ignored), the thumbnail of the plugin's material is cached at 128 pixels, and
`ClearThumbnailForMaterial` for Rock removes it, because its key contains the path of
Rock. -/
theorem ClearThumbnailForMaterial_removes_other_path :
    EqualsIgnoreCase RockAsset.GetObjectPathString PluginRockAsset.GetObjectPathString = false ∧
    (TMap.Find PluginThumbnails.ThumbnailCache
      (FMaterialVaultThumbnailManager.GetCacheKey PluginRockAsset.GetObjectPathString
        128)).isSome = true ∧
    TMap.Find (FMaterialVaultThumbnailManager.ClearThumbnailForMaterial PluginThumbnails
      RockAsset.GetObjectPathString).ThumbnailCache
      (FMaterialVaultThumbnailManager.GetCacheKey PluginRockAsset.GetObjectPathString 128) =
      none := by
  decide

/-- C29, amended: for all asset paths P and Q and every size s such that P does not occur
in the cache key of Q and s (`FString::Contains`, letter case ignored), the entry cached
under that key before `ClearThumbnailForMaterial` of P is cached under it, unchanged, after
the call; when P, not empty, does occur in the key, no entry is left under it. -/
theorem ClearThumbnailForMaterial_frame (t : FMaterialVaultThumbnailManager)
    (P Q : FString) (ThumbnailSize : Int) :
    (Contains (FMaterialVaultThumbnailManager.GetCacheKey Q ThumbnailSize) P = false →
      TMap.Find (FMaterialVaultThumbnailManager.ClearThumbnailForMaterial t P).ThumbnailCache
        (FMaterialVaultThumbnailManager.GetCacheKey Q ThumbnailSize) =
      TMap.Find t.ThumbnailCache
        (FMaterialVaultThumbnailManager.GetCacheKey Q ThumbnailSize)) ∧
    (Contains (FMaterialVaultThumbnailManager.GetCacheKey Q ThumbnailSize) P = true →
      TMap.Find (FMaterialVaultThumbnailManager.ClearThumbnailForMaterial t P).ThumbnailCache
        (FMaterialVaultThumbnailManager.GetCacheKey Q ThumbnailSize) = none) := by
  refine ⟨fun hNot => ?_, fun hIn => ?_⟩
  · unfold FMaterialVaultThumbnailManager.ClearThumbnailForMaterial
    apply TMap.Find_filter_kept
    intro kv _ hk
    rw [Contains_congr hk, hNot]
    rfl
  · unfold FMaterialVaultThumbnailManager.ClearThumbnailForMaterial
    apply TMap.Find_filter_none
    intro kv _ hk
    rw [Contains_congr hk, hIn]
    rfl

theorem ClearThumbnailForMaterial_frame_witness :
    Contains (FMaterialVaultThumbnailManager.GetCacheKey RockAsset.GetObjectPathString 128)
      WoodAsset.GetObjectPathString = false ∧
    (TMap.Find BusyThumbnails.ThumbnailCache
      (FMaterialVaultThumbnailManager.GetCacheKey RockAsset.GetObjectPathString 128)).isSome =
      true ∧
    TMap.Find (FMaterialVaultThumbnailManager.ClearThumbnailForMaterial BusyThumbnails
      WoodAsset.GetObjectPathString).ThumbnailCache
      (FMaterialVaultThumbnailManager.GetCacheKey RockAsset.GetObjectPathString 128) =
    TMap.Find BusyThumbnails.ThumbnailCache
      (FMaterialVaultThumbnailManager.GetCacheKey RockAsset.GetObjectPathString 128) :=
  ⟨by decide, by decide,
   (ClearThumbnailForMaterial_frame BusyThumbnails WoodAsset.GetObjectPathString
      RockAsset.GetObjectPathString 128).1 (by decide)⟩

/-! ## Theorems on the names of the sidecar files -/

/-- C30 fails: the assets `/Game/A/B/C.C` and `/Game/A_B/C.C` differ in their package names,
and `GetMetadataFilePath` gives both the file `A_B_C_C.json`, in every manager.  In the
manager that indexes both, saving the metadata of the first and then of the second leaves
the record of the second in the file of the first; after the cache is cleared the first
item loads the location `/Game/A_B/C` of the second. -/
theorem GetMetadataFilePath_collides (s : UMaterialVaultManager) :
    NestedAsset.PackageName ≠ FlatAsset.PackageName ∧
    EqualsIgnoreCase NestedAsset.PackageName FlatAsset.PackageName = false ∧
    GetMetadataFilePath s NestedAsset = GetMetadataFilePath s FlatAsset ∧
    (ItemAt CollidingManager 0).AssetData = NestedAsset ∧
    (ItemAt CollidingManager 1).AssetData = FlatAsset ∧
    LoadFileToString
      (SaveMaterialMetadata (SaveMaterialMetadata CollidingManager 0 true) 1 true).Files
      (GetMetadataFilePath CollidingManager NestedAsset) =
      some (some (MetadataToJson (ItemAt CollidingManager 1).Metadata)) ∧
    (ItemAt CollidingManager 0).Metadata.Location = "/Game/A/B/C".toList ∧
    (ItemAt (LoadMaterialMetadata (ClearMetadataCache
      (SaveMaterialMetadata (SaveMaterialMetadata CollidingManager 0 true) 1 true)) 0)
      0).Metadata.Location = "/Game/A_B/C".toList := by
  refine ⟨by decide, by decide, ?_, by decide, by decide, by decide, by decide, by decide⟩
  have hName : (RemoveFromStart NestedAsset.PackageName "/Game/".toList).map
        (fun c => if c == '/' then '_' else c) ++ "_".toList ++ NestedAsset.AssetName ++
        ".json".toList =
      (RemoveFromStart FlatAsset.PackageName "/Game/".toList).map
        (fun c => if c == '/' then '_' else c) ++ "_".toList ++ FlatAsset.AssetName ++
        ".json".toList := by
    decide
  unfold GetMetadataFilePath
  simp only [hName]

/-! ## Theorems on repeated folder builds -/

/-- C28 fails: with the root folder of the settings at `/Game/Mats`, the folder of Rock, the
folder map holds the root node under `/Game/Mats` and `BuildFolderStructure` attaches Rock
(item 0) to the root node, whose material list it never empties: after one call the folder
`/Game/Mats` lists Rock once, after a second call twice, with the same index. -/
theorem BuildFolderStructure_attaches_twice :
    RootedManager.Settings.RootFolder = "/Game/Mats".toList ∧
    RootedManager.RootFolderNode = some 0 ∧
    GetMaterialByPath RootedManager RockAsset.GetObjectPathString = some 0 ∧
    (ItemAt RootedManager 0).AssetData.PackagePath = "/Game/Mats".toList ∧
    FindFolder (BuildFolderStructure RootedManager) "/Game/Mats".toList = some 0 ∧
    GetMaterialsInFolder (BuildFolderStructure RootedManager) "/Game/Mats".toList = [0] ∧
    FindFolder (BuildFolderStructure (BuildFolderStructure RootedManager))
      "/Game/Mats".toList = some 0 ∧
    GetMaterialsInFolder (BuildFolderStructure (BuildFolderStructure RootedManager))
      "/Game/Mats".toList = [0, 0] ∧
    (BuildFolderStructure (BuildFolderStructure RootedManager)).MaterialMap =
      (BuildFolderStructure RootedManager).MaterialMap := by
  decide

/-! ## Theorems on update events -/

theorem LoadMaterialMetadata_AssetData (s : UMaterialVaultManager) (p j : Nat) :
    ((LoadMaterialMetadata s p).Items[j]?).map (fun Item => Item.AssetData) =
      (s.Items[j]?).map (fun Item => Item.AssetData) := by
  rcases LoadMaterialMetadata_cases s p with ⟨_, h⟩ | ⟨Item, Cached, hI, _, h⟩ |
    ⟨Item, JsonObject, hI, _, _, h⟩ | ⟨_, _, _, h⟩
  · rw [h]
  · rw [h]
    simp only [List.getElem?_set]
    by_cases hpj : p = j
    · subst hpj
      have hlt : p < s.Items.length := (List.getElem?_eq_some.mp hI).1
      simp [hlt, hI]
    · simp [hpj]
  · rw [h]
    simp only [List.getElem?_set]
    by_cases hpj : p = j
    · subst hpj
      have hlt : p < s.Items.length := (List.getElem?_eq_some.mp hI).1
      simp [hlt, hI]
    · simp [hpj]
  · rw [h]

theorem TArrayContains_filterMap_congr (f g : Nat → Option FString) (Path : FString)
    (h : ∀ i, (f i = none ∧ g i = none) ∨
      ∃ a b, f i = some a ∧ g i = some b ∧ EqualsIgnoreCase a b = true) :
    ∀ L : List Nat,
      TArrayContains (L.filterMap f) Path = TArrayContains (L.filterMap g) Path := by
  intro L
  induction L with
  | nil => rfl
  | cons i rest ih =>
    rcases h i with ⟨hf, hg⟩ | ⟨a, b, hf, hg, hab⟩
    · rw [List.filterMap_cons_none hf, List.filterMap_cons_none hg]
      exact ih
    · rw [List.filterMap_cons_some hf, List.filterMap_cons_some hg]
      unfold TArrayContains at ih ⊢
      rw [List.any_cons, List.any_cons, ih]
      have hc : EqualsIgnoreCase a Path = EqualsIgnoreCase b Path := by
        rw [EqualsIgnoreCase_comm a Path, EqualsIgnoreCase_comm b Path]
        exact EqualsIgnoreCase_congr hab Path
      rw [hc]

/-- C27, the claim as it stands fails: in the scenario the paths attached to folder nodes are
the paths of the index, the asset record of Stone is of a tracked type, and after
`OnAssetUpdated` for Stone, which is not in the index, the index holds the path of Stone and
no folder node holds an item of that path. -/
theorem OnAssetUpdated_breaks_membership :
    PathMembership ScenarioManager ∧
    IsTrackedClass StoneAsset = true ∧
    TMap.Contains ScenarioManager.MaterialMap StoneAsset.GetObjectPathString = false ∧
    TArrayContains (IndexedPaths (OnAssetUpdated ScenarioManager StoneAsset ⟨0⟩))
      StoneAsset.GetObjectPathString = true ∧
    TArrayContains (AttachedPaths (OnAssetUpdated ScenarioManager StoneAsset ⟨0⟩))
      StoneAsset.GetObjectPathString = false ∧
    ¬ PathMembership (OnAssetUpdated ScenarioManager StoneAsset ⟨0⟩) := by
  have hIn : TArrayContains (IndexedPaths (OnAssetUpdated ScenarioManager StoneAsset ⟨0⟩))
      StoneAsset.GetObjectPathString = true := by decide
  have hOut : TArrayContains (AttachedPaths (OnAssetUpdated ScenarioManager StoneAsset ⟨0⟩))
      StoneAsset.GetObjectPathString = false := by decide
  refine ⟨?_, by decide, by decide, hIn, hOut, ?_⟩
  · intro Path
    have h : AttachedPaths ScenarioManager = IndexedPaths ScenarioManager := by decide
    rw [h]
  · intro h
    have := h StoneAsset.GetObjectPathString
    rw [hIn, hOut] at this
    exact Bool.noConfusion this

/-- C27, amended: an update event for an asset record whose path is already in the asset
index, under an item that carries that path (as every item does that `ProcessMaterialAsset`
put there), leaves path membership unchanged: if before `OnAssetUpdated` the set of item
paths attached to folder nodes equals the set of paths in the index, the same holds after
it.  (For a record of a type that is not tracked nothing changes at all.) -/
theorem OnAssetUpdated_keeps_membership (s : UMaterialVaultManager) (AssetData : FAssetData)
    (Now : FDateTime) (MaterialItem : Nat) (Item : FMaterialVaultMaterialItem)
    (hFind : TMap.Find s.MaterialMap AssetData.GetObjectPathString = some MaterialItem)
    (hItem : s.Items[MaterialItem]? = some Item)
    (hPath : EqualsIgnoreCase Item.AssetData.GetObjectPathString
      AssetData.GetObjectPathString = true)
    (hBefore : PathMembership s) :
    PathMembership (OnAssetUpdated s AssetData Now) ∧
    (OnAssetUpdated s AssetData Now).MaterialMap = s.MaterialMap ∧
    AttachedItems (OnAssetUpdated s AssetData Now) = AttachedItems s := by
  unfold OnAssetUpdated
  by_cases hClass : IsTrackedClass AssetData = true
  · rw [if_pos hClass, ProcessMaterialAsset_existing s AssetData Now MaterialItem hFind]
    obtain ⟨s0, hs0⟩ : ∃ s0 : UMaterialVaultManager, s0 = { s with
        Items := ModifyAt s.Items MaterialItem (fun it => { it with
          AssetData := AssetData
          MaterialPtr := AssetData.ToSoftObjectPath
          DisplayName := AssetData.AssetName }) } := ⟨_, rfl⟩
    rw [← hs0]
    have h0F : s0.FolderMap = s.FolderMap := by rw [hs0]
    have h0N : s0.Folders = s.Folders := by rw [hs0]
    have h0R : s0.RootFolderNode = s.RootFolderNode := by rw [hs0]
    have h0M : s0.MaterialMap = s.MaterialMap := by rw [hs0]
    have h0I : ∀ j, s0.Items[j]? = if MaterialItem = j then
        (s.Items[j]?).map (fun it => { it with
          AssetData := AssetData
          MaterialPtr := AssetData.ToSoftObjectPath
          DisplayName := AssetData.AssetName }) else s.Items[j]? := by
      intro j
      rw [hs0]
      exact ModifyAt_getElem? _ _ _ _
    obtain ⟨hF1, hF2, hF3, _, _⟩ := LoadMaterialMetadata_frame s0 MaterialItem
    have hMap : (LoadMaterialMetadata s0 MaterialItem).MaterialMap = s.MaterialMap :=
      (LoadMaterialMetadata_MaterialMap s0 MaterialItem).trans h0M
    have hItems : AttachedItems (LoadMaterialMetadata s0 MaterialItem) = AttachedItems s := by
      unfold AttachedItems
      rw [hF1, hF2, hF3, h0F, h0N, h0R]
    refine ⟨?_, hMap, hItems⟩
    intro Path
    have hIdx : IndexedPaths (LoadMaterialMetadata s0 MaterialItem) = IndexedPaths s := by
      unfold IndexedPaths
      rw [hMap]
    rw [hIdx, ← hBefore Path]
    unfold AttachedPaths
    rw [hItems]
    apply TArrayContains_filterMap_congr
    intro j
    have hA := LoadMaterialMetadata_AssetData s0 MaterialItem j
    rw [h0I j] at hA
    cases hNew : (LoadMaterialMetadata s0 MaterialItem).Items[j]? with
    | none =>
      rw [hNew] at hA
      left
      refine ⟨rfl, ?_⟩
      by_cases hj : MaterialItem = j
      · subst hj
        rw [hItem] at hA
        simp at hA
      · rw [if_neg hj] at hA
        cases hOld : s.Items[j]? with
        | none => rfl
        | some Old =>
          rw [hOld] at hA
          simp at hA
    | some New =>
      rw [hNew] at hA
      right
      by_cases hj : MaterialItem = j
      · subst hj
        rw [if_pos rfl, hItem] at hA
        simp only [Option.map_some', Option.some.injEq] at hA
        refine ⟨New.AssetData.GetObjectPathString, Item.AssetData.GetObjectPathString, rfl,
          by rw [hItem]; rfl, ?_⟩
        rw [hA, EqualsIgnoreCase_comm]
        exact hPath
      · rw [if_neg hj] at hA
        cases hOld : s.Items[j]? with
        | none =>
          rw [hOld] at hA
          simp at hA
        | some Old =>
          rw [hOld] at hA
          simp only [Option.map_some', Option.some.injEq] at hA
          refine ⟨New.AssetData.GetObjectPathString, Old.AssetData.GetObjectPathString, rfl,
            rfl, ?_⟩
          rw [hA]
          exact EqualsIgnoreCase_refl _
  · rw [if_neg hClass]
    exact ⟨hBefore, rfl, rfl⟩

theorem OnAssetUpdated_keeps_membership_witness :
    TMap.Find ScenarioManager.MaterialMap RockAsset.GetObjectPathString = some 0 ∧
    PathMembership (OnAssetUpdated ScenarioManager RockAsset ⟨7⟩) :=
  ⟨by decide,
   (OnAssetUpdated_keeps_membership ScenarioManager RockAsset ⟨7⟩ 0 (ItemAt ScenarioManager 0)
      (by decide) (by decide) (by decide)
      (fun Path => by
        have h : AttachedPaths ScenarioManager = IndexedPaths ScenarioManager := by decide
        rw [h])).1⟩

section CategoriesPanel
open SMaterialVaultCategoriesPanel

theorem ModifyAt_append_length {α : Type} (l : List α) (x : α) (f : α → α) :
    ModifyAt (l ++ [x]) l.length f = l ++ [f x] := by
  unfold ModifyAt
  simp

theorem AddMaterialToCategory_cases (p : SMaterialVaultCategoriesPanel) (i : Nat) (name : FString) :
    (∃ c, c ∈ p.RootCategories ∧ EqualsIgnoreCase (NameOf p c) name = true ∧
      AddMaterialToCategory p i name = { p with
        CategoryItems := ModifyAt p.CategoryItems c
          (fun Item => { Item with Materials := Item.Materials ++ [i] }) }) ∨
    ((∀ c ∈ p.RootCategories, EqualsIgnoreCase (NameOf p c) name = false) ∧
      AddMaterialToCategory p i name = { p with
        CategoryItems := p.CategoryItems ++
          [{ FMaterialVaultCategoryItem.Make name with Materials := [i] }]
        RootCategories := p.RootCategories ++ [p.CategoryItems.length] }) := by
  unfold AddMaterialToCategory GetOrCreateCategory
  cases h : p.RootCategories.find? (fun Category => EqualsIgnoreCase (NameOf p Category) name) with
  | some c =>
    left
    have h2 : (fun Category => EqualsIgnoreCase (NameOf p Category) name) c = true :=
      @List.find?_some Nat (fun Category => EqualsIgnoreCase (NameOf p Category) name) c
        p.RootCategories h
    exact ⟨c, List.mem_of_find?_eq_some h, h2, rfl⟩
  | none =>
    right
    refine ⟨fun c hc => ?_, ?_⟩
    · have h1 := List.find?_eq_none.mp h c hc
      simpa using h1
    · simp only [ModifyAt_append_length]
      rfl

theorem Panel_lookup_modify (p : SMaterialVaultCategoriesPanel) (c : Nat) (is : List Nat) :
    let q : SMaterialVaultCategoriesPanel := { p with
      CategoryItems := ModifyAt p.CategoryItems c
        (fun Item => { Item with Materials := Item.Materials ++ is }) }
    (∀ x, NameOf q x = NameOf p x) ∧
    (∀ x j, j ∈ MaterialsOf p x → j ∈ MaterialsOf q x) ∧
    (∀ x j, j ∈ MaterialsOf q x → j ∈ is ∨ j ∈ MaterialsOf p x) ∧
    (c < p.CategoryItems.length → ∀ j ∈ is, j ∈ MaterialsOf q c) := by
  intro q
  have hlook : ∀ x, q.CategoryItems[x]? = if c = x then
      (p.CategoryItems[x]?).map (fun Item => { Item with Materials := Item.Materials ++ is })
      else p.CategoryItems[x]? := fun x => ModifyAt_getElem? _ _ _ _
  refine ⟨?_, ?_, ?_, ?_⟩
  · intro x
    unfold NameOf
    rw [hlook x]
    by_cases hcx : c = x
    · rw [if_pos hcx]
      cases p.CategoryItems[x]? <;> rfl
    · rw [if_neg hcx]
  · intro x j hj
    unfold MaterialsOf at hj ⊢
    rw [hlook x]
    by_cases hcx : c = x
    · rw [if_pos hcx]
      cases h : p.CategoryItems[x]? with
      | none => rw [h] at hj; exact absurd hj (List.not_mem_nil _)
      | some Item =>
        rw [h] at hj
        exact List.mem_append_left _ hj
    · rw [if_neg hcx]
      exact hj
  · intro x j hj
    unfold MaterialsOf at hj ⊢
    rw [hlook x] at hj
    by_cases hcx : c = x
    · rw [if_pos hcx] at hj
      cases h : p.CategoryItems[x]? with
      | none => rw [h] at hj; exact absurd hj (List.not_mem_nil _)
      | some Item =>
        rw [h] at hj
        rcases List.mem_append.mp hj with h1 | h1
        · exact Or.inr h1
        · exact Or.inl h1
    · rw [if_neg hcx] at hj
      exact Or.inr hj
  · intro hc j hj
    unfold MaterialsOf
    rw [hlook c, if_pos rfl, List.getElem?_eq_getElem hc]
    exact List.mem_append_right _ hj

theorem Panel_lookup_append (p : SMaterialVaultCategoriesPanel) (New : FMaterialVaultCategoryItem) :
    let q : SMaterialVaultCategoriesPanel := { p with
      CategoryItems := p.CategoryItems ++ [New]
      RootCategories := p.RootCategories ++ [p.CategoryItems.length] }
    (∀ x, x < p.CategoryItems.length → NameOf q x = NameOf p x) ∧
    (∀ x, x < p.CategoryItems.length → MaterialsOf q x = MaterialsOf p x) ∧
    NameOf q p.CategoryItems.length = New.CategoryName ∧
    MaterialsOf q p.CategoryItems.length = New.Materials ∧
    (∀ x, p.CategoryItems.length < x → MaterialsOf q x = []) ∧
    (∀ x, p.CategoryItems.length ≤ x → MaterialsOf p x = []) := by
  intro q
  have hL : ∀ x, x < p.CategoryItems.length → q.CategoryItems[x]? = p.CategoryItems[x]? :=
    fun x hx => List.getElem?_append_left hx
  have hN : q.CategoryItems[p.CategoryItems.length]? = some New := by
    show (p.CategoryItems ++ [New])[p.CategoryItems.length]? = some New
    simp
  refine ⟨?_, ?_, ?_, ?_, ?_, ?_⟩
  · intro x hx
    unfold NameOf
    rw [hL x hx]
  · intro x hx
    unfold MaterialsOf
    rw [hL x hx]
  · unfold NameOf
    rw [hN]
  · unfold MaterialsOf
    rw [hN]
  · intro x hx
    unfold MaterialsOf
    have h : q.CategoryItems[x]? = none := by
      apply List.getElem?_eq_none
      show (p.CategoryItems ++ [New]).length ≤ x
      rw [List.length_append, List.length_singleton]
      omega
    rw [h]
  · intro x hx
    unfold MaterialsOf
    rw [List.getElem?_eq_none hx]

theorem AddMaterialToCategory_facts (p : SMaterialVaultCategoriesPanel) (i : Nat) (name : FString)
    (hW : WellFormed p) :
    WellFormed (AddMaterialToCategory p i name) ∧
    Extends p (AddMaterialToCategory p i name) ∧
    InBucket (AddMaterialToCategory p i name) name i = true ∧
    (∀ x j, j ∈ MaterialsOf (AddMaterialToCategory p i name) x → j = i ∨ j ∈ MaterialsOf p x) ∧
    (DistinctNames p → DistinctNames (AddMaterialToCategory p i name)) := by
  rcases AddMaterialToCategory_cases p i name with ⟨c, hc, hn, hEq⟩ | ⟨hnone, hEq⟩
  · rw [hEq]
    obtain ⟨hName, hKeep, hFrom, hIn⟩ := Panel_lookup_modify p c [i]
    refine ⟨?_, ⟨?_, ?_, ?_, ?_, ?_⟩, ?_, ?_, ?_⟩
    · intro x hx
      show x < (ModifyAt p.CategoryItems c _).length
      rw [ModifyAt_length]
      exact hW x hx
    · show p.CategoryItems.length ≤ (ModifyAt p.CategoryItems c _).length
      rw [ModifyAt_length]
    · exact fun x hx => hx
    · exact fun x hx => Or.inl hx
    · exact fun x _ => hName x
    · exact hKeep
    · unfold InBucket
      rw [List.any_eq_true]
      refine ⟨c, hc, ?_⟩
      rw [hName c, hn, Bool.true_and]
      exact List.elem_iff.mpr (hIn (hW c hc) i (List.mem_singleton.mpr rfl))
    · intro x j hj
      rcases hFrom x j hj with h1 | h1
      · exact Or.inl (List.mem_singleton.mp h1)
      · exact Or.inr h1
    · intro hD
      unfold DistinctNames at hD ⊢
      refine List.Pairwise.imp ?_ hD
      intro a b hab
      rw [hName a, hName b]
      exact hab
  · rw [hEq]
    obtain ⟨hName, hMat, hNameN, hMatN, hMatAbove, hMatOld⟩ := Panel_lookup_append p
      { FMaterialVaultCategoryItem.Make name with Materials := [i] }
    refine ⟨?_, ⟨?_, ?_, ?_, ?_, ?_⟩, ?_, ?_, ?_⟩
    · intro x hx
      show x < (p.CategoryItems ++ [_]).length
      rw [List.length_append, List.length_singleton]
      rcases List.mem_append.mp hx with h1 | h1
      · exact Nat.lt_succ_of_lt (hW x h1)
      · rw [List.mem_singleton.mp h1]
        exact Nat.lt_succ_self _
    · show p.CategoryItems.length ≤ (p.CategoryItems ++ [_]).length
      rw [List.length_append]
      exact Nat.le_add_right _ _
    · exact fun x hx => List.mem_append_left _ hx
    · intro x hx
      rcases List.mem_append.mp hx with h1 | h1
      · exact Or.inl h1
      · rw [List.mem_singleton.mp h1]
        exact Or.inr (Nat.le_refl _)
    · exact hName
    · intro x j hj
      rcases Nat.lt_or_ge x p.CategoryItems.length with hx | hx
      · rw [hMat x hx]
        exact hj
      · rw [hMatOld x hx] at hj
        exact absurd hj (List.not_mem_nil _)
    · unfold InBucket
      rw [List.any_eq_true]
      refine ⟨p.CategoryItems.length, List.mem_append_right _ (List.mem_singleton.mpr rfl), ?_⟩
      rw [hNameN, hMatN]
      show (EqualsIgnoreCase name name && [i].contains i) = true
      rw [EqualsIgnoreCase_refl, Bool.true_and]
      exact List.elem_iff.mpr (List.mem_singleton.mpr rfl)
    · intro x j hj
      rcases Nat.lt_trichotomy x p.CategoryItems.length with hx | hx | hx
      · rw [hMat x hx] at hj
        exact Or.inr hj
      · rw [hx, hMatN] at hj
        exact Or.inl (List.mem_singleton.mp hj)
      · rw [hMatAbove x hx] at hj
        exact absurd hj (List.not_mem_nil _)
    · intro hD
      unfold DistinctNames at hD ⊢
      show List.Pairwise _ (p.RootCategories ++ [p.CategoryItems.length])
      rw [List.pairwise_append]
      refine ⟨?_, List.pairwise_singleton _ _, ?_⟩
      · refine List.Pairwise.imp_of_mem ?_ hD
        intro a b ha hb hab
        rw [hName a (hW a ha), hName b (hW b hb)]
        exact hab
      · intro a ha b hb
        rw [List.mem_singleton.mp hb, hName a (hW a ha), hNameN]
        exact hnone a ha

theorem Extends_refl (p : SMaterialVaultCategoriesPanel) : Extends p p :=
  ⟨Nat.le_refl _, fun _ h => h, fun _ h => Or.inl h, fun _ _ => rfl, fun _ _ h => h⟩

theorem Extends_trans {p q r : SMaterialVaultCategoriesPanel} (h1 : Extends p q)
    (h2 : Extends q r) : Extends p r := by
  obtain ⟨hl1, hr1, hn1, hN1, hM1⟩ := h1
  obtain ⟨hl2, hr2, hn2, hN2, hM2⟩ := h2
  refine ⟨Nat.le_trans hl1 hl2, fun c hc => hr2 c (hr1 c hc), ?_, ?_,
    fun c j hj => hM2 c j (hM1 c j hj)⟩
  · intro c hc
    rcases hn2 c hc with h | h
    · exact hn1 c h
    · exact Or.inr (Nat.le_trans hl1 h)
  · intro c hc
    rw [hN2 c (Nat.lt_of_lt_of_le hc hl1), hN1 c hc]

theorem InBucket_iff (p : SMaterialVaultCategoriesPanel) (name : FString) (i : Nat) :
    InBucket p name i = true ↔ ∃ c ∈ p.RootCategories,
      EqualsIgnoreCase (NameOf p c) name = true ∧ i ∈ MaterialsOf p c := by
  unfold InBucket
  rw [List.any_eq_true]
  constructor
  · rintro ⟨c, hc, h⟩
    rw [Bool.and_eq_true] at h
    exact ⟨c, hc, h.1, List.elem_iff.mp h.2⟩
  · rintro ⟨c, hc, h1, h2⟩
    refine ⟨c, hc, ?_⟩
    rw [Bool.and_eq_true]
    exact ⟨h1, List.elem_iff.mpr h2⟩

theorem InBucket_of_Extends {p q : SMaterialVaultCategoriesPanel} (hW : WellFormed p)
    (hE : Extends p q) (name : FString) (i : Nat) (h : InBucket p name i = true) :
    InBucket q name i = true := by
  rw [InBucket_iff] at h ⊢
  obtain ⟨c, hc, h1, h2⟩ := h
  obtain ⟨_, hr, _, hN, hM⟩ := hE
  refine ⟨c, hr c hc, ?_, hM c i h2⟩
  rw [hN c (hW c hc)]
  exact h1

theorem CategoriseMaterial_facts (m : UMaterialVaultManager) (L : List (FString × Nat)) :
    ∀ p : SMaterialVaultCategoriesPanel, WellFormed p →
      WellFormed (L.foldl (CategoriseMaterial m) p) ∧
      Extends p (L.foldl (CategoriseMaterial m) p) ∧
      (DistinctNames p → DistinctNames (L.foldl (CategoriseMaterial m) p)) ∧
      (∀ Pair ∈ L, ∀ Item, m.Items[Pair.2]? = some Item →
        InBucket (L.foldl (CategoriseMaterial m) p) (CategoryNameFor Item) Pair.2 = true) ∧
      (∀ x j, j ∈ MaterialsOf (L.foldl (CategoriseMaterial m) p) x →
        j ∈ MaterialsOf p x ∨ ∃ Pair ∈ L, Pair.2 = j) := by
  induction L with
  | nil =>
    intro p hW
    exact ⟨hW, Extends_refl p, fun h => h, fun _ h => absurd h (List.not_mem_nil _),
      fun _ _ h => Or.inl h⟩
  | cons Head Rest ih =>
    intro p hW
    rw [List.foldl_cons]
    have hStep : WellFormed (CategoriseMaterial m p Head) ∧
        Extends p (CategoriseMaterial m p Head) ∧
        (DistinctNames p → DistinctNames (CategoriseMaterial m p Head)) ∧
        (∀ Item, m.Items[Head.2]? = some Item →
          InBucket (CategoriseMaterial m p Head) (CategoryNameFor Item) Head.2 = true) ∧
        (∀ x j, j ∈ MaterialsOf (CategoriseMaterial m p Head) x →
          j = Head.2 ∨ j ∈ MaterialsOf p x) := by
      cases hItem : m.Items[Head.2]? with
      | none =>
        have hC : CategoriseMaterial m p Head = p := by
          unfold CategoriseMaterial
          rw [hItem]
        rw [hC]
        exact ⟨hW, Extends_refl p, fun h => h, fun _ h => (nomatch h), fun _ _ h => Or.inr h⟩
      | some Item =>
        have hC : CategoriseMaterial m p Head =
            AddMaterialToCategory p Head.2 (CategoryNameFor Item) := by
          unfold CategoriseMaterial
          rw [hItem]
        rw [hC]
        obtain ⟨h1, h2, h3, h4, h5⟩ := AddMaterialToCategory_facts p Head.2 (CategoryNameFor Item) hW
        refine ⟨h1, h2, h5, ?_, h4⟩
        intro Item2 hItem2
        rw [← Option.some.inj hItem2]
        exact h3
    obtain ⟨hW1, hE1, hD1, hIn1, hFrom1⟩ := hStep
    obtain ⟨hW2, hE2, hD2, hIn2, hFrom2⟩ := ih (CategoriseMaterial m p Head) hW1
    refine ⟨hW2, Extends_trans hE1 hE2, fun h => hD2 (hD1 h), ?_, ?_⟩
    · intro Pair hPair Item hItem
      rcases List.mem_cons.mp hPair with h | h
      · rw [h]
        rw [h] at hItem
        exact InBucket_of_Extends hW1 hE2 _ _ (hIn1 Item hItem)
      · exact hIn2 Pair h Item hItem
    · intro x j hj
      rcases hFrom2 x j hj with h | ⟨Pair, hPair, h⟩
      · rcases hFrom1 x j h with h1 | h1
        · exact Or.inr ⟨Head, List.mem_cons_self _ _, h1.symm⟩
        · exact Or.inl h1
      · exact Or.inr ⟨Pair, List.mem_cons_of_mem _ hPair, h⟩

theorem BuildCategoryStructure_eq (p : SMaterialVaultCategoriesPanel) (m : UMaterialVaultManager)
    (hManager : p.MaterialVaultManager = true) :
    BuildCategoryStructure p m =
      { (List.foldl (CategoriseMaterial m)
          { p with
            CategoryItems := p.CategoryItems ++
              [{ FMaterialVaultCategoryItem.Make "All Materials".toList with
                  Materials := (CollectMaterials m).map (fun MaterialPair => MaterialPair.2) }]
            RootCategories := p.RootCategories ++ [p.CategoryItems.length] }
          (CollectMaterials m)) with
        RootCategories := TArraySortBy
          (SortsBefore (List.foldl (CategoriseMaterial m)
            { p with
              CategoryItems := p.CategoryItems ++
                [{ FMaterialVaultCategoryItem.Make "All Materials".toList with
                    Materials := (CollectMaterials m).map (fun MaterialPair => MaterialPair.2) }]
              RootCategories := p.RootCategories ++ [p.CategoryItems.length] }
            (CollectMaterials m)))
          (List.foldl (CategoriseMaterial m)
            { p with
              CategoryItems := p.CategoryItems ++
                [{ FMaterialVaultCategoryItem.Make "All Materials".toList with
                    Materials := (CollectMaterials m).map (fun MaterialPair => MaterialPair.2) }]
              RootCategories := p.RootCategories ++ [p.CategoryItems.length] }
            (CollectMaterials m)).RootCategories } := by
  unfold BuildCategoryStructure
  rw [hManager]
  simp only [Bool.not_true, Bool.false_eq_true, if_false, ModifyAt_append_length]
  rfl

theorem InBucket_reorder (p : SMaterialVaultCategoriesPanel) (Roots : List Nat)
    (hPerm : Roots.Perm p.RootCategories) (name : FString) (i : Nat) :
    InBucket { p with RootCategories := Roots } name i = InBucket p name i := by
  rw [Bool.eq_iff_iff, InBucket_iff, InBucket_iff]
  constructor
  · rintro ⟨c, hc, h⟩
    exact ⟨c, hPerm.mem_iff.mp hc, h⟩
  · rintro ⟨c, hc, h⟩
    exact ⟨c, hPerm.mem_iff.mpr hc, h⟩

theorem BuildCategoryStructure_facts (p : SMaterialVaultCategoriesPanel)
    (m : UMaterialVaultManager) (hManager : p.MaterialVaultManager = true)
    (hW : WellFormed p) :
    WellFormed (BuildCategoryStructure p m) ∧
    (∀ Pair ∈ CollectMaterials m,
      InBucket (BuildCategoryStructure p m) "All Materials".toList Pair.2 = true) ∧
    (∀ Pair ∈ CollectMaterials m, ∀ Item, m.Items[Pair.2]? = some Item →
      InBucket (BuildCategoryStructure p m) (CategoryNameFor Item) Pair.2 = true) ∧
    (p.RootCategories = [] → DistinctNames (BuildCategoryStructure p m)) ∧
    (p.RootCategories = [] → ∀ x ∈ (BuildCategoryStructure p m).RootCategories,
      ∀ j ∈ MaterialsOf (BuildCategoryStructure p m) x, ∃ Pair ∈ CollectMaterials m, Pair.2 = j) := by
  rw [BuildCategoryStructure_eq p m hManager]
  obtain ⟨p2, hp2⟩ : ∃ p2 : SMaterialVaultCategoriesPanel, p2 = { p with
      CategoryItems := p.CategoryItems ++
        [{ FMaterialVaultCategoryItem.Make "All Materials".toList with
            Materials := (CollectMaterials m).map (fun MaterialPair => MaterialPair.2) }]
      RootCategories := p.RootCategories ++ [p.CategoryItems.length] } := ⟨_, rfl⟩
  rw [← hp2]
  obtain ⟨hName, hMat, hNameN, hMatN, hMatAbove, hMatOld⟩ := Panel_lookup_append p
    { FMaterialVaultCategoryItem.Make "All Materials".toList with
        Materials := (CollectMaterials m).map (fun MaterialPair => MaterialPair.2) }
  rw [← hp2] at hName hMat hNameN hMatN hMatAbove
  have hRoots2 : p2.RootCategories = p.RootCategories ++ [p.CategoryItems.length] := by
    rw [hp2]
  have hLen2 : p2.CategoryItems.length = p.CategoryItems.length + 1 := by
    rw [hp2]
    show (p.CategoryItems ++ [_]).length = _
    rw [List.length_append, List.length_singleton]
  have hW2 : WellFormed p2 := by
    intro x hx
    rw [hRoots2] at hx
    rw [hLen2]
    rcases List.mem_append.mp hx with h1 | h1
    · exact Nat.lt_succ_of_lt (hW x h1)
    · rw [List.mem_singleton.mp h1]
      exact Nat.lt_succ_self _
  have hAll2 : ∀ Pair ∈ CollectMaterials m, InBucket p2 "All Materials".toList Pair.2 = true := by
    intro Pair hPair
    rw [InBucket_iff]
    refine ⟨p.CategoryItems.length, ?_, ?_, ?_⟩
    · rw [hRoots2]
      exact List.mem_append_right _ (List.mem_singleton.mpr rfl)
    · rw [hNameN]
      exact EqualsIgnoreCase_refl _
    · rw [hMatN]
      exact List.mem_map.mpr ⟨Pair, hPair, rfl⟩
  obtain ⟨hW3, hE3, hD3, hIn3, hFrom3⟩ := CategoriseMaterial_facts m (CollectMaterials m) p2 hW2
  obtain ⟨p3, hp3⟩ : ∃ p3, p3 = List.foldl (CategoriseMaterial m) p2 (CollectMaterials m) :=
    ⟨_, rfl⟩
  rw [← hp3] at hW3 hE3 hD3 hIn3 hFrom3 ⊢
  have hPerm : (TArraySortBy (SortsBefore p3) p3.RootCategories).Perm p3.RootCategories :=
    TArraySortBy_perm _ _
  refine ⟨?_, ?_, ?_, ?_, ?_⟩
  · intro x hx
    exact hW3 x (hPerm.mem_iff.mp hx)
  · intro Pair hPair
    rw [InBucket_reorder p3 _ hPerm]
    exact InBucket_of_Extends hW2 hE3 _ _ (hAll2 Pair hPair)
  · intro Pair hPair Item hItem
    rw [InBucket_reorder p3 _ hPerm]
    exact hIn3 Pair hPair Item hItem
  · intro hEmpty
    have hD2 : DistinctNames p2 := by
      unfold DistinctNames
      rw [hRoots2, hEmpty]
      exact List.pairwise_singleton _ _
    have hD := hD3 hD2
    unfold DistinctNames at hD ⊢
    refine (List.Perm.pairwise_iff ?_ hPerm).mpr hD
    intro a b hab
    rw [EqualsIgnoreCase_comm]
    exact hab
  · intro hEmpty x hx j hj
    have hx3 : x ∈ p3.RootCategories := hPerm.mem_iff.mp hx
    have hj3 : j ∈ MaterialsOf p3 x := hj
    rcases hFrom3 x j hj3 with h | h
    · have hx2 : x = p.CategoryItems.length ∨ p.CategoryItems.length < x := by
        rcases hE3.2.2.1 x hx3 with h1 | h1
        · rw [hRoots2, hEmpty] at h1
          exact Or.inl (List.mem_singleton.mp h1)
        · rw [hLen2] at h1
          exact Or.inr h1
      rcases hx2 with h1 | h1
      · rw [h1, hMatN] at h
        obtain ⟨Pair, hPair, hEq⟩ := List.mem_map.mp h
        exact ⟨Pair, hPair, hEq⟩
      · rw [hMatAbove x h1] at h
        exact absurd h (List.not_mem_nil _)
    · exact h

theorem GetOrCreateCategory_cases (p : SMaterialVaultCategoriesPanel) (name : FString) :
    (∃ c, c ∈ p.RootCategories ∧ EqualsIgnoreCase (NameOf p c) name = true ∧
      GetOrCreateCategory p name = (p, c)) ∨
    ((∀ c ∈ p.RootCategories, EqualsIgnoreCase (NameOf p c) name = false) ∧
      GetOrCreateCategory p name = ({ p with
        CategoryItems := p.CategoryItems ++ [FMaterialVaultCategoryItem.Make name]
        RootCategories := p.RootCategories ++ [p.CategoryItems.length] },
        p.CategoryItems.length)) := by
  unfold GetOrCreateCategory
  cases h : p.RootCategories.find? (fun Category => EqualsIgnoreCase (NameOf p Category) name) with
  | some c =>
    left
    have h2 : (fun Category => EqualsIgnoreCase (NameOf p Category) name) c = true :=
      @List.find?_some Nat (fun Category => EqualsIgnoreCase (NameOf p Category) name) c
        p.RootCategories h
    exact ⟨c, List.mem_of_find?_eq_some h, h2, rfl⟩
  | none =>
    right
    refine ⟨fun c hc => ?_, rfl⟩
    have h1 := List.find?_eq_none.mp h c hc
    simpa using h1

theorem Option_map_Uncategorize (x : Option FMaterialVaultMaterialItem) :
    (x.map Uncategorize).map Uncategorize = x.map Uncategorize := by
  cases x <;> rfl

theorem MoveToUncategorized_facts (U : Nat) (L : List Nat) :
    ∀ (p : SMaterialVaultCategoriesPanel) (m : UMaterialVaultManager),
      (∃ Items, (L.foldl (MoveToUncategorized U) (p, m)).2 = { m with Items := Items } ∧
        ∀ j, Items[j]? = if j ∈ L then (m.Items[j]?).map Uncategorize else m.Items[j]?) ∧
      (∃ CategoryItems,
        (L.foldl (MoveToUncategorized U) (p, m)).1 = { p with CategoryItems := CategoryItems } ∧
        CategoryItems.length = p.CategoryItems.length ∧
        ∀ x, NameOf (L.foldl (MoveToUncategorized U) (p, m)).1 x = NameOf p x) := by
  induction L with
  | nil =>
    intro p m
    exact ⟨⟨m.Items, rfl, fun j => by simp⟩, ⟨p.CategoryItems, rfl, rfl, fun _ => rfl⟩⟩
  | cons i Rest ih =>
    intro p m
    rw [List.foldl_cons]
    have hStep : ∃ p1 m1, MoveToUncategorized U (p, m) i = (p1, m1) ∧
        (∃ Items, m1 = { m with Items := Items } ∧
          ∀ j, Items[j]? = if i = j then (m.Items[j]?).map Uncategorize else m.Items[j]?) ∧
        (∃ CategoryItems, p1 = { p with CategoryItems := CategoryItems } ∧
          CategoryItems.length = p.CategoryItems.length ∧ ∀ x, NameOf p1 x = NameOf p x) := by
      unfold MoveToUncategorized
      cases hItem : m.Items[i]? with
      | none =>
        refine ⟨p, m, ?_, ⟨m.Items, rfl, ?_⟩, ⟨p.CategoryItems, rfl, rfl, fun _ => rfl⟩⟩
        · simp only [hItem]
        · intro j
          by_cases hij : i = j
          · rw [if_pos hij, ← hij, hItem]
            rfl
          · rw [if_neg hij]
      | some Item =>
        simp only [hItem]
        split
        · exact ⟨p, _, rfl, ⟨_, rfl, fun j => ModifyAt_getElem? _ _ _ _⟩,
            ⟨p.CategoryItems, rfl, rfl, fun _ => rfl⟩⟩
        · refine ⟨_, _, rfl, ⟨_, rfl, fun j => ModifyAt_getElem? _ _ _ _⟩,
            ⟨_, rfl, ModifyAt_length _ _ _, ?_⟩⟩
          exact (Panel_lookup_modify p U [i]).1
    obtain ⟨p1, m1, hEq, ⟨Items1, hm1, hItems1⟩, ⟨Cat1, hp1, hLen1, hName1⟩⟩ := hStep
    rw [hEq]
    obtain ⟨⟨Items2, hm2, hItems2⟩, ⟨Cat2, hp2, hLen2, hName2⟩⟩ := ih p1 m1
    refine ⟨⟨Items2, ?_, ?_⟩, ⟨Cat2, ?_, ?_, ?_⟩⟩
    · rw [hm2, hm1]
    · intro j
      rw [hItems2 j, hm1]
      show (if j ∈ Rest then (Items1[j]?).map Uncategorize else Items1[j]?) = _
      rw [hItems1 j]
      by_cases hij : i = j
      · subst hij
        rw [if_pos rfl, Option_map_Uncategorize, if_pos (List.mem_cons_self _ _)]
        split <;> rfl
      · rw [if_neg hij]
        by_cases hjR : j ∈ Rest
        · rw [if_pos hjR, if_pos (List.mem_cons_of_mem _ hjR)]
        · rw [if_neg hjR, if_neg]
          intro h
          rcases List.mem_cons.mp h with h1 | h1
          · exact hij h1.symm
          · exact hjR h1
    · rw [hp2, hp1]
    · rw [hLen2, hp1]
      exact hLen1
    · intro x
      rw [hName2 x, hName1 x]

theorem List_foldl_invariant {α β : Type} (P : β → Prop) (f : β → α → β) (L : List α)
    (h : ∀ b a, a ∈ L → P b → P (f b a)) : ∀ b, P b → P (L.foldl f b) := by
  induction L with
  | nil => exact fun b hb => hb
  | cons a Rest ih =>
    intro b hb
    rw [List.foldl_cons]
    exact ih (fun b1 a1 ha1 => h b1 a1 (List.mem_cons_of_mem _ ha1)) _
      (h b a (List.mem_cons_self _ _) hb)

theorem CollectMaterialsFuel_congr (m1 m : UMaterialVaultManager)
    (hF : m1.Folders = m.Folders)
    (hI : ∀ i : Nat,
      (m1.Items[i]?).map (fun Item : FMaterialVaultMaterialItem => Item.AssetData.GetObjectPathString) =
      (m.Items[i]?).map (fun Item : FMaterialVaultMaterialItem => Item.AssetData.GetObjectPathString)) :
    ∀ Fuel Folder Map,
      CollectMaterialsFuel Fuel m1 Folder Map = CollectMaterialsFuel Fuel m Folder Map := by
  intro Fuel
  induction Fuel with
  | zero => intro Folder Map; rfl
  | succ Fuel ih =>
    intro Folder Map
    simp only [CollectMaterialsFuel]
    rw [hF]
    cases m.Folders[Folder]? with
    | none => rfl
    | some Node =>
      simp only
      have h1 : (fun (Map : TMap Nat) (Material : Nat) =>
          match m1.Items[Material]? with
          | some Item => TMap.Add Map Item.AssetData.GetObjectPathString Material
          | none => Map) =
          (fun (Map : TMap Nat) (Material : Nat) =>
          match m.Items[Material]? with
          | some Item => TMap.Add Map Item.AssetData.GetObjectPathString Material
          | none => Map) := by
        funext Map Material
        have h := hI Material
        cases h1 : m1.Items[Material]? with
        | none =>
          cases h2 : m.Items[Material]? with
          | none => rfl
          | some Item2 => rw [h1, h2] at h; cases h
        | some Item1 =>
          cases h2 : m.Items[Material]? with
          | none => rw [h1, h2] at h; cases h
          | some Item2 =>
            rw [h1, h2] at h
            simp only [Option.map_some', Option.some.injEq] at h
            simp only [h]
      have h2 : (fun (Map : TMap Nat) (Child : Nat) => CollectMaterialsFuel Fuel m1 Child Map) =
          (fun (Map : TMap Nat) (Child : Nat) => CollectMaterialsFuel Fuel m Child Map) := by
        funext Map Child
        exact ih Child Map
      rw [h1, h2]

theorem CollectMaterialsFuel_valid (m : UMaterialVaultManager) :
    ∀ Fuel Folder Map, (∀ Pair ∈ Map, (m.Items[Pair.2]?).isSome = true) →
      ∀ Pair ∈ CollectMaterialsFuel Fuel m Folder Map, (m.Items[Pair.2]?).isSome = true := by
  intro Fuel
  induction Fuel with
  | zero => exact fun Folder Map h => h
  | succ Fuel ih =>
    intro Folder Map hMap
    simp only [CollectMaterialsFuel]
    cases m.Folders[Folder]? with
    | none => exact hMap
    | some Node =>
      simp only
      refine List_foldl_invariant (fun Map : TMap Nat => ∀ Pair ∈ Map, (m.Items[Pair.2]?).isSome = true)
        _ _ (fun b a _ hb => ih a b hb) _ ?_
      refine List_foldl_invariant (fun Map : TMap Nat => ∀ Pair ∈ Map, (m.Items[Pair.2]?).isSome = true)
        _ _ ?_ _ hMap
      intro b a _ hb
      cases ha : m.Items[a]? with
      | none => exact hb
      | some Item =>
        intro Pair hPair
        rcases TMap.mem_Add b _ a Pair hPair with h | h
        · exact hb Pair h
        · rw [h]
          show (m.Items[a]?).isSome = true
          rw [ha]
          rfl

theorem CollectMaterials_valid (m : UMaterialVaultManager) :
    ∀ Pair ∈ CollectMaterials m, (m.Items[Pair.2]?).isSome = true := by
  unfold CollectMaterials
  cases m.RootFolderNode with
  | none => exact fun _ h => absurd h (List.not_mem_nil _)
  | some Root =>
    exact CollectMaterialsFuel_valid m _ Root [] (fun _ h => absurd h (List.not_mem_nil _))

theorem CollectMaterials_congr (m1 m : UMaterialVaultManager)
    (hF : m1.Folders = m.Folders) (hR : m1.RootFolderNode = m.RootFolderNode)
    (hI : ∀ i : Nat,
      (m1.Items[i]?).map (fun Item : FMaterialVaultMaterialItem => Item.AssetData.GetObjectPathString) =
      (m.Items[i]?).map (fun Item : FMaterialVaultMaterialItem => Item.AssetData.GetObjectPathString)) :
    CollectMaterials m1 = CollectMaterials m := by
  unfold CollectMaterials
  rw [hR, hF]
  cases m.RootFolderNode with
  | none => rfl
  | some Root => exact CollectMaterialsFuel_congr m1 m hF hI _ _ _

theorem ApplyFilter_facts (p : SMaterialVaultCategoriesPanel) :
    (ApplyFilter p).RootCategories = p.RootCategories ∧
    (ApplyFilter p).CategoryItems = p.CategoryItems ∧
    (ApplyFilter p).MaterialVaultManager = p.MaterialVaultManager ∧
    (∀ c ∈ (ApplyFilter p).FilteredCategories, c ∈ p.RootCategories) := by
  refine ⟨rfl, rfl, rfl, ?_⟩
  intro c hc
  unfold ApplyFilter at hc
  simp only at hc
  split at hc
  · exact hc
  · exact (List.mem_filter.mp hc).1

theorem OnDeleteCategory_facts (p : SMaterialVaultCategoriesPanel) (m : UMaterialVaultManager)
    (X : Nat) (Deleted : FMaterialVaultCategoryItem)
    (hDeleted : p.CategoryItems[X]? = some Deleted) :
    ∃ Items,
      (OnDeleteCategory p m (some X)).2 = { m with Items := Items } ∧
      (∀ j : Nat, Items[j]? =
        if j ∈ Deleted.Materials then (m.Items[j]?).map Uncategorize else m.Items[j]?) ∧
      (OnDeleteCategory p m (some X)).1.RootCategories =
        (GetOrCreateCategory p "Uncategorized".toList).1.RootCategories.filter
          (fun Category => Category != X) ∧
      (OnDeleteCategory p m (some X)).1.CategoryItems.length =
        (GetOrCreateCategory p "Uncategorized".toList).1.CategoryItems.length ∧
      (∀ x, NameOf (OnDeleteCategory p m (some X)).1 x =
        NameOf (GetOrCreateCategory p "Uncategorized".toList).1 x) ∧
      (OnDeleteCategory p m (some X)).1.MaterialVaultManager = p.MaterialVaultManager ∧
      (∀ c ∈ (OnDeleteCategory p m (some X)).1.FilteredCategories,
        c ∈ (OnDeleteCategory p m (some X)).1.RootCategories) := by
  have hManager1 : (GetOrCreateCategory p "Uncategorized".toList).1.MaterialVaultManager =
      p.MaterialVaultManager := by
    rcases GetOrCreateCategory_cases p "Uncategorized".toList with ⟨c, _, _, hEq⟩ | ⟨_, hEq⟩
    · rw [hEq]
    · rw [hEq]
  rcases hG : GetOrCreateCategory p "Uncategorized".toList with ⟨p1, U⟩
  rw [hG] at hManager1
  obtain ⟨⟨Items2, hm2, hItems2⟩, ⟨Cat2, hp2, hLen2, hName2⟩⟩ :=
    MoveToUncategorized_facts U Deleted.Materials p1 m
  rcases hFold : List.foldl (MoveToUncategorized U) (p1, m) Deleted.Materials with ⟨p2, m2⟩
  rw [hFold] at hm2 hp2 hName2
  simp only at hm2 hp2 hName2
  have hEq : OnDeleteCategory p m (some X) =
      (ApplyFilter (if ({ p2 with RootCategories :=
          p2.RootCategories.filter (fun Category => Category != X) } :
            SMaterialVaultCategoriesPanel).SelectedCategory = some X then
          { p2 with
            RootCategories := p2.RootCategories.filter (fun Category => Category != X)
            SelectedCategory := none }
        else { p2 with
          RootCategories := p2.RootCategories.filter (fun Category => Category != X) }), m2) := by
    unfold OnDeleteCategory
    simp only [hDeleted, hG, hFold]
  rw [hEq]
  have hp2R : p2.RootCategories = p1.RootCategories := by rw [hp2]
  have hp2M : p2.MaterialVaultManager = p1.MaterialVaultManager := by rw [hp2]
  have hp2L : p2.CategoryItems.length = p1.CategoryItems.length := by
    rw [hp2]
    exact hLen2
  refine ⟨Items2, hm2, hItems2, ?_⟩
  simp only
  by_cases hSel : ({ p2 with RootCategories :=
      p2.RootCategories.filter (fun Category => Category != X) } :
        SMaterialVaultCategoriesPanel).SelectedCategory = some X
  · rw [if_pos hSel]
    obtain ⟨h1, h2, h3, h4⟩ := ApplyFilter_facts { p2 with
      RootCategories := p2.RootCategories.filter (fun Category => Category != X)
      SelectedCategory := none }
    refine ⟨?_, ?_, ?_, ?_, ?_⟩
    · rw [h1]
      show p2.RootCategories.filter _ = _
      rw [hp2R]
    · rw [h2]
      exact hp2L
    · intro x
      unfold NameOf
      rw [h2]
      exact hName2 x
    · rw [h3]
      show p2.MaterialVaultManager = _
      rw [hp2M, hManager1]
    · intro c hc
      rw [h1]
      exact h4 c hc
  · rw [if_neg hSel]
    obtain ⟨h1, h2, h3, h4⟩ := ApplyFilter_facts { p2 with
      RootCategories := p2.RootCategories.filter (fun Category => Category != X) }
    refine ⟨?_, ?_, ?_, ?_, ?_⟩
    · rw [h1]
      show p2.RootCategories.filter _ = _
      rw [hp2R]
    · rw [h2]
      exact hp2L
    · intro x
      unfold NameOf
      rw [h2]
      exact hName2 x
    · rw [h3]
      show p2.MaterialVaultManager = _
      rw [hp2M, hManager1]
    · intro c hc
      rw [h1]
      exact h4 c hc

theorem AddMaterialToCategory_manager (p : SMaterialVaultCategoriesPanel) (i : Nat)
    (name : FString) :
    (AddMaterialToCategory p i name).MaterialVaultManager = p.MaterialVaultManager := by
  rcases AddMaterialToCategory_cases p i name with ⟨c, _, _, hEq⟩ | ⟨_, hEq⟩
  · rw [hEq]
  · rw [hEq]

theorem BuildCategoryStructure_manager (p : SMaterialVaultCategoriesPanel)
    (m : UMaterialVaultManager) :
    (BuildCategoryStructure p m).MaterialVaultManager = p.MaterialVaultManager := by
  cases hManager : p.MaterialVaultManager with
  | false =>
    unfold BuildCategoryStructure
    rw [hManager]
    simp only [Bool.not_false, if_true]
    exact hManager
  | true =>
    rw [BuildCategoryStructure_eq p m hManager]
    show (List.foldl (CategoriseMaterial m) _ (CollectMaterials m)).MaterialVaultManager = true
    refine List_foldl_invariant
      (fun q : SMaterialVaultCategoriesPanel => q.MaterialVaultManager = true) _ _ ?_ _ hManager
    intro b a _ hb
    unfold CategoriseMaterial
    cases m.Items[a.2]? with
    | none => exact hb
    | some Item =>
      simp only
      rw [AddMaterialToCategory_manager]
      exact hb

theorem GetOrCreateCategory_facts (p : SMaterialVaultCategoriesPanel) (name : FString)
    (hW : WellFormed p) :
    WellFormed (GetOrCreateCategory p name).1 ∧
    (∀ c ∈ (GetOrCreateCategory p name).1.RootCategories,
      (c ∈ p.RootCategories ∧ NameOf (GetOrCreateCategory p name).1 c = NameOf p c) ∨
      ((∀ x ∈ p.RootCategories, EqualsIgnoreCase (NameOf p x) name = false) ∧
        NameOf (GetOrCreateCategory p name).1 c = name)) := by
  rcases GetOrCreateCategory_cases p name with ⟨c, hc, hn, hEq⟩ | ⟨hnone, hEq⟩
  · rw [hEq]
    exact ⟨hW, fun x hx => Or.inl ⟨hx, rfl⟩⟩
  · rw [hEq]
    obtain ⟨hName, _, hNameN, _, _, _⟩ := Panel_lookup_append p
      (FMaterialVaultCategoryItem.Make name)
    refine ⟨?_, ?_⟩
    · intro x hx
      show x < (p.CategoryItems ++ [_]).length
      rw [List.length_append, List.length_singleton]
      rcases List.mem_append.mp hx with h1 | h1
      · exact Nat.lt_succ_of_lt (hW x h1)
      · rw [List.mem_singleton.mp h1]
        exact Nat.lt_succ_self _
    · intro x hx
      rcases List.mem_append.mp hx with h1 | h1
      · exact Or.inl ⟨h1, hName x (hW x h1)⟩
      · rw [List.mem_singleton.mp h1]
        exact Or.inr ⟨hnone, hNameN⟩

/-- The deletion of a category with a rebuild right after it: let the panel be built by
`BuildCategoryStructure` from an empty list of root
categories, let `X` be one of its root categories and `Material` an item in the bucket of
`X`.  After `OnDeleteCategory(X)` the metadata category of the item is "Uncategorized"; `X`
is neither a root category nor a filtered category, and no root category has the name of
`X`; and `BuildCategoryStructure` on the state after the deletion, with the root categories
as they are or emptied first as `RefreshCategories` does, puts the item into a bucket named
"Uncategorized".  No reload of the metadata of the items lies between the deletion and
the rebuild here. -/
theorem OnDeleteCategory_moves_items (p0 : SMaterialVaultCategoriesPanel)
    (m : UMaterialVaultManager) (X : Nat) (Deleted : FMaterialVaultCategoryItem)
    (Material : Nat)
    (hManager : p0.MaterialVaultManager = true) (hEmpty : p0.RootCategories = [])
    (hX : X ∈ (BuildCategoryStructure p0 m).RootCategories)
    (hDeleted : (BuildCategoryStructure p0 m).CategoryItems[X]? = some Deleted)
    (hMaterial : Material ∈ Deleted.Materials) :
    (∃ Item, (OnDeleteCategory (BuildCategoryStructure p0 m) m (some X)).2.Items[Material]? =
        some Item ∧ Item.Metadata.Category = "Uncategorized".toList) ∧
    X ∉ (OnDeleteCategory (BuildCategoryStructure p0 m) m (some X)).1.RootCategories ∧
    X ∉ (OnDeleteCategory (BuildCategoryStructure p0 m) m (some X)).1.FilteredCategories ∧
    (∀ Category ∈ (OnDeleteCategory (BuildCategoryStructure p0 m) m (some X)).1.RootCategories,
      EqualsIgnoreCase
        (NameOf (OnDeleteCategory (BuildCategoryStructure p0 m) m (some X)).1 Category)
        Deleted.CategoryName = false) ∧
    InBucket
      (BuildCategoryStructure (OnDeleteCategory (BuildCategoryStructure p0 m) m (some X)).1
        (OnDeleteCategory (BuildCategoryStructure p0 m) m (some X)).2)
      "Uncategorized".toList Material = true ∧
    InBucket
      (BuildCategoryStructure
        { (OnDeleteCategory (BuildCategoryStructure p0 m) m (some X)).1 with
          RootCategories := [] }
        (OnDeleteCategory (BuildCategoryStructure p0 m) m (some X)).2)
      "Uncategorized".toList Material = true := by
  have hW0 : WellFormed p0 := by
    intro c hc
    rw [hEmpty] at hc
    exact absurd hc (List.not_mem_nil _)
  obtain ⟨hWp, _, _, hDist, hFrom⟩ := BuildCategoryStructure_facts p0 m hManager hW0
  have hManagerP := BuildCategoryStructure_manager p0 m
  rw [hManager] at hManagerP
  have hDp := hDist hEmpty
  have hNameX : NameOf (BuildCategoryStructure p0 m) X = Deleted.CategoryName := by
    unfold NameOf
    rw [hDeleted]
  have hMatX : Material ∈ MaterialsOf (BuildCategoryStructure p0 m) X := by
    unfold MaterialsOf
    rw [hDeleted]
    exact hMaterial
  obtain ⟨Pair, hPair, hPair2⟩ := hFrom hEmpty X hX Material hMatX
  obtain ⟨p, hp⟩ : ∃ p, p = BuildCategoryStructure p0 m := ⟨_, rfl⟩
  rw [← hp] at hX hDeleted hWp hManagerP hDp hNameX hMatX ⊢
  have hValid := CollectMaterials_valid m Pair hPair
  rw [hPair2] at hValid
  obtain ⟨Item0, hItem0⟩ := Option.isSome_iff_exists.mp hValid
  obtain ⟨Items, hm, hItems, hRoots, hLen, hNames, hMgr, hFiltered⟩ :=
    OnDeleteCategory_facts p m X Deleted hDeleted
  obtain ⟨hW1, hRoots1⟩ := GetOrCreateCategory_facts p "Uncategorized".toList hWp
  obtain ⟨r, hr⟩ : ∃ r, r = OnDeleteCategory p m (some X) := ⟨_, rfl⟩
  rw [← hr] at hm hRoots hLen hNames hMgr hFiltered ⊢
  have hItemR : r.2.Items[Material]? = some (Uncategorize Item0) := by
    rw [hm]
    show Items[Material]? = _
    rw [hItems Material, if_pos hMaterial, hItem0]
    rfl
  have hNotRoot : X ∉ r.1.RootCategories := by
    intro h
    rw [hRoots] at h
    have h2 := (List.mem_filter.mp h).2
    simp at h2
  have hWr : WellFormed r.1 := by
    intro c hc
    rw [hRoots] at hc
    rw [hLen]
    exact hW1 c (List.mem_filter.mp hc).1
  have hCollect : CollectMaterials r.2 = CollectMaterials m := by
    apply CollectMaterials_congr
    · rw [hm]
    · rw [hm]
    · intro i
      rw [hm]
      show (Items[i]?).map _ = _
      rw [hItems i]
      split
      · cases m.Items[i]? <;> rfl
      · rfl
  have hPairR : Pair ∈ CollectMaterials r.2 := by
    rw [hCollect]
    exact hPair
  have hItemP : r.2.Items[Pair.2]? = some (Uncategorize Item0) := by
    rw [hPair2]
    exact hItemR
  refine ⟨⟨Uncategorize Item0, hItemR, rfl⟩, hNotRoot, fun h => hNotRoot (hFiltered X h),
    ?_, ?_, ?_⟩
  · intro c hc
    have hc1 := hc
    rw [hRoots] at hc1
    obtain ⟨hc2, hc3⟩ := List.mem_filter.mp hc1
    have hcX : c ≠ X := by
      intro h
      rw [h] at hc3
      simp at hc3
    rw [hNames c, ← hNameX]
    rcases hRoots1 c hc2 with ⟨h1, h2⟩ | ⟨h1, h2⟩
    · rw [h2]
      have hSymm : Symmetric (fun A B : Nat =>
          EqualsIgnoreCase (NameOf p A) (NameOf p B) = false) := by
        intro a b hab
        show EqualsIgnoreCase (NameOf p b) (NameOf p a) = false
        rw [EqualsIgnoreCase_comm]
        exact hab
      exact List.Pairwise.forall hSymm hDp h1 hX hcX
    · rw [h2, EqualsIgnoreCase_comm]
      exact h1 X hX
  · have hB := (BuildCategoryStructure_facts r.1 r.2 (by rw [hMgr]; exact hManagerP) hWr).2.2.1
      Pair hPairR (Uncategorize Item0) hItemP
    rw [hPair2] at hB
    exact hB
  · have hB := (BuildCategoryStructure_facts { r.1 with RootCategories := [] } r.2
      (by show r.1.MaterialVaultManager = true; rw [hMgr]; exact hManagerP)
      (fun c hc => absurd hc (List.not_mem_nil _))).2.2.1
      Pair hPairR (Uncategorize Item0) hItemP
    rw [hPair2] at hB
    exact hB

/-- The deletion with a rebuild right after it, at a concrete input: the bucket "Nature" that
holds Rock and Wood is deleted. -/
theorem OnDeleteCategory_moves_items_witness :
    (SMaterialVaultCategoriesPanel.Make true).MaterialVaultManager = true ∧
    (SMaterialVaultCategoriesPanel.Make true).RootCategories = [] ∧
    1 ∈ CategorizedPanel.RootCategories ∧
    CategorizedPanel.CategoryItems[1]? =
      some ⟨"Nature".toList, [0, 1], [], none, false⟩ ∧
    ((∃ Item, (OnDeleteCategory CategorizedPanel CategorizedManager (some 1)).2.Items[0]? =
        some Item ∧ Item.Metadata.Category = "Uncategorized".toList) ∧
    1 ∉ (OnDeleteCategory CategorizedPanel CategorizedManager (some 1)).1.RootCategories ∧
    1 ∉ (OnDeleteCategory CategorizedPanel CategorizedManager (some 1)).1.FilteredCategories ∧
    (∀ Category ∈ (OnDeleteCategory CategorizedPanel CategorizedManager (some 1)).1.RootCategories,
      EqualsIgnoreCase
        (NameOf (OnDeleteCategory CategorizedPanel CategorizedManager (some 1)).1 Category)
        "Nature".toList = false) ∧
    InBucket
      (BuildCategoryStructure (OnDeleteCategory CategorizedPanel CategorizedManager (some 1)).1
        (OnDeleteCategory CategorizedPanel CategorizedManager (some 1)).2)
      "Uncategorized".toList 0 = true ∧
    InBucket
      (BuildCategoryStructure
        { (OnDeleteCategory CategorizedPanel CategorizedManager (some 1)).1 with
          RootCategories := [] }
        (OnDeleteCategory CategorizedPanel CategorizedManager (some 1)).2)
      "Uncategorized".toList 0 = true) :=
  ⟨rfl, rfl, by decide, by decide,
    OnDeleteCategory_moves_items (SMaterialVaultCategoriesPanel.Make true) CategorizedManager 1
      ⟨"Nature".toList, [0, 1], [], none, false⟩ 0 rfl rfl (by decide) (by decide)
      (by decide)⟩

/-- C21 fails.  Rock and Wood (items 0 and 1) are in the bucket "Nature", the category their
sidecar files name.  After `OnDeleteCategory` of that bucket both items have the category
"Uncategorized", the bucket is gone, and `BuildCategoryStructure` run on that state (root
list emptied, as `RefreshCategories` does) puts both into "Uncategorized".  But the deletion
saved nothing: `RefreshInterface` refreshes the database before it calls `RefreshCategories`,
the refresh indexes Rock and Wood again (items 3 and 4) with the category "Nature" of the
cached records, and the next `BuildCategoryStructure` makes the bucket "Nature" again with
both in it and neither in "Uncategorized". -/
theorem OnDeleteCategory_undone_by_refresh :
    Buckets CategorizedPanel =
      [("All Materials".toList, [0, 2, 1]), ("Nature".toList, [0, 1]),
       ("Uncategorized".toList, [2])] ∧
    GetMaterialByPath CategorizedManager RockAsset.GetObjectPathString = some 0 ∧
    GetMaterialByPath CategorizedManager WoodAsset.GetObjectPathString = some 1 ∧
    NameOf CategorizedPanel 1 = "Nature".toList ∧
    (OnDeleteCategory CategorizedPanel CategorizedManager (some 1)).2.Items.map
      (fun Item => (Item.DisplayName, Item.Metadata.Category)) =
      [("Rock".toList, "Uncategorized".toList), ("Wood".toList, "Uncategorized".toList),
       ("Default".toList, [])] ∧
    Buckets (OnDeleteCategory CategorizedPanel CategorizedManager (some 1)).1 =
      [("All Materials".toList, [0, 2, 1]), ("Uncategorized".toList, [2, 0, 1])] ∧
    Buckets (BuildCategoryStructure
      { (OnDeleteCategory CategorizedPanel CategorizedManager (some 1)).1 with
        RootCategories := [] }
      (OnDeleteCategory CategorizedPanel CategorizedManager (some 1)).2) =
      [("All Materials".toList, [0, 2, 1]), ("Uncategorized".toList, [0, 2, 1])] ∧
    (OnDeleteCategory CategorizedPanel CategorizedManager (some 1)).2.MetadataCache =
      CategorizedManager.MetadataCache ∧
    GetMaterialByPath (RefreshMaterialDatabase
      (OnDeleteCategory CategorizedPanel CategorizedManager (some 1)).2 ⟨5⟩)
      RockAsset.GetObjectPathString = some 3 ∧
    GetMaterialByPath (RefreshMaterialDatabase
      (OnDeleteCategory CategorizedPanel CategorizedManager (some 1)).2 ⟨5⟩)
      WoodAsset.GetObjectPathString = some 4 ∧
    ((RefreshMaterialDatabase
      (OnDeleteCategory CategorizedPanel CategorizedManager (some 1)).2 ⟨5⟩).Items.drop 3).map
      (fun Item => (Item.DisplayName, Item.Metadata.Category)) =
      [("Rock".toList, "Nature".toList), ("Wood".toList, "Nature".toList),
       ("Default".toList, [])] ∧
    Buckets (BuildCategoryStructure
      { (OnDeleteCategory CategorizedPanel CategorizedManager (some 1)).1 with
        RootCategories := [] }
      (RefreshMaterialDatabase
        (OnDeleteCategory CategorizedPanel CategorizedManager (some 1)).2 ⟨5⟩)) =
      [("All Materials".toList, [3, 5, 4]), ("Nature".toList, [3, 4]),
       ("Uncategorized".toList, [5])] := by
  decide

/-- C22: `OnDeleteCategory` writes nothing to the Metadata Store.  The metadata cache and the
files of the manager are after `OnDeleteCategory(X)` what they were before; the category of
a member of `X` is "Uncategorized" in memory only, and for a member with a record in the
metadata cache a following `LoadMaterialMetadata` puts the cached record back into the
item, with the category it had before the deletion. -/
theorem OnDeleteCategory_not_persisted (p : SMaterialVaultCategoriesPanel)
    (m : UMaterialVaultManager) (X : Nat) (Deleted : FMaterialVaultCategoryItem)
    (Material : Nat) (Item : FMaterialVaultMaterialItem) (Cached : FMaterialVaultMetadata)
    (hDeleted : p.CategoryItems[X]? = some Deleted)
    (hMaterial : Material ∈ Deleted.Materials)
    (hItem : m.Items[Material]? = some Item)
    (hCached : TMap.Find m.MetadataCache Item.AssetData.GetObjectPathString = some Cached) :
    (OnDeleteCategory p m (some X)).2.MetadataCache = m.MetadataCache ∧
    (OnDeleteCategory p m (some X)).2.Files = m.Files ∧
    (OnDeleteCategory p m (some X)).2.Items[Material]? = some (Uncategorize Item) ∧
    (LoadMaterialMetadata (OnDeleteCategory p m (some X)).2 Material).Items[Material]? =
      some { Item with Metadata := Cached } ∧
    (LoadMaterialMetadata (OnDeleteCategory p m (some X)).2 Material).MetadataCache =
      m.MetadataCache := by
  obtain ⟨Items, hm, hItems, _⟩ := OnDeleteCategory_facts p m X Deleted hDeleted
  obtain ⟨r, hr⟩ : ∃ r, r = OnDeleteCategory p m (some X) := ⟨_, rfl⟩
  rw [← hr] at hm ⊢
  have hCache : r.2.MetadataCache = m.MetadataCache := by rw [hm]
  have hItemR : r.2.Items[Material]? = some (Uncategorize Item) := by
    rw [hm]
    show Items[Material]? = _
    rw [hItems Material, if_pos hMaterial, hItem]
    rfl
  have hFind : TMap.Find r.2.MetadataCache (Uncategorize Item).AssetData.GetObjectPathString =
      some Cached := by
    rw [hCache]
    exact hCached
  have hLoad : LoadMaterialMetadata r.2 Material =
      { r.2 with Items := ModifyAt r.2.Items Material (fun it => { it with Metadata := Cached }) } := by
    unfold LoadMaterialMetadata
    rw [hItemR]
    simp only
    rw [hFind]
  refine ⟨hCache, by rw [hm], hItemR, ?_, ?_⟩
  · rw [hLoad]
    show (ModifyAt r.2.Items Material _)[Material]? = _
    rw [ModifyAt_getElem?, if_pos rfl, hItemR]
    rfl
  · rw [hLoad]
    exact hCache

theorem OnDeleteCategory_not_persisted_witness :
    CategorizedPanel.CategoryItems[1]? = some ⟨"Nature".toList, [0, 1], [], none, false⟩ ∧
    (ItemAt CategorizedManager 0).Metadata.Category = "Nature".toList ∧
    (ItemAt (OnDeleteCategory CategorizedPanel CategorizedManager (some 1)).2 0).Metadata.Category =
      "Uncategorized".toList ∧
    (ItemAt (LoadMaterialMetadata
      (OnDeleteCategory CategorizedPanel CategorizedManager (some 1)).2 0) 0).Metadata.Category =
      "Nature".toList ∧
    ((OnDeleteCategory CategorizedPanel CategorizedManager (some 1)).2.MetadataCache =
      CategorizedManager.MetadataCache ∧
    (OnDeleteCategory CategorizedPanel CategorizedManager (some 1)).2.Files =
      CategorizedManager.Files ∧
    (OnDeleteCategory CategorizedPanel CategorizedManager (some 1)).2.Items[0]? =
      some (Uncategorize (ItemAt CategorizedManager 0)) ∧
    (LoadMaterialMetadata
      (OnDeleteCategory CategorizedPanel CategorizedManager (some 1)).2 0).Items[0]? =
      some { ItemAt CategorizedManager 0 with
        Metadata := (ItemAt CategorizedManager 0).Metadata } ∧
    (LoadMaterialMetadata
      (OnDeleteCategory CategorizedPanel CategorizedManager (some 1)).2 0).MetadataCache =
      CategorizedManager.MetadataCache) :=
  ⟨by decide, by decide, by decide, by decide,
    OnDeleteCategory_not_persisted CategorizedPanel CategorizedManager 1
      ⟨"Nature".toList, [0, 1], [], none, false⟩ 0 (ItemAt CategorizedManager 0)
      (ItemAt CategorizedManager 0).Metadata (by decide) (by decide) (by decide) (by decide)⟩

theorem FolderReachableFrom_tail (m : UMaterialVaultManager) {A B : Nat}
    (h : FolderReachableFrom m A B) (Node : FMaterialVaultFolderNode) (Child : Nat)
    (hNode : m.Folders[B]? = some Node) (hChild : Child ∈ Node.Children) :
    FolderReachableFrom m A Child := by
  induction h with
  | refl Folder =>
    exact FolderReachableFrom.step Folder Child Child Node hNode hChild
      (FolderReachableFrom.refl Child)
  | step Folder C Target Node0 hNode0 hC _ ih =>
    exact FolderReachableFrom.step Folder C Child Node0 hNode0 hC (ih hNode)

end CategoriesPanel

theorem AttachChild_lookup (s : UMaterialVaultManager) (Child Parent x : Nat) :
    (AttachChild s Child Parent).Folders[x]? = (s.Folders[x]?).map (fun n =>
      { n with
        Parent := if Child = x then some Parent else n.Parent
        Children := if Parent = x then n.Children ++ [Child] else n.Children }) := by
  unfold AttachChild
  simp only [ModifyAt_getElem?]
  cases s.Folders[x]? with
  | none => by_cases h1 : Child = x <;> by_cases h2 : Parent = x <;> simp [h1, h2]
  | some n => by_cases h1 : Child = x <;> by_cases h2 : Parent = x <;> simp [h1, h2]

theorem AttachChild_length (s : UMaterialVaultManager) (Child Parent : Nat) :
    (AttachChild s Child Parent).Folders.length = s.Folders.length := by
  unfold AttachChild
  simp only [ModifyAt_length]

theorem lt_length_of_getElem? {α : Type} {l : List α} {i : Nat} {x : α}
    (h : l[i]? = some x) : i < l.length := by
  rcases Nat.lt_or_ge i l.length with hlt | hge
  · exact hlt
  · rw [List.getElem?_eq_none hge] at h
    cases h

theorem AttachChild_tree (First Root : Nat) (Pending : List Nat) (s : UMaterialVaultManager)
    (N p : Nat) (NodeN : FMaterialVaultFolderNode)
    (hInv : FolderTreeInvariant First Root (N :: Pending) s)
    (hN : N ∉ Pending) (hNode : s.Folders[N]? = some NodeN)
    (hp : IsPlaced First Root (N :: Pending) s p)
    (hLen : p = Root ∨ ∃ ParentNode, s.Folders[p]? = some ParentNode ∧
      ParentNode.FolderPath.length < NodeN.FolderPath.length) :
    FolderTreeInvariant First Root Pending (AttachChild s N p) := by
  obtain ⟨hRF, hFL, hRN, hK1, hK2, hK3, hK4⟩ := hInv
  obtain ⟨hNF, NodeN1, hNode1, hNC⟩ := hK3 N (List.mem_cons_self _ _)
  rw [hNode] at hNode1
  rw [← Option.some.inj hNode1] at hNC
  have hNlt : N < s.Folders.length := lt_length_of_getElem? hNode
  have hpN : p ≠ N := by
    rcases hp with h | ⟨_, _, h⟩
    · rw [h]
      exact Nat.ne_of_lt (Nat.lt_of_lt_of_le hRF hNF)
    · exact fun h1 => h (by rw [h1]; exact List.mem_cons_self _ _)
  have hpP : p ∉ Pending := by
    intro h
    rcases hp with h1 | ⟨_, _, h1⟩
    · have h2 := (hK3 p (List.mem_cons_of_mem _ h)).1
      rw [h1] at h2
      exact absurd hRF (Nat.not_lt.mpr h2)
    · exact h1 (List.mem_cons_of_mem _ h)
  have hplt : p < s.Folders.length := by
    rcases hp with h | ⟨_, h, _⟩
    · rw [h]
      exact Nat.lt_of_lt_of_le hRF hFL
    · exact h
  obtain ⟨NodeP, hNodeP⟩ : ∃ NodeP, s.Folders[p]? = some NodeP :=
    ⟨_, List.getElem?_eq_getElem hplt⟩
  have hlen := AttachChild_length s N p
  have hlookN : (AttachChild s N p).Folders[N]? = some { NodeN with Parent := some p } := by
    rw [AttachChild_lookup, hNode]
    simp [hpN]
  have hlookP : (AttachChild s N p).Folders[p]? =
      some { NodeP with Children := NodeP.Children ++ [N] } := by
    rw [AttachChild_lookup, hNodeP]
    simp [Ne.symm hpN]
  have hlookO : ∀ x, x ≠ N → x ≠ p → (AttachChild s N p).Folders[x]? = s.Folders[x]? := by
    intro x h1 h2
    rw [AttachChild_lookup]
    cases s.Folders[x]? with
    | none => rfl
    | some n => simp [Ne.symm h1, Ne.symm h2]
  have hPlacedOld : ∀ x, IsPlaced First Root (N :: Pending) s x →
      IsPlaced First Root Pending (AttachChild s N p) x := by
    intro x hx
    rcases hx with h | ⟨h1, h2, h3⟩
    · exact Or.inl h
    · exact Or.inr ⟨h1, by rw [hlen]; exact h2, fun h => h3 (List.mem_cons_of_mem _ h)⟩
  have hPlacedNew : ∀ x, IsPlaced First Root Pending (AttachChild s N p) x → x ≠ N →
      IsPlaced First Root (N :: Pending) s x := by
    intro x hx hxN
    rcases hx with h | ⟨h1, h2, h3⟩
    · exact Or.inl h
    · refine Or.inr ⟨h1, by rw [hlen] at h2; exact h2, ?_⟩
      intro h
      rcases List.mem_cons.mp h with h4 | h4
      · exact hxN h4
      · exact h3 h4
  refine ⟨hRF, by rw [hlen]; exact hFL, hRN, ?_, ?_, ?_, ?_⟩
  · intro Folder hF1 hF2 hF3
    rw [hlen] at hF2
    by_cases hFN : Folder = N
    · rw [hFN]
      refine ⟨_, p, _, hlookN, rfl, hPlacedOld p hp, hlookP,
        List.mem_append_right _ (List.mem_singleton.mpr rfl), ?_⟩
      rcases hLen with h | ⟨ParentNode, h1, h2⟩
      · exact Or.inl h
      · rw [hNodeP] at h1
        rw [← Option.some.inj h1] at h2
        exact Or.inr h2
    · have hF4 : Folder ∉ N :: Pending := by
        intro h
        rcases List.mem_cons.mp h with h4 | h4
        · exact hFN h4
        · exact hF3 h4
      obtain ⟨Node, Parent, ParentNode, h1, h2, h3, h4, h5, h6⟩ := hK1 Folder hF1 hF2 hF4
      have hParentN : Parent ≠ N := by
        rcases h3 with h | ⟨_, _, h⟩
        · rw [h]
          exact Nat.ne_of_lt (Nat.lt_of_lt_of_le hRF hNF)
        · exact fun h7 => h (by rw [h7]; exact List.mem_cons_self _ _)
      have hNodeF : ∃ Node2, (AttachChild s N p).Folders[Folder]? = some Node2 ∧
          Node2.Parent = some Parent ∧ Node2.FolderPath = Node.FolderPath := by
        rw [AttachChild_lookup, h1]
        refine ⟨_, rfl, ?_, rfl⟩
        simp [Ne.symm hFN, h2]
      obtain ⟨Node2, hN2, hN2P, hN2F⟩ := hNodeF
      have hNodeQ : ∃ ParentNode2, (AttachChild s N p).Folders[Parent]? = some ParentNode2 ∧
          Folder ∈ ParentNode2.Children ∧ ParentNode2.FolderPath = ParentNode.FolderPath := by
        rw [AttachChild_lookup, h4]
        refine ⟨_, rfl, ?_, rfl⟩
        by_cases hpq : p = Parent
        · simp [hpq, h5]
        · simp [hpq, h5]
      obtain ⟨ParentNode2, hQ2, hQ2C, hQ2F⟩ := hNodeQ
      refine ⟨Node2, Parent, ParentNode2, hN2, hN2P, hPlacedOld Parent h3, hQ2, hQ2C, ?_⟩
      rw [hQ2F, hN2F]
      exact h6
  · intro Folder Node2 hPl hNode2
    by_cases hFN : Folder = N
    · rw [hFN, hlookN] at hNode2
      rw [← Option.some.inj hNode2]
      show NodeN.Children.Nodup ∧ ∀ Child ∈ NodeN.Children, _
      rw [hNC]
      exact ⟨List.nodup_nil, fun _ h => absurd h (List.not_mem_nil _)⟩
    · have hPlS := hPlacedNew Folder hPl hFN
      rw [AttachChild_lookup] at hNode2
      cases hNodeS : s.Folders[Folder]? with
      | none => rw [hNodeS] at hNode2; cases hNode2
      | some Node =>
        rw [hNodeS] at hNode2
        obtain ⟨hNd, hCh⟩ := hK2 Folder Node hPlS hNodeS
        have hNnot : N ∉ Node.Children := by
          intro h
          exact (hCh N h).2.2.1 (List.mem_cons_self _ _)
        have hChildOK : ∀ Child ∈ Node.Children, First ≤ Child ∧
            Child < (AttachChild s N p).Folders.length ∧ Child ∉ Pending ∧
            ∃ ChildNode, (AttachChild s N p).Folders[Child]? = some ChildNode ∧
              ChildNode.Parent = some Folder := by
          intro Child hChild
          obtain ⟨h1, h2, h3, ChildNode, h4, h5⟩ := hCh Child hChild
          have hCN : Child ≠ N := fun h => h3 (by rw [h]; exact List.mem_cons_self _ _)
          refine ⟨h1, by rw [hlen]; exact h2, fun h => h3 (List.mem_cons_of_mem _ h), ?_⟩
          rw [AttachChild_lookup, h4]
          refine ⟨_, rfl, ?_⟩
          simp [Ne.symm hCN, h5]
        simp only [Option.map_some', Option.some.injEq] at hNode2
        rw [← hNode2]
        by_cases hFp : p = Folder
        · rw [if_pos hFp]
          show (Node.Children ++ [N]).Nodup ∧ ∀ Child ∈ Node.Children ++ [N], _
          refine ⟨?_, ?_⟩
          · rw [List.nodup_append]
            refine ⟨hNd, List.nodup_singleton _, ?_⟩
            intro a ha hb
            rw [List.mem_singleton.mp hb] at ha
            exact hNnot ha
          · intro Child hChild
            rcases List.mem_append.mp hChild with h | h
            · exact hChildOK Child h
            · rw [List.mem_singleton.mp h]
              refine ⟨hNF, by rw [hlen]; exact hNlt, hN, _, hlookN, ?_⟩
              rw [← hFp]
        · rw [if_neg hFp]
          exact ⟨hNd, hChildOK⟩
  · intro Folder hF
    obtain ⟨h1, Node, h2, h3⟩ := hK3 Folder (List.mem_cons_of_mem _ hF)
    refine ⟨h1, Node, ?_, h3⟩
    rw [hlookO Folder (fun h => hN (by rw [← h]; exact hF))
      (fun h => hpP (by rw [← h]; exact hF))]
    exact h2
  · intro Pair hPair
    rcases hK4 Pair hPair with h | ⟨h1, Node, h2, h3⟩
    · exact Or.inl h
    · refine Or.inr ⟨h1, ?_⟩
      rw [AttachChild_lookup, h2]
      exact ⟨_, rfl, h3⟩

theorem WithNewFolder_tree (First Root : Nat) (Pending : List Nat) (s : UMaterialVaultManager)
    (FolderPath : FString) (Node : FMaterialVaultFolderNode)
    (hInv : FolderTreeInvariant First Root Pending s)
    (hChildren : Node.Children = []) (hPath : Node.FolderPath = FolderPath) :
    FolderTreeInvariant First Root (s.Folders.length :: Pending)
      (WithNewFolder s FolderPath Node) := by
  obtain ⟨hRF, hFL, hRN, hK1, hK2, hK3, hK4⟩ := hInv
  have hlen : (WithNewFolder s FolderPath Node).Folders.length = s.Folders.length + 1 := by
    show (s.Folders ++ [Node]).length = _
    rw [List.length_append, List.length_singleton]
  have hlookL : ∀ x, x < s.Folders.length →
      (WithNewFolder s FolderPath Node).Folders[x]? = s.Folders[x]? :=
    fun x hx => List.getElem?_append_left hx
  have hlookN : (WithNewFolder s FolderPath Node).Folders[s.Folders.length]? = some Node := by
    show (s.Folders ++ [Node])[s.Folders.length]? = some Node
    simp
  have hPlacedOld : ∀ x, IsPlaced First Root Pending s x →
      IsPlaced First Root (s.Folders.length :: Pending) (WithNewFolder s FolderPath Node) x := by
    intro x hx
    rcases hx with h | ⟨h1, h2, h3⟩
    · exact Or.inl h
    · refine Or.inr ⟨h1, by rw [hlen]; exact Nat.lt_succ_of_lt h2, ?_⟩
      intro h
      rcases List.mem_cons.mp h with h4 | h4
      · exact absurd h2 (by rw [h4]; exact Nat.lt_irrefl _)
      · exact h3 h4
  have hPlacedNew : ∀ x,
      IsPlaced First Root (s.Folders.length :: Pending) (WithNewFolder s FolderPath Node) x →
      IsPlaced First Root Pending s x := by
    intro x hx
    rcases hx with h | ⟨h1, h2, h3⟩
    · exact Or.inl h
    · rw [hlen] at h2
      have hne : x ≠ s.Folders.length := fun h => h3 (by rw [h]; exact List.mem_cons_self _ _)
      exact Or.inr ⟨h1, Nat.lt_of_le_of_ne (Nat.le_of_lt_succ h2) hne,
        fun h => h3 (List.mem_cons_of_mem _ h)⟩
  have hPlacedLt : ∀ x, IsPlaced First Root Pending s x → x < s.Folders.length := by
    intro x hx
    rcases hx with h | ⟨_, h, _⟩
    · rw [h]
      exact Nat.lt_of_lt_of_le hRF hFL
    · exact h
  refine ⟨hRF, by rw [hlen]; exact Nat.le_succ_of_le hFL, hRN, ?_, ?_, ?_, ?_⟩
  · intro Folder hF1 hF2 hF3
    rw [hlen] at hF2
    have hne : Folder ≠ s.Folders.length :=
      fun h => hF3 (by rw [h]; exact List.mem_cons_self _ _)
    have hlt : Folder < s.Folders.length := Nat.lt_of_le_of_ne (Nat.le_of_lt_succ hF2) hne
    obtain ⟨Node1, Parent, ParentNode, h1, h2, h3, h4, h5, h6⟩ :=
      hK1 Folder hF1 hlt (fun h => hF3 (List.mem_cons_of_mem _ h))
    refine ⟨Node1, Parent, ParentNode, ?_, h2, hPlacedOld Parent h3, ?_, h5, h6⟩
    · rw [hlookL Folder hlt]
      exact h1
    · rw [hlookL Parent (hPlacedLt Parent h3)]
      exact h4
  · intro Folder Node1 hPl hNode1
    have hPlS := hPlacedNew Folder hPl
    rw [hlookL Folder (hPlacedLt Folder hPlS)] at hNode1
    obtain ⟨hNd, hCh⟩ := hK2 Folder Node1 hPlS hNode1
    refine ⟨hNd, ?_⟩
    intro Child hChild
    obtain ⟨h1, h2, h3, ChildNode, h4, h5⟩ := hCh Child hChild
    refine ⟨h1, by rw [hlen]; exact Nat.lt_succ_of_lt h2, ?_, ChildNode, ?_, h5⟩
    · intro h
      rcases List.mem_cons.mp h with h6 | h6
      · exact absurd h2 (by rw [h6]; exact Nat.lt_irrefl _)
      · exact h3 h6
    · rw [hlookL Child h2]
      exact h4
  · intro Folder hF
    rcases List.mem_cons.mp hF with h | h
    · rw [h]
      exact ⟨hFL, Node, hlookN, hChildren⟩
    · obtain ⟨h1, Node1, h2, h3⟩ := hK3 Folder h
      refine ⟨h1, Node1, ?_, h3⟩
      rw [hlookL Folder (lt_length_of_getElem? h2)]
      exact h2
  · intro Pair hPair
    rcases TMap.mem_Add s.FolderMap FolderPath s.Folders.length Pair hPair with h | h
    · rcases hK4 Pair h with h1 | ⟨h1, Node1, h2, h3⟩
      · exact Or.inl h1
      · refine Or.inr ⟨h1, Node1, ?_, h3⟩
        rw [hlookL Pair.2 (lt_length_of_getElem? h2)]
        exact h2
    · rw [h]
      refine Or.inr ⟨hFL, Node, hlookN, ?_⟩
      rw [hPath]

theorem EqualsIgnoreCase_length {a b : FString} (h : EqualsIgnoreCase a b = true) :
    a.length = b.length := by
  rw [EqualsIgnoreCase_iff] at h
  have h1 := congrArg List.length h
  unfold ToLower at h1
  rw [List.length_map, List.length_map] at h1
  exact h1

theorem CreateFolderNode_fields (FolderPath : FString) (Node : FMaterialVaultFolderNode)
    (h : CreateFolderNode FolderPath = some Node) :
    Node.FolderPath = FolderPath ∧ Node.Children = [] := by
  unfold CreateFolderNode at h
  split at h
  · cases h
  · simp only [Option.some.injEq] at h
    rw [← h]
    exact ⟨rfl, rfl⟩

theorem TMap.Add_of_Find_none {V : Type} (m : TMap V) (k : FString) (v : V)
    (h : TMap.Find m k = none) : TMap.Add m k v = m ++ [(k, v)] := by
  unfold TMap.Add TMap.Contains
  rw [h]
  rfl

theorem GetOrCreateFolderNode_attach (First Root : Nat) (Pending : List Nat)
    (s s2 : UMaterialVaultManager) (FolderPath : FString) (Node : FMaterialVaultFolderNode)
    (p : Nat)
    (hInv : FolderTreeInvariant First Root Pending s)
    (hfind : TMap.Find s.FolderMap FolderPath = none)
    (hNode : CreateFolderNode FolderPath = some Node)
    (hInv2 : FolderTreeInvariant First Root (s.Folders.length :: Pending) s2)
    (hB2 : ∀ Pair ∈ s2.FolderMap, Pair.2 ∈ s.Folders.length :: Pending →
      Pair ∈ (WithNewFolder s FolderPath Node).FolderMap)
    (hC2 : ∀ Folder ∈ s.Folders.length :: Pending,
      s2.Folders[Folder]? = (WithNewFolder s FolderPath Node).Folders[Folder]?)
    (hE2 : IsPlaced First Root (s.Folders.length :: Pending) s2 p)
    (hE3 : p = Root ∨ ∃ ParentNode, s2.Folders[p]? = some ParentNode ∧
      ParentNode.FolderPath.length < FolderPath.length)
    (hF2 : ∀ (Folder : Nat) (Node1 : FMaterialVaultFolderNode),
      (WithNewFolder s FolderPath Node).Folders[Folder]? = some Node1 →
      ∃ Node2 : FMaterialVaultFolderNode,
        s2.Folders[Folder]? = some Node2 ∧ Node2.FolderPath = Node1.FolderPath)
    (hH2 : ∀ Pair ∈ (WithNewFolder s FolderPath Node).FolderMap, Pair ∈ s2.FolderMap) :
    FolderCallSpec First Root Pending FolderPath s (AttachChild s2 s.Folders.length p)
      (some s.Folders.length) := by
  obtain ⟨hRF, hFL, hRN, hK1, hK2, hK3, hK4⟩ := hInv
  obtain ⟨hPath, hChildren⟩ := CreateFolderNode_fields FolderPath Node hNode
  have hlookL : ∀ x, x < s.Folders.length →
      (WithNewFolder s FolderPath Node).Folders[x]? = s.Folders[x]? :=
    fun x hx => List.getElem?_append_left hx
  have hlookN : (WithNewFolder s FolderPath Node).Folders[s.Folders.length]? = some Node := by
    show (s.Folders ++ [Node])[s.Folders.length]? = some Node
    simp
  have hN : s.Folders.length ∉ Pending := by
    intro h
    obtain ⟨_, Node1, h1, _⟩ := hK3 _ h
    exact absurd (lt_length_of_getElem? h1) (Nat.lt_irrefl _)
  have hNode2 : s2.Folders[s.Folders.length]? = some Node := by
    rw [hC2 _ (List.mem_cons_self _ _)]
    exact hlookN
  have hpN : p ≠ s.Folders.length := by
    rcases hE2 with h | ⟨_, _, h⟩
    · rw [h]
      exact Nat.ne_of_lt (Nat.lt_of_lt_of_le hRF hFL)
    · exact fun h1 => h (by rw [h1]; exact List.mem_cons_self _ _)
  have hpP : p ∉ Pending := by
    intro h
    rcases hE2 with h1 | ⟨_, _, h1⟩
    · have h2 := (hK3 p h).1
      rw [h1] at h2
      exact absurd hRF (Nat.not_lt.mpr h2)
    · exact h1 (List.mem_cons_of_mem _ h)
  have hLen : p = Root ∨ ∃ ParentNode, s2.Folders[p]? = some ParentNode ∧
      ParentNode.FolderPath.length < Node.FolderPath.length := by
    rw [hPath]
    exact hE3
  have hTree := AttachChild_tree First Root Pending s2 s.Folders.length p Node hInv2 hN hNode2
    hE2 hLen
  refine ⟨hTree, ?_, ?_, fun _ => ⟨_, rfl⟩, ?_, ?_, ?_⟩
  · intro Pair hPair hPending
    have h1 := hB2 Pair hPair (List.mem_cons_of_mem _ hPending)
    rcases TMap.mem_Add s.FolderMap FolderPath s.Folders.length Pair h1 with h | h
    · exact h
    · rw [h] at hPending
      exact absurd hPending hN
  · intro Folder hFolder
    rw [AttachChild_lookup, hC2 Folder (List.mem_cons_of_mem _ hFolder)]
    obtain ⟨_, Node1, h1, _⟩ := hK3 Folder hFolder
    rw [hlookL Folder (lt_length_of_getElem? h1), h1]
    have hF1 : s.Folders.length ≠ Folder := fun h => hN (by rw [h]; exact hFolder)
    have hF2 : p ≠ Folder := fun h => hpP (by rw [h]; exact hFolder)
    simp [hF1, hF2]
  · intro Folder hFolder
    rw [← Option.some.inj hFolder]
    refine ⟨Or.inr ⟨hFL, ?_, hN⟩, Or.inr ?_⟩
    · rw [AttachChild_length]
      exact lt_length_of_getElem? hNode2
    · rw [AttachChild_lookup, hNode2]
      exact ⟨_, rfl, by rw [← hPath]⟩
  · intro Folder Node1 hNode1
    have h1 : (WithNewFolder s FolderPath Node).Folders[Folder]? = some Node1 := by
      rw [hlookL Folder (lt_length_of_getElem? hNode1)]
      exact hNode1
    obtain ⟨Node2, h2, h3⟩ := hF2 Folder Node1 h1
    rw [AttachChild_lookup, h2]
    exact ⟨_, rfl, h3⟩
  · intro Pair hPair
    apply hH2
    show Pair ∈ TMap.Add s.FolderMap FolderPath s.Folders.length
    rw [TMap.Add_of_Find_none _ _ _ hfind]
    exact List.mem_append_left _ hPair

theorem GetOrCreateFolderNodeFuel_tree (First Root : Nat) (Fuel : Nat) :
    ∀ (s : UMaterialVaultManager) (FolderPath : FString) (Pending : List Nat),
      FolderTreeInvariant First Root Pending s →
      (∀ Pair ∈ s.FolderMap, Pair.2 ∈ Pending → FolderPath.length < Pair.1.length) →
      FolderPath.length < Fuel →
      FolderCallSpec First Root Pending FolderPath s
        (GetOrCreateFolderNodeFuel Fuel s FolderPath).1
        (GetOrCreateFolderNodeFuel Fuel s FolderPath).2 := by
  induction Fuel with
  | zero => intro s FolderPath _ _ _ hlen; exact absurd hlen (Nat.not_lt_zero _)
  | succ Fuel ih =>
    intro s FolderPath Pending hInv hPend hlen
    have hInv0 := hInv
    obtain ⟨hRF, hFL, hRN, hK1, hK2, hK3, hK4⟩ := hInv
    cases hfind : TMap.Find s.FolderMap FolderPath with
    | some Existing =>
      rw [GetOrCreateFolderNodeFuel_existing Fuel s FolderPath Existing hfind]
      refine ⟨hInv0, fun _ h _ => h, fun _ _ => rfl, fun _ => ⟨_, rfl⟩, ?_,
        fun _ Node h => ⟨Node, h, rfl⟩, fun _ h => h⟩
      intro Folder hFolder
      rw [← Option.some.inj hFolder]
      obtain ⟨Key, hMem, hKey⟩ := TMap.Find_mem _ _ _ hfind
      have hKeyLen := EqualsIgnoreCase_length hKey
      rcases hK4 (Key, Existing) hMem with h | ⟨h1, Node, h2, h3⟩
      · exact ⟨Or.inl h, Or.inl h⟩
      · refine ⟨Or.inr ⟨h1, lt_length_of_getElem? h2, ?_⟩, Or.inr ⟨Node, h2, ?_⟩⟩
        · intro hP
          have h4 := hPend (Key, Existing) hMem hP
          rw [hKeyLen] at h4
          exact absurd h4 (Nat.lt_irrefl _)
        · rw [h3]
          exact hKeyLen
    | none =>
      cases hNode : CreateFolderNode FolderPath with
      | none =>
        have hEq : GetOrCreateFolderNodeFuel (Fuel + 1) s FolderPath = (s, none) := by
          simp only [GetOrCreateFolderNodeFuel, hfind, hNode]
        rw [hEq]
        refine ⟨hInv0, fun _ h _ => h, fun _ _ => rfl, ?_, fun _ h => (nomatch h),
          fun _ Node h => ⟨Node, h, rfl⟩, fun _ h => h⟩
        intro hne
        obtain ⟨Node, h⟩ := CreateFolderNode_isSome FolderPath hne
        rw [hNode] at h
        cases h
      | some Node =>
        obtain ⟨hPath, hChildren⟩ := CreateFolderNode_fields FolderPath Node hNode
        have hInv1 := WithNewFolder_tree First Root Pending s FolderPath Node hInv0 hChildren
          hPath
        cases hcond : (!(GetPath FolderPath).isEmpty &&
            !EqualsIgnoreCase (GetPath FolderPath) FolderPath) with
        | true =>
          have hne : GetPath FolderPath ≠ [] := by
            intro h
            rw [h] at hcond
            simp at hcond
          have hlt := GetPath_length_lt FolderPath hne
          have hPend1 : ∀ Pair ∈ (WithNewFolder s FolderPath Node).FolderMap,
              Pair.2 ∈ s.Folders.length :: Pending →
              (GetPath FolderPath).length < Pair.1.length := by
            intro Pair hPair hP
            rcases TMap.mem_Add s.FolderMap FolderPath s.Folders.length Pair hPair with h | h
            · rcases List.mem_cons.mp hP with h1 | h1
              · rcases hK4 Pair h with h2 | ⟨_, Node1, h2, _⟩
                · rw [h2] at h1
                  rw [h1] at hRF
                  exact absurd (Nat.lt_of_lt_of_le hRF hFL) (Nat.lt_irrefl _)
                · rw [h1] at h2
                  exact absurd (lt_length_of_getElem? h2) (Nat.lt_irrefl _)
              · exact Nat.lt_trans hlt (hPend Pair h h1)
            · rw [h]
              exact hlt
          obtain ⟨hA, hB, hC, hD, hE, hF, hH⟩ := ih (WithNewFolder s FolderPath Node)
            (GetPath FolderPath) (s.Folders.length :: Pending) hInv1 hPend1
            (Nat.lt_of_lt_of_le hlt (Nat.le_of_lt_succ hlen))
          rcases hres : GetOrCreateFolderNodeFuel Fuel (WithNewFolder s FolderPath Node)
            (GetPath FolderPath) with ⟨s2, r⟩
          rw [hres] at hA hB hC hD hE hF hH
          simp only at hA hB hC hD hE hF hH
          obtain ⟨p, hp⟩ := hD hne
          rw [hp] at hres
          rw [GetOrCreateFolderNodeFuel_parent Fuel s s2 FolderPath Node p hfind hNode hcond hres]
          obtain ⟨hE1, hE2⟩ := hE p hp
          refine GetOrCreateFolderNode_attach First Root Pending s s2 FolderPath Node p hInv0
            hfind hNode hA hB hC hE1 ?_ hF hH
          rcases hE2 with h | ⟨ParentNode, h1, h2⟩
          · exact Or.inl h
          · exact Or.inr ⟨ParentNode, h1, by rw [h2]; exact hlt⟩
        | false =>
          rw [GetOrCreateFolderNodeFuel_root Fuel s FolderPath Node Root hfind hNode hcond hRN]
          exact GetOrCreateFolderNode_attach First Root Pending s
            (WithNewFolder s FolderPath Node) FolderPath Node Root hInv0 hfind hNode hInv1
            (fun _ h _ => h) (fun _ _ => rfl) (Or.inl rfl) (Or.inl rfl)
            (fun _ Node1 h => ⟨Node1, h, rfl⟩) (fun _ h => h)

theorem FolderTreeInvariant_congr (First Root : Nat) (Pending : List Nat)
    (s t : UMaterialVaultManager)
    (hR : t.RootFolderNode = s.RootFolderNode) (hM : t.FolderMap = s.FolderMap)
    (hL : t.Folders.length = s.Folders.length)
    (hN : ∀ (x : Nat) (Node : FMaterialVaultFolderNode), s.Folders[x]? = some Node →
      ∃ Node2 : FMaterialVaultFolderNode, t.Folders[x]? = some Node2 ∧
        Node2.Parent = Node.Parent ∧ Node2.Children = Node.Children ∧
        Node2.FolderPath = Node.FolderPath)
    (hInv : FolderTreeInvariant First Root Pending s) :
    FolderTreeInvariant First Root Pending t := by
  obtain ⟨hRF, hFL, hRN, hK1, hK2, hK3, hK4⟩ := hInv
  have hPlaced : ∀ x, IsPlaced First Root Pending t x ↔ IsPlaced First Root Pending s x := by
    intro x
    unfold IsPlaced
    rw [hL]
  have hBack : ∀ (x : Nat) (Node2 : FMaterialVaultFolderNode), t.Folders[x]? = some Node2 →
      ∃ Node : FMaterialVaultFolderNode, s.Folders[x]? = some Node ∧
        Node2.Parent = Node.Parent ∧ Node2.Children = Node.Children ∧
        Node2.FolderPath = Node.FolderPath := by
    intro x Node2 h
    have hlt : x < s.Folders.length := by
      rw [← hL]
      exact lt_length_of_getElem? h
    obtain ⟨Node3, h1, h2, h3, h4⟩ := hN x _ (List.getElem?_eq_getElem hlt)
    rw [h] at h1
    rw [Option.some.inj h1]
    exact ⟨_, List.getElem?_eq_getElem hlt, h2, h3, h4⟩
  refine ⟨hRF, by rw [hL]; exact hFL, by rw [hR]; exact hRN, ?_, ?_, ?_, ?_⟩
  · intro Folder hF1 hF2 hF3
    rw [hL] at hF2
    obtain ⟨Node, Parent, ParentNode, h1, h2, h3, h4, h5, h6⟩ := hK1 Folder hF1 hF2 hF3
    obtain ⟨Node2, g1, g2, _, g4⟩ := hN Folder Node h1
    obtain ⟨ParentNode2, f1, _, f3, f4⟩ := hN Parent ParentNode h4
    refine ⟨Node2, Parent, ParentNode2, g1, by rw [g2]; exact h2, (hPlaced Parent).mpr h3, f1,
      by rw [f3]; exact h5, ?_⟩
    rw [f4, g4]
    exact h6
  · intro Folder Node2 hPl hNode2
    obtain ⟨Node, h1, _, h3, _⟩ := hBack Folder Node2 hNode2
    obtain ⟨hNd, hCh⟩ := hK2 Folder Node ((hPlaced Folder).mp hPl) h1
    rw [h3]
    refine ⟨hNd, ?_⟩
    intro Child hChild
    obtain ⟨g1, g2, g3, ChildNode, g4, g5⟩ := hCh Child hChild
    obtain ⟨ChildNode2, f1, f2, _, _⟩ := hN Child ChildNode g4
    exact ⟨g1, by rw [hL]; exact g2, g3, ChildNode2, f1, by rw [f2]; exact g5⟩
  · intro Folder hF
    obtain ⟨h1, Node, h2, h3⟩ := hK3 Folder hF
    obtain ⟨Node2, f1, _, f3, _⟩ := hN Folder Node h2
    exact ⟨h1, Node2, f1, by rw [f3]; exact h3⟩
  · intro Pair hPair
    rw [hM] at hPair
    rcases hK4 Pair hPair with h | ⟨h1, Node, h2, h3⟩
    · exact Or.inl h
    · obtain ⟨Node2, f1, _, _, f4⟩ := hN Pair.2 Node h2
      exact Or.inr ⟨h1, Node2, f1, by rw [f4]; exact h3⟩

theorem AttachMaterial_tree (First Root : Nat) (s : UMaterialVaultManager) (MaterialItem : Nat)
    (hInv : FolderTreeInvariant First Root [] s) :
    FolderTreeInvariant First Root [] (AttachMaterial s MaterialItem) ∧
    (∀ (Folder : Nat) (Node : FMaterialVaultFolderNode), s.Folders[Folder]? = some Node →
      ∃ Node2 : FMaterialVaultFolderNode,
        (AttachMaterial s MaterialItem).Folders[Folder]? = some Node2 ∧
        Node2.FolderPath = Node.FolderPath) ∧
    (∀ Pair ∈ s.FolderMap, Pair ∈ (AttachMaterial s MaterialItem).FolderMap) := by
  unfold AttachMaterial
  cases hItem : s.Items[MaterialItem]? with
  | none => exact ⟨hInv, fun _ Node h => ⟨Node, h, rfl⟩, fun _ h => h⟩
  | some Item =>
    simp only
    obtain ⟨hA, _, _, _, _, hF, hH⟩ := GetOrCreateFolderNodeFuel_tree First Root
      ((OrganizePackagePath (FNameToString Item.AssetData.PackagePath)).length + 1) s
      (OrganizePackagePath (FNameToString Item.AssetData.PackagePath)) [] hInv
      (fun _ _ h => absurd h (List.not_mem_nil _)) (Nat.lt_succ_self _)
    unfold GetOrCreateFolderNode
    rcases hres : GetOrCreateFolderNodeFuel
      ((OrganizePackagePath (FNameToString Item.AssetData.PackagePath)).length + 1) s
      (OrganizePackagePath (FNameToString Item.AssetData.PackagePath)) with ⟨s1, r⟩
    rw [hres] at hA hF hH
    simp only at hA hF hH
    cases r with
    | none => exact ⟨hA, hF, hH⟩
    | some FolderNode =>
      simp only
      have hNodes : ∀ (x : Nat) (Node : FMaterialVaultFolderNode), s1.Folders[x]? = some Node →
          ∃ Node2 : FMaterialVaultFolderNode,
            (ModifyAt s1.Folders FolderNode
              (fun n => { n with Materials := n.Materials ++ [MaterialItem] }))[x]? = some Node2 ∧
            Node2.Parent = Node.Parent ∧ Node2.Children = Node.Children ∧
            Node2.FolderPath = Node.FolderPath := by
        intro x Node h
        rw [ModifyAt_getElem?, h]
        by_cases hx : FolderNode = x
        · rw [if_pos hx]
          exact ⟨_, rfl, rfl, rfl, rfl⟩
        · rw [if_neg hx]
          exact ⟨_, rfl, rfl, rfl, rfl⟩
      refine ⟨FolderTreeInvariant_congr First Root [] s1 _ rfl rfl (ModifyAt_length _ _ _)
        hNodes hA, ?_, hH⟩
      intro Folder Node h
      obtain ⟨Node1, h1, h2⟩ := hF Folder Node h
      obtain ⟨Node2, g1, _, _, g4⟩ := hNodes Folder Node1 h1
      exact ⟨Node2, g1, by rw [g4]; exact h2⟩

theorem ResetFolderTree_lookup (s : UMaterialVaultManager) (Root : Nat)
    (RootNode : FMaterialVaultFolderNode) (hRoot : s.Folders[Root]? = some RootNode) :
    (ResetFolderTree s Root).Folders.length = s.Folders.length + 3 ∧
    (ResetFolderTree s Root).Folders[Root]? = some { RootNode with
      Children := [s.Folders.length, s.Folders.length + 1, s.Folders.length + 2] } ∧
    (ResetFolderTree s Root).Folders[s.Folders.length]? =
      some (MakeBranchFolder "/Game".toList "Content".toList Root) ∧
    (ResetFolderTree s Root).Folders[s.Folders.length + 1]? =
      some (MakeBranchFolder "/Engine".toList "Engine".toList Root) ∧
    (ResetFolderTree s Root).Folders[s.Folders.length + 2]? =
      some (MakeBranchFolder "/Plugins".toList "Plugins".toList Root) ∧
    (∀ x, x < s.Folders.length → x ≠ Root →
      (ResetFolderTree s Root).Folders[x]? = s.Folders[x]?) := by
  have hlt : Root < s.Folders.length := lt_length_of_getElem? hRoot
  have hne0 : Root ≠ s.Folders.length := Nat.ne_of_lt hlt
  have hne1 : Root ≠ s.Folders.length + 1 := by omega
  have hne2 : Root ≠ s.Folders.length + 2 := by omega
  have hlen1 : (ModifyAt s.Folders Root (fun n => { n with Children := [] })).length =
      s.Folders.length := ModifyAt_length _ _ _
  have hF : (ResetFolderTree s Root).Folders =
      ModifyAt (ModifyAt s.Folders Root (fun n => { n with Children := [] }) ++
        [MakeBranchFolder "/Game".toList "Content".toList Root,
         MakeBranchFolder "/Engine".toList "Engine".toList Root,
         MakeBranchFolder "/Plugins".toList "Plugins".toList Root]) Root
        (fun n => { n with Children := n.Children ++
          [s.Folders.length, s.Folders.length + 1, s.Folders.length + 2] }) := by
    unfold ResetFolderTree
    simp only [hlen1]
  rw [hF]
  refine ⟨?_, ?_, ?_, ?_, ?_, ?_⟩
  · rw [ModifyAt_length, List.length_append, hlen1]
    rfl
  · rw [ModifyAt_getElem?, if_pos rfl,
      List.getElem?_append_left (by rw [hlen1]; exact hlt), ModifyAt_getElem?,
      if_pos rfl, hRoot]
    rfl
  · rw [ModifyAt_getElem?, if_neg hne0, List.getElem?_append_right (by rw [hlen1]), hlen1,
      Nat.sub_self]
    rfl
  · rw [ModifyAt_getElem?, if_neg hne1,
      List.getElem?_append_right (by rw [hlen1]; omega), hlen1, Nat.add_sub_cancel_left]
    rfl
  · rw [ModifyAt_getElem?, if_neg hne2,
      List.getElem?_append_right (by rw [hlen1]; omega), hlen1, Nat.add_sub_cancel_left]
    rfl
  · intro x hx hxR
    rw [ModifyAt_getElem?, if_neg (Ne.symm hxR),
      List.getElem?_append_left (by rw [hlen1]; exact hx),
      ModifyAt_getElem?, if_neg (Ne.symm hxR)]

theorem ResetFolderTree_tree (s : UMaterialVaultManager) (Root : Nat)
    (RootNode : FMaterialVaultFolderNode) (hRootNode : s.RootFolderNode = some Root)
    (hRoot : s.Folders[Root]? = some RootNode) :
    FolderTreeInvariant s.Folders.length Root [] (ResetFolderTree s Root) := by
  obtain ⟨hLen, hLookR, hLook0, hLook1, hLook2, _⟩ := ResetFolderTree_lookup s Root RootNode hRoot
  have hlt : Root < s.Folders.length := lt_length_of_getElem? hRoot
  have hNew : ∀ Folder, s.Folders.length ≤ Folder → Folder < s.Folders.length + 3 →
      ∃ Node, (ResetFolderTree s Root).Folders[Folder]? = some Node ∧
        Node.Parent = some Root ∧ Node.Children = [] ∧
        Folder ∈ [s.Folders.length, s.Folders.length + 1, s.Folders.length + 2] := by
    intro Folder h1 h2
    have h3 : Folder = s.Folders.length ∨ Folder = s.Folders.length + 1 ∨
        Folder = s.Folders.length + 2 := by omega
    rcases h3 with h | h | h
    · rw [h]
      exact ⟨_, hLook0, rfl, rfl, by simp⟩
    · rw [h]
      exact ⟨_, hLook1, rfl, rfl, by simp⟩
    · rw [h]
      exact ⟨_, hLook2, rfl, rfl, by simp⟩
  refine ⟨hlt, by rw [hLen]; exact Nat.le_add_right _ _, hRootNode, ?_, ?_, ?_, ?_⟩
  · intro Folder hF1 hF2 _
    rw [hLen] at hF2
    obtain ⟨Node, h1, h2, _, h4⟩ := hNew Folder hF1 hF2
    exact ⟨Node, Root, _, h1, h2, Or.inl rfl, hLookR, h4, Or.inl rfl⟩
  · intro Folder Node hPl hNode
    rcases hPl with h | ⟨h1, h2, _⟩
    · rw [h, hLookR] at hNode
      rw [← Option.some.inj hNode]
      refine ⟨?_, ?_⟩
      · show [s.Folders.length, s.Folders.length + 1, s.Folders.length + 2].Nodup
        simp
      · intro Child hChild
        have hChild1 : Child ∈ [s.Folders.length, s.Folders.length + 1,
            s.Folders.length + 2] := hChild
        have h3 : Child = s.Folders.length ∨ Child = s.Folders.length + 1 ∨
            Child = s.Folders.length + 2 := by simpa using hChild1
        have h4 : s.Folders.length ≤ Child ∧ Child < s.Folders.length + 3 := by omega
        obtain ⟨ChildNode, g1, g2, _, _⟩ := hNew Child h4.1 h4.2
        rw [h]
        exact ⟨h4.1, by rw [hLen]; exact h4.2, List.not_mem_nil _, ChildNode, g1, g2⟩
    · rw [hLen] at h2
      obtain ⟨Node1, g1, _, g3, _⟩ := hNew Folder h1 h2
      rw [g1] at hNode
      rw [← Option.some.inj hNode, g3]
      exact ⟨List.nodup_nil, fun _ h => absurd h (List.not_mem_nil _)⟩
  · intro Folder hF
    exact absurd hF (List.not_mem_nil _)
  · intro Pair hPair
    have hPair1 : Pair ∈ TMap.Add (TMap.Add (TMap.Add (TMap.Add [] s.Settings.RootFolder Root)
        "/Game".toList s.Folders.length) "/Engine".toList (s.Folders.length + 1))
        "/Plugins".toList (s.Folders.length + 2) := by
      have hlen1 : (ModifyAt s.Folders Root (fun n => { n with Children := [] })).length =
          s.Folders.length := ModifyAt_length _ _ _
      unfold ResetFolderTree at hPair
      simp only [hlen1] at hPair
      exact hPair
    rcases TMap.mem_Add _ _ _ Pair hPair1 with h | h
    · rcases TMap.mem_Add _ _ _ Pair h with h | h
      · rcases TMap.mem_Add _ _ _ Pair h with h | h
        · rcases TMap.mem_Add _ _ _ Pair h with h | h
          · exact absurd h (List.not_mem_nil _)
          · rw [h]
            exact Or.inl rfl
        · rw [h]
          exact Or.inr ⟨Nat.le_refl _, _, hLook0, rfl⟩
      · rw [h]
        exact Or.inr ⟨Nat.le_add_right _ _, _, hLook1, rfl⟩
    · rw [h]
      exact Or.inr ⟨Nat.le_add_right _ _, _, hLook2, rfl⟩

theorem BuildFolderStructure_invariant (s : UMaterialVaultManager) (Root : Nat)
    (RootNode : FMaterialVaultFolderNode) (hRootNode : s.RootFolderNode = some Root)
    (hRoot : s.Folders[Root]? = some RootNode) :
    FolderTreeInvariant s.Folders.length Root [] (BuildFolderStructure s) ∧
    (∀ (Folder : Nat) (Node : FMaterialVaultFolderNode),
      (ResetFolderTree s Root).Folders[Folder]? = some Node →
      ∃ Node2 : FMaterialVaultFolderNode,
        (BuildFolderStructure s).Folders[Folder]? = some Node2 ∧
        Node2.FolderPath = Node.FolderPath) ∧
    (∀ Pair ∈ (ResetFolderTree s Root).FolderMap, Pair ∈ (BuildFolderStructure s).FolderMap) := by
  unfold BuildFolderStructure
  rw [hRootNode]
  simp only
  refine List_foldl_invariant (fun t : UMaterialVaultManager =>
    FolderTreeInvariant s.Folders.length Root [] t ∧
    (∀ (Folder : Nat) (Node : FMaterialVaultFolderNode),
      (ResetFolderTree s Root).Folders[Folder]? = some Node →
      ∃ Node2 : FMaterialVaultFolderNode,
        t.Folders[Folder]? = some Node2 ∧ Node2.FolderPath = Node.FolderPath) ∧
    (∀ Pair ∈ (ResetFolderTree s Root).FolderMap, Pair ∈ t.FolderMap)) _ _ ?_ _
    ⟨ResetFolderTree_tree s Root RootNode hRootNode hRoot, fun _ Node h => ⟨Node, h, rfl⟩,
      fun _ h => h⟩
  intro t MaterialPair _ ht
  obtain ⟨h1, h2, h3⟩ := ht
  obtain ⟨g1, g2, g3⟩ := AttachMaterial_tree s.Folders.length Root t MaterialPair.2 h1
  refine ⟨g1, ?_, fun Pair hPair => g3 Pair (h3 Pair hPair)⟩
  intro Folder Node h
  obtain ⟨Node1, f1, f2⟩ := h2 Folder Node h
  obtain ⟨Node2, e1, e2⟩ := g2 Folder Node1 f1
  exact ⟨Node2, e1, by rw [e2]; exact f2⟩

theorem FolderTreeInvariant_reachable (First Root : Nat) (t : UMaterialVaultManager)
    (hInv : FolderTreeInvariant First Root [] t) {A B : Nat}
    (h : FolderReachableFrom t A B) (hA : IsPlaced First Root [] t A) :
    IsPlaced First Root [] t B := by
  induction h with
  | refl Folder => exact hA
  | step Folder Child Target Node hNode hChild _ ih =>
    obtain ⟨h1, h2, h3, _⟩ := (hInv.2.2.2.2.1 Folder Node hA hNode).2 Child hChild
    exact ih (Or.inr ⟨h1, h2, h3⟩)

theorem FolderTreeInvariant_chain (First Root : Nat) (t : UMaterialVaultManager)
    (hInv : FolderTreeInvariant First Root [] t) :
    ∀ (n Folder : Nat) (Node : FMaterialVaultFolderNode), First ≤ Folder →
      t.Folders[Folder]? = some Node → Node.FolderPath.length = n →
      FolderReachableFrom t Root Folder ∧ ∃ Steps, ParentAt t Steps Folder = some Root := by
  intro n
  induction n using Nat.strong_induction_on with
  | _ n ih =>
    intro Folder Node hFirst hNode hLen
    obtain ⟨hRF, hFL, hRN, hK1, hK2, hK3, hK4⟩ := hInv
    obtain ⟨Node1, Parent, ParentNode, h1, h2, h3, h4, h5, h6⟩ :=
      hK1 Folder hFirst (lt_length_of_getElem? hNode) (List.not_mem_nil _)
    rw [hNode] at h1
    rw [← Option.some.inj h1] at h2 h6
    have hStep : ∀ Steps, ParentAt t (Steps + 1) Folder = ParentAt t Steps Parent := by
      intro Steps
      simp only [ParentAt, hNode, h2]
    by_cases hPR : Parent = Root
    · rw [hPR] at h4 hStep
      refine ⟨FolderReachableFrom.step Root Folder Folder ParentNode h4 h5
        (FolderReachableFrom.refl Folder), 1, ?_⟩
      rw [hStep 0]
      rfl
    · have hPFirst : First ≤ Parent := by
        rcases h3 with h | ⟨h, _, _⟩
        · exact absurd h hPR
        · exact h
      have hlt : ParentNode.FolderPath.length < n := by
        rcases h6 with h | h
        · exact absurd h hPR
        · rw [← hLen]
          exact h
      obtain ⟨hReach, Steps, hSteps⟩ := ih ParentNode.FolderPath.length hlt Parent ParentNode
        hPFirst h4 rfl
      refine ⟨FolderReachableFrom_tail t hReach ParentNode Folder h4 h5, Steps + 1, ?_⟩
      rw [hStep Steps]
      exact hSteps

/-- C24: let the root pointer of the manager be valid.  After `BuildFolderStructure` every
node other than the root that is reached from the root along child links has its parent
link set to a node reached from the root, occurs exactly once in the child list of that
parent and in the child list of no other node reached from the root, and leads to the root
by following parent links a finite number of times; and the root is in no child list of a
node reached from the root. -/
theorem BuildFolderStructure_tree (s : UMaterialVaultManager) (Root : Nat)
    (RootNode : FMaterialVaultFolderNode) (hRootNode : s.RootFolderNode = some Root)
    (hRoot : s.Folders[Root]? = some RootNode) :
    (∀ Folder, FolderReachableFrom (BuildFolderStructure s) Root Folder → Folder ≠ Root →
      ∃ (Node : FMaterialVaultFolderNode) (Parent : Nat) (ParentNode : FMaterialVaultFolderNode),
        (BuildFolderStructure s).Folders[Folder]? = some Node ∧ Node.Parent = some Parent ∧
        FolderReachableFrom (BuildFolderStructure s) Root Parent ∧
        (BuildFolderStructure s).Folders[Parent]? = some ParentNode ∧
        ParentNode.Children.count Folder = 1 ∧
        (∀ (Other : Nat) (OtherNode : FMaterialVaultFolderNode),
          FolderReachableFrom (BuildFolderStructure s) Root Other →
          (BuildFolderStructure s).Folders[Other]? = some OtherNode →
          Folder ∈ OtherNode.Children → Other = Parent) ∧
        ∃ Steps, ParentAt (BuildFolderStructure s) Steps Folder = some Root) ∧
    (∀ (Other : Nat) (OtherNode : FMaterialVaultFolderNode),
      FolderReachableFrom (BuildFolderStructure s) Root Other →
      (BuildFolderStructure s).Folders[Other]? = some OtherNode →
      Root ∉ OtherNode.Children) := by
  obtain ⟨hInv, _, _⟩ := BuildFolderStructure_invariant s Root RootNode hRootNode hRoot
  obtain ⟨t, ht⟩ : ∃ t, t = BuildFolderStructure s := ⟨_, rfl⟩
  rw [← ht] at hInv ⊢
  have hInv0 := hInv
  obtain ⟨hRF, hFL, hRN, hK1, hK2, hK3, hK4⟩ := hInv
  have hPlaced : ∀ x, FolderReachableFrom t Root x → IsPlaced s.Folders.length Root [] t x :=
    fun x hx => FolderTreeInvariant_reachable s.Folders.length Root t hInv0 hx (Or.inl rfl)
  refine ⟨?_, ?_⟩
  · intro Folder hReach hne
    have hFirst : s.Folders.length ≤ Folder ∧ Folder < t.Folders.length := by
      rcases hPlaced Folder hReach with h | ⟨h1, h2, _⟩
      · exact absurd h hne
      · exact ⟨h1, h2⟩
    obtain ⟨Node, Parent, ParentNode, h1, h2, h3, h4, h5, h6⟩ :=
      hK1 Folder hFirst.1 hFirst.2 (List.not_mem_nil _)
    have hParentReach : FolderReachableFrom t Root Parent := by
      rcases h3 with h | ⟨h, _, _⟩
      · rw [h]
        exact FolderReachableFrom.refl Root
      · exact (FolderTreeInvariant_chain s.Folders.length Root t hInv0 _ Parent ParentNode h h4
          rfl).1
    refine ⟨Node, Parent, ParentNode, h1, h2, hParentReach, h4, ?_, ?_, ?_⟩
    · exact List.count_eq_one_of_mem (hK2 Parent ParentNode h3 h4).1 h5
    · intro Other OtherNode hOther hOtherNode hMem
      obtain ⟨_, _, _, ChildNode, g1, g2⟩ :=
        (hK2 Other OtherNode (hPlaced Other hOther) hOtherNode).2 Folder hMem
      rw [h1] at g1
      rw [← Option.some.inj g1, h2] at g2
      exact (Option.some.inj g2).symm
    · exact (FolderTreeInvariant_chain s.Folders.length Root t hInv0 _ Folder Node hFirst.1 h1
        rfl).2
  · intro Other OtherNode hOther hOtherNode hMem
    have h := ((hK2 Other OtherNode (hPlaced Other hOther) hOtherNode).2 Root hMem).1
    exact absurd hRF (Nat.not_lt.mpr h)

theorem BuildFolderStructure_tree_witness :
    ScenarioManager.RootFolderNode = some 0 ∧
    (∃ Node, ScenarioManager.Folders[0]? = some Node) ∧
    FolderReachableFrom (BuildFolderStructure ScenarioManager) 0 12 ∧
    ParentAt (BuildFolderStructure ScenarioManager) 2 12 = some 0 ∧
    ((∀ Folder, FolderReachableFrom (BuildFolderStructure ScenarioManager) 0 Folder →
      Folder ≠ 0 →
      ∃ (Node : FMaterialVaultFolderNode) (Parent : Nat) (ParentNode : FMaterialVaultFolderNode),
        (BuildFolderStructure ScenarioManager).Folders[Folder]? = some Node ∧
        Node.Parent = some Parent ∧
        FolderReachableFrom (BuildFolderStructure ScenarioManager) 0 Parent ∧
        (BuildFolderStructure ScenarioManager).Folders[Parent]? = some ParentNode ∧
        ParentNode.Children.count Folder = 1 ∧
        (∀ (Other : Nat) (OtherNode : FMaterialVaultFolderNode),
          FolderReachableFrom (BuildFolderStructure ScenarioManager) 0 Other →
          (BuildFolderStructure ScenarioManager).Folders[Other]? = some OtherNode →
          Folder ∈ OtherNode.Children → Other = Parent) ∧
        ∃ Steps, ParentAt (BuildFolderStructure ScenarioManager) Steps Folder = some 0) ∧
    (∀ (Other : Nat) (OtherNode : FMaterialVaultFolderNode),
      FolderReachableFrom (BuildFolderStructure ScenarioManager) 0 Other →
      (BuildFolderStructure ScenarioManager).Folders[Other]? = some OtherNode →
      0 ∉ OtherNode.Children)) :=
  ⟨by decide, ⟨_, rfl⟩,
    FolderReachableFrom.step 0 9 12
      ((BuildFolderStructure ScenarioManager).Folders.getD 0 default) (by decide) (by decide)
      (FolderReachableFrom.step 9 12 12
        ((BuildFolderStructure ScenarioManager).Folders.getD 9 default) (by decide) (by decide)
        (FolderReachableFrom.refl 12)),
    by decide,
    BuildFolderStructure_tree ScenarioManager 0 (ScenarioManager.Folders.getD 0 default)
      (by decide) (by decide)⟩
/-- C25: let the root pointer of the manager be valid and the path of the root node be
"/Game", as it is after `Initialize` with the default settings.  After
`BuildFolderStructure` the root node and the Content node are two nodes of the tree with
the path "/Game", and `FindFolder` on that path yields the Content node, not the root. -/
theorem BuildFolderStructure_shares_root_path (s : UMaterialVaultManager) (Root : Nat)
    (RootNode : FMaterialVaultFolderNode) (hRootNode : s.RootFolderNode = some Root)
    (hRoot : s.Folders[Root]? = some RootNode)
    (hPath : RootNode.FolderPath = "/Game".toList) :
    s.Folders.length ≠ Root ∧
    FolderReachableFrom (BuildFolderStructure s) Root Root ∧
    FolderReachableFrom (BuildFolderStructure s) Root s.Folders.length ∧
    (∃ Node : FMaterialVaultFolderNode, (BuildFolderStructure s).Folders[Root]? = some Node ∧
      Node.FolderPath = "/Game".toList) ∧
    (∃ Node : FMaterialVaultFolderNode,
      (BuildFolderStructure s).Folders[s.Folders.length]? = some Node ∧
      Node.FolderPath = "/Game".toList) ∧
    FindFolder (BuildFolderStructure s) "/Game".toList = some s.Folders.length ∧
    FindFolder (BuildFolderStructure s) "/Game".toList ≠ some Root := by
  have hlt : Root < s.Folders.length := lt_length_of_getElem? hRoot
  have hne : s.Folders.length ≠ Root := Ne.symm (Nat.ne_of_lt hlt)
  obtain ⟨hInv, hPaths, _⟩ := BuildFolderStructure_invariant s Root RootNode hRootNode hRoot
  obtain ⟨_, hLookR, hLook0, _, _, _⟩ := ResetFolderTree_lookup s Root RootNode hRoot
  obtain ⟨NodeR, hNodeR, hNodeRPath⟩ := hPaths Root _ hLookR
  obtain ⟨NodeC, hNodeC, hNodeCPath⟩ := hPaths s.Folders.length _ hLook0
  have hFind : FindFolder (BuildFolderStructure s) "/Game".toList = some s.Folders.length := by
    obtain ⟨_, hv1⟩ := ResetFolderTree_spec s Root hlt
    obtain ⟨_, hGrows, _⟩ := AttachAll_spec s.MaterialMap (ResetFolderTree s Root) hv1
    rw [BuildFolderStructure_root s Root hRootNode]
    apply hGrows.1
    have hlen1 : (ModifyAt s.Folders Root (fun n => { n with Children := [] })).length =
        s.Folders.length := ModifyAt_length _ _ _
    unfold ResetFolderTree
    simp only [hlen1]
    rw [TMap.Find_Add_other _ _ (by decide), TMap.Find_Add_other _ _ (by decide)]
    exact TMap.Find_Add_self _ _ _
  refine ⟨hne, FolderReachableFrom.refl Root,
    (FolderTreeInvariant_chain s.Folders.length Root _ hInv _ s.Folders.length NodeC
      (Nat.le_refl _) hNodeC rfl).1,
    ⟨NodeR, hNodeR, by rw [hNodeRPath]; exact hPath⟩, ⟨NodeC, hNodeC, by rw [hNodeCPath]; rfl⟩,
    hFind, ?_⟩
  rw [hFind]
  exact fun h => hne (Option.some.inj h)

theorem BuildFolderStructure_shares_root_path_witness :
    (Initialize (UMaterialVaultManager.Construct [RockAsset, WoodAsset, DefaultAsset] []
      "/Project/".toList) ⟨0⟩).Settings = FMaterialVaultSettings.Default ∧
    (Initialize (UMaterialVaultManager.Construct [RockAsset, WoodAsset, DefaultAsset] []
      "/Project/".toList) ⟨0⟩).RootFolderNode = some 0 ∧
    (Initialize (UMaterialVaultManager.Construct [RockAsset, WoodAsset, DefaultAsset] []
      "/Project/".toList) ⟨0⟩).Folders[0]? =
      some (FMaterialVaultFolderNode.Make "Root".toList "/Game".toList) ∧
    (1 ≠ 0 ∧
    FolderReachableFrom (BuildFolderStructure (Initialize (UMaterialVaultManager.Construct
      [RockAsset, WoodAsset, DefaultAsset] [] "/Project/".toList) ⟨0⟩)) 0 0 ∧
    FolderReachableFrom (BuildFolderStructure (Initialize (UMaterialVaultManager.Construct
      [RockAsset, WoodAsset, DefaultAsset] [] "/Project/".toList) ⟨0⟩)) 0 1 ∧
    (∃ Node : FMaterialVaultFolderNode, (BuildFolderStructure (Initialize
      (UMaterialVaultManager.Construct [RockAsset, WoodAsset, DefaultAsset] []
        "/Project/".toList) ⟨0⟩)).Folders[0]? = some Node ∧
      Node.FolderPath = "/Game".toList) ∧
    (∃ Node : FMaterialVaultFolderNode, (BuildFolderStructure (Initialize
      (UMaterialVaultManager.Construct [RockAsset, WoodAsset, DefaultAsset] []
        "/Project/".toList) ⟨0⟩)).Folders[1]? = some Node ∧
      Node.FolderPath = "/Game".toList) ∧
    FindFolder (BuildFolderStructure (Initialize (UMaterialVaultManager.Construct
      [RockAsset, WoodAsset, DefaultAsset] [] "/Project/".toList) ⟨0⟩)) "/Game".toList =
      some 1 ∧
    FindFolder (BuildFolderStructure (Initialize (UMaterialVaultManager.Construct
      [RockAsset, WoodAsset, DefaultAsset] [] "/Project/".toList) ⟨0⟩)) "/Game".toList ≠
      some 0) :=
  ⟨by decide, by decide, by decide,
    BuildFolderStructure_shares_root_path
      (Initialize (UMaterialVaultManager.Construct [RockAsset, WoodAsset, DefaultAsset] []
        "/Project/".toList) ⟨0⟩) 0
      (FMaterialVaultFolderNode.Make "Root".toList "/Game".toList) (by decide) (by decide)
      rfl⟩

/-! ## The trees that the folder build makes are trees for the category build -/

theorem List_length_le_of_nodup_range (l : List Nat) (a b : Nat) (hNodup : l.Nodup)
    (hRange : ∀ x ∈ l, a ≤ x ∧ x < b) : l.length ≤ b - a := by
  have h1 : l.toFinset ⊆ Finset.Ico a b := by
    intro x hx
    rw [List.mem_toFinset] at hx
    rw [Finset.mem_Ico]
    exact hRange x hx
  have h2 := Finset.card_le_card h1
  rw [List.toFinset_card_of_nodup hNodup, Nat.card_Ico] at h2
  exact h2

theorem FolderTreeInvariant_parents (First Root : Nat) (t : UMaterialVaultManager)
    (hInv : FolderTreeInvariant First Root [] t) :
    ∀ (n Folder : Nat) (Node : FMaterialVaultFolderNode), First ≤ Folder →
      t.Folders[Folder]? = some Node → Node.FolderPath.length = n →
      ∃ Chain : List Nat, Chain.Nodup ∧
        (∀ x ∈ Chain, First ≤ x ∧ x < t.Folders.length ∧
          ∃ NodeX : FMaterialVaultFolderNode, t.Folders[x]? = some NodeX ∧
            NodeX.FolderPath.length ≤ n) ∧
        ParentAt t Chain.length Folder = some Root := by
  intro n
  induction n using Nat.strong_induction_on with
  | _ n ih =>
    intro Folder Node hFirst hNode hLen
    obtain ⟨hRF, hFL, hRN, hK1, hK2, hK3, hK4⟩ := hInv
    obtain ⟨Node1, Parent, ParentNode, h1, h2, h3, h4, h5, h6⟩ :=
      hK1 Folder hFirst (lt_length_of_getElem? hNode) (List.not_mem_nil _)
    rw [hNode] at h1
    rw [← Option.some.inj h1] at h2 h6
    have hStep : ∀ Steps, ParentAt t (Steps + 1) Folder = ParentAt t Steps Parent := by
      intro Steps
      simp only [ParentAt, hNode, h2]
    have hSelf : First ≤ Folder ∧ Folder < t.Folders.length ∧
        ∃ NodeX : FMaterialVaultFolderNode, t.Folders[Folder]? = some NodeX ∧
          NodeX.FolderPath.length ≤ n :=
      ⟨hFirst, lt_length_of_getElem? hNode, Node, hNode, Nat.le_of_eq hLen⟩
    by_cases hPR : Parent = Root
    · refine ⟨[Folder], List.nodup_singleton _, ?_, ?_⟩
      · intro x hx
        rw [List.mem_singleton.mp hx]
        exact hSelf
      · show ParentAt t 1 Folder = some Root
        rw [hStep 0, hPR]
        rfl
    · have hPFirst : First ≤ Parent := by
        rcases h3 with h | ⟨h, _, _⟩
        · exact absurd h hPR
        · exact h
      have hlt : ParentNode.FolderPath.length < n := by
        rcases h6 with h | h
        · exact absurd h hPR
        · rw [← hLen]
          exact h
      obtain ⟨Chain, hNodup, hChain, hSteps⟩ := ih ParentNode.FolderPath.length hlt Parent
        ParentNode hPFirst h4 rfl
      refine ⟨Folder :: Chain, ?_, ?_, ?_⟩
      · rw [List.nodup_cons]
        refine ⟨?_, hNodup⟩
        intro hMem
        obtain ⟨_, _, NodeX, g1, g2⟩ := hChain Folder hMem
        rw [hNode] at g1
        rw [← Option.some.inj g1, hLen] at g2
        exact absurd hlt (Nat.not_lt.mpr g2)
      · intro x hx
        rcases List.mem_cons.mp hx with h | h
        · rw [h]
          exact hSelf
        · obtain ⟨g1, g2, NodeX, g3, g4⟩ := hChain x h
          exact ⟨g1, g2, NodeX, g3, Nat.le_trans g4 (Nat.le_of_lt hlt)⟩
      · show ParentAt t (Chain.length + 1) Folder = some Root
        rw [hStep Chain.length]
        exact hSteps

theorem FolderTreeInvariant_ranked (First Root : Nat) (t : UMaterialVaultManager)
    (hInv : FolderTreeInvariant First Root [] t) :
    ∃ Rank : Nat → Nat, Rank Root ≤ t.Folders.length ∧
      ∀ (Folder Child : Nat) (Node : FMaterialVaultFolderNode),
        FolderReachableFrom t Root Folder → t.Folders[Folder]? = some Node →
        Child ∈ Node.Children → Rank Child < Rank Folder := by
  classical
  have hInv0 := hInv
  obtain ⟨hRF, hFL, hRN, hK1, hK2, hK3, hK4⟩ := hInv
  have hExists : ∀ (Folder : Nat) (Node : FMaterialVaultFolderNode), First ≤ Folder →
      t.Folders[Folder]? = some Node →
      ∃ k, ParentAt t k Folder = some Root ∧ k ≤ t.Folders.length - First := by
    intro Folder Node hFirst hNode
    obtain ⟨Chain, hNodup, hChain, hSteps⟩ :=
      FolderTreeInvariant_parents First Root t hInv0 _ Folder Node hFirst hNode rfl
    exact ⟨Chain.length, hSteps, List_length_le_of_nodup_range Chain First t.Folders.length
      hNodup (fun x hx => ⟨(hChain x hx).1, (hChain x hx).2.1⟩)⟩
  obtain ⟨D, hD⟩ : ∃ D : Nat → Nat, ∀ x, D x =
      if h : ∃ k, ParentAt t k x = some Root then Nat.find h else 0 := ⟨_, fun _ => rfl⟩
  have hDRoot : D Root = 0 := by
    have hEx : ∃ k, ParentAt t k Root = some Root := ⟨0, rfl⟩
    rw [hD Root, dif_pos hEx]
    exact (Nat.find_eq_zero hEx).mpr rfl
  have hDBound : ∀ (Folder : Nat) (Node : FMaterialVaultFolderNode), First ≤ Folder →
      t.Folders[Folder]? = some Node → D Folder ≤ t.Folders.length - First := by
    intro Folder Node hFirst hNode
    obtain ⟨k, hk, hkle⟩ := hExists Folder Node hFirst hNode
    have hEx : ∃ k, ParentAt t k Folder = some Root := ⟨k, hk⟩
    rw [hD Folder, dif_pos hEx]
    exact Nat.le_trans (Nat.find_min' hEx hk) hkle
  have hDStep : ∀ (Child Folder : Nat) (ChildNode : FMaterialVaultFolderNode),
      First ≤ Child → t.Folders[Child]? = some ChildNode → ChildNode.Parent = some Folder →
      (∃ k, ParentAt t k Folder = some Root) → D Folder < D Child := by
    intro Child Folder ChildNode hFirst hNode hParent hExF
    obtain ⟨k, hk, _⟩ := hExists Child ChildNode hFirst hNode
    have hExC : ∃ k, ParentAt t k Child = some Root := ⟨k, hk⟩
    have hne : Child ≠ Root := fun h => by
      rw [h] at hFirst
      exact absurd hRF (Nat.not_lt.mpr hFirst)
    rw [hD Child, dif_pos hExC, hD Folder, dif_pos hExF]
    have hSpec := Nat.find_spec hExC
    cases hFind : Nat.find hExC with
    | zero =>
      rw [hFind] at hSpec
      exact absurd (Option.some.inj hSpec) hne
    | succ j =>
      rw [hFind] at hSpec
      have hj : ParentAt t j Folder = some Root := by
        simp only [ParentAt, hNode, hParent] at hSpec
        exact hSpec
      exact Nat.lt_succ_of_le (Nat.find_min' hExF hj)
  refine ⟨fun x => if x = Root then t.Folders.length else t.Folders.length - 1 - D x, ?_, ?_⟩
  · simp
  · intro Folder Child Node hReach hNode hChild
    have hPl := FolderTreeInvariant_reachable First Root t hInv0 hReach (Or.inl rfl)
    obtain ⟨hC1, hC2, _, ChildNode, hC4, hC5⟩ := (hK2 Folder Node hPl hNode).2 Child hChild
    have hneC : Child ≠ Root := fun h => by
      rw [h] at hC1
      exact absurd hRF (Nat.not_lt.mpr hC1)
    have hBoundC := hDBound Child ChildNode hC1 hC4
    have hExF : ∃ k, ParentAt t k Folder = some Root := by
      rcases hPl with h | ⟨h1, _, _⟩
      · exact ⟨0, by rw [h]; rfl⟩
      · obtain ⟨k, hk, _⟩ := hExists Folder Node h1 hNode
        exact ⟨k, hk⟩
    have hStep := hDStep Child Folder ChildNode hC1 hC4 hC5 hExF
    simp only [hneC, if_false]
    by_cases hFR : Folder = Root
    · simp only [hFR, if_true]
      omega
    · simp only [hFR, if_false]
      omega

theorem CreateFolderNode_materials (FolderPath : FString) (Node : FMaterialVaultFolderNode)
    (h : CreateFolderNode FolderPath = some Node) : Node.Materials = [] := by
  unfold CreateFolderNode at h
  split at h
  · cases h
  · simp only [Option.some.injEq] at h
    rw [← h]
    rfl

theorem AttachChild_materials (s : UMaterialVaultManager) (Child Parent x : Nat)
    (Node2 : FMaterialVaultFolderNode)
    (h : (AttachChild s Child Parent).Folders[x]? = some Node2) :
    ∃ Node : FMaterialVaultFolderNode, s.Folders[x]? = some Node ∧
      Node2.Materials = Node.Materials := by
  rw [AttachChild_lookup] at h
  cases hNode : s.Folders[x]? with
  | none => rw [hNode] at h; cases h
  | some Node =>
    rw [hNode] at h
    simp only [Option.map_some', Option.some.injEq] at h
    exact ⟨Node, rfl, by rw [← h]⟩

theorem WithNewFolder_materials (s : UMaterialVaultManager) (FolderPath : FString)
    (Node : FMaterialVaultFolderNode) (hNode : Node.Materials = []) (x : Nat)
    (Node2 : FMaterialVaultFolderNode)
    (h : (WithNewFolder s FolderPath Node).Folders[x]? = some Node2) :
    (∃ Node1 : FMaterialVaultFolderNode, s.Folders[x]? = some Node1 ∧
      Node2.Materials = Node1.Materials) ∨
    (s.Folders.length ≤ x ∧ Node2.Materials = []) := by
  rcases Nat.lt_or_ge x s.Folders.length with hlt | hge
  · left
    have h1 : (WithNewFolder s FolderPath Node).Folders[x]? = s.Folders[x]? :=
      List.getElem?_append_left hlt
    rw [h1] at h
    exact ⟨Node2, h, rfl⟩
  · right
    refine ⟨hge, ?_⟩
    have hlen : (WithNewFolder s FolderPath Node).Folders.length = s.Folders.length + 1 := by
      show (s.Folders ++ [Node]).length = _
      rw [List.length_append, List.length_singleton]
    have hx : x = s.Folders.length := by
      have := lt_length_of_getElem? h
      omega
    have h1 : (WithNewFolder s FolderPath Node).Folders[s.Folders.length]? = some Node := by
      show (s.Folders ++ [Node])[s.Folders.length]? = some Node
      simp
    rw [hx, h1] at h
    rw [← Option.some.inj h]
    exact hNode

theorem GetOrCreateFolderNodeFuel_materials (Fuel : Nat) :
    ∀ (s : UMaterialVaultManager) (FolderPath : FString) (x : Nat)
      (Node2 : FMaterialVaultFolderNode),
      (GetOrCreateFolderNodeFuel Fuel s FolderPath).1.Folders[x]? = some Node2 →
      (∃ Node : FMaterialVaultFolderNode, s.Folders[x]? = some Node ∧
        Node2.Materials = Node.Materials) ∨
      (s.Folders.length ≤ x ∧ Node2.Materials = []) := by
  induction Fuel with
  | zero => intro s FolderPath x Node2 h; exact Or.inl ⟨Node2, h, rfl⟩
  | succ Fuel ih =>
    intro s FolderPath x Node2 h
    cases hfind : TMap.Find s.FolderMap FolderPath with
    | some Existing =>
      rw [GetOrCreateFolderNodeFuel_existing Fuel s FolderPath Existing hfind] at h
      exact Or.inl ⟨Node2, h, rfl⟩
    | none =>
      cases hNode : CreateFolderNode FolderPath with
      | none =>
        have hEq : GetOrCreateFolderNodeFuel (Fuel + 1) s FolderPath = (s, none) := by
          simp only [GetOrCreateFolderNodeFuel, hfind, hNode]
        rw [hEq] at h
        exact Or.inl ⟨Node2, h, rfl⟩
      | some Node =>
        have hMat := CreateFolderNode_materials FolderPath Node hNode
        have hLift : ∀ (y : Nat) (Node3 : FMaterialVaultFolderNode),
            ((∃ Node1 : FMaterialVaultFolderNode,
                (WithNewFolder s FolderPath Node).Folders[y]? = some Node1 ∧
                Node3.Materials = Node1.Materials) ∨
              ((WithNewFolder s FolderPath Node).Folders.length ≤ y ∧ Node3.Materials = [])) →
            (∃ Node0 : FMaterialVaultFolderNode, s.Folders[y]? = some Node0 ∧
              Node3.Materials = Node0.Materials) ∨
            (s.Folders.length ≤ y ∧ Node3.Materials = []) := by
          intro y Node3 hy
          rcases hy with ⟨Node1, h1, h2⟩ | ⟨h1, h2⟩
          · rcases WithNewFolder_materials s FolderPath Node hMat y Node1 h1 with
              ⟨Node0, g1, g2⟩ | ⟨g1, g2⟩
            · exact Or.inl ⟨Node0, g1, by rw [h2, g2]⟩
            · exact Or.inr ⟨g1, by rw [h2, g2]⟩
          · right
            refine ⟨?_, h2⟩
            have hlen : (WithNewFolder s FolderPath Node).Folders.length =
                s.Folders.length + 1 := by
              show (s.Folders ++ [Node]).length = _
              rw [List.length_append, List.length_singleton]
            omega
        cases hcond : (!(GetPath FolderPath).isEmpty &&
            !EqualsIgnoreCase (GetPath FolderPath) FolderPath) with
        | true =>
          rcases hres : GetOrCreateFolderNodeFuel Fuel (WithNewFolder s FolderPath Node)
            (GetPath FolderPath) with ⟨s2, r⟩
          have hRec := ih (WithNewFolder s FolderPath Node) (GetPath FolderPath)
          rw [hres] at hRec
          simp only at hRec
          cases r with
          | some p =>
            rw [GetOrCreateFolderNodeFuel_parent Fuel s s2 FolderPath Node p hfind hNode hcond
              hres] at h
            obtain ⟨Node3, g1, g2⟩ := AttachChild_materials s2 _ _ x Node2 h
            rw [g2]
            exact hLift x Node3 (hRec x Node3 g1)
          | none =>
            have hEq : GetOrCreateFolderNodeFuel (Fuel + 1) s FolderPath =
                (s2, some s.Folders.length) := by
              unfold WithNewFolder at hres
              simp only [GetOrCreateFolderNodeFuel, hfind, hNode, hcond, if_true, hres]
            rw [hEq] at h
            exact hLift x Node2 (hRec x Node2 h)
        | false =>
          cases hroot : s.RootFolderNode with
          | some Root =>
            rw [GetOrCreateFolderNodeFuel_root Fuel s FolderPath Node Root hfind hNode hcond
              hroot] at h
            obtain ⟨Node3, g1, g2⟩ := AttachChild_materials _ _ _ x Node2 h
            rw [g2]
            exact hLift x Node3 (Or.inl ⟨Node3, g1, rfl⟩)
          | none =>
            rw [GetOrCreateFolderNodeFuel_noroot Fuel s FolderPath Node hfind hNode hcond
              hroot] at h
            exact hLift x Node2 (Or.inl ⟨Node2, h, rfl⟩)

theorem AttachMaterial_materials (s : UMaterialVaultManager) (MaterialItem x : Nat)
    (Node2 : FMaterialVaultFolderNode)
    (h : (AttachMaterial s MaterialItem).Folders[x]? = some Node2) :
    ∀ j ∈ Node2.Materials, j = MaterialItem ∨
      ∃ Node : FMaterialVaultFolderNode, s.Folders[x]? = some Node ∧ j ∈ Node.Materials := by
  intro j hj
  unfold AttachMaterial at h
  cases hItem : s.Items[MaterialItem]? with
  | none =>
    rw [hItem] at h
    exact Or.inr ⟨Node2, h, hj⟩
  | some Item =>
    rw [hItem] at h
    simp only at h
    unfold GetOrCreateFolderNode at h
    have hRec := GetOrCreateFolderNodeFuel_materials
      ((OrganizePackagePath (FNameToString Item.AssetData.PackagePath)).length + 1) s
      (OrganizePackagePath (FNameToString Item.AssetData.PackagePath)) x
    rcases hres : GetOrCreateFolderNodeFuel
      ((OrganizePackagePath (FNameToString Item.AssetData.PackagePath)).length + 1) s
      (OrganizePackagePath (FNameToString Item.AssetData.PackagePath)) with ⟨s1, r⟩
    rw [hres] at h hRec
    simp only at hRec
    have hOld : ∀ Node3 : FMaterialVaultFolderNode, s1.Folders[x]? = some Node3 →
        j ∈ Node3.Materials →
        ∃ Node : FMaterialVaultFolderNode, s.Folders[x]? = some Node ∧ j ∈ Node.Materials := by
      intro Node3 h3 hj3
      rcases hRec Node3 h3 with ⟨Node, g1, g2⟩ | ⟨_, g2⟩
      · exact ⟨Node, g1, by rw [← g2]; exact hj3⟩
      · rw [g2] at hj3
        exact absurd hj3 (List.not_mem_nil _)
    cases r with
    | none => exact Or.inr (hOld Node2 h hj)
    | some FolderNode =>
      simp only at h
      rw [ModifyAt_getElem?] at h
      by_cases hx : FolderNode = x
      · rw [if_pos hx] at h
        cases hNode3 : s1.Folders[x]? with
        | none => rw [hNode3] at h; cases h
        | some Node3 =>
          rw [hNode3] at h
          simp only [Option.map_some', Option.some.injEq] at h
          rw [← h] at hj
          rcases List.mem_append.mp hj with h1 | h1
          · exact Or.inr (hOld Node3 hNode3 h1)
          · exact Or.inl (List.mem_singleton.mp h1)
      · rw [if_neg hx] at h
        exact Or.inr (hOld Node2 h hj)

theorem AttachAll_materials (Pairs : TMap Nat) :
    ∀ (s : UMaterialVaultManager) (x : Nat) (Node2 : FMaterialVaultFolderNode),
      (Pairs.foldl (fun acc MaterialPair => AttachMaterial acc MaterialPair.2) s).Folders[x]? =
        some Node2 →
      ∀ j ∈ Node2.Materials, (∃ MaterialPair ∈ Pairs, MaterialPair.2 = j) ∨
        ∃ Node : FMaterialVaultFolderNode, s.Folders[x]? = some Node ∧ j ∈ Node.Materials := by
  induction Pairs with
  | nil =>
    intro s x Node2 h j hj
    exact Or.inr ⟨Node2, h, hj⟩
  | cons Pair Rest ih =>
    intro s x Node2 h j hj
    rw [List.foldl_cons] at h
    rcases ih (AttachMaterial s Pair.2) x Node2 h j hj with ⟨P, hP, hPj⟩ | ⟨Node1, h1, hj1⟩
    · exact Or.inl ⟨P, List.mem_cons_of_mem _ hP, hPj⟩
    · rcases AttachMaterial_materials s Pair.2 x Node1 h1 j hj1 with g | g
      · exact Or.inl ⟨Pair, List.mem_cons_self _ _, g.symm⟩
      · exact Or.inr g

theorem BuildFolderStructure_categorisable (s : UMaterialVaultManager) (Root : Nat)
    (RootNode : FMaterialVaultFolderNode) (hRootNode : s.RootFolderNode = some Root)
    (hRoot : s.Folders[Root]? = some RootNode) (hMaterials : RootNode.Materials = [])
    (hKeys : TMap.UniqueKeys s.MaterialMap) (hMatch : KeysMatchPaths s) :
    ∃ Rank : Nat → Nat,
      (∀ R, (BuildFolderStructure s).RootFolderNode = some R →
        Rank R ≤ (BuildFolderStructure s).Folders.length) ∧
      (∀ (R Folder Child : Nat) (Node : FMaterialVaultFolderNode),
        (BuildFolderStructure s).RootFolderNode = some R →
        FolderReachableFrom (BuildFolderStructure s) R Folder →
        (BuildFolderStructure s).Folders[Folder]? = some Node →
        Child ∈ Node.Children → Rank Child < Rank Folder) ∧
      (∀ (A B : Nat) (ItemA ItemB : FMaterialVaultMaterialItem),
        ReachableItem (BuildFolderStructure s) A → ReachableItem (BuildFolderStructure s) B →
        (BuildFolderStructure s).Items[A]? = some ItemA →
        (BuildFolderStructure s).Items[B]? = some ItemB →
        EqualsIgnoreCase ItemA.AssetData.GetObjectPathString
          ItemB.AssetData.GetObjectPathString = true → A = B) := by
  obtain ⟨hInv, _, _⟩ := BuildFolderStructure_invariant s Root RootNode hRootNode hRoot
  obtain ⟨Rank, hRank, hTree⟩ := FolderTreeInvariant_ranked s.Folders.length Root _ hInv
  have hRootT : (BuildFolderStructure s).RootFolderNode = some Root := hInv.2.2.1
  obtain ⟨hLen, hLookR, hLook0, hLook1, hLook2, _⟩ := ResetFolderTree_lookup s Root RootNode hRoot
  have hItems : (BuildFolderStructure s).Items = s.Items := (BuildFolderStructure_SameIndex s).2.1
  have hIndexed : ∀ A, ReachableItem (BuildFolderStructure s) A →
      ∃ MaterialPair ∈ s.MaterialMap, MaterialPair.2 = A := by
    intro A hA
    obtain ⟨R, Folder, Node, hR, hReach, hNode, hMem⟩ := hA
    rw [hRootT] at hR
    rw [← Option.some.inj hR] at hReach
    have hPl := FolderTreeInvariant_reachable s.Folders.length Root _ hInv hReach (Or.inl rfl)
    rw [BuildFolderStructure_root s Root hRootNode] at hNode
    rcases AttachAll_materials s.MaterialMap (ResetFolderTree s Root) Folder Node hNode A hMem
      with h | ⟨Node0, h1, h2⟩
    · exact h
    · exfalso
      rcases hPl with h | ⟨h3, _, _⟩
      · rw [h, hLookR] at h1
        rw [← Option.some.inj h1] at h2
        have h4 : A ∈ RootNode.Materials := h2
        rw [hMaterials] at h4
        exact absurd h4 (List.not_mem_nil _)
      · have h4 := lt_length_of_getElem? h1
        rw [hLen] at h4
        have h5 : Folder = s.Folders.length ∨ Folder = s.Folders.length + 1 ∨
            Folder = s.Folders.length + 2 := by omega
        rcases h5 with h | h | h
        · rw [h, hLook0] at h1
          rw [← Option.some.inj h1] at h2
          exact absurd h2 (List.not_mem_nil _)
        · rw [h, hLook1] at h1
          rw [← Option.some.inj h1] at h2
          exact absurd h2 (List.not_mem_nil _)
        · rw [h, hLook2] at h1
          rw [← Option.some.inj h1] at h2
          exact absurd h2 (List.not_mem_nil _)
  refine ⟨Rank, ?_, ?_, ?_⟩
  · intro R hR
    rw [hRootT] at hR
    rw [← Option.some.inj hR]
    exact hRank
  · intro R Folder Child Node hR hReach hNode hChild
    rw [hRootT] at hR
    rw [← Option.some.inj hR] at hReach
    exact hTree Folder Child Node hReach hNode hChild
  · intro A B ItemA ItemB hA hB hItemA hItemB hEq
    obtain ⟨PairA, hPairA, hA2⟩ := hIndexed A hA
    obtain ⟨PairB, hPairB, hB2⟩ := hIndexed B hB
    rw [hItems] at hItemA hItemB
    have hKeyA := hMatch PairA hPairA ItemA (by rw [hA2]; exact hItemA)
    have hKeyB := hMatch PairB hPairB ItemB (by rw [hB2]; exact hItemB)
    have hKey : EqualsIgnoreCase PairA.1 PairB.1 = true := by
      rw [EqualsIgnoreCase_iff] at hKeyA hKeyB hEq ⊢
      rw [hKeyA, hEq, ← hKeyB]
    have hSame := TMap.eq_of_UniqueKeys s.MaterialMap hKeys PairA hPairA PairB hPairB hKey
    rw [← hA2, ← hB2, hSame]

theorem LoadMaterialMetadata_KeysMatchPaths (s : UMaterialVaultManager) (p : Nat)
    (hMatch : KeysMatchPaths s) : KeysMatchPaths (LoadMaterialMetadata s p) := by
  intro MaterialPair hPair Item hItem
  rw [LoadMaterialMetadata_MaterialMap] at hPair
  have h := LoadMaterialMetadata_AssetData s p MaterialPair.2
  rw [hItem] at h
  cases hOld : s.Items[MaterialPair.2]? with
  | none => rw [hOld] at h; cases h
  | some Item0 =>
    rw [hOld] at h
    simp only [Option.map_some', Option.some.injEq] at h
    rw [h]
    exact hMatch MaterialPair hPair Item0 hOld

theorem ProcessMaterialAsset_KeysMatchPaths (s : UMaterialVaultManager)
    (AssetData : FAssetData) (Now : FDateTime) (hPtr : MaterialMapValid s)
    (hMatch : KeysMatchPaths s) : KeysMatchPaths (ProcessMaterialAsset s AssetData Now) := by
  cases hf : TMap.Find s.MaterialMap AssetData.GetObjectPathString with
  | none =>
    rw [ProcessMaterialAsset_new s AssetData Now hf]
    apply LoadMaterialMetadata_KeysMatchPaths
    intro MaterialPair hPair Item hItem
    rcases TMap.mem_Add _ _ _ MaterialPair hPair with h | h
    · have hlt : MaterialPair.2 < s.Items.length := hPtr MaterialPair h
      have hItem0 : s.Items[MaterialPair.2]? = some Item := by
        rw [← hItem]
        exact (List.getElem?_append_left hlt).symm
      exact hMatch MaterialPair h Item hItem0
    · rw [h] at hItem ⊢
      have hNew : (s.Items ++ [FMaterialVaultMaterialItem.FromAssetData AssetData Now])[
          s.Items.length]? = some (FMaterialVaultMaterialItem.FromAssetData AssetData Now) := by
        simp
      have hItem1 : (s.Items ++ [FMaterialVaultMaterialItem.FromAssetData AssetData Now])[
          s.Items.length]? = some Item := hItem
      rw [hNew] at hItem1
      rw [← Option.some.inj hItem1]
      exact EqualsIgnoreCase_refl _
  | some MaterialItem =>
    rw [ProcessMaterialAsset_existing s AssetData Now MaterialItem hf]
    apply LoadMaterialMetadata_KeysMatchPaths
    intro MaterialPair hPair Item hItem
    have hItem1 : (ModifyAt s.Items MaterialItem (fun it => { it with
        AssetData := AssetData
        MaterialPtr := AssetData.ToSoftObjectPath
        DisplayName := AssetData.AssetName }))[MaterialPair.2]? = some Item := hItem
    rw [ModifyAt_getElem?] at hItem1
    by_cases hp : MaterialItem = MaterialPair.2
    · rw [if_pos hp] at hItem1
      cases hOld : s.Items[MaterialPair.2]? with
      | none => rw [hOld] at hItem1; cases hItem1
      | some Item0 =>
        rw [hOld] at hItem1
        simp only [Option.map_some', Option.some.injEq] at hItem1
        rw [← hItem1]
        show EqualsIgnoreCase MaterialPair.1 AssetData.GetObjectPathString = true
        obtain ⟨Key, hKey, hKeyEq⟩ := TMap.Find_mem _ _ _ hf
        have h1 := hMatch MaterialPair hPair Item0 hOld
        have h2 := hMatch (Key, MaterialItem) hKey Item0 (by rw [hp]; exact hOld)
        rw [EqualsIgnoreCase_iff] at h1 h2 hKeyEq ⊢
        rw [h1, ← h2, hKeyEq]
    · rw [if_neg hp] at hItem1
      exact hMatch MaterialPair hPair Item hItem1

theorem ProcessMaterialAsset_Folders (s : UMaterialVaultManager) (AssetData : FAssetData)
    (Now : FDateTime) :
    (ProcessMaterialAsset s AssetData Now).Folders = s.Folders ∧
    (ProcessMaterialAsset s AssetData Now).RootFolderNode = s.RootFolderNode := by
  cases hf : TMap.Find s.MaterialMap AssetData.GetObjectPathString with
  | none =>
    rw [ProcessMaterialAsset_new s AssetData Now hf]
    exact ⟨(LoadMaterialMetadata_frame _ _).2.1, (LoadMaterialMetadata_frame _ _).2.2.1⟩
  | some MaterialItem =>
    rw [ProcessMaterialAsset_existing s AssetData Now MaterialItem hf]
    exact ⟨(LoadMaterialMetadata_frame _ _).2.1, (LoadMaterialMetadata_frame _ _).2.2.1⟩

theorem ProcessAll_index (Assets : List FAssetData) (Now : FDateTime) :
    ∀ s : UMaterialVaultManager, TMap.UniqueKeys s.MaterialMap → MaterialMapValid s →
      KeysMatchPaths s →
      TMap.UniqueKeys
        (Assets.foldl (fun acc AssetData => ProcessMaterialAsset acc AssetData Now) s).MaterialMap ∧
      KeysMatchPaths (Assets.foldl (fun acc AssetData => ProcessMaterialAsset acc AssetData Now) s) ∧
      (Assets.foldl (fun acc AssetData => ProcessMaterialAsset acc AssetData Now) s).Folders =
        s.Folders ∧
      (Assets.foldl (fun acc AssetData => ProcessMaterialAsset acc AssetData Now)
        s).RootFolderNode = s.RootFolderNode := by
  induction Assets with
  | nil => intro s h1 _ h3; exact ⟨h1, h3, rfl, rfl⟩
  | cons AssetData Rest ih =>
    intro s h1 h2 h3
    rw [List.foldl_cons]
    obtain ⟨g1, g2⟩ := ProcessMaterialAsset_wellFormed s AssetData Now h1 h2
    have g3 := ProcessMaterialAsset_KeysMatchPaths s AssetData Now h2 h3
    obtain ⟨f1, f2, f3, f4⟩ := ih (ProcessMaterialAsset s AssetData Now) g1 g2 g3
    obtain ⟨e1, e2⟩ := ProcessMaterialAsset_Folders s AssetData Now
    exact ⟨f1, f2, by rw [f3, e1], by rw [f4, e2]⟩

theorem RefreshMaterialDatabase_categorisable (s : UMaterialVaultManager) (Now : FDateTime)
    (Root : Nat) (RootNode : FMaterialVaultFolderNode) (hInit : s.bIsInitialized = true)
    (hRootNode : s.RootFolderNode = some Root) (hRoot : s.Folders[Root]? = some RootNode) :
    ∃ Rank : Nat → Nat,
      (∀ R, (RefreshMaterialDatabase s Now).RootFolderNode = some R →
        Rank R ≤ (RefreshMaterialDatabase s Now).Folders.length) ∧
      (∀ (R Folder Child : Nat) (Node : FMaterialVaultFolderNode),
        (RefreshMaterialDatabase s Now).RootFolderNode = some R →
        FolderReachableFrom (RefreshMaterialDatabase s Now) R Folder →
        (RefreshMaterialDatabase s Now).Folders[Folder]? = some Node →
        Child ∈ Node.Children → Rank Child < Rank Folder) ∧
      (∀ (A B : Nat) (ItemA ItemB : FMaterialVaultMaterialItem),
        ReachableItem (RefreshMaterialDatabase s Now) A →
        ReachableItem (RefreshMaterialDatabase s Now) B →
        (RefreshMaterialDatabase s Now).Items[A]? = some ItemA →
        (RefreshMaterialDatabase s Now).Items[B]? = some ItemB →
        EqualsIgnoreCase ItemA.AssetData.GetObjectPathString
          ItemB.AssetData.GetObjectPathString = true → A = B) := by
  obtain ⟨Assets, s2, hEq, hMap, hFolders, hRootNode2⟩ :
      ∃ (Assets : List FAssetData) (s2 : UMaterialVaultManager),
        RefreshMaterialDatabase s Now = BuildFolderStructure
          (Assets.foldl (fun acc AssetData => ProcessMaterialAsset acc AssetData Now) s2) ∧
        s2.MaterialMap = [] ∧
        s2.Folders = ModifyAt s.Folders Root
          (fun n => { n with Materials := [], Children := [] }) ∧
        s2.RootFolderNode = some Root := by
    refine ⟨if s.AssetRegistryModule then
        (GetAssetsByClass s.Registry UMaterial_ClassPathName [] ++
          GetAssetsByClass s.Registry UMaterialInstance_ClassPathName []) ++
        GetAssetsByClass s.Registry UMaterialInstanceConstant_ClassPathName
          (GetAssetsByClass s.Registry UMaterialInstance_ClassPathName [])
      else [], { s with
      MaterialMap := []
      Folders := ModifyAt s.Folders Root
        (fun n => { n with Materials := [], Children := [] }) }, ?_, rfl, rfl, hRootNode⟩
    unfold RefreshMaterialDatabase
    simp only [hInit, Bool.not_true, Bool.false_eq_true, if_false, hRootNode]
  rw [hEq]
  have hKeys2 : TMap.UniqueKeys s2.MaterialMap := by
    rw [hMap]
    exact List.Pairwise.nil
  have hPtr2 : MaterialMapValid s2 := by
    intro MaterialPair hPair
    rw [hMap] at hPair
    exact absurd hPair (List.not_mem_nil _)
  have hMatch2 : KeysMatchPaths s2 := by
    intro MaterialPair hPair
    rw [hMap] at hPair
    exact absurd hPair (List.not_mem_nil _)
  obtain ⟨h1, h2, h3, h4⟩ := ProcessAll_index Assets Now s2 hKeys2 hPtr2 hMatch2
  have hRoot3 : (Assets.foldl (fun acc AssetData => ProcessMaterialAsset acc AssetData Now)
      s2).Folders[Root]? = some { RootNode with Materials := [], Children := [] } := by
    rw [h3, hFolders, ModifyAt_getElem?, if_pos rfl, hRoot]
    rfl
  exact BuildFolderStructure_categorisable _ Root _ (by rw [h4]; exact hRootNode2) hRoot3 rfl
    h1 h2

/-! ## Theorems on the empty package path -/

/-- What `FName::ToString` prints is never empty. -/
theorem FNameToString_ne_nil (Name : FString) : FNameToString Name ≠ [] := by
  unfold FNameToString
  cases Name with
  | nil => decide
  | cons c rest => exact List.cons_ne_nil _ _

/-- One round of the loop of `BuildFolderStructure` for an item with an empty package path,
in a state with no node under `/PluginsNone`: a node is allocated for that path, mapped,
attached under the root and given the item. -/
theorem AttachMaterial_PluginsNone (t : UMaterialVaultManager) (R MaterialItem : Nat)
    (Item : FMaterialVaultMaterialItem)
    (hItem : t.Items[MaterialItem]? = some Item)
    (hEmpty : Item.AssetData.PackagePath = [])
    (hFind : FindFolder t "/PluginsNone".toList = none)
    (hRoot : t.RootFolderNode = some R) :
    AttachMaterial t MaterialItem =
      { AttachChild (WithNewFolder t "/PluginsNone".toList
          (FMaterialVaultFolderNode.Make "PluginsNone".toList "/PluginsNone".toList))
          t.Folders.length R with
        Folders := ModifyAt (AttachChild (WithNewFolder t "/PluginsNone".toList
            (FMaterialVaultFolderNode.Make "PluginsNone".toList "/PluginsNone".toList))
            t.Folders.length R).Folders t.Folders.length
          (fun n => { n with Materials := n.Materials ++ [MaterialItem] }) } := by
  have hOrg : OrganizePackagePath (FNameToString Item.AssetData.PackagePath) =
      "/PluginsNone".toList := by
    rw [hEmpty]
    decide
  unfold FindFolder at hFind
  have hCreate : CreateFolderNode "/PluginsNone".toList =
      some (FMaterialVaultFolderNode.Make "PluginsNone".toList "/PluginsNone".toList) := by
    decide
  have hPath : GetPath "/PluginsNone".toList = [] := by decide
  have hGet : GetOrCreateFolderNode t "/PluginsNone".toList =
      (AttachChild (WithNewFolder t "/PluginsNone".toList
        (FMaterialVaultFolderNode.Make "PluginsNone".toList "/PluginsNone".toList))
        t.Folders.length R, some t.Folders.length) := by
    unfold GetOrCreateFolderNode
    show GetOrCreateFolderNodeFuel (12 + 1) t "/PluginsNone".toList = _
    unfold GetOrCreateFolderNodeFuel
    simp only [hFind, hCreate, hPath, hRoot, WithNewFolder]
    rfl
  simp only [AttachMaterial, hItem, hOrg, hGet]

/-- C26, the claim as it stands fails: the only item of the index has an empty package
path; the build reads the path as "None", which `OrganizePackagePath` rewrites to
`/PluginsNone`, and after `BuildFolderStructure` the folder map holds under that path a node
named "PluginsNone", a child of the root next to the three branches, with the item in its
material list; the Content node `/Game` lists nothing. -/
theorem BuildFolderStructure_attaches_empty_path :
    GetMaterialByPath OrphanManager OrphanAsset.GetObjectPathString = some 0 ∧
    (ItemAt OrphanManager 0).AssetData.PackagePath = [] ∧
    FNameToString (ItemAt OrphanManager 0).AssetData.PackagePath = "None".toList ∧
    OrganizePackagePath "None".toList = "/PluginsNone".toList ∧
    (BuildFolderStructure OrphanManager).RootFolderNode = some 0 ∧
    FindFolder (BuildFolderStructure OrphanManager) "/PluginsNone".toList = some 8 ∧
    (BuildFolderStructure OrphanManager).Folders[8]? =
      some { FolderName := "PluginsNone".toList, FolderPath := "/PluginsNone".toList,
             Parent := some 0, Children := [], Materials := [0], bIsExpanded := false } ∧
    ((BuildFolderStructure OrphanManager).Folders[0]?).map (fun n => n.Children) =
      some [5, 6, 7, 8] ∧
    GetMaterialsInFolder (BuildFolderStructure OrphanManager) "/PluginsNone".toList = [0] ∧
    GetMaterialsInFolder (BuildFolderStructure OrphanManager) "/Game".toList = [] := by
  decide

/-- C26, amended: an item of the index whose package path is empty is not skipped by the
folder build.  The build reads the path as the text "None", `OrganizePackagePath` rewrites
it to `/PluginsNone`, and after `BuildFolderStructure` the item is in the material list of
the node found under `/PluginsNone`.  A node is created for it: in every state with no node
under `/PluginsNone` the round of the loop for the item allocates one node, maps it under
`/PluginsNone`, names it "PluginsNone", makes it the last child of the root and puts the
item into its material list; so does the round for the item in the build itself unless an
earlier round has made the node; and the tree the build starts from has no node under
`/PluginsNone` unless that is the root folder of the settings.  What is skipped is an empty
folder path, for which `GetOrCreateFolderNode` returns no node and creates none, and the
build never passes one: `OrganizePackagePath` returns no empty path. -/
theorem BuildFolderStructure_empty_package_path (s : UMaterialVaultManager) (Root : Nat)
    (hRoot : s.RootFolderNode = some Root) (hValid : Root < s.Folders.length)
    (Key : FString) (MaterialItem : Nat) (Item : FMaterialVaultMaterialItem)
    (hMem : (Key, MaterialItem) ∈ s.MaterialMap)
    (hItem : s.Items[MaterialItem]? = some Item)
    (hEmpty : Item.AssetData.PackagePath = []) :
    OrganizePackagePath (FNameToString Item.AssetData.PackagePath) = "/PluginsNone".toList ∧
    IsAttached (BuildFolderStructure s) "/PluginsNone".toList MaterialItem ∧
    (∀ (t : UMaterialVaultManager) (R : Nat) (RootNode : FMaterialVaultFolderNode),
      FindFolder t "/PluginsNone".toList = none → t.Items[MaterialItem]? = some Item →
      t.RootFolderNode = some R → t.Folders[R]? = some RootNode →
      (AttachMaterial t MaterialItem).Folders.length = t.Folders.length + 1 ∧
      FindFolder (AttachMaterial t MaterialItem) "/PluginsNone".toList =
        some t.Folders.length ∧
      (AttachMaterial t MaterialItem).Folders[t.Folders.length]? =
        some { FolderName := "PluginsNone".toList, FolderPath := "/PluginsNone".toList,
               Parent := some R, Children := [], Materials := [MaterialItem],
               bIsExpanded := false } ∧
      (AttachMaterial t MaterialItem).Folders[R]? =
        some { RootNode with Children := RootNode.Children ++ [t.Folders.length] }) ∧
    (∀ (Before After : TMap Nat), s.MaterialMap = Before ++ (Key, MaterialItem) :: After →
      FindFolder (Before.foldl (fun acc MaterialPair => AttachMaterial acc MaterialPair.2)
        (ResetFolderTree s Root)) "/PluginsNone".toList = none →
      (AttachMaterial (Before.foldl (fun acc MaterialPair => AttachMaterial acc MaterialPair.2)
        (ResetFolderTree s Root)) MaterialItem).Folders.length =
        (Before.foldl (fun acc MaterialPair => AttachMaterial acc MaterialPair.2)
          (ResetFolderTree s Root)).Folders.length + 1) ∧
    (EqualsIgnoreCase s.Settings.RootFolder "/PluginsNone".toList = false →
      FindFolder (ResetFolderTree s Root) "/PluginsNone".toList = none) ∧
    (∀ t : UMaterialVaultManager, FindFolder t [] = none →
      GetOrCreateFolderNode t [] = (t, none)) ∧
    (∀ Other : FMaterialVaultMaterialItem,
      OrganizePackagePath (FNameToString Other.AssetData.PackagePath) ≠ []) := by
  have hOrg : OrganizePackagePath (FNameToString Item.AssetData.PackagePath) =
      "/PluginsNone".toList := by
    rw [hEmpty]
    decide
  have hRound : ∀ (t : UMaterialVaultManager) (R : Nat) (RootNode : FMaterialVaultFolderNode),
      FindFolder t "/PluginsNone".toList = none → t.Items[MaterialItem]? = some Item →
      t.RootFolderNode = some R → t.Folders[R]? = some RootNode →
      (AttachMaterial t MaterialItem).Folders.length = t.Folders.length + 1 ∧
      FindFolder (AttachMaterial t MaterialItem) "/PluginsNone".toList =
        some t.Folders.length ∧
      (AttachMaterial t MaterialItem).Folders[t.Folders.length]? =
        some { FolderName := "PluginsNone".toList, FolderPath := "/PluginsNone".toList,
               Parent := some R, Children := [], Materials := [MaterialItem],
               bIsExpanded := false } ∧
      (AttachMaterial t MaterialItem).Folders[R]? =
        some { RootNode with Children := RootNode.Children ++ [t.Folders.length] } := by
    intro t R RootNode hFind hItemT hRootT hNode
    have hlt : R < t.Folders.length := by
      rcases Nat.lt_or_ge R t.Folders.length with h | h
      · exact h
      · rw [List.getElem?_eq_none h] at hNode
        exact absurd hNode (by simp)
    have hne : t.Folders.length ≠ R := Nat.ne_of_gt hlt
    rw [AttachMaterial_PluginsNone t R MaterialItem Item hItemT hEmpty hFind hRootT]
    refine ⟨?_, ?_, ?_, ?_⟩
    · show (ModifyAt _ _ _).length = _
      rw [ModifyAt_length, AttachChild_length]
      simp [WithNewFolder]
    · show TMap.Find (TMap.Add t.FolderMap _ _) _ = _
      exact TMap.Find_Add_self _ _ _
    · show (ModifyAt _ _ _)[t.Folders.length]? = _
      rw [ModifyAt_getElem?, if_pos rfl, AttachChild_lookup]
      simp [WithNewFolder, FMaterialVaultFolderNode.Make, hne, Ne.symm hne]
    · show (ModifyAt _ _ _)[R]? = _
      rw [ModifyAt_getElem?, if_neg hne, AttachChild_lookup]
      simp [WithNewFolder, List.getElem?_append_left hlt, hNode, hne, Ne.symm hne]
  obtain ⟨hs1, hv1⟩ := ResetFolderTree_spec s Root hValid
  refine ⟨hOrg, ?_, hRound, ?_, ?_, ?_, fun Other => OrganizePackagePath_ne_nil _⟩
  · obtain ⟨_, _, hatt⟩ := AttachAll_spec s.MaterialMap (ResetFolderTree s Root) hv1
    have hItem1 : (ResetFolderTree s Root).Items[MaterialItem]? = some Item := by
      rw [hs1.2.1]
      exact hItem
    have h := hatt Key MaterialItem Item hMem hItem1
    rw [hOrg] at h
    rw [BuildFolderStructure_root s Root hRoot]
    exact h
  · intro Before After _ hNone
    obtain ⟨_, hGrows, _⟩ := AttachAll_spec Before (ResetFolderTree s Root) hv1
    have hSame := AttachAll_SameIndex Before (ResetFolderTree s Root)
    have hRootReset : ∃ node, (ResetFolderTree s Root).Folders[Root]? = some node := by
      have hlt : Root < (ResetFolderTree s Root).Folders.length := by
        unfold ResetFolderTree
        simp only [ModifyAt_length, List.length_append]
        omega
      exact ⟨_, List.getElem?_eq_getElem hlt⟩
    obtain ⟨node, hnode⟩ := hRootReset
    obtain ⟨node2, hnode2, _⟩ := hGrows.2 Root node hnode
    refine (hRound _ Root node2 hNone ?_ ?_ hnode2).1
    · rw [hSame.2.1, hs1.2.1]
      exact hItem
    · rw [hSame.2.2.2.1, hs1.2.2.2.1]
      exact hRoot
  · intro hDiff
    unfold FindFolder ResetFolderTree
    simp only
    rw [TMap.Find_Add_other _ _ (by decide), TMap.Find_Add_other _ _ (by decide),
      TMap.Find_Add_other _ _ (by decide), TMap.Find_Add_other _ _ hDiff]
    rfl
  · intro t hNone
    unfold FindFolder at hNone
    unfold GetOrCreateFolderNode
    show GetOrCreateFolderNodeFuel (0 + 1) t [] = _
    unfold GetOrCreateFolderNodeFuel
    simp only [hNone]
    rfl

/-- C26 as amended, at the input of the counterexample: the only item of the index has an
empty package path and the build attaches it to the node found under `/PluginsNone`; the
first round of the loop, on the tree the build starts from, creates that node. -/
theorem BuildFolderStructure_empty_package_path_witness :
    OrphanManager.RootFolderNode = some 0 ∧
    (OrphanAsset.GetObjectPathString, 0) ∈ OrphanManager.MaterialMap ∧
    (ItemAt OrphanManager 0).AssetData.PackagePath = [] ∧
    IsAttached (BuildFolderStructure OrphanManager) "/PluginsNone".toList 0 ∧
    FindFolder (ResetFolderTree OrphanManager 0) "/PluginsNone".toList = none ∧
    (AttachMaterial (ResetFolderTree OrphanManager 0) 0).Folders.length =
      (ResetFolderTree OrphanManager 0).Folders.length + 1 :=
  ⟨by decide, by decide, by decide,
   (BuildFolderStructure_empty_package_path OrphanManager 0 (by decide) (by decide)
      OrphanAsset.GetObjectPathString 0 (ItemAt OrphanManager 0) (by decide) (by decide)
      (by decide)).2.1, by decide, by decide⟩

end MaterialVault
